import Mathlib

/-!
Tak front-end: the expression parser, the declaration parser and the token handlers of the
lexer.

A shallow embedding of the expression parser of the Tak compiler front-end
(`src/parser/expr.cpp`, `src/utils/basic_utility.cpp`), of its declaration parser
(`src/parser/parser_parsedecl.cpp`), of its top-level driver and the older expression parser
beside it (`src/parser/parser.cpp`), of the directive `@alias` (`src/parser/directive.cpp`,
`src/parser/parser_typetbl.cpp`) and of the token handlers of its lexer
(`src/lexer/tokens.cpp`), together with theorems about the trees, the symbols and the tokens
they build.

Conventions of the embedding.

* The parser functions of `expr.cpp` call each other recursively.  Every function takes
  the recursive entry point `parse_expression` as its first argument (`recurse`), and
  `parse_expression` itself is defined by recursion on a fuel counter.  A result of
  `none` means that the call did not return (fuel exhausted, or a `parser_assert`
  aborted); `some (none, _, _)` is a returned `nullptr`; `some (some e, _, _)` is a
  returned node.
* `parent` back-references of AST nodes are not represented.
* Code that `expr.cpp` uses but whose source is not available (the lexer core, the
  parser class, three classification macros, `parse_identifier` and the keyword
  statement parsers) is either modelled from the specification, and marked so, or taken
  as a parameter (`externals`).
* The declaration parser holds pointers to symbols of the table.  A pointer is the index of
  the symbol, a read through it is a lookup, and a write through it changes the entry of the
  table.  The functions of the symbol table and of the scope stack, whose source is not
  available, are modelled from the specification and marked so.
* The token handlers work on the lexer object: the buffer, the cursor, the line counter
  and the current token.  A handler is a function from the state before the call to the
  state after it.  The loops of the handlers advance the cursor in every iteration and
  stop at the end of the buffer; they are defined by recursion on a counter that starts
  above the length of the buffer.  The class of the lexer object and its character
  helpers, whose source is not available, are modelled and marked so.
-/

namespace Tak

/-! ## Tokens -/

/-- Token types (`token_t`), as used by the lexer handlers and the parser. -/
inductive token_t
  | TOKEN_NONE
  | TOKEN_END_OF_FILE
  | TOKEN_ILLEGAL
  | TOKEN_IDENTIFIER
  | TOKEN_VALUE_ASSIGNMENT
  | TOKEN_TYPE_ASSIGNMENT
  | TOKEN_CONST_TYPE_ASSIGNMENT
  | TOKEN_SEMICOLON
  | TOKEN_COMMA
  | TOKEN_LPAREN
  | TOKEN_RPAREN
  | TOKEN_LBRACE
  | TOKEN_RBRACE
  | TOKEN_LSQUARE_BRACKET
  | TOKEN_RSQUARE_BRACKET
  | TOKEN_QUESTION_MARK
  | TOKEN_DOT
  | TOKEN_AT
  | TOKEN_NAMESPACE_ACCESS
  | TOKEN_ARROW
  | TOKEN_PLUS
  | TOKEN_PLUSEQ
  | TOKEN_INCREMENT
  | TOKEN_SUB
  | TOKEN_SUBEQ
  | TOKEN_DECREMENT
  | TOKEN_MUL
  | TOKEN_MULEQ
  | TOKEN_DIV
  | TOKEN_DIVEQ
  | TOKEN_MOD
  | TOKEN_MODEQ
  | TOKEN_BITWISE_AND
  | TOKEN_BITWISE_ANDEQ
  | TOKEN_BITWISE_OR
  | TOKEN_BITWISE_OREQ
  | TOKEN_BITWISE_XOR_OR_PTR
  | TOKEN_BITWISE_XOREQ
  | TOKEN_BITWISE_NOT
  | TOKEN_BITWISE_LSHIFT
  | TOKEN_BITWISE_LSHIFTEQ
  | TOKEN_BITWISE_RSHIFT
  | TOKEN_BITWISE_RSHIFTEQ
  | TOKEN_CONDITIONAL_AND
  | TOKEN_CONDITIONAL_OR
  | TOKEN_CONDITIONAL_NOT
  | TOKEN_COMP_EQUALS
  | TOKEN_COMP_NOT_EQUALS
  | TOKEN_COMP_LT
  | TOKEN_COMP_LTE
  | TOKEN_COMP_GT
  | TOKEN_COMP_GTE
  | TOKEN_INTEGER_LITERAL
  | TOKEN_FLOAT_LITERAL
  | TOKEN_STRING_LITERAL
  | TOKEN_CHARACTER_LITERAL
  | TOKEN_BOOLEAN_LITERAL
  | TOKEN_KW_RET
  | TOKEN_KW_BRK
  | TOKEN_KW_CONT
  | TOKEN_KW_IF
  | TOKEN_KW_ELIF
  | TOKEN_KW_ELSE
  | TOKEN_KW_FOR
  | TOKEN_KW_WHILE
  | TOKEN_KW_DO
  | TOKEN_KW_SWITCH
  | TOKEN_KW_CASE
  | TOKEN_KW_STRUCT
  | TOKEN_KW_ENUM
  | TOKEN_KW_NAMESPACE
  | TOKEN_KW_PROC
  | TOKEN_KW_VOID
  | TOKEN_KW_I8
  | TOKEN_KW_U8
  | TOKEN_KW_I16
  | TOKEN_KW_U16
  | TOKEN_KW_I32
  | TOKEN_KW_U32
  | TOKEN_KW_I64
  | TOKEN_KW_U64
  | TOKEN_KW_F32
  | TOKEN_KW_F64
  | TOKEN_KW_BOOL
  deriving DecidableEq

/-- Token kind classes (`token_kind`). -/
inductive token_kind
  | KIND_UNSPECIFIC
  | KIND_PUNCTUATOR
  | KIND_LITERAL
  | KIND_KEYWORD
  | KIND_TYPE_IDENTIFIER
  | KIND_UNARY_EXPR_OPERATOR
  | KIND_BINARY_EXPR_OPERATOR
  deriving DecidableEq

/-- A token: its type, kind class, byte offset, line and lexeme (`value`). -/
structure Token where
  type : token_t
  kind : token_kind
  src_pos : Nat
  line : Nat
  value : List Char
  deriving DecidableEq

/-! ## `basic_utility.cpp` -/

/-- Operator precedence, `precedence_of` of `basic_utility.cpp`.  The `default` branch of
the switch panics; it is `none` here. -/
def precedence_of (_operator : token_t) : Option Nat :=
  match _operator with
  | .TOKEN_CONDITIONAL_AND => some 13
  | .TOKEN_CONDITIONAL_OR => some 12
  | .TOKEN_MUL
  | .TOKEN_DIV
  | .TOKEN_MOD => some 8
  | .TOKEN_PLUS
  | .TOKEN_SUB => some 7
  | .TOKEN_BITWISE_LSHIFT
  | .TOKEN_BITWISE_RSHIFT => some 6
  | .TOKEN_COMP_GTE
  | .TOKEN_COMP_GT
  | .TOKEN_COMP_LTE
  | .TOKEN_COMP_LT => some 5
  | .TOKEN_COMP_EQUALS
  | .TOKEN_COMP_NOT_EQUALS => some 4
  | .TOKEN_BITWISE_AND => some 3
  | .TOKEN_BITWISE_XOR_OR_PTR => some 2
  | .TOKEN_BITWISE_OR => some 1
  | .TOKEN_VALUE_ASSIGNMENT
  | .TOKEN_PLUSEQ
  | .TOKEN_SUBEQ
  | .TOKEN_MULEQ
  | .TOKEN_DIVEQ
  | .TOKEN_MODEQ
  | .TOKEN_BITWISE_LSHIFTEQ
  | .TOKEN_BITWISE_RSHIFTEQ
  | .TOKEN_BITWISE_ANDEQ
  | .TOKEN_BITWISE_OREQ
  | .TOKEN_BITWISE_XOREQ => some 0
  | _ => none

/-- The backslash byte. -/
def BACKSLASH : Char := Char.ofNat 92

/-- The byte an escape letter denotes, `get_escaped_char_via_real`. -/
def get_escaped_char_via_real (real : Char) : Option Char :=
  if real = 'n' then some (Char.ofNat 10)
  else if real = 'b' then some (Char.ofNat 8)
  else if real = 'a' then some (Char.ofNat 7)
  else if real = 'r' then some (Char.ofNat 13)
  else if real = Char.ofNat 39 then some (Char.ofNat 39)
  else if real = BACKSLASH then some BACKSLASH
  else if real = Char.ofNat 34 then some (Char.ofNat 34)
  else if real = 't' then some (Char.ofNat 9)
  else if real = '0' then some (Char.ofNat 0)
  else none

/-- The `for` loop of `remove_escaped_chars`: the first argument is the part of `str` from
index `i` on, the second the `buffer` built so far. -/
def remove_escaped_chars_loop : List Char → List Char → Option (List Char)
  | [], buffer => some buffer
  | c :: rest, buffer =>
    if c = BACKSLASH then
      match rest with
      | [] => none
      | r :: rest2 =>
        match get_escaped_char_via_real r with
        | some escaped => remove_escaped_chars_loop rest2 (buffer ++ [escaped])
        | none => none
    else remove_escaped_chars_loop rest (buffer ++ [c])

/-- Decoding of escape sequences, `remove_escaped_chars`. -/
def remove_escaped_chars (str : List Char) : Option (List Char) :=
  remove_escaped_chars_loop str []

/-! ## AST -/

/-- Node kinds (`node_type`). -/
inductive node_type
  | NODE_NONE
  | NODE_IDENT
  | NODE_SINGLETON_LITERAL
  | NODE_BRACED_EXPRESSION
  | NODE_UNARYEXPR
  | NODE_BINEXPR
  | NODE_SUBSCRIPT
  | NODE_ASSIGN
  | NODE_CALL
  | NODE_VARDECL
  | NODE_PROCDECL
  | NODE_STRUCT_DEFINITION
  | NODE_ENUM_DEFINITION
  | NODE_NAMESPACEDECL
  | NODE_TYPE_ALIAS
  | NODE_RET
  | NODE_BRANCH
  | NODE_SWITCH
  | NODE_WHILE
  | NODE_FOR
  deriving DecidableEq

/-- Payload of an identifier node (`ast_identifier`). -/
structure ast_identifier where
  symbol_index : Nat
  deriving DecidableEq

/-- AST nodes.  The first eight constructors are the node classes built in `expr.cpp`;
`vardecl` and `procdecl` are built by the declaration parser; `other` stands for the
nodes of the statement parsers, whose source is not available. -/
inductive ast_node
  | ident (id : ast_identifier)
  | singleton_literal (literal_type : token_t) (value : List Char)
  | braced_expression (members : List ast_node)
  | unaryexpr (_operator : token_t) (operand : ast_node)
  | binexpr (_operator : token_t) (left_op : ast_node) (right_op : ast_node)
  | subscript (operand : ast_node) (value : ast_node)
  | assign (assigned : ast_node) (expression : ast_node)
  | call (identifier : ast_identifier) (arguments : List ast_node)
  | vardecl (identifier : ast_identifier) (init_value : Option ast_node)
  | procdecl (identifier : ast_identifier) (parameters : List ast_node) (body : List ast_node)
  | other (type : node_type) (children : List ast_node)

/-- The `type` tag of a node. -/
def ast_node.type : ast_node → node_type
  | .ident _ => .NODE_IDENT
  | .singleton_literal _ _ => .NODE_SINGLETON_LITERAL
  | .braced_expression _ => .NODE_BRACED_EXPRESSION
  | .unaryexpr _ _ => .NODE_UNARYEXPR
  | .binexpr _ _ _ => .NODE_BINEXPR
  | .subscript _ _ => .NODE_SUBSCRIPT
  | .assign _ _ => .NODE_ASSIGN
  | .call _ _ => .NODE_CALL
  | .vardecl _ _ => .NODE_VARDECL
  | .procdecl _ _ _ => .NODE_PROCDECL
  | .other t _ => t

/-- Modelled from the spec: the macro `VALID_SUBEXPRESSION`, whose definition is not
available.  It "admits: singleton literal, binary expr, assign, unary expr, identifier, call,
braced expression, subscript". -/
def VALID_SUBEXPRESSION (t : node_type) : Bool :=
  match t with
  | .NODE_SINGLETON_LITERAL
  | .NODE_BINEXPR
  | .NODE_ASSIGN
  | .NODE_UNARYEXPR
  | .NODE_IDENT
  | .NODE_CALL
  | .NODE_BRACED_EXPRESSION
  | .NODE_SUBSCRIPT => true
  | _ => false

/-! ## Lexer and parser state -/

/-- A diagnostic handed to the error sink. -/
structure diagnostic where
  msg : String
  pos : Nat
  line : Nat
  deriving DecidableEq

/-- Modelled from the spec: the lexer core (`current`, `advance`, `raise_error`), whose
source is not available.  The parser only observes the sequence of non-sentinel
tokens, so the lexer is a cursor over that sequence: `tokens` are the tokens from the
current one on, after the last of them every token is the end-of-file token, and `errors`
are the diagnostics raised so far (the error flag is set when it is non-empty). -/
structure lexer where
  tokens : List Token
  eof_pos : Nat
  eof_line : Nat
  errors : List diagnostic
  deriving DecidableEq

/-- The end-of-file token of a lexer, as the handlers build it. -/
def lexer.eof_token (lxr : lexer) : Token :=
  { type := .TOKEN_END_OF_FILE, kind := .KIND_UNSPECIFIC, src_pos := lxr.eof_pos,
    line := lxr.eof_line, value := [BACKSLASH, '0'] }

/-- Modelled from the spec: `current()`, the most recently produced token. -/
def lexer.current (lxr : lexer) : Token :=
  match lxr.tokens with
  | [] => lxr.eof_token
  | t :: _ => t

/-- Modelled from the spec: `advance(1)`.  End-of-file is sticky. -/
def lexer.advance1 (lxr : lexer) : lexer :=
  match lxr.tokens with
  | [] => lxr
  | t :: ts => if t.type = .TOKEN_END_OF_FILE then lxr else { lxr with tokens := ts }

/-- Modelled from the spec: `advance(n)`. -/
def lexer.advance (lxr : lexer) : Nat → lexer
  | 0 => lxr
  | n + 1 => (lxr.advance1).advance n

/-- Modelled from the spec: `raise_error(msg, pos, line)` with a caller-supplied position. -/
def lexer.raise_error_at (lxr : lexer) (msg : String) (pos line : Nat) : lexer :=
  { lxr with errors := lxr.errors ++ [{ msg := msg, pos := pos, line := line }] }

/-- Modelled from the spec: `raise_error(msg)`, reported at the current token. -/
def lexer.raise_error (lxr : lexer) (msg : String) : lexer :=
  lxr.raise_error_at msg lxr.current.src_pos lxr.current.line

/-- Symbol kinds (`sym_t`). -/
inductive sym_t
  | SYM_VARIABLE
  | SYM_PROCEDURE
  deriving DecidableEq

/-- Primitive types (`var_t`), as `var_t_to_string` and `token_to_var_t` of
`basic_utility.cpp` list them. -/
inductive var_t
  | VAR_NONE
  | VAR_U8
  | VAR_I8
  | VAR_U16
  | VAR_I16
  | VAR_U32
  | VAR_I32
  | VAR_U64
  | VAR_I64
  | VAR_F32
  | VAR_F64
  | VAR_BOOLEAN
  | VAR_VOID
  deriving DecidableEq

/-- Modelled from the spec: a symbol-table entry.  The classes `symbol`, `variable` and
`procedure` are declared in a header that is not available; the record holds the members
that `expr.cpp` and `parser_parsedecl.cpp` read and write: those of every symbol, then
`variable_type` (a variable), `pointer_depth` and `array_length` (a variable, and a procedure
used as a pointer), `return_type` and `parameter_list` (a procedure).  A new symbol has no
type, depth 0, length 0 ("0 = unknown/dynamic") and no parameters. -/
structure symbol where
  symbol_index : Nat
  name : String
  sym_type : sym_t
  flags : Nat
  src_pos : Nat
  line_number : Nat
  variable_type : var_t := .VAR_NONE
  pointer_depth : Nat := 0
  array_length : Nat := 0
  return_type : var_t := .VAR_NONE
  parameter_list : List var_t := []
  deriving DecidableEq

/-- Modelled from the spec: a type descriptor, the value of the type-alias table and the
element of an entry of the type table; its class is declared in a header that is not
available.  It holds what the specification gives the type of a symbol: the primitive kind,
the pointer depth and the array length. -/
structure type_data where
  variable_type : var_t
  pointer_depth : Nat := 0
  array_length : Nat := 0
  deriving DecidableEq

/-- Modelled from the spec: the parser object, whose class is declared in a header that is
not available, as far as `expr.cpp`, `parser_parsedecl.cpp`, `parser_typetbl.cpp` and
`directive.cpp` use it: the parenthesis depth counter (a `uint16_t`), the table of symbols
by unique index, the stack of scopes (`scope_stack`), each scope a map from names to symbol
indices, the table of types (`type_table`), a map from names to lists of descriptors, and
the type-alias table, a map from names to descriptors.  The global scope comes first and
the current scope last; in the tables the entry made last comes last.  A parser object made
without a scope stack or a table has the empty one. -/
structure parser where
  inside_parenthesized_expression_ : Nat
  sym_table_ : List symbol
  scope_stack_ : List (List (String × Nat)) := []
  type_table_ : List (String × List type_data) := []
  type_aliases_ : List (String × type_data) := []
  deriving DecidableEq

/-- Modelled from the spec: `lookup_unique_symbol(id)`, "direct by-ID access"; the source
of the parser class is not available. -/
def parser.lookup_unique_symbol (p : parser) (sym_index : Nat) : Option symbol :=
  p.sym_table_.find? (fun s => s.symbol_index == sym_index)

/-- Increment of a `uint16_t`. -/
def incr16 (n : Nat) : Nat := (n + 1) % 65536

/-- Decrement of a `uint16_t`. -/
def decr16 (n : Nat) : Nat := (n + 65535) % 65536

/-- What a parsing function returns: `none` when the call does not return, otherwise the
returned node (`none` for `nullptr`) and the parser and lexer as the call leaves them. -/
abbrev parse_result := Option (Option ast_node × parser × lexer)

/-- The type of `parse_expression` once the fuel is fixed:
parser, lexer, `subexpression`, `parse_single`. -/
abbrev expr_fn := parser → lexer → Bool → Bool → parse_result

/-- Code used by `expr.cpp` whose source is not available and on which the specification
is silent: two classification macros, `parse_identifier`, and the statement
parsers reached through `parse_keyword`. -/
structure externals where
  VALID_UNARY_OPERATOR : Token → Bool
  EXPR_NEVER_NEEDS_TERMINAL : node_type → Bool
  parse_identifier : parser → lexer → parse_result
  parse_ret : parser → lexer → parse_result
  parse_branch : parser → lexer → parse_result
  parse_switch : parser → lexer → parse_result
  parse_while : parser → lexer → parse_result
  parse_for : parser → lexer → parse_result
  parse_structdef : parser → lexer → parse_result
  parse_namespace : parser → lexer → parse_result

/-! ## `expr.cpp` -/

/-- Dispatch on a keyword, `parse_keyword` (`expr.cpp`, lines 97-113). -/
def parse_keyword (ext : externals) (p : parser) (lxr : lexer) : parse_result :=
  if lxr.current.kind ≠ .KIND_KEYWORD then none
  else if lxr.current.type = .TOKEN_KW_RET then ext.parse_ret p lxr
  else if lxr.current.type = .TOKEN_KW_IF then ext.parse_branch p lxr
  else if lxr.current.type = .TOKEN_KW_SWITCH then ext.parse_switch p lxr
  else if lxr.current.type = .TOKEN_KW_WHILE then ext.parse_while p lxr
  else if lxr.current.type = .TOKEN_KW_FOR then ext.parse_for p lxr
  else if lxr.current.type = .TOKEN_KW_STRUCT then ext.parse_structdef p lxr
  else if lxr.current.type = .TOKEN_KW_NAMESPACE then ext.parse_namespace p lxr
  else some (none, p, lxr.raise_error "This keyword is not allowed here.")

/-- A parenthesised expression, `parse_parenthesized_expression` (lines 116-136). -/
def parse_parenthesized_expression (recurse : expr_fn) (p : parser) (lxr : lexer) :
    parse_result :=
  if lxr.current.type ≠ .TOKEN_LPAREN then none
  else
    let p1 : parser :=
      { p with inside_parenthesized_expression_ := incr16 p.inside_parenthesized_expression_ }
    let lxr1 := lxr.advance 1
    let curr_pos := lxr1.current.src_pos
    let line := lxr1.current.line
    match recurse p1 lxr1 true false with
    | none => none
    | some (none, p2, lxr2) => some (none, p2, lxr2)
    | some (some expr, p2, lxr2) =>
      if VALID_SUBEXPRESSION expr.type = false then
        some (none, p2,
          lxr2.raise_error_at "This expression cannot be used within parentheses." curr_pos line)
      else some (some expr, p2, lxr2)

/-- A literal, `parse_singleton_literal` (lines 139-165). -/
def parse_singleton_literal (p : parser) (lxr : lexer) : parse_result :=
  if lxr.current.kind ≠ .KIND_LITERAL then none
  else
    let literal_type := lxr.current.type
    if literal_type = .TOKEN_STRING_LITERAL ∨ literal_type = .TOKEN_CHARACTER_LITERAL then
      match remove_escaped_chars lxr.current.value with
      | none =>
        some (none, p,
          lxr.raise_error "String contains one or more invalid escaped characters.")
      | some real => some (some (.singleton_literal literal_type real), p, lxr.advance 1)
    else some (some (.singleton_literal literal_type lxr.current.value), p, lxr.advance 1)

/-- The `while` loop of `parse_braced_expression` (lines 182-200); `members` are the
members collected so far. -/
def parse_braced_expression_loop (recurse : expr_fn) :
    Nat → List ast_node → parser → lexer → parse_result
  | 0, _, _, _ => none
  | n + 1, members, p, lxr =>
    if lxr.current.type ≠ .TOKEN_RBRACE then
      let curr_pos := lxr.current.src_pos
      let line := lxr.current.line
      match recurse p lxr true false with
      | none => none
      | some (none, p1, lxr1) => some (none, p1, lxr1)
      | some (some member, p1, lxr1) =>
        if VALID_SUBEXPRESSION member.type = false then
          some (none, p1,
            lxr1.raise_error_at "Invalid subexpression within braced expression." curr_pos line)
        else if lxr1.current.type = .TOKEN_COMMA then
          parse_braced_expression_loop recurse n (members ++ [member]) p1 (lxr1.advance 1)
        else parse_braced_expression_loop recurse n (members ++ [member]) p1 lxr1
    else some (some (.braced_expression members), p, lxr.advance 1)

/-- A braced expression, `parse_braced_expression` (lines 168-206); `fuel` bounds the
number of loop iterations. -/
def parse_braced_expression (recurse : expr_fn) (fuel : Nat) (p : parser) (lxr : lexer) :
    parse_result :=
  if lxr.current.type ≠ .TOKEN_LBRACE then none
  else parse_braced_expression_loop recurse fuel [] p (lxr.advance 1)

/-- A unary expression, `parse_unary_expression` (lines 209-237). -/
def parse_unary_expression (ext : externals) (recurse : expr_fn) (p : parser) (lxr : lexer) :
    parse_result :=
  if ext.VALID_UNARY_OPERATOR lxr.current = false then none
  else
    let _operator := lxr.current.type
    let src_pos := lxr.current.src_pos
    let line := lxr.current.line
    match recurse p (lxr.advance 1) true true with
    | none => none
    | some (none, p1, lxr1) => some (none, p1, lxr1)
    | some (some operand, p1, lxr1) =>
      if VALID_SUBEXPRESSION operand.type = false then
        some (none, p1,
          lxr1.raise_error_at "Unexpected expression following unary operator." src_pos line)
      else some (some (.unaryexpr _operator operand), p1, lxr1)

/-- An assignment, `parse_assign` (lines 240-275). -/
def parse_assign (recurse : expr_fn) (assigned : ast_node) (p : parser) (lxr : lexer) :
    parse_result :=
  if lxr.current.type ≠ .TOKEN_VALUE_ASSIGNMENT then none
  else
    let line := lxr.current.line
    let src_pos := lxr.current.src_pos
    match recurse p (lxr.advance 1) true false with
    | none => none
    | some (none, p1, lxr1) => some (none, p1, lxr1)
    | some (some expression, p1, lxr1) =>
      if VALID_SUBEXPRESSION expression.type = false then
        some (none, p1,
          lxr1.raise_error_at "Invalid expression being assigned to variable" src_pos line)
      else some (some (.assign assigned expression), p1, lxr1)

/-- The `while` loop of `parse_call` (lines 328-357); `arguments` are the arguments
collected so far. -/
def parse_call_loop (recurse : expr_fn) (sym_index : Nat) (old_paren_index : Nat) :
    Nat → List ast_node → parser → lexer → parse_result
  | 0, _, _, _ => none
  | n + 1, arguments, p, lxr =>
    if old_paren_index < p.inside_parenthesized_expression_ then
      let curr_pos := lxr.current.src_pos
      let line := lxr.current.line
      match recurse p lxr true false with
      | none => none
      | some (none, p1, lxr1) => some (none, p1, lxr1)
      | some (some expr, p1, lxr1) =>
        if VALID_SUBEXPRESSION expr.type = false then
          some (none, p1, lxr1.raise_error_at "Invalid subexpression within call." curr_pos line)
        else if old_paren_index ≥ p1.inside_parenthesized_expression_ then
          some (some (.call { symbol_index := sym_index } (arguments ++ [expr])), p1, lxr1)
        else if lxr1.current.type = .TOKEN_COMMA ∨ lxr1.current.type = .TOKEN_SEMICOLON then
          let lxr2 := lxr1.advance 1
          if lxr2.current.type = .TOKEN_RPAREN then
            parse_call_loop recurse sym_index old_paren_index n (arguments ++ [expr])
              { p1 with inside_parenthesized_expression_ :=
                          decr16 p1.inside_parenthesized_expression_ }
              (lxr2.advance 1)
          else parse_call_loop recurse sym_index old_paren_index n (arguments ++ [expr]) p1 lxr2
        else parse_call_loop recurse sym_index old_paren_index n (arguments ++ [expr]) p1 lxr1
    else some (some (.call { symbol_index := sym_index } arguments), p, lxr)

/-- A procedure call, `parse_call` (lines 278-362); `fuel` bounds the number of loop
iterations. -/
def parse_call (recurse : expr_fn) (fuel : Nat) (sym_index : Nat) (p : parser) (lxr : lexer) :
    parse_result :=
  if lxr.current.type ≠ .TOKEN_LPAREN then none
  else
    match p.lookup_unique_symbol sym_index with
    | none => some (none, p, lxr)
    | some sym =>
      if sym.sym_type ≠ .SYM_PROCEDURE then
        some (none, p, lxr.raise_error "Attempt to call symbol that is not a procedure.")
      else
        let lxr1 := lxr.advance 1
        if lxr1.current.type = .TOKEN_RPAREN then
          some (some (.call { symbol_index := sym_index } []), p, lxr1.advance 1)
        else
          let old_paren_index := p.inside_parenthesized_expression_
          parse_call_loop recurse sym_index old_paren_index fuel []
            { p with inside_parenthesized_expression_ :=
                       incr16 p.inside_parenthesized_expression_ }
            lxr1

/-- A binary expression, `parse_binary_expression` (lines 365-409).  The left operand may
be `nullptr` at the call site in `parse_expression`; the assertion then aborts. -/
def parse_binary_expression (recurse : expr_fn) (left_operand : Option ast_node) (p : parser)
    (lxr : lexer) : parse_result :=
  if lxr.current.kind ≠ .KIND_BINARY_EXPR_OPERATOR then none
  else
    match left_operand with
    | none => none
    | some left_op =>
      if lxr.current.type = .TOKEN_VALUE_ASSIGNMENT then parse_assign recurse left_op p lxr
      else
        let _operator := lxr.current.type
        let src_pos := lxr.current.src_pos
        let line := lxr.current.line
        match recurse p (lxr.advance 1) true false with
        | none => none
        | some (none, p1, lxr1) => some (none, p1, lxr1)
        | some (some right_op, p1, lxr1) =>
          if VALID_SUBEXPRESSION right_op.type = false then
            some (none, p1,
              lxr1.raise_error_at "Unexpected expression following binary operator." src_pos line)
          else some (some (.binexpr _operator left_op right_op), p1, lxr1)

/-- A subscript, `parse_subscript` (lines 412-446).  The operand may be `nullptr` at the
call site in `parse_expression`; the assertion then aborts. -/
def parse_subscript (recurse : expr_fn) (operand : Option ast_node) (p : parser) (lxr : lexer) :
    parse_result :=
  if lxr.current.type ≠ .TOKEN_LSQUARE_BRACKET then none
  else
    match operand with
    | none => none
    | some operand1 =>
      let lxr1 := lxr.advance 1
      let curr_pos := lxr1.current.src_pos
      let line := lxr1.current.line
      match recurse p lxr1 true false with
      | none => none
      | some (none, p2, lxr2) => some (none, p2, lxr2)
      | some (some value, p2, lxr2) =>
        if VALID_SUBEXPRESSION value.type = false ∨
            lxr2.current.type ≠ .TOKEN_RSQUARE_BRACKET then
          some (none, p2,
            lxr2.raise_error_at "Invalid expression within subscript operator." curr_pos line)
        else some (some (.subscript operand1 value), p2, lxr2.advance 1)

/-- The dispatch on the leading token in `parse_expression` (lines 20-32): the primary. -/
def parse_primary (ext : externals) (recurse : expr_fn) (fuel : Nat) (p : parser)
    (lxr : lexer) : parse_result :=
  let curr := lxr.current
  if curr.type = .TOKEN_END_OF_FILE then some (none, p, lxr)
  else if curr.type = .TOKEN_IDENTIFIER then ext.parse_identifier p lxr
  else if curr.type = .TOKEN_LPAREN then parse_parenthesized_expression recurse p lxr
  else if curr.type = .TOKEN_LBRACE then parse_braced_expression recurse fuel p lxr
  else if curr.kind = .KIND_LITERAL then parse_singleton_literal p lxr
  else if curr.kind = .KIND_KEYWORD then parse_keyword ext p lxr
  else if ext.VALID_UNARY_OPERATOR curr = true then parse_unary_expression ext recurse p lxr
  else some (none, p, lxr.raise_error "Invalid token at the beginning of an expression.")

/-- The `while` loop over subscripts in `parse_expression` (lines 69-70).  `expr` is the
local variable of that name, which the loop overwrites with what `parse_subscript`
returns, `nullptr` included. -/
def parse_subscripts (recurse : expr_fn) :
    Nat → Option ast_node → parser → lexer → Bool → parse_result
  | 0, _, _, _, _ => none
  | n + 1, expr, p, lxr, parse_single =>
    if lxr.current.type = .TOKEN_LSQUARE_BRACKET ∧ parse_single = false then
      match parse_subscript recurse expr p lxr with
      | none => none
      | some (expr1, p1, lxr1) => parse_subscripts recurse n expr1 p1 lxr1 parse_single
    else some (expr, p, lxr)

/-- The suffixes of a primary in `parse_expression` (lines 69-73): the subscript loop and
then at most one binary operator.  The result carries the value of `expr` after line 73. -/
def parse_suffixes (recurse : expr_fn) (fuel : Nat) (expr : ast_node) (p : parser)
    (lxr : lexer) (parse_single : Bool) : parse_result :=
  match parse_subscripts recurse fuel (some expr) p lxr parse_single with
  | none => none
  | some (expr1, p1, lxr1) =>
    if lxr1.current.kind = .KIND_BINARY_EXPR_OPERATOR ∧ parse_single = false then
      parse_binary_expression recurse expr1 p1 lxr1
    else some (expr1, p1, lxr1)

/-- The part of `parse_expression` after a primary `expr` was produced (lines 42-93). -/
def parse_after_primary (ext : externals) (recurse : expr_fn) (fuel : Nat) (expr : ast_node)
    (p : parser) (lxr : lexer) (subexpression parse_single : Bool) : parse_result :=
  if lxr.current.type = .TOKEN_RPAREN then
    if p.inside_parenthesized_expression_ = 0 then
      some (none, p, lxr.raise_error "Unexpected token.")
    else
      some (some expr,
        { p with inside_parenthesized_expression_ := p.inside_parenthesized_expression_ - 1 },
        lxr.advance 1)
  else if ext.EXPR_NEVER_NEEDS_TERMINAL expr.type = true then some (some expr, p, lxr)
  else
    match parse_suffixes recurse fuel expr p lxr parse_single with
    | none => none
    | some (expr1, p1, lxr1) =>
      if subexpression = true then some (expr1, p1, lxr1)
      else if lxr1.current.type = .TOKEN_SEMICOLON ∨ lxr1.current.type = .TOKEN_COMMA then
        if p1.inside_parenthesized_expression_ ≠ 0 then
          some (none, p1,
            lxr1.raise_error "Unexpected token inside of parenthesized expression.")
        else some (expr1, p1, lxr1.advance 1)
      else some (none, p1, lxr1.raise_error "Unexpected token following expression.")

/-- The central routine, `parse_expression` (lines 8-94), by recursion on the fuel: the
calls made by a call with fuel `n + 1` have fuel `n`. -/
def parse_expression (ext : externals) : Nat → expr_fn
  | 0, _, _, _, _ => none
  | n + 1, p, lxr, subexpression, parse_single =>
    match parse_primary ext (parse_expression ext n) n p lxr with
    | none => none
    | some (none, p1, lxr1) => some (none, p1, lxr1)
    | some (some expr, p1, lxr1) =>
      parse_after_primary ext (parse_expression ext n) n expr p1 lxr1 subexpression parse_single

/-! ## Vocabulary of the statements -/

/-- A literal token, as the lexer classifies it. -/
abbrev is_literal (t : Token) : Prop :=
  t.kind = .KIND_LITERAL ∧
    (t.type = .TOKEN_INTEGER_LITERAL ∨ t.type = .TOKEN_FLOAT_LITERAL ∨
      t.type = .TOKEN_STRING_LITERAL ∨ t.type = .TOKEN_CHARACTER_LITERAL ∨
      t.type = .TOKEN_BOOLEAN_LITERAL)

/-- The node `parse_singleton_literal` builds from a literal token: the lexeme itself, or
for string and character literals the unescaped lexeme (none when an escape is invalid). -/
def literal_node (t : Token) : Option ast_node :=
  if t.type = .TOKEN_STRING_LITERAL ∨ t.type = .TOKEN_CHARACTER_LITERAL then
    (remove_escaped_chars t.value).map (ast_node.singleton_literal t.type)
  else some (.singleton_literal t.type t.value)

/-- A token of the binary-operator class (whose type tag is not, by a malformed token,
end-of-file, `)` or `[`). -/
abbrev binary_operator (t : Token) : Prop :=
  t.kind = .KIND_BINARY_EXPR_OPERATOR ∧ t.type ≠ .TOKEN_END_OF_FILE ∧
    t.type ≠ .TOKEN_RPAREN ∧ t.type ≠ .TOKEN_LSQUARE_BRACKET

/-- A token that ends an operand without being consumed by it: not `)`, not `[`, not of
the binary-operator class. -/
abbrev stops_operand (t : Token) : Prop :=
  t.type ≠ .TOKEN_RPAREN ∧ t.type ≠ .TOKEN_LSQUARE_BRACKET ∧
    t.kind ≠ .KIND_BINARY_EXPR_OPERATOR

/-- One `op operand` step of an operand chain `a op1 b1 op2 b2 ...`: a non-assignment
binary operator, a literal token and the node of that literal. -/
structure operand_group where
  op : Token
  operand : Token
  node : ast_node

/-- Well-formedness of a chain step. -/
def operand_group.ok (g : operand_group) : Prop :=
  binary_operator g.op ∧ g.op.type ≠ .TOKEN_VALUE_ASSIGNMENT ∧ is_literal g.operand ∧
    literal_node g.operand = some g.node

/-- The tokens `op1 b1 op2 b2 ...` of a chain. -/
def chain_tokens : List operand_group → List Token
  | [] => []
  | g :: gs => g.op :: g.operand :: chain_tokens gs

/-- The right-nested tree `BinaryExpr(op1, a, BinaryExpr(op2, b1, ...))` of a chain. -/
def right_nested (na : ast_node) : List operand_group → ast_node
  | [] => na
  | g :: gs => .binexpr g.op.type na (right_nested g.node gs)

/-- One subscript application `[ i ]` with a literal index, and the node of that literal. -/
structure subscript_group where
  lbracket : Token
  index : Token
  rbracket : Token
  node : ast_node

/-- Well-formedness of a subscript application. -/
def subscript_group.ok (g : subscript_group) : Prop :=
  g.lbracket.type = .TOKEN_LSQUARE_BRACKET ∧ is_literal g.index ∧
    literal_node g.index = some g.node ∧
    g.rbracket.type = .TOKEN_RSQUARE_BRACKET ∧ g.rbracket.kind ≠ .KIND_BINARY_EXPR_OPERATOR

/-- The tokens `[ i1 ] [ i2 ] ...`. -/
def subscript_tokens : List subscript_group → List Token
  | [] => []
  | g :: gs => g.lbracket :: g.index :: g.rbracket :: subscript_tokens gs

/-- The tree `Subscript(...Subscript(Subscript(e, i1), i2)..., in)`. -/
def subscript_tree (e : ast_node) : List subscript_group → ast_node
  | [] => e
  | g :: gs => subscript_tree (.subscript e g.node) gs

/-- A token that `parse_expression` dispatches to `parse_unary_expression`. -/
abbrev unary_operator (ext : externals) (u : Token) : Prop :=
  u.type ≠ .TOKEN_END_OF_FILE ∧ u.type ≠ .TOKEN_IDENTIFIER ∧ u.type ≠ .TOKEN_LPAREN ∧
    u.type ≠ .TOKEN_LBRACE ∧ u.kind ≠ .KIND_LITERAL ∧ u.kind ≠ .KIND_KEYWORD ∧
    ext.VALID_UNARY_OPERATOR u = true

/-- The function `g` returns whatever `f` returns. -/
def extends_fn (f g : expr_fn) : Prop :=
  ∀ p lxr s q r, f p lxr s q = some r → g p lxr s q = some r

/-! ## Concrete inputs -/

/-- A token on line 1. -/
def mk_token (type : token_t) (kind : token_kind) (src_pos : Nat) (value : List Char) : Token :=
  { type := type, kind := kind, src_pos := src_pos, line := 1, value := value }

/-- An integer literal token. -/
def int_token (src_pos : Nat) (value : List Char) : Token :=
  mk_token .TOKEN_INTEGER_LITERAL .KIND_LITERAL src_pos value

/-- A binary operator token, as the lexer handlers emit it. -/
def op_token (type : token_t) (src_pos : Nat) (value : List Char) : Token :=
  mk_token type .KIND_BINARY_EXPR_OPERATOR src_pos value

/-- A punctuator token. -/
def punct_token (type : token_t) (src_pos : Nat) (value : List Char) : Token :=
  mk_token type .KIND_PUNCTUATOR src_pos value

/-- The node of an integer literal. -/
def int_node (value : List Char) : ast_node :=
  .singleton_literal .TOKEN_INTEGER_LITERAL value

/-- A lexer positioned on the first of the given tokens, with no error raised. -/
def lexer_on (tokens : List Token) : lexer :=
  { tokens := tokens, eof_pos := 0, eof_line := 1, errors := [] }

/-- A parser object at parenthesis depth 0 with the given symbols. -/
def parser_with (syms : List symbol) : parser :=
  { inside_parenthesized_expression_ := 0, sym_table_ := syms }

/-- An identifier parser for concrete runs: a reference to a name of the symbol table
yields its identifier node, any other name is an error. -/
def sample_parse_identifier (p : parser) (lxr : lexer) : parse_result :=
  match p.sym_table_.find? (fun s => s.name.data == lxr.current.value) with
  | none => some (none, p, lxr.raise_error "Symbol does not exist in this scope.")
  | some s => some (some (.ident { symbol_index := s.symbol_index }), p, lxr.advance 1)

/-- A statement parser for concrete runs: it rejects its keyword. -/
def sample_parse_statement (p : parser) (lxr : lexer) : parse_result :=
  some (none, p, lxr.raise_error "Statement not supported.")

/-- An instance of `externals` for concrete runs: the unary operators are the tokens of the
unary-operator class, and the nodes that never need a terminal are the definitions with a
body and the control statements. -/
def sample_externals : externals :=
  { VALID_UNARY_OPERATOR := fun t => decide (t.kind = .KIND_UNARY_EXPR_OPERATOR)
    EXPR_NEVER_NEEDS_TERMINAL := fun t =>
      decide (t = .NODE_PROCDECL ∨ t = .NODE_STRUCT_DEFINITION ∨ t = .NODE_ENUM_DEFINITION ∨
        t = .NODE_NAMESPACEDECL ∨ t = .NODE_BRANCH ∨ t = .NODE_SWITCH ∨ t = .NODE_WHILE ∨
        t = .NODE_FOR)
    parse_identifier := sample_parse_identifier
    parse_ret := sample_parse_statement
    parse_branch := sample_parse_statement
    parse_switch := sample_parse_statement
    parse_while := sample_parse_statement
    parse_for := sample_parse_statement
    parse_structdef := sample_parse_statement
    parse_namespace := sample_parse_statement }

/-- The tokens of `1 + 2 * 3;`, at their offsets in `a : i32 = 1 + 2 * 3;` (scenario S3). -/
def S3_initializer : List Token :=
  [int_token 10 ['1'], op_token .TOKEN_PLUS 12 ['+'], int_token 14 ['2'],
   op_token .TOKEN_MUL 16 ['*'], int_token 18 ['3'], punct_token .TOKEN_SEMICOLON 19 [';']]

/-- The tokens of `1 * 2 + 3;`. -/
def src_1_mul_2_plus_3 : List Token :=
  [int_token 0 ['1'], op_token .TOKEN_MUL 2 ['*'], int_token 4 ['2'],
   op_token .TOKEN_PLUS 6 ['+'], int_token 8 ['3'], punct_token .TOKEN_SEMICOLON 9 [';']]

/-- The tokens of `1 - 2 - 3;`. -/
def src_1_sub_2_sub_3 : List Token :=
  [int_token 0 ['1'], op_token .TOKEN_SUB 2 ['-'], int_token 4 ['2'],
   op_token .TOKEN_SUB 6 ['-'], int_token 8 ['3'], punct_token .TOKEN_SEMICOLON 9 [';']]

/-- The tokens of `~1 = 2;`. -/
def src_not_1_eq_2 : List Token :=
  [mk_token .TOKEN_BITWISE_NOT .KIND_UNARY_EXPR_OPERATOR 0 ['~'], int_token 1 ['1'],
   op_token .TOKEN_VALUE_ASSIGNMENT 3 ['='], int_token 5 ['2'],
   punct_token .TOKEN_SEMICOLON 6 [';']]

/-- The tokens of `~1 + 2;`. -/
def src_not_1_plus_2 : List Token :=
  [mk_token .TOKEN_BITWISE_NOT .KIND_UNARY_EXPR_OPERATOR 0 ['~'], int_token 1 ['1'],
   op_token .TOKEN_PLUS 3 ['+'], int_token 5 ['2'], punct_token .TOKEN_SEMICOLON 6 [';']]

/-- The tokens of `1;`. -/
def src_1_semi : List Token := [int_token 0 ['1'], punct_token .TOKEN_SEMICOLON 1 [';']]

/-- A symbol table with the procedure `f` (index 1) and the variable `y` (index 2). -/
def syms_f : List symbol :=
  [{ symbol_index := 1, name := "f", sym_type := .SYM_PROCEDURE, flags := 0, src_pos := 0,
     line_number := 1 },
   { symbol_index := 2, name := "y", sym_type := .SYM_VARIABLE, flags := 0, src_pos := 0,
     line_number := 1 }]

/-- The tokens of `(41);`, at their offsets in `y :: i32 = f(41);` (scenario S4). -/
def src_call_41 : List Token :=
  [punct_token .TOKEN_LPAREN 12 ['('], int_token 13 ['4', '1'],
   punct_token .TOKEN_RPAREN 15 [')'], punct_token .TOKEN_SEMICOLON 16 [';']]

/-- The tokens of `(1;`. -/
def src_lparen_1_semi : List Token :=
  [punct_token .TOKEN_LPAREN 0 ['('], int_token 1 ['1'], punct_token .TOKEN_SEMICOLON 2 [';']]

/-- The tokens of `(1 + 2);`. -/
def src_paren_1_plus_2 : List Token :=
  [punct_token .TOKEN_LPAREN 0 ['('], int_token 1 ['1'], op_token .TOKEN_PLUS 3 ['+'],
   int_token 5 ['2'], punct_token .TOKEN_RPAREN 6 [')'], punct_token .TOKEN_SEMICOLON 7 [';']]

/-- The nine escapes of the specification: the byte after the backslash and the byte the
pair denotes (`\n \b \a \r \t \0 \' \" \\`). -/
def spec_escapes : List (Char × Char) :=
  [('n', Char.ofNat 10), ('b', Char.ofNat 8), ('a', Char.ofNat 7), ('r', Char.ofNat 13),
   ('t', Char.ofNat 9), ('0', Char.ofNat 0), (Char.ofNat 39, Char.ofNat 39),
   (Char.ofNat 34, Char.ofNat 34), (BACKSLASH, BACKSLASH)]

/-- The decoding the specification describes: `spec_decodes s t` when `t` is `s` with every
escape pair replaced by the byte it denotes and every other byte copied, in order. -/
inductive spec_decodes : List Char → List Char → Prop
  | nil : spec_decodes [] []
  | plain (c : Char) (s t : List Char) : c ≠ BACKSLASH → spec_decodes s t →
      spec_decodes (c :: s) (c :: t)
  | escape (x d : Char) (s t : List Char) : (x, d) ∈ spec_escapes → spec_decodes s t →
      spec_decodes (BACKSLASH :: x :: s) (d :: t)

/-- Re-escaping of one byte: the nine bytes an escape denotes become their two-byte
backslash form, every other byte stays. -/
def spec_escape_byte (c : Char) : List Char :=
  if c = Char.ofNat 10 then [BACKSLASH, 'n']
  else if c = Char.ofNat 8 then [BACKSLASH, 'b']
  else if c = Char.ofNat 7 then [BACKSLASH, 'a']
  else if c = Char.ofNat 13 then [BACKSLASH, 'r']
  else if c = Char.ofNat 9 then [BACKSLASH, 't']
  else if c = Char.ofNat 0 then [BACKSLASH, '0']
  else if c = Char.ofNat 39 then [BACKSLASH, Char.ofNat 39]
  else if c = Char.ofNat 34 then [BACKSLASH, Char.ofNat 34]
  else if c = BACKSLASH then [BACKSLASH, BACKSLASH]
  else [c]

/-- Re-escaping of a byte string. -/
def spec_re_escape : List Char → List Char
  | [] => []
  | c :: s => spec_escape_byte c ++ spec_re_escape s

/-- A backslash in escape position that starts no escape: it is the last byte, or the byte
after it is none of the nine. -/
def spec_bad_escape (rest : List Char) : Prop :=
  rest = [] ∨ ∃ x r, rest = x :: r ∧ ∀ d, (x, d) ∉ spec_escapes

/-! ## Calls and assignments: vocabulary and concrete inputs -/

/-- One `, argument` step of an argument list `a , b1 , b2 ...`: a comma, a literal token
and the node of that literal. -/
structure argument_group where
  comma : Token
  argument : Token
  node : ast_node

/-- The comma is a comma token of the punctuator class and the argument a literal with its
node. -/
def argument_group.ok (g : argument_group) : Prop :=
  g.comma.type = .TOKEN_COMMA ∧ g.comma.kind ≠ .KIND_BINARY_EXPR_OPERATOR ∧
    is_literal g.argument ∧ literal_node g.argument = some g.node

/-- The tokens `, b1 , b2 ...` of the further arguments. -/
def argument_tokens : List argument_group → List Token
  | [] => []
  | g :: gs => g.comma :: g.argument :: argument_tokens gs

/-- The tokens of `(~1));`, at their offsets in `(f(~1));`. -/
def src_call_not_1_rparen : List Token :=
  [punct_token .TOKEN_LPAREN 2 ['('],
   mk_token .TOKEN_BITWISE_NOT .KIND_UNARY_EXPR_OPERATOR 3 ['~'], int_token 4 ['1'],
   punct_token .TOKEN_RPAREN 5 [')'], punct_token .TOKEN_RPAREN 6 [')'],
   punct_token .TOKEN_SEMICOLON 7 [';']]

/-- The tokens of `(1, 2);`, at their offsets in `f(1, 2);`. -/
def src_call_1_2 : List Token :=
  [punct_token .TOKEN_LPAREN 1 ['('], int_token 2 ['1'], punct_token .TOKEN_COMMA 3 [','],
   int_token 5 ['2'], punct_token .TOKEN_RPAREN 6 [')'], punct_token .TOKEN_SEMICOLON 7 [';']]

/-- The tokens of `1 = 2;`. -/
def src_1_eq_2 : List Token :=
  [int_token 0 ['1'], op_token .TOKEN_VALUE_ASSIGNMENT 2 ['='], int_token 4 ['2'],
   punct_token .TOKEN_SEMICOLON 5 [';']]

/-! ## Checked components: vocabulary and concrete inputs -/

/-- The components that `expr.cpp` checks with `VALID_SUBEXPRESSION`, through a whole tree:
the members of a braced expression, the operand of a unary expression, the right operand
of a binary expression, the value (index) of a subscript, the expression of an assignment
and the arguments of a call.  The left operand of a binary expression, the assigned side of
an assignment and the operand of a subscript are only required to be such trees
themselves.  The nodes that other files build are not constrained. -/
inductive checked_components : ast_node → Prop
  | ident (id : ast_identifier) : checked_components (.ident id)
  | singleton_literal (t : token_t) (v : List Char) :
      checked_components (.singleton_literal t v)
  | braced_expression (members : List ast_node) :
      (∀ m ∈ members, VALID_SUBEXPRESSION m.type = true) →
      (∀ m ∈ members, checked_components m) →
      checked_components (.braced_expression members)
  | unaryexpr (op : token_t) (operand : ast_node) :
      VALID_SUBEXPRESSION operand.type = true → checked_components operand →
      checked_components (.unaryexpr op operand)
  | binexpr (op : token_t) (left_op right_op : ast_node) :
      checked_components left_op →
      VALID_SUBEXPRESSION right_op.type = true → checked_components right_op →
      checked_components (.binexpr op left_op right_op)
  | subscript (operand value : ast_node) :
      checked_components operand →
      VALID_SUBEXPRESSION value.type = true → checked_components value →
      checked_components (.subscript operand value)
  | assign (assigned expression : ast_node) :
      checked_components assigned →
      VALID_SUBEXPRESSION expression.type = true → checked_components expression →
      checked_components (.assign assigned expression)
  | call (id : ast_identifier) (arguments : List ast_node) :
      (∀ a ∈ arguments, VALID_SUBEXPRESSION a.type = true) →
      (∀ a ∈ arguments, checked_components a) →
      checked_components (.call id arguments)
  | vardecl (id : ast_identifier) (init_value : Option ast_node) :
      checked_components (.vardecl id init_value)
  | procdecl (id : ast_identifier) (parameters body : List ast_node) :
      checked_components (.procdecl id parameters body)
  | other (t : node_type) (children : List ast_node) : checked_components (.other t children)

/-- Every node a parser function returns has checked components. -/
def returns_checked (f : parser → lexer → parse_result) : Prop :=
  ∀ p lxr node p' lxr', f p lxr = some (some node, p', lxr') → checked_components node

/-- Every node an expression parser returns has checked components. -/
def expr_returns_checked (f : expr_fn) : Prop :=
  ∀ p lxr s g node p' lxr', f p lxr s g = some (some node, p', lxr') → checked_components node

/-- The parsers of the other files return nodes with checked components. -/
def externals.checked (ext : externals) : Prop :=
  returns_checked ext.parse_identifier ∧ returns_checked ext.parse_ret ∧
  returns_checked ext.parse_branch ∧ returns_checked ext.parse_switch ∧
  returns_checked ext.parse_while ∧ returns_checked ext.parse_for ∧
  returns_checked ext.parse_structdef ∧ returns_checked ext.parse_namespace

/-- A declaration parser for concrete runs.  It stands for the dispatch of `parse_identifier`
to `parse_decl` and `parse_vardecl` (`parser_parsedecl.cpp`, lines 385-574) on a declaration
without initializer: on `name : type` it returns the `VarDecl` node of the symbol 1 and
leaves the token after the type as current token; any other input is an error. -/
def sample_parse_declaration (p : parser) (lxr : lexer) : parse_result :=
  if lxr.current.type = .TOKEN_IDENTIFIER ∧
      (lxr.advance 1).current.type = .TOKEN_TYPE_ASSIGNMENT ∧
      (lxr.advance 2).current.kind = .KIND_TYPE_IDENTIFIER then
    some (some (.vardecl { symbol_index := 1 } none), p, lxr.advance 3)
  else some (none, p, (lxr.advance 1).raise_error "Expected type assignment.")

/-- The instance of `externals` for concrete runs with declarations. -/
def declaration_externals : externals :=
  { sample_externals with parse_identifier := sample_parse_declaration }

/-- The tokens of `x : i32 + 1;`. -/
def src_x_i32_plus_1 : List Token :=
  [mk_token .TOKEN_IDENTIFIER .KIND_UNSPECIFIC 0 ['x'], op_token .TOKEN_TYPE_ASSIGNMENT 2 [':'],
   mk_token .TOKEN_KW_I32 .KIND_TYPE_IDENTIFIER 4 ['i', '3', '2'],
   op_token .TOKEN_PLUS 8 ['+'], int_token 10 ['1'], punct_token .TOKEN_SEMICOLON 11 [';']]

--THMS

/-! ## `tokens.cpp`: the lexer object -/

/-- The NUL byte, which the handlers read at the end of the buffer. -/
def NUL : Char := Char.ofNat 0

/-- The newline byte. -/
def NEWLINE : Char := Char.ofNat 10

/-- The single quote. -/
def SINGLE_QUOTE : Char := Char.ofNat 39

/-- Modelled from the spec: the lexer state the handlers bind with
`auto &[src, index, curr_line, _current, _] = lxr`: the source buffer, the cursor `index`, the
line counter and the current token.  The class itself is declared in a header that is not
available.  `index` is a `size_t`; no buffer is long enough for it to wrap, so it is a
natural number.  The line counter is taken to be 32 bits wide, like the line of a token. -/
structure Lexer where
  src_ : List Char
  index : Nat
  curr_line : Nat
  current_ : Token
  deriving DecidableEq

/-- Modelled from the spec: `current_char()`, the byte under the cursor, NUL at the end of
the buffer. -/
def Lexer.current_char (lxr : Lexer) : Char :=
  lxr.src_.getD lxr.index NUL

/-- Modelled from the spec: `peek_char()`, the byte after the one under the cursor, NUL at
the end of the buffer. -/
def Lexer.peek_char (lxr : Lexer) : Char :=
  lxr.src_.getD (lxr.index + 1) NUL

/-- Modelled from the spec: `advance_char(amnt)` moves the cursor by `amnt` bytes. -/
def Lexer.advance_char (lxr : Lexer) (amnt : Nat) : Lexer :=
  { lxr with index := lxr.index + amnt }

/-- Modelled from the spec: `advance_line()` increments the line counter. -/
def Lexer.advance_line (lxr : Lexer) : Lexer :=
  { lxr with curr_line := (lxr.curr_line + 1) % 2 ^ 32 }

/-- A token as the handlers build it, `Token{type, kind, src_pos, value}`: the initializer
lists give these four members; the line, which no handler writes, is left at zero. -/
def Token.init (type : token_t) (kind : token_kind) (src_pos : Nat) (value : List Char) :
    Token :=
  { type := type, kind := kind, src_pos := src_pos, line := 0, value := value }

/-- The view `{&src[start], len}` over the buffer. -/
def Lexer.view (lxr : Lexer) (start len : Nat) : List Char :=
  (lxr.src_.drop start).take len

/-- The end-of-file token of the handlers,
`Token{TOKEN_END_OF_FILE, KIND_UNSPECIFIC, src.size() - 1, "\\0"}`; the subtraction is on a
`size_t` of 64 bits. -/
def Lexer.end_of_file (lxr : Lexer) : Token :=
  Token.init .TOKEN_END_OF_FILE .KIND_UNSPECIFIC ((lxr.src_.length + 2 ^ 64 - 1) % 2 ^ 64)
    [BACKSLASH, '0']

/-- The assignment `_current = token`. -/
def Lexer.set_current (lxr : Lexer) (token : Token) : Lexer :=
  { lxr with current_ := token }

/-- The assignment `_current.type = TOKEN_NONE`. -/
def Lexer.set_none (lxr : Lexer) : Lexer :=
  { lxr with current_ := { lxr.current_ with type := .TOKEN_NONE } }

/-! ## `tokens.cpp`: the handlers -/

/-- Whitespace, `lexer_token_skip` (lines 8-19). -/
def lexer_token_skip (lxr : Lexer) : Lexer :=
  if lxr.index ≥ lxr.src_.length then lxr.set_current lxr.end_of_file
  else lxr.set_none.advance_char 1

/-- A newline, `lexer_token_newline` (lines 22-34). -/
def lexer_token_newline (lxr : Lexer) : Lexer :=
  if lxr.index ≥ lxr.src_.length then lxr.set_current lxr.end_of_file
  else (lxr.set_none.advance_line).advance_char 1

/-- The semicolon, `lexer_token_semicolon` (lines 37-48). -/
def lexer_token_semicolon (lxr : Lexer) : Lexer :=
  if lxr.index ≥ lxr.src_.length then lxr.set_current lxr.end_of_file
  else
    (lxr.set_current
      (Token.init .TOKEN_SEMICOLON .KIND_PUNCTUATOR lxr.index
        (lxr.view lxr.index 1))).advance_char 1

/-- The opening parenthesis, `lexer_token_lparen` (lines 51-62). -/
def lexer_token_lparen (lxr : Lexer) : Lexer :=
  if lxr.index ≥ lxr.src_.length then lxr.set_current lxr.end_of_file
  else
    (lxr.set_current
      (Token.init .TOKEN_LPAREN .KIND_PUNCTUATOR lxr.index
        (lxr.view lxr.index 1))).advance_char 1

/-- The closing parenthesis, `lexer_token_rparen` (lines 65-76). -/
def lexer_token_rparen (lxr : Lexer) : Lexer :=
  if lxr.index ≥ lxr.src_.length then lxr.set_current lxr.end_of_file
  else
    (lxr.set_current
      (Token.init .TOKEN_RPAREN .KIND_PUNCTUATOR lxr.index
        (lxr.view lxr.index 1))).advance_char 1

/-- The opening brace, `lexer_token_lbrace` (lines 79-90). -/
def lexer_token_lbrace (lxr : Lexer) : Lexer :=
  if lxr.index ≥ lxr.src_.length then lxr.set_current lxr.end_of_file
  else
    (lxr.set_current
      (Token.init .TOKEN_LBRACE .KIND_PUNCTUATOR lxr.index
        (lxr.view lxr.index 1))).advance_char 1

/-- The closing brace, `lexer_token_rbrace` (lines 93-104). -/
def lexer_token_rbrace (lxr : Lexer) : Lexer :=
  if lxr.index ≥ lxr.src_.length then lxr.set_current lxr.end_of_file
  else
    (lxr.set_current
      (Token.init .TOKEN_RBRACE .KIND_PUNCTUATOR lxr.index
        (lxr.view lxr.index 1))).advance_char 1

/-- The comma, `lexer_token_comma` (lines 107-118). -/
def lexer_token_comma (lxr : Lexer) : Lexer :=
  if lxr.index ≥ lxr.src_.length then lxr.set_current lxr.end_of_file
  else
    (lxr.set_current
      (Token.init .TOKEN_COMMA .KIND_PUNCTUATOR lxr.index
        (lxr.view lxr.index 1))).advance_char 1

/-- The hyphen, `lexer_token_hyphen` (lines 121-153). -/
def lexer_token_hyphen (lxr : Lexer) : Lexer :=
  if lxr.index ≥ lxr.src_.length then lxr.set_current lxr.end_of_file
  else if lxr.peek_char = '=' then
    (lxr.set_current
      (Token.init .TOKEN_SUBEQ .KIND_BINARY_EXPR_OPERATOR lxr.index
        (lxr.view lxr.index 2))).advance_char 2
  else if lxr.peek_char = '>' then
    (lxr.set_current
      (Token.init .TOKEN_ARROW .KIND_UNSPECIFIC lxr.index
        (lxr.view lxr.index 2))).advance_char 2
  else if lxr.peek_char = '-' then
    (lxr.set_current
      (Token.init .TOKEN_DECREMENT .KIND_UNARY_EXPR_OPERATOR lxr.index
        (lxr.view lxr.index 2))).advance_char 2
  else
    (lxr.set_current
      (Token.init .TOKEN_SUB .KIND_BINARY_EXPR_OPERATOR lxr.index
        (lxr.view lxr.index 1))).advance_char 1

/-- The plus sign, `lexer_token_plus` (lines 156-181).  The branch for the end of the buffer
has no `return`: the `switch` runs after it. -/
def lexer_token_plus (lxr : Lexer) : Lexer :=
  let lxr0 := if lxr.index ≥ lxr.src_.length then lxr.set_current lxr.end_of_file else lxr
  if lxr0.peek_char = '=' then
    (lxr0.set_current
      (Token.init .TOKEN_PLUSEQ .KIND_BINARY_EXPR_OPERATOR lxr0.index
        (lxr0.view lxr0.index 2))).advance_char 2
  else if lxr0.peek_char = '+' then
    (lxr0.set_current
      (Token.init .TOKEN_INCREMENT .KIND_UNARY_EXPR_OPERATOR lxr0.index
        (lxr0.view lxr0.index 2))).advance_char 2
  else
    (lxr0.set_current
      (Token.init .TOKEN_PLUS .KIND_BINARY_EXPR_OPERATOR lxr0.index
        (lxr0.view lxr0.index 1))).advance_char 1

/-- The asterisk, `lexer_token_asterisk` (lines 184-202). -/
def lexer_token_asterisk (lxr : Lexer) : Lexer :=
  if lxr.index ≥ lxr.src_.length then lxr.set_current lxr.end_of_file
  else if lxr.peek_char = '=' then
    (lxr.set_current
      (Token.init .TOKEN_MULEQ .KIND_BINARY_EXPR_OPERATOR lxr.index
        (lxr.view lxr.index 2))).advance_char 2
  else
    (lxr.set_current
      (Token.init .TOKEN_MUL .KIND_BINARY_EXPR_OPERATOR lxr.index
        (lxr.view lxr.index 1))).advance_char 1

/-- The loop of a line comment (lines 218-220): advance up to a NUL or a newline. -/
def lexer_token_fwdslash_line : Nat → Lexer → Lexer
  | 0, lxr => lxr
  | fuel + 1, lxr =>
    if lxr.current_char ≠ NUL ∧ lxr.current_char ≠ NEWLINE then
      lexer_token_fwdslash_line fuel (lxr.advance_char 1)
    else lxr

/-- The loop of a block comment (lines 226-241); it starts with the cursor on the `/` of
the opener. -/
def lexer_token_fwdslash_block : Nat → Lexer → Lexer
  | 0, lxr => lxr
  | fuel + 1, lxr =>
    if lxr.current_char = NUL then lxr
    else if lxr.current_char = '*' ∧ lxr.peek_char = '/' then lxr.advance_char 2
    else
      let lxr1 := if lxr.current_char = NEWLINE then lxr.advance_line else lxr
      lexer_token_fwdslash_block fuel (lxr1.advance_char 1)

/-- The slash, `lexer_token_fwdslash` (lines 205-262).  Each loop advances the cursor by
one byte per iteration and stops at the end of the buffer, so it runs at most once per byte
of the buffer and once more. -/
def lexer_token_fwdslash (lxr : Lexer) : Lexer :=
  if lxr.index ≥ lxr.src_.length then lxr.set_current lxr.end_of_file
  else if lxr.peek_char = '/' then
    (lexer_token_fwdslash_line (lxr.src_.length + 1) lxr).set_none
  else if lxr.peek_char = '*' then
    let lxr1 := lexer_token_fwdslash_block (lxr.src_.length + 1) lxr
    if lxr1.current_char = NUL then lxr1.set_current lxr1.end_of_file
    else lxr1.set_none
  else if lxr.peek_char = '=' then
    (lxr.set_current
      (Token.init .TOKEN_DIVEQ .KIND_BINARY_EXPR_OPERATOR lxr.index
        (lxr.view lxr.index 2))).advance_char 2
  else
    (lxr.set_current
      (Token.init .TOKEN_DIV .KIND_BINARY_EXPR_OPERATOR lxr.index
        (lxr.view lxr.index 1))).advance_char 1

/-- The percent sign, `lexer_token_percent` (lines 265-283). -/
def lexer_token_percent (lxr : Lexer) : Lexer :=
  if lxr.index ≥ lxr.src_.length then lxr.set_current lxr.end_of_file
  else if lxr.peek_char = '=' then
    (lxr.set_current
      (Token.init .TOKEN_MODEQ .KIND_BINARY_EXPR_OPERATOR lxr.index
        (lxr.view lxr.index 2))).advance_char 2
  else
    (lxr.set_current
      (Token.init .TOKEN_MOD .KIND_BINARY_EXPR_OPERATOR lxr.index
        (lxr.view lxr.index 1))).advance_char 1

/-- The equals sign, `lexer_token_equals` (lines 286-304). -/
def lexer_token_equals (lxr : Lexer) : Lexer :=
  if lxr.index ≥ lxr.src_.length then lxr.set_current lxr.end_of_file
  else if lxr.peek_char = '=' then
    (lxr.set_current
      (Token.init .TOKEN_COMP_EQUALS .KIND_BINARY_EXPR_OPERATOR lxr.index
        (lxr.view lxr.index 2))).advance_char 2
  else
    (lxr.set_current
      (Token.init .TOKEN_VALUE_ASSIGNMENT .KIND_BINARY_EXPR_OPERATOR lxr.index
        (lxr.view lxr.index 1))).advance_char 1

/-- The less-than sign, `lexer_token_lessthan` (lines 307-341). -/
def lexer_token_lessthan (lxr : Lexer) : Lexer :=
  if lxr.index ≥ lxr.src_.length then lxr.set_current lxr.end_of_file
  else
    let start := lxr.index
    if lxr.peek_char = '=' then
      (lxr.set_current
        (Token.init .TOKEN_COMP_LTE .KIND_BINARY_EXPR_OPERATOR lxr.index
          (lxr.view lxr.index 2))).advance_char 2
    else if lxr.peek_char = '<' then
      let lxr1 := lxr.advance_char 1
      if lxr1.peek_char = '=' then
        (lxr1.set_current
          (Token.init .TOKEN_BITWISE_LSHIFTEQ .KIND_BINARY_EXPR_OPERATOR start
            (lxr1.view start 3))).advance_char 2
      else
        (lxr1.set_current
          (Token.init .TOKEN_BITWISE_LSHIFT .KIND_BINARY_EXPR_OPERATOR start
            (lxr1.view start 2))).advance_char 1
    else
      (lxr.set_current
        (Token.init .TOKEN_COMP_LT .KIND_BINARY_EXPR_OPERATOR lxr.index
          (lxr.view lxr.index 1))).advance_char 1

/-- The greater-than sign, `lexer_token_greaterthan` (lines 344-379). -/
def lexer_token_greaterthan (lxr : Lexer) : Lexer :=
  if lxr.index ≥ lxr.src_.length then lxr.set_current lxr.end_of_file
  else
    let start := lxr.index
    if lxr.peek_char = '=' then
      (lxr.set_current
        (Token.init .TOKEN_COMP_GTE .KIND_BINARY_EXPR_OPERATOR lxr.index
          (lxr.view lxr.index 2))).advance_char 2
    else if lxr.peek_char = '>' then
      let lxr1 := lxr.advance_char 1
      if lxr1.peek_char = '=' then
        (lxr1.set_current
          (Token.init .TOKEN_BITWISE_RSHIFTEQ .KIND_BINARY_EXPR_OPERATOR start
            (lxr1.view start 3))).advance_char 2
      else
        (lxr1.set_current
          (Token.init .TOKEN_BITWISE_RSHIFT .KIND_BINARY_EXPR_OPERATOR start
            (lxr1.view start 2))).advance_char 1
    else
      (lxr.set_current
        (Token.init .TOKEN_COMP_GT .KIND_BINARY_EXPR_OPERATOR lxr.index
          (lxr.view lxr.index 1))).advance_char 1

/-- The ampersand, `lexer_token_ampersand` (lines 382-409). -/
def lexer_token_ampersand (lxr : Lexer) : Lexer :=
  if lxr.index ≥ lxr.src_.length then lxr.set_current lxr.end_of_file
  else if lxr.peek_char = '&' then
    (lxr.set_current
      (Token.init .TOKEN_CONDITIONAL_AND .KIND_BINARY_EXPR_OPERATOR lxr.index
        (lxr.view lxr.index 2))).advance_char 2
  else if lxr.peek_char = '=' then
    (lxr.set_current
      (Token.init .TOKEN_BITWISE_ANDEQ .KIND_BINARY_EXPR_OPERATOR lxr.index
        (lxr.view lxr.index 2))).advance_char 2
  else
    (lxr.set_current
      (Token.init .TOKEN_BITWISE_AND .KIND_BINARY_EXPR_OPERATOR lxr.index
        (lxr.view lxr.index 1))).advance_char 1

/-- The vertical line, `lexer_token_verticalline` (lines 412-439). -/
def lexer_token_verticalline (lxr : Lexer) : Lexer :=
  if lxr.index ≥ lxr.src_.length then lxr.set_current lxr.end_of_file
  else if lxr.peek_char = '|' then
    (lxr.set_current
      (Token.init .TOKEN_CONDITIONAL_OR .KIND_BINARY_EXPR_OPERATOR lxr.index
        (lxr.view lxr.index 2))).advance_char 2
  else if lxr.peek_char = '=' then
    (lxr.set_current
      (Token.init .TOKEN_BITWISE_OREQ .KIND_BINARY_EXPR_OPERATOR lxr.index
        (lxr.view lxr.index 2))).advance_char 2
  else
    (lxr.set_current
      (Token.init .TOKEN_BITWISE_OR .KIND_BINARY_EXPR_OPERATOR lxr.index
        (lxr.view lxr.index 1))).advance_char 1

/-- The exclamation mark, `lexer_token_exclamation` (lines 442-460). -/
def lexer_token_exclamation (lxr : Lexer) : Lexer :=
  if lxr.index ≥ lxr.src_.length then lxr.set_current lxr.end_of_file
  else if lxr.peek_char = '=' then
    (lxr.set_current
      (Token.init .TOKEN_COMP_NOT_EQUALS .KIND_BINARY_EXPR_OPERATOR lxr.index
        (lxr.view lxr.index 2))).advance_char 2
  else
    (lxr.set_current
      (Token.init .TOKEN_CONDITIONAL_NOT .KIND_UNARY_EXPR_OPERATOR lxr.index
        (lxr.view lxr.index 1))).advance_char 1

/-- The tilde, `lexer_token_tilde` (lines 463-474). -/
def lexer_token_tilde (lxr : Lexer) : Lexer :=
  if lxr.index ≥ lxr.src_.length then lxr.set_current lxr.end_of_file
  else
    (lxr.set_current
      (Token.init .TOKEN_BITWISE_NOT .KIND_UNARY_EXPR_OPERATOR lxr.index
        (lxr.view lxr.index 1))).advance_char 1

/-- The caret, `lexer_token_uparrow` (lines 477-495). -/
def lexer_token_uparrow (lxr : Lexer) : Lexer :=
  if lxr.index ≥ lxr.src_.length then lxr.set_current lxr.end_of_file
  else if lxr.peek_char = '=' then
    (lxr.set_current
      (Token.init .TOKEN_BITWISE_XOREQ .KIND_BINARY_EXPR_OPERATOR lxr.index
        (lxr.view lxr.index 2))).advance_char 2
  else
    (lxr.set_current
      (Token.init .TOKEN_BITWISE_XOR_OR_PTR .KIND_BINARY_EXPR_OPERATOR lxr.index
        (lxr.view lxr.index 1))).advance_char 1

/-- The loop of `lexer_token_quote` (lines 514-534). -/
def lexer_token_quote_loop (opening_quote : Char) (string_start : Nat) : Nat → Lexer → Lexer
  | 0, lxr => lxr
  | fuel + 1, lxr =>
    if lxr.current_char = NUL then
      lxr.set_current
        (Token.init .TOKEN_ILLEGAL .KIND_UNSPECIFIC ((lxr.src_.length + 2 ^ 64 - 1) % 2 ^ 64)
          [BACKSLASH, '0'])
    else if lxr.current_char = opening_quote then
      (lxr.set_current
        (Token.init .TOKEN_STRING_LITERAL .KIND_LITERAL lxr.index
          (lxr.view string_start ((lxr.index - string_start) + 1)))).advance_char 1
    else if lxr.current_char = BACKSLASH ∧ lxr.peek_char = opening_quote then
      lexer_token_quote_loop opening_quote string_start fuel (lxr.advance_char 2)
    else lexer_token_quote_loop opening_quote string_start fuel (lxr.advance_char 1)

/-- A string literal, `lexer_token_quote` (lines 498-535).  The loop advances the cursor by
at least one byte per iteration and stops at the end of the buffer. -/
def lexer_token_quote (lxr : Lexer) : Lexer :=
  if lxr.index ≥ lxr.src_.length then lxr.set_current lxr.end_of_file
  else
    let opening_quote := lxr.current_char
    let string_start := lxr.index
    lexer_token_quote_loop opening_quote string_start (lxr.src_.length + 1)
      (lxr.advance_char 1)

/-- The `switch` that ends `lexer_token_singlequote` (lines 557-570): the byte after the
character must be the closing quote. -/
def lexer_token_singlequote_close (start : Nat) (lxr : Lexer) : Lexer :=
  if lxr.current_char = NUL then
    lxr.set_current
      (Token.init .TOKEN_ILLEGAL .KIND_UNSPECIFIC ((lxr.src_.length + 2 ^ 64 - 1) % 2 ^ 64)
        [BACKSLASH, '0'])
  else if lxr.current_char = SINGLE_QUOTE then
    let lxr1 := lxr.advance_char 1
    lxr1.set_current
      (Token.init .TOKEN_CHARACTER_LITERAL .KIND_LITERAL start
        (lxr1.view start (lxr1.index - start)))
  else
    lxr.set_current
      (Token.init .TOKEN_ILLEGAL .KIND_UNSPECIFIC start (lxr.view start (lxr.index - start)))

/-- A character literal, `lexer_token_singlequote` (lines 538-571).  It has no branch for
the end of the buffer. -/
def lexer_token_singlequote (lxr : Lexer) : Lexer :=
  let start := lxr.index
  let lxr1 := lxr.advance_char 1
  if lxr1.current_char = BACKSLASH then
    lexer_token_singlequote_close start (lxr1.advance_char 2)
  else if lxr1.current_char = SINGLE_QUOTE then
    let lxr2 := lxr1.advance_char 1
    lxr2.set_current
      (Token.init .TOKEN_CHARACTER_LITERAL .KIND_LITERAL start
        (lxr2.view start (lxr2.index - start)))
  else lexer_token_singlequote_close start (lxr1.advance_char 1)

/-- The opening square bracket, `lexer_token_lsquarebracket` (lines 574-585). -/
def lexer_token_lsquarebracket (lxr : Lexer) : Lexer :=
  if lxr.index ≥ lxr.src_.length then lxr.set_current lxr.end_of_file
  else
    (lxr.set_current
      (Token.init .TOKEN_LSQUARE_BRACKET .KIND_PUNCTUATOR lxr.index
        (lxr.view lxr.index 1))).advance_char 1

/-- The closing square bracket, `lexer_token_rsquarebracket` (lines 588-599). -/
def lexer_token_rsquarebracket (lxr : Lexer) : Lexer :=
  if lxr.index ≥ lxr.src_.length then lxr.set_current lxr.end_of_file
  else
    (lxr.set_current
      (Token.init .TOKEN_RSQUARE_BRACKET .KIND_PUNCTUATOR lxr.index
        (lxr.view lxr.index 1))).advance_char 1

/-- The question mark, `lexer_token_questionmark` (lines 602-613). -/
def lexer_token_questionmark (lxr : Lexer) : Lexer :=
  if lxr.index ≥ lxr.src_.length then lxr.set_current lxr.end_of_file
  else
    (lxr.set_current
      (Token.init .TOKEN_QUESTION_MARK .KIND_PUNCTUATOR lxr.index
        (lxr.view lxr.index 1))).advance_char 1

/-- The colon, `lexer_token_colon` (lines 616-634). -/
def lexer_token_colon (lxr : Lexer) : Lexer :=
  if lxr.index ≥ lxr.src_.length then lxr.set_current lxr.end_of_file
  else if lxr.peek_char = ':' then
    (lxr.set_current
      (Token.init .TOKEN_CONST_TYPE_ASSIGNMENT .KIND_BINARY_EXPR_OPERATOR lxr.index
        (lxr.view lxr.index 2))).advance_char 2
  else
    (lxr.set_current
      (Token.init .TOKEN_TYPE_ASSIGNMENT .KIND_BINARY_EXPR_OPERATOR lxr.index
        (lxr.view lxr.index 1))).advance_char 1

/-- The dot, `lexer_token_dot` (lines 636-647). -/
def lexer_token_dot (lxr : Lexer) : Lexer :=
  if lxr.index ≥ lxr.src_.length then lxr.set_current lxr.end_of_file
  else
    (lxr.set_current
      (Token.init .TOKEN_DOT .KIND_PUNCTUATOR lxr.index
        (lxr.view lxr.index 1))).advance_char 1

/-- The backslash, `lexer_token_backslash` (lines 649-660). -/
def lexer_token_backslash (lxr : Lexer) : Lexer :=
  if lxr.index ≥ lxr.src_.length then lxr.set_current lxr.end_of_file
  else
    (lxr.set_current
      (Token.init .TOKEN_NAMESPACE_ACCESS .KIND_UNSPECIFIC lxr.index
        (lxr.view lxr.index 1))).advance_char 1

/-- The NUL byte, `lexer_token_null` (lines 662-665). -/
def lexer_token_null (lxr : Lexer) : Lexer :=
  lxr.set_current lxr.end_of_file

/-- The at sign, `lexer_token_at` (lines 667-677). -/
def lexer_token_at (lxr : Lexer) : Lexer :=
  if lxr.index ≥ lxr.src_.length then lxr.set_current lxr.end_of_file
  else
    (lxr.set_current
      (Token.init .TOKEN_AT .KIND_PUNCTUATOR lxr.index
        (lxr.view lxr.index 1))).advance_char 1

/-- The backtick, `lexer_token_backtick` (lines 686-697). -/
def lexer_token_backtick (lxr : Lexer) : Lexer :=
  if lxr.index ≥ lxr.src_.length then lxr.set_current lxr.end_of_file
  else
    (lxr.set_current
      (Token.init .TOKEN_ILLEGAL .KIND_PUNCTUATOR lxr.index
        (lxr.view lxr.index 1))).advance_char 1

/-- The pound sign, `lexer_token_pound` (lines 699-710). -/
def lexer_token_pound (lxr : Lexer) : Lexer :=
  if lxr.index ≥ lxr.src_.length then lxr.set_current lxr.end_of_file
  else
    (lxr.set_current
      (Token.init .TOKEN_ILLEGAL .KIND_PUNCTUATOR lxr.index
        (lxr.view lxr.index 1))).advance_char 1

/-! ## Operators: vocabulary of the statements -/

/-- An operator of a family, as the specification lists it: its bytes and the type of its
token. -/
structure spec_operator where
  bytes : List Char
  type : token_t

/-- The family of `-`: `->`, `-=`, `--`, `-`. -/
def spec_family_hyphen : List spec_operator :=
  [⟨['-', '>'], .TOKEN_ARROW⟩,
   ⟨['-', '='], .TOKEN_SUBEQ⟩,
   ⟨['-', '-'], .TOKEN_DECREMENT⟩,
   ⟨['-'], .TOKEN_SUB⟩]

/-- The family of `+`: `+=`, `++`, `+`. -/
def spec_family_plus : List spec_operator :=
  [⟨['+', '='], .TOKEN_PLUSEQ⟩,
   ⟨['+', '+'], .TOKEN_INCREMENT⟩,
   ⟨['+'], .TOKEN_PLUS⟩]

/-- The family of `*`: `*=`, `*`. -/
def spec_family_asterisk : List spec_operator :=
  [⟨['*', '='], .TOKEN_MULEQ⟩,
   ⟨['*'], .TOKEN_MUL⟩]

/-- The family of `%`: `%=`, `%`. -/
def spec_family_percent : List spec_operator :=
  [⟨['%', '='], .TOKEN_MODEQ⟩,
   ⟨['%'], .TOKEN_MOD⟩]

/-- The family of `=`: `==`, `=`. -/
def spec_family_equals : List spec_operator :=
  [⟨['=', '='], .TOKEN_COMP_EQUALS⟩,
   ⟨['='], .TOKEN_VALUE_ASSIGNMENT⟩]

/-- The family of `<`: `<=`, `<<=`, `<<`, `<`. -/
def spec_family_lessthan : List spec_operator :=
  [⟨['<', '='], .TOKEN_COMP_LTE⟩,
   ⟨['<', '<', '='], .TOKEN_BITWISE_LSHIFTEQ⟩,
   ⟨['<', '<'], .TOKEN_BITWISE_LSHIFT⟩,
   ⟨['<'], .TOKEN_COMP_LT⟩]

/-- The family of `>`: `>=`, `>>=`, `>>`, `>`. -/
def spec_family_greaterthan : List spec_operator :=
  [⟨['>', '='], .TOKEN_COMP_GTE⟩,
   ⟨['>', '>', '='], .TOKEN_BITWISE_RSHIFTEQ⟩,
   ⟨['>', '>'], .TOKEN_BITWISE_RSHIFT⟩,
   ⟨['>'], .TOKEN_COMP_GT⟩]

/-- The family of `&`: `&&`, `&=`, `&`. -/
def spec_family_ampersand : List spec_operator :=
  [⟨['&', '&'], .TOKEN_CONDITIONAL_AND⟩,
   ⟨['&', '='], .TOKEN_BITWISE_ANDEQ⟩,
   ⟨['&'], .TOKEN_BITWISE_AND⟩]

/-- The family of `|`: `||`, `|=`, `|`. -/
def spec_family_verticalline : List spec_operator :=
  [⟨['|', '|'], .TOKEN_CONDITIONAL_OR⟩,
   ⟨['|', '='], .TOKEN_BITWISE_OREQ⟩,
   ⟨['|'], .TOKEN_BITWISE_OR⟩]

/-- The family of `!`: `!=`, `!`. -/
def spec_family_exclamation : List spec_operator :=
  [⟨['!', '='], .TOKEN_COMP_NOT_EQUALS⟩,
   ⟨['!'], .TOKEN_CONDITIONAL_NOT⟩]

/-- The family of `^`: `^=`, `^`. -/
def spec_family_uparrow : List spec_operator :=
  [⟨['^', '='], .TOKEN_BITWISE_XOREQ⟩,
   ⟨['^'], .TOKEN_BITWISE_XOR_OR_PTR⟩]

/-- The family of `:`: `::`, `:`. -/
def spec_family_colon : List spec_operator :=
  [⟨[':', ':'], .TOKEN_CONST_TYPE_ASSIGNMENT⟩,
   ⟨[':'], .TOKEN_TYPE_ASSIGNMENT⟩]

/-- The operator families of the specification by leading character, each with the handler
of that character: `-` gives `->`, `-=`, `--`, else `-`, and so on. -/
def spec_operator_families : List (Char × List spec_operator × (Lexer → Lexer)) :=
  [('-', spec_family_hyphen, lexer_token_hyphen),
   ('+', spec_family_plus, lexer_token_plus),
   ('*', spec_family_asterisk, lexer_token_asterisk),
   ('%', spec_family_percent, lexer_token_percent),
   ('=', spec_family_equals, lexer_token_equals),
   ('<', spec_family_lessthan, lexer_token_lessthan),
   ('>', spec_family_greaterthan, lexer_token_greaterthan),
   ('&', spec_family_ampersand, lexer_token_ampersand),
   ('|', spec_family_verticalline, lexer_token_verticalline),
   ('!', spec_family_exclamation, lexer_token_exclamation),
   ('^', spec_family_uparrow, lexer_token_uparrow),
   (':', spec_family_colon, lexer_token_colon)]

/-- Maximal munch for the handler of the leading character `c`: with the cursor on `c`, the
handler emits an operator of the family that starts the remaining input and is as long as
any operator of the family that starts it; the lexeme is the bytes of that operator, the
token starts at the cursor, and the cursor moves by the length of the lexeme. -/
def spec_maximal_munch (c : Char) (family : List spec_operator) (handler : Lexer → Lexer) :
    Prop :=
  ∀ (lxr : Lexer) (rest : List Char), lxr.src_.drop lxr.index = c :: rest →
    ∃ op ∈ family, (∃ tail, c :: rest = op.bytes ++ tail) ∧
      (∀ op' ∈ family, (∃ tail, c :: rest = op'.bytes ++ tail) →
        op'.bytes.length ≤ op.bytes.length) ∧
      (handler lxr).current_.type = op.type ∧
      (handler lxr).current_.value = op.bytes ∧
      (handler lxr).current_.src_pos = lxr.index ∧
      (handler lxr).index = lxr.index + op.bytes.length ∧
      (handler lxr).src_ = lxr.src_ ∧
      (handler lxr).curr_line = lxr.curr_line

/-! ## Concrete buffers -/

/-- A lexer on line 1 with the cursor at `index` of the buffer `src`, before any token. -/
def lexer_at (src : List Char) (index : Nat) : Lexer :=
  { src_ := src, index := index, curr_line := 1,
    current_ := Token.init .TOKEN_NONE .KIND_UNSPECIFIC 0 [] }

/-! ## Comments and literals: vocabulary of the statements -/

/-- The number of bytes the loop of a block comment passes, from the bytes left at the
cursor: up to the first NUL, or up to and with the first `*/`. -/
def block_comment_scan : List Char → Nat
  | [] => 0
  | c :: rest =>
    if c = NUL then 0
    else if c = '*' ∧ rest.headD NUL = '/' then 2
    else 1 + block_comment_scan rest

/-- The offset of the first `*/` in a byte string, if there is one. -/
def spec_first_close : List Char → Option Nat
  | [] => none
  | c :: rest =>
    if c = '*' ∧ rest.head? = some '/' then some 0
    else (spec_first_close rest).map (· + 1)

/-- The line counter after `k` calls of `advance_line`. -/
def advance_lines : Nat → Nat → Nat
  | 0, line => line
  | k + 1, line => advance_lines k ((line + 1) % 2 ^ 32)

/-- The number of bytes the loop of a line comment passes, from the bytes left at the
cursor: up to the first NUL or newline. -/
def line_comment_scan : List Char → Nat
  | [] => 0
  | c :: rest => if c ≠ NUL ∧ c ≠ NEWLINE then 1 + line_comment_scan rest else 0

/-- The invariant of the line counter: it is one more than the number of newline bytes
before the cursor. -/
def line_invariant (lxr : Lexer) : Prop :=
  lxr.curr_line = 1 + (lxr.src_.take lxr.index).count NEWLINE

/-- The buffer `/* x */`: a block comment whose closer ends the buffer. -/
def buf_comment_at_end : List Char := ['/', '*', ' ', 'x', ' ', '*', '/']

/-- The buffer `/* x */ y`. -/
def buf_comment_then_y : List Char := ['/', '*', ' ', 'x', ' ', '*', '/', ' ', 'y']

/-- The buffer `/*/ x */`: the first `*/` after the opener `/*` is at the end. -/
def buf_opener_slash_closed : List Char := ['/', '*', '/', ' ', 'x', ' ', '*', '/']

/-- The buffer `/*/ x`: after the opener `/*` there is no `*/`. -/
def buf_opener_slash : List Char := ['/', '*', '/', ' ', 'x']

/-- The buffer of a comment over three lines and a token, `/* a`, `b`, `*/ y`. -/
def buf_comment_lines : List Char :=
  ['/', '*', ' ', 'a', NEWLINE, 'b', NEWLINE, '*', '/', ' ', 'y']

/-- The buffer of a string literal with a raw newline, `"a`, `b" x`. -/
def buf_string_newline : List Char :=
  [Char.ofNat 34, 'a', NEWLINE, 'b', Char.ofNat 34, ' ', 'x']

/-- The buffer of a character literal that is a raw newline, then ` x`. -/
def buf_char_newline : List Char := [SINGLE_QUOTE, NEWLINE, SINGLE_QUOTE, ' ', 'x']

/-- The handlers of `tokens.cpp` without a loop, other than that of the newline: all but
`lexer_token_newline`, `lexer_token_fwdslash`, `lexer_token_quote` and
`lexer_token_singlequote`. -/
def handlers_without_loop : List (Lexer → Lexer) :=
  [lexer_token_skip, lexer_token_semicolon, lexer_token_lparen, lexer_token_rparen,
   lexer_token_lbrace, lexer_token_rbrace, lexer_token_comma, lexer_token_hyphen,
   lexer_token_plus, lexer_token_asterisk, lexer_token_percent, lexer_token_equals,
   lexer_token_lessthan, lexer_token_greaterthan, lexer_token_ampersand,
   lexer_token_verticalline, lexer_token_exclamation, lexer_token_tilde, lexer_token_uparrow,
   lexer_token_lsquarebracket, lexer_token_rsquarebracket, lexer_token_questionmark,
   lexer_token_colon, lexer_token_dot, lexer_token_backslash, lexer_token_null,
   lexer_token_at, lexer_token_backtick, lexer_token_pound]

/-! ## Literals: the vocabulary of the specification -/

/-- The offset `j`, after the opening quote at `s`, holds the quote byte `q` and the byte
before it is not a backslash: in the words of the specification, an unescaped closing
quote. -/
def spec_unescaped_quote (src : List Char) (s : Nat) (q : Char) (j : Nat) : Prop :=
  s < j ∧ j < src.length ∧ src.getD j NUL = q ∧ src.getD (j - 1) NUL ≠ BACKSLASH

instance (src : List Char) (s : Nat) (q : Char) (j : Nat) :
    Decidable (spec_unescaped_quote src s q j) := by
  unfold spec_unescaped_quote
  infer_instance

/-- The offset `e` is the smallest one after `s` that holds an unescaped closing quote. -/
def spec_closing_quote (src : List Char) (s : Nat) (q : Char) (e : Nat) : Prop :=
  spec_unescaped_quote src s q e ∧ ∀ j < e, ¬ spec_unescaped_quote src s q j

instance (src : List Char) (s : Nat) (q : Char) (e : Nat) :
    Decidable (spec_closing_quote src s q e) := by
  unfold spec_closing_quote
  infer_instance

/-- The buffer `"a\"b" x`: a string literal with an escaped quote inside. -/
def buf_string_escaped_quote : List Char :=
  ['"', 'a', BACKSLASH, '"', 'b', '"', ' ', 'x']

/-- The buffer `"a\"`: the only quote after the opening one is escaped. -/
def buf_string_unterminated : List Char :=
  ['"', 'a', BACKSLASH, '"']

/-- The three shapes of a character literal in the words of the specification, with the
length of the lexeme: the empty literal, a single byte that is neither a quote nor a
backslash, and a backslash with any byte after it. -/
@[mk_iff]
inductive spec_char_literal : List Char → Nat → Prop
  | empty (tail : List Char) :
      spec_char_literal (SINGLE_QUOTE :: SINGLE_QUOTE :: tail) 2
  | single (c : Char) (tail : List Char) : c ≠ SINGLE_QUOTE → c ≠ BACKSLASH →
      spec_char_literal (SINGLE_QUOTE :: c :: SINGLE_QUOTE :: tail) 3
  | escape (x : Char) (tail : List Char) :
      spec_char_literal (SINGLE_QUOTE :: BACKSLASH :: x :: SINGLE_QUOTE :: tail) 4

/-- The buffer `'\n' x`. -/
def buf_char_escape : List Char :=
  [SINGLE_QUOTE, BACKSLASH, 'n', SINGLE_QUOTE, ' ', 'x']

/-- The buffer `'ab'`. -/
def buf_char_two_bytes : List Char :=
  [SINGLE_QUOTE, 'a', 'b', SINGLE_QUOTE]

/-- The handlers of `tokens.cpp` that test for the end of the buffer on entry and stop
there: all of them but `lexer_token_plus` and `lexer_token_singlequote`. -/
def handlers_with_end_test : List (Lexer → Lexer) :=
  [lexer_token_skip, lexer_token_newline, lexer_token_semicolon, lexer_token_lparen,
   lexer_token_rparen, lexer_token_lbrace, lexer_token_rbrace, lexer_token_comma,
   lexer_token_hyphen, lexer_token_asterisk, lexer_token_fwdslash, lexer_token_percent,
   lexer_token_equals, lexer_token_lessthan, lexer_token_greaterthan, lexer_token_ampersand,
   lexer_token_verticalline, lexer_token_exclamation, lexer_token_tilde, lexer_token_uparrow,
   lexer_token_quote, lexer_token_lsquarebracket, lexer_token_rsquarebracket,
   lexer_token_questionmark, lexer_token_colon, lexer_token_dot, lexer_token_backslash,
   lexer_token_null, lexer_token_at, lexer_token_backtick, lexer_token_pound]

/-- The handlers of `tokens.cpp` that build their token from the offset of the cursor on
entry: all of them but `lexer_token_quote`. -/
def handlers_from_cursor : List (Lexer → Lexer) :=
  handlers_without_loop ++ [lexer_token_newline, lexer_token_fwdslash, lexer_token_singlequote]

/-- The buffer `x`, of one byte. -/
def buf_x : List Char := ['x']

/-- The buffer `"ab"`. -/
def buf_string_ab : List Char := ['"', 'a', 'b', '"']

/-- The buffer `<<=`. -/
def buf_shift_assign : List Char := ['<', '<', '=']

/-- The token is a slice of the buffer that starts at its own position. -/
def Token.is_slice_of (t : Token) (src : List Char) : Prop :=
  t.value = (src.drop t.src_pos).take t.value.length

instance (t : Token) (src : List Char) : Decidable (t.is_slice_of src) := by
  unfold Token.is_slice_of
  infer_instance


/-! ## `parser_parsedecl.cpp`: symbols, flags and scopes -/

/-- Modelled from the spec: `SYM_FLAGS_NONE`, the empty set of flags.  The values of the
flags are declared in a header that is not available; each flag is taken to be a bit of its
own. -/
def SYM_FLAGS_NONE : Nat := 0

/-- Modelled from the spec: the flag `global`, a bit of its own. -/
def SYM_IS_GLOBAL : Nat := 1

/-- Modelled from the spec: the flag `constant`, a bit of its own. -/
def SYM_IS_CONSTANT : Nat := 2

/-- Modelled from the spec: the flag `pointer`, a bit of its own. -/
def SYM_IS_POINTER : Nat := 4

/-- Modelled from the spec: the flag `array`, a bit of its own. -/
def SYM_IS_ARRAY : Nat := 8

/-- Modelled from the spec: the flag `procarg`, a bit of its own. -/
def SYM_IS_PROCARG : Nat := 16

/-- Modelled from the spec: the flag `default_initialized`, a bit of its own. -/
def SYM_DEFAULT_INITIALIZED : Nat := 32

/-- The test `flags & bit`. -/
def has_flag (flags bit : Nat) : Bool :=
  flags &&& bit != 0

/-- The primitive type of a type keyword, `token_to_var_t` (`basic_utility.cpp`, lines
29-46). -/
def token_to_var_t (tok_t : token_t) : var_t :=
  match tok_t with
  | .TOKEN_KW_I8 => .VAR_I8
  | .TOKEN_KW_U8 => .VAR_U8
  | .TOKEN_KW_I16 => .VAR_I16
  | .TOKEN_KW_U16 => .VAR_U16
  | .TOKEN_KW_I32 => .VAR_I32
  | .TOKEN_KW_U32 => .VAR_U32
  | .TOKEN_KW_I64 => .VAR_I64
  | .TOKEN_KW_U64 => .VAR_U64
  | .TOKEN_KW_F32 => .VAR_F32
  | .TOKEN_KW_F64 => .VAR_F64
  | .TOKEN_KW_BOOL => .VAR_BOOLEAN
  | _ => .VAR_NONE

/-- Modelled from the spec: `peek(n)`, "the token that `advance(n)` would set as current,
without committing cursor or line-counter changes". -/
def lexer.peek (lxr : lexer) (n : Nat) : Token :=
  (lxr.advance n).current

/-- Modelled from the spec: `scoped_symbol_exists_at_current_scope(name)`; with no scope on
the stack no name exists. -/
def parser.scoped_symbol_exists_at_current_scope (p : parser) (name : String) : Bool :=
  match p.scope_stack_.getLast? with
  | none => false
  | some scope => scope.any (fun entry => entry.1 == name)

/-- Modelled from the spec: `push_scope()`, a new empty scope on top of the stack. -/
def parser.push_scope (p : parser) : parser :=
  { p with scope_stack_ := p.scope_stack_ ++ [[]] }

/-- Modelled from the spec: `pop_scope()`, "pop matches the most recent push"; the symbols of
the scope stay in the table ("symbols live for the duration of the parse session"). -/
def parser.pop_scope (p : parser) : parser :=
  { p with scope_stack_ := p.scope_stack_.dropLast }

/-- Modelled from the spec: the index of the next symbol.  "Symbol IDs are stable
monotonically increasing integers", and zero is the reserved value. -/
def parser.next_symbol_index (p : parser) : Nat :=
  p.sym_table_.foldr (fun s index => max s.symbol_index index) 0 + 1

/-- Modelled from the spec: `create_symbol(name, pos, line, kind, flags)`, which "allocates a
new unique ID, installs `(name → id)` in the current scope, stores a symbol record" and
"fails if `name` already exists in the current scope".  The result is the pointer to the new
symbol, here its index, or nothing.  Namespaces are not represented: the name is stored as
given.  With no scope on the stack the record is stored and no name is installed. -/
def parser.create_symbol (p : parser) (name : String) (src_pos line : Nat) (sym_type : sym_t)
    (flags : Nat) : Option Nat × parser :=
  if p.scoped_symbol_exists_at_current_scope name then (none, p)
  else
    let s : symbol :=
      { symbol_index := p.next_symbol_index, name := name, sym_type := sym_type, flags := flags,
        src_pos := src_pos, line_number := line }
    (some s.symbol_index,
      { p with
        sym_table_ := p.sym_table_ ++ [s]
        scope_stack_ :=
          match p.scope_stack_.getLast? with
          | none => p.scope_stack_
          | some scope => p.scope_stack_.dropLast ++ [scope ++ [(name, s.symbol_index)]] })

/-- A write through a pointer to a symbol, `sym->member = ...`: the pointer is the index of
the symbol, and the entry of the table with that index is changed. -/
def parser.modify_symbol (p : parser) (sym : Nat) (f : symbol → symbol) : parser :=
  { p with sym_table_ := p.sym_table_.map (fun s => if s.symbol_index = sym then f s else s) }

/-- Modelled from the spec: what `std::stoul` of the C++ standard library does with a string:
it returns a value or throws one of two exceptions. -/
inductive stoul_result
  | value (v : Nat)
  | out_of_range
  | invalid_argument
  deriving DecidableEq

/-- Modelled from the spec: the white space `std::stoul` skips, the bytes for which `isspace`
holds. -/
def stoul_space (c : Char) : Bool :=
  c = ' ' ∨ (9 ≤ c.toNat ∧ c.toNat ≤ 13)

/-- The value of a string of decimal digits. -/
def decimal_value (digits : List Char) : Nat :=
  digits.foldl (fun acc c => 10 * acc + (c.toNat - 48)) 0

/-- Modelled from the spec: `std::stoul(str)` of the C++ standard library, in base 10 on an
`unsigned long` of 64 bits: white space is skipped, a sign is read, then the longest run of
decimal digits is converted.  No digit gives `invalid_argument`, a value of `2 ^ 64` or more
gives `out_of_range`, and a minus sign negates the value modulo `2 ^ 64`. -/
def stoul (str : List Char) : stoul_result :=
  let body := str.dropWhile stoul_space
  let negative := body.head? = some '-'
  let unsigned := if body.head? = some '-' ∨ body.head? = some '+' then body.tail else body
  let digits := unsigned.takeWhile Char.isDigit
  if digits = [] then .invalid_argument
  else if decimal_value digits ≥ 2 ^ 64 then .out_of_range
  else if negative then .value ((2 ^ 64 - decimal_value digits) % 2 ^ 64)
  else .value (decimal_value digits)

/-! ## `parser_parsedecl.cpp`: the declaration parser -/

/-- The loop `while(lxr.current() == BITWISE_XOR_OR_PTR)` over the pointer markers of a type,
written in `parse_proc_ptr` (lines 20-23) and in `parse_vardecl` (lines 405-408): each
iteration increments the `pointer_depth` of the symbol, taken to be a `uint16_t` like the local
counter of `parse_parameterized_vardecl`, and consumes the marker.  The loop runs at most
once per token. -/
def pointer_depth_loop (sym : Nat) : Nat → parser → lexer → parser × lexer
  | 0, p, lxr => (p, lxr)
  | fuel + 1, p, lxr =>
    if lxr.current.type = .TOKEN_BITWISE_XOR_OR_PTR then
      pointer_depth_loop sym fuel
        (p.modify_symbol sym (fun s => { s with pointer_depth := incr16 s.pointer_depth }))
        (lxr.advance 1)
    else (p, lxr)

/-- The check for an array type, written in `parse_proc_ptr` (lines 30-63) and in
`parse_vardecl` (lines 411-448).  The result is `false` where the source returns `nullptr`.
The member `array_length` is taken to hold every value of an `unsigned long`. -/
def parse_array_suffix (sym : Nat) (p : parser) (lxr : lexer) : Bool × parser × lexer :=
  if lxr.current.type = .TOKEN_LSQUARE_BRACKET then
    let p1 := p.modify_symbol sym (fun s => { s with flags := s.flags ||| SYM_IS_ARRAY })
    let lxr1 := lxr.advance 1
    if lxr1.current.type = .TOKEN_INTEGER_LITERAL then
      match stoul lxr1.current.value with
      | .out_of_range => (false, p1, lxr1.raise_error "Array size is too large.")
      | .invalid_argument =>
        (false, p1,
          lxr1.raise_error "Array size must be a valid non-negative integer literal.")
      | .value v =>
        let p2 := p1.modify_symbol sym (fun s => { s with array_length := v })
        if v = 0 then (false, p2, lxr1.raise_error "Array length cannot be 0.")
        else
          let lxr2 := lxr1.advance 1
          if lxr2.current.type ≠ .TOKEN_RSQUARE_BRACKET then
            (false, p2, lxr2.raise_error "Expected closing square bracket.")
          else (true, p2, lxr2.advance 1)
    else if lxr1.current.type ≠ .TOKEN_RSQUARE_BRACKET then
      (false, p1, lxr1.raise_error "Expected closing square bracket.")
    else (true, p1, lxr1.advance 1)
  else (true, p, lxr)

/-- The end of `parse_proc_ptr` (lines 113-150) and of `parse_vardecl` (lines 451-490): the
node is made, and an initializer is parsed if `=` follows. -/
def parse_initializer (recurse : expr_fn) (sym : Nat) (p : parser) (lxr : lexer) :
    parse_result :=
  if lxr.current.type = .TOKEN_VALUE_ASSIGNMENT then
    let curr_pos := lxr.current.src_pos
    let curr_line := lxr.current.line
    match recurse p (lxr.advance 1) true false with
    | none => none
    | some (none, p1, lxr1) => some (none, p1, lxr1)
    | some (some init_value, p1, lxr1) =>
      if VALID_SUBEXPRESSION init_value.type = false then
        some (none, p1,
          lxr1.raise_error_at "Invalid expression being assigned to variable." curr_pos
            curr_line)
      else some (some (.vardecl { symbol_index := sym } (some init_value)), p1, lxr1)
  else
    some (some (.vardecl { symbol_index := sym } none),
      p.modify_symbol sym (fun s => { s with flags := s.flags ||| SYM_DEFAULT_INITIALIZED }),
      lxr)

/-- The loop over the parameter types of `parse_proc_ptr` (lines 77-89).  An iteration that
does not return consumes a token, so the loop is entered with a counter above the number of
tokens. -/
def parse_proc_ptr_parameters (proc : Nat) :
    Nat → parser → lexer → Option (Bool × parser × lexer)
  | 0, _, _ => none
  | fuel + 1, p, lxr =>
    if lxr.current.type ≠ .TOKEN_RPAREN then
      if lxr.current.kind ≠ .KIND_TYPE_IDENTIFIER then
        some (false, p, lxr.raise_error "Expected type identifier.")
      else
        let p1 := p.modify_symbol proc
          (fun s =>
            { s with parameter_list := s.parameter_list ++ [token_to_var_t lxr.current.type] })
        let lxr1 := lxr.advance 1
        if lxr1.current.type = .TOKEN_COMMA then
          parse_proc_ptr_parameters proc fuel p1 (lxr1.advance 1)
        else parse_proc_ptr_parameters proc fuel p1 lxr1
    else some (true, p, lxr)

/-- A procedure pointer, `parse_proc_ptr` (lines 8-151); `proc` is the index of the symbol
the pointer `proc` refers to. -/
def parse_proc_ptr (recurse : expr_fn) (proc : Nat) (p : parser) (lxr : lexer) : parse_result :=
  if lxr.current.type ≠ .TOKEN_KW_PROC then none
  else if (lxr.peek 1).type ≠ .TOKEN_BITWISE_XOR_OR_PTR then none
  else
    let (p1, lxr1) := pointer_depth_loop proc (lxr.tokens.length + 1) p (lxr.advance 1)
    match parse_array_suffix proc p1 lxr1 with
    | (false, p2, lxr2) => some (none, p2, lxr2)
    | (true, p2, lxr2) =>
      if lxr2.current.type ≠ .TOKEN_LPAREN ∨
          ((lxr2.peek 1).kind ≠ .KIND_TYPE_IDENTIFIER ∧ (lxr2.peek 1).type ≠ .TOKEN_RPAREN) then
        some (none, p2,
          lxr2.raise_error
            "Expected list of accepted parameter types. Example: \"(i32, i8, bool)\".")
      else
        match parse_proc_ptr_parameters proc (lxr2.tokens.length + 1) p2 (lxr2.advance 1) with
        | none => none
        | some (false, p3, lxr3) => some (none, p3, lxr3)
        | some (true, p3, lxr3) =>
          if (lxr3.peek 1).type ≠ .TOKEN_ARROW ∨ (lxr3.peek 2).kind ≠ .KIND_TYPE_IDENTIFIER then
            some (none, p3,
              lxr3.raise_error
                "Expected procedure return type after parameter list. Example: -> i32")
          else
            let lxr4 := lxr3.advance 2
            let p4 := p3.modify_symbol proc
              (fun s => { s with return_type := token_to_var_t lxr4.current.type })
            if token_to_var_t lxr4.current.type = .VAR_NONE ∧
                lxr4.current.type ≠ .TOKEN_KW_VOID then
              some (none, p4, lxr4.raise_error "Invalid procedure return type.")
            else parse_initializer recurse proc p4 (lxr4.advance 1)

/-- The loop over the pointer markers of a parameter, `parse_parameterized_vardecl` (lines
204-207): the local counter `ptr_depth` is a `uint16_t`. -/
def parse_parameterized_vardecl_depth : Nat → Nat → lexer → Nat × lexer
  | 0, ptr_depth, lxr => (ptr_depth, lxr)
  | fuel + 1, ptr_depth, lxr =>
    if lxr.current.type = .TOKEN_BITWISE_XOR_OR_PTR then
      parse_parameterized_vardecl_depth fuel (incr16 ptr_depth) (lxr.advance 1)
    else (ptr_depth, lxr)

/-- A parameter of a procedure, `parse_parameterized_vardecl` (lines 154-239). -/
def parse_parameterized_vardecl (p : parser) (lxr : lexer) : parse_result :=
  if lxr.current.type ≠ .TOKEN_IDENTIFIER then none
  else
    let name := String.mk lxr.current.value
    let src_pos := lxr.current.src_pos
    let line := lxr.current.line
    let lxr1 := lxr.advance 1
    if lxr1.current.type ≠ .TOKEN_CONST_TYPE_ASSIGNMENT ∧
        lxr1.current.type ≠ .TOKEN_TYPE_ASSIGNMENT then
      some (none, p, lxr1.raise_error "Expected type assignment here. Got this instead.")
    else
      let flags :=
        if lxr1.current.type = .TOKEN_CONST_TYPE_ASSIGNMENT then
          SYM_IS_PROCARG ||| SYM_IS_CONSTANT
        else SYM_IS_PROCARG
      let lxr2 := lxr1.advance 1
      if lxr2.current.kind ≠ .KIND_TYPE_IDENTIFIER then
        some (none, p, lxr2.raise_error "Expected type identifier. Got this instead.")
      else if lxr2.current.type = .TOKEN_KW_VOID then
        some (none, p,
          lxr2.raise_error "Void can only be used as a procedure return type.")
      else if lxr2.current.type = .TOKEN_KW_PROC then
        some (none, p,
          lxr2.raise_error "Procedures cannot be used as procedure parameters.")
      else if token_to_var_t lxr2.current.type = .VAR_NONE then
        some (none, p, lxr2.raise_error "Unrecognized type identifier.")
      else
        let var_type := token_to_var_t lxr2.current.type
        let lxr3 := lxr2.advance 1
        let flags1 :=
          if lxr3.current.type = .TOKEN_BITWISE_XOR_OR_PTR then flags ||| SYM_IS_POINTER
          else flags
        let (ptr_depth, lxr4) :=
          parse_parameterized_vardecl_depth (lxr3.tokens.length + 1) 0 lxr3
        if lxr4.current.type = .TOKEN_LSQUARE_BRACKET then
          some (none, p,
            lxr4.raise_error
              "Static arrays cannot be used as parameters. Pass an array as a pointer instead.")
        else if p.scoped_symbol_exists_at_current_scope name then
          some (none, p, lxr4.raise_error "Symbol already exists within this scope.")
        else
          match p.create_symbol name src_pos line .SYM_VARIABLE flags1 with
          | (none, p1) => some (none, p1, lxr4)
          | (some var_ptr, p1) =>
            some (some (.vardecl { symbol_index := var_ptr } none),
              p1.modify_symbol var_ptr
                (fun s =>
                  { s with
                    array_length := 0, pointer_depth := ptr_depth, variable_type := var_type }),
              lxr4)

/-- The loop over the body of a procedure, `parse_procdecl` (lines 358-381); `body` holds
the expressions collected so far. -/
def parse_procdecl_body (recurse : expr_fn) (proc : Nat) (parameters : List ast_node) :
    Nat → List ast_node → parser → lexer → parse_result
  | 0, _, _, _ => none
  | fuel + 1, body, p, lxr =>
    if lxr.current.type ≠ .TOKEN_RBRACE then
      let curr_pos := lxr.current.src_pos
      let line := lxr.current.line
      match recurse p lxr false false with
      | none => none
      | some (none, p1, lxr1) => some (none, p1, lxr1)
      | some (some expr, p1, lxr1) =>
        if expr.type = .NODE_STRUCT_DEFINITION ∨ expr.type = .NODE_PROCDECL ∨
            expr.type = .NODE_ENUM_DEFINITION then
          some (none, p1,
            lxr1.raise_error_at "Illegal expression inside of procedure body." curr_pos line)
        else parse_procdecl_body recurse proc parameters fuel (body ++ [expr]) p1 lxr1
    else some (some (.procdecl { symbol_index := proc } parameters body), p, lxr.advance 1)

/-- The loop that copies the types of the parameters to the symbol of the procedure,
`parse_procdecl` (lines 332-339).  The result is `false` where the source returns
`nullptr`. -/
def parse_procdecl_parameter_types (proc : Nat) : List ast_node → parser → Bool × parser
  | [], p => (true, p)
  | .vardecl identifier _ :: rest, p =>
    match p.lookup_unique_symbol identifier.symbol_index with
    | none => (false, p)
    | some symbol_ptr =>
      if symbol_ptr.sym_type ≠ .SYM_VARIABLE then (false, p)
      else
        parse_procdecl_parameter_types proc rest
          (p.modify_symbol proc
            (fun s =>
              { s with parameter_list := s.parameter_list ++ [symbol_ptr.variable_type] }))
  | _ :: _, p => (false, p)

/-- The part of `parse_procdecl` after the parameters (lines 314-381): the return type, the
types of the parameters and the body. -/
def parse_procdecl_return_type (recurse : expr_fn) (fuel : Nat) (proc : Nat)
    (parameters : List ast_node) (p : parser) (lxr : lexer) : parse_result :=
  let lxr1 := lxr.advance 1
  if lxr1.current.type ≠ .TOKEN_ARROW ∨ (lxr1.peek 1).kind ≠ .KIND_TYPE_IDENTIFIER then
    some (none, p,
      lxr1.raise_error "Expected procedure return type after parameter list. Example: -> i32")
  else
    let lxr2 := lxr1.advance 1
    let p1 := p.modify_symbol proc
      (fun s => { s with return_type := token_to_var_t lxr2.current.type })
    if token_to_var_t lxr2.current.type = .VAR_NONE ∧ lxr2.current.type ≠ .TOKEN_KW_VOID then
      some (none, p1, lxr2.raise_error "Unrecognized return type.")
    else
      match parse_procdecl_parameter_types proc parameters p1 with
      | (false, p2) => some (none, p2, lxr2)
      | (true, p2) =>
        let lxr3 := lxr2.advance 1
        if lxr3.current.type ≠ .TOKEN_LBRACE then
          some (none, p2, lxr3.raise_error "Expected start of procedure body here.")
        else parse_procdecl_body recurse proc parameters fuel [] p2 (lxr3.advance 1)

/-- The loop over the parameters of a procedure, `parse_procdecl` (lines 288-307), and what
follows it; `parameters` holds the parameters collected so far. -/
def parse_procdecl_parameters (recurse : expr_fn) (fuel : Nat) (proc : Nat) :
    Nat → List ast_node → parser → lexer → parse_result
  | 0, _, _, _ => none
  | count + 1, parameters, p, lxr =>
    if lxr.current.type ≠ .TOKEN_RPAREN then
      if lxr.current.type ≠ .TOKEN_IDENTIFIER then
        some (none, p, lxr.raise_error "Expected procedure parameter.")
      else
        match parse_parameterized_vardecl p lxr with
        | none => none
        | some (none, p1, lxr1) => some (none, p1, lxr1)
        | some (some param, p1, lxr1) =>
          if lxr1.current.type = .TOKEN_COMMA then
            parse_procdecl_parameters recurse fuel proc count (parameters ++ [param]) p1
              (lxr1.advance 1)
          else
            parse_procdecl_parameters recurse fuel proc count (parameters ++ [param]) p1 lxr1
    else parse_procdecl_return_type recurse fuel proc parameters p lxr

/-- A procedure definition, `parse_procdecl` (lines 242-382); `proc` is the index of the
symbol the pointer `proc` refers to, and `fuel` bounds the iterations of the loop over the
body.  The guard declared after `push_scope()` runs `pop_scope()` on every return that
follows it. -/
def parse_procdecl (recurse : expr_fn) (fuel : Nat) (proc : Nat) (p : parser) (lxr : lexer) :
    parse_result :=
  if lxr.current.type ≠ .TOKEN_KW_PROC then none
  else
    match p.lookup_unique_symbol proc with
    | none => none
    | some s =>
      if has_flag s.flags SYM_IS_GLOBAL = false then
        some (none, p, lxr.raise_error "Declaration of procedure at non-global scope.")
      else if has_flag s.flags SYM_IS_CONSTANT = false then
        some (none, p,
          lxr.raise_error
            "Procedures must be declared as constant. This one was declared using ':'.")
      else
        let lxr1 := lxr.advance 1
        if lxr1.current.type ≠ .TOKEN_LPAREN then
          some (none, p, lxr1.raise_error "Expected parameter list here.")
        else
          match parse_procdecl_parameters recurse fuel proc ((lxr1.advance 1).tokens.length + 1)
              [] p.push_scope (lxr1.advance 1) with
          | none => none
          | some (node, p1, lxr2) => some (node, p1.pop_scope, lxr2)

/-- A variable declaration, `parse_vardecl` (lines 385-491); `var` is the index of the
symbol the pointer `var` refers to. -/
def parse_vardecl (recurse : expr_fn) (var : Nat) (p : parser) (lxr : lexer) : parse_result :=
  if lxr.current.kind ≠ .KIND_TYPE_IDENTIFIER then none
  else
    let p1 := p.modify_symbol var
      (fun s => { s with variable_type := token_to_var_t lxr.current.type })
    if token_to_var_t lxr.current.type = .VAR_NONE then
      some (none, p1, lxr.raise_error "Unrecognized type identifier.")
    else
      let lxr1 := lxr.advance 1
      let (p2, lxr2) :=
        if lxr1.current.type = .TOKEN_BITWISE_XOR_OR_PTR then
          pointer_depth_loop var (lxr1.tokens.length + 1)
            (p1.modify_symbol var (fun s => { s with flags := s.flags ||| SYM_IS_POINTER })) lxr1
        else (p1, lxr1)
      match parse_array_suffix var p2 lxr2 with
      | (false, p3, lxr3) => some (none, p3, lxr3)
      | (true, p3, lxr3) => parse_initializer recurse var p3 lxr3

/-- A declaration, `parse_decl` (lines 494-574); `fuel` bounds the iterations of the loop
over the body of a procedure. -/
def parse_decl (recurse : expr_fn) (fuel : Nat) (p : parser) (lxr : lexer) : parse_result :=
  if lxr.current.type ≠ .TOKEN_IDENTIFIER then none
  else
    let name := String.mk lxr.current.value
    let src_pos := lxr.current.src_pos
    let line := lxr.current.line
    let lxr1 := lxr.advance 1
    if lxr1.current.type ≠ .TOKEN_CONST_TYPE_ASSIGNMENT ∧
        lxr1.current.type ≠ .TOKEN_TYPE_ASSIGNMENT then
      some (none, p, lxr1.raise_error "Expected type assignment.")
    else
      let flags :=
        if lxr1.current.type = .TOKEN_CONST_TYPE_ASSIGNMENT then
          SYM_FLAGS_NONE ||| SYM_IS_CONSTANT
        else SYM_FLAGS_NONE
      let flags1 := if p.scope_stack_.length ≤ 1 then flags ||| SYM_IS_GLOBAL else flags
      if p.scoped_symbol_exists_at_current_scope name then
        some (none, p,
          lxr1.raise_error_at "Symbol redeclaration, this already exists at the current scope."
            src_pos line)
      else
        let lxr2 := lxr1.advance 1
        if lxr2.current.kind ≠ .KIND_TYPE_IDENTIFIER then
          some (none, p, lxr2.raise_error "Expected type identifier here.")
        else if lxr2.current.type = .TOKEN_KW_VOID then
          some (none, p,
            lxr2.raise_error "Type identifier \"void\" can only be used as a return type.")
        else if lxr2.current.type = .TOKEN_KW_PROC then
          match p.create_symbol name src_pos line .SYM_PROCEDURE flags1 with
          | (none, p1) => some (none, p1, lxr2)
          | (some proc_ptr, p1) =>
            if (lxr2.peek 1).type = .TOKEN_BITWISE_XOR_OR_PTR then
              parse_proc_ptr recurse proc_ptr
                (p1.modify_symbol proc_ptr
                  (fun s => { s with flags := s.flags ||| SYM_IS_POINTER })) lxr2
            else parse_procdecl recurse fuel proc_ptr p1 lxr2
        else
          match p.create_symbol name src_pos line .SYM_VARIABLE flags1 with
          | (none, p1) => some (none, p1, lxr2)
          | (some var_ptr, p1) => parse_vardecl recurse var_ptr p1 lxr2


/-! ## Declarations: vocabulary and concrete inputs -/

/-- The type keywords of the primitive types, as the specification lists them:
`i8 u8 i16 u16 i32 u32 i64 u64 f32 f64 bool`. -/
def spec_primitive_types : List token_t :=
  [.TOKEN_KW_I8, .TOKEN_KW_U8, .TOKEN_KW_I16, .TOKEN_KW_U16, .TOKEN_KW_I32, .TOKEN_KW_U32,
   .TOKEN_KW_I64, .TOKEN_KW_U64, .TOKEN_KW_F32, .TOKEN_KW_F64, .TOKEN_KW_BOOL]

/-- A type token of a primitive type, as the lexer classifies it. -/
abbrev primitive_type_token (t : Token) : Prop :=
  t.kind = .KIND_TYPE_IDENTIFIER ∧ t.type ∈ spec_primitive_types

/-- An integer literal token in decimal notation that denotes `n`. -/
def spec_integer_literal (t : Token) (n : Nat) : Prop :=
  t.type = .TOKEN_INTEGER_LITERAL ∧ t.kind = .KIND_LITERAL ∧ t.value ≠ [] ∧
    (∀ c ∈ t.value, c.isDigit = true) ∧ decimal_value t.value = n

/-- An identifier token. -/
def ident_token (src_pos : Nat) (value : List Char) : Token :=
  mk_token .TOKEN_IDENTIFIER .KIND_UNSPECIFIC src_pos value

/-- A type keyword token. -/
def type_token (type : token_t) (src_pos : Nat) (value : List Char) : Token :=
  mk_token type .KIND_TYPE_IDENTIFIER src_pos value

/-- A parser object with the global scope on the stack and no symbol. -/
def parser_at_global_scope : parser :=
  { parser_with [] with scope_stack_ := [[]] }

/-- The tokens of `x :: i32 = 1;`, the first declaration of `x :: i32 = 1; x :: i32 = 2;`. -/
def src_decl_x_1 : List Token :=
  [ident_token 0 ['x'], op_token .TOKEN_CONST_TYPE_ASSIGNMENT 2 [':', ':'],
   type_token .TOKEN_KW_I32 5 ['i', '3', '2'], op_token .TOKEN_VALUE_ASSIGNMENT 9 ['='],
   int_token 11 ['1'], punct_token .TOKEN_SEMICOLON 12 [';']]

/-- The tokens of `x :: i32 = 2;`, the second declaration of `x :: i32 = 1; x :: i32 = 2;`. -/
def src_decl_x_2 : List Token :=
  [ident_token 14 ['x'], op_token .TOKEN_CONST_TYPE_ASSIGNMENT 16 [':', ':'],
   type_token .TOKEN_KW_I32 19 ['i', '3', '2'], op_token .TOKEN_VALUE_ASSIGNMENT 23 ['='],
   int_token 25 ['2'], punct_token .TOKEN_SEMICOLON 26 [';']]

/-- The symbol of `x` after `x :: i32 = 1;` at global scope. -/
def symbol_x : symbol :=
  { symbol_index := 1, name := "x", sym_type := .SYM_VARIABLE,
    flags := SYM_IS_CONSTANT ||| SYM_IS_GLOBAL, src_pos := 0, line_number := 1,
    variable_type := .VAR_I32 }

/-- The parser object after `x :: i32 = 1;` at global scope. -/
def parser_with_x : parser :=
  { parser_with [symbol_x] with scope_stack_ := [[("x", 1)]] }

/-- The tokens of `proc () -> void { }`, the type of `f : proc () -> void { }`. -/
def src_proc_void : List Token :=
  [type_token .TOKEN_KW_PROC 4 ['p', 'r', 'o', 'c'], punct_token .TOKEN_LPAREN 9 ['('],
   punct_token .TOKEN_RPAREN 10 [')'], mk_token .TOKEN_ARROW .KIND_UNSPECIFIC 12 ['-', '>'],
   type_token .TOKEN_KW_VOID 15 ['v', 'o', 'i', 'd'], punct_token .TOKEN_LBRACE 20 ['\x7b'],
   punct_token .TOKEN_RBRACE 22 ['\x7d']]

/-- The symbol of a procedure `f` declared with `:` at global scope. -/
def symbol_f_not_constant : symbol :=
  { symbol_index := 1, name := "f", sym_type := .SYM_PROCEDURE, flags := SYM_IS_GLOBAL,
    src_pos := 0, line_number := 1 }


/-- The tokens of `x :: i32 = 42;` (scenario S1). -/
def S1_tokens : List Token :=
  [ident_token 0 ['x'], op_token .TOKEN_CONST_TYPE_ASSIGNMENT 2 [':', ':'],
   type_token .TOKEN_KW_I32 5 ['i', '3', '2'], op_token .TOKEN_VALUE_ASSIGNMENT 9 ['='],
   int_token 11 ['4', '2'], punct_token .TOKEN_SEMICOLON 13 [';']]


/-- The tokens of `i32 [18446744073709551616];`, the type of
`x : i32 [18446744073709551616];`: the length is `2 ^ 64`. -/
def src_array_two_pow_64 : List Token :=
  [type_token .TOKEN_KW_I32 4 ['i', '3', '2'], punct_token .TOKEN_LSQUARE_BRACKET 8 ['['],
   int_token 9 ['1', '8', '4', '4', '6', '7', '4', '4', '0', '7', '3', '7', '0', '9', '5', '5',
     '1', '6', '1', '6'],
   punct_token .TOKEN_RSQUARE_BRACKET 29 [']'], punct_token .TOKEN_SEMICOLON 30 [';']]

/-- The tokens of `i32 [16];`, the type of `x : i32 [16];`. -/
def src_array_16 : List Token :=
  [type_token .TOKEN_KW_I32 4 ['i', '3', '2'], punct_token .TOKEN_LSQUARE_BRACKET 8 ['['],
   int_token 9 ['1', '6'], punct_token .TOKEN_RSQUARE_BRACKET 11 [']'],
   punct_token .TOKEN_SEMICOLON 12 [';']]

/-- The symbol of a variable `x` as `parse_decl` makes it for `x : ...` at global scope. -/
def symbol_x_new : symbol :=
  { symbol_index := 1, name := "x", sym_type := .SYM_VARIABLE, flags := SYM_IS_GLOBAL,
    src_pos := 0, line_number := 1 }

/-- The parser object in which `parse_decl` calls `parse_vardecl` for `x : ...` at global
scope. -/
def parser_with_x_new : parser :=
  { parser_with [symbol_x_new] with scope_stack_ := [[("x", 1)]] }


/-- The pointer marker `^` as the lexer emits it. -/
def caret_token (src_pos : Nat) : Token :=
  op_token .TOKEN_BITWISE_XOR_OR_PTR src_pos ['^']

/-- The tokens of a parameter `a : i32` followed by `k` pointer markers and `)`. -/
def src_parameter_with_markers (k : Nat) : List Token :=
  ident_token 0 ['a'] :: op_token .TOKEN_TYPE_ASSIGNMENT 2 [':'] ::
    type_token .TOKEN_KW_I32 4 ['i', '3', '2'] ::
    (List.replicate k (caret_token 7) ++ [punct_token .TOKEN_RPAREN 8 [')']])


/-! ## Scope balance: vocabulary and concrete inputs -/

/-- A parser function leaves as many scopes on the stack as it found, whenever it returns. -/
def keeps_scopes (f : parser → lexer → parse_result) : Prop :=
  ∀ p lxr r p' lxr', f p lxr = some (r, p', lxr') →
    p'.scope_stack_.length = p.scope_stack_.length

/-- An expression parser leaves as many scopes on the stack as it found. -/
def expr_keeps_scopes (f : expr_fn) : Prop :=
  ∀ p lxr s g r p' lxr', f p lxr s g = some (r, p', lxr') →
    p'.scope_stack_.length = p.scope_stack_.length

/-- The parsers of the other files leave as many scopes on the stack as they found. -/
def externals.keeps_scopes (ext : externals) : Prop :=
  Tak.keeps_scopes ext.parse_identifier ∧ Tak.keeps_scopes ext.parse_ret ∧
  Tak.keeps_scopes ext.parse_branch ∧ Tak.keeps_scopes ext.parse_switch ∧
  Tak.keeps_scopes ext.parse_while ∧ Tak.keeps_scopes ext.parse_for ∧
  Tak.keeps_scopes ext.parse_structdef ∧ Tak.keeps_scopes ext.parse_namespace

/-- The symbol of a procedure `f` declared with `::` at global scope. -/
def symbol_f_constant : symbol :=
  { symbol_index := 1, name := "f", sym_type := .SYM_PROCEDURE,
    flags := SYM_IS_CONSTANT ||| SYM_IS_GLOBAL, src_pos := 0, line_number := 1 }

/-- The parser object in which `parse_decl` calls `parse_procdecl` for `f :: proc ...` at
global scope. -/
def parser_with_f : parser :=
  { parser_with [symbol_f_constant] with scope_stack_ := [[("f", 1)]] }

/-- The tokens of `proc (a : i32) -> void { 1; }`, the type and the body of
`f :: proc (a : i32) -> void { 1; }`. -/
def src_proc_one_parameter : List Token :=
  [type_token .TOKEN_KW_PROC 5 ['p', 'r', 'o', 'c'], punct_token .TOKEN_LPAREN 10 ['('],
   ident_token 11 ['a'], op_token .TOKEN_TYPE_ASSIGNMENT 13 [':'],
   type_token .TOKEN_KW_I32 15 ['i', '3', '2'], punct_token .TOKEN_RPAREN 18 [')'],
   mk_token .TOKEN_ARROW .KIND_UNSPECIFIC 20 ['-', '>'],
   type_token .TOKEN_KW_VOID 23 ['v', 'o', 'i', 'd'], punct_token .TOKEN_LBRACE 28 ['\x7b'],
   int_token 30 ['1'], punct_token .TOKEN_SEMICOLON 31 [';'],
   punct_token .TOKEN_RBRACE 33 ['\x7d']]

/-- The tokens of `proc (a : void)`, the start of `f :: proc (a : void) -> void { }`. -/
def src_proc_void_parameter : List Token :=
  [type_token .TOKEN_KW_PROC 5 ['p', 'r', 'o', 'c'], punct_token .TOKEN_LPAREN 10 ['('],
   ident_token 11 ['a'], op_token .TOKEN_TYPE_ASSIGNMENT 13 [':'],
   type_token .TOKEN_KW_VOID 15 ['v', 'o', 'i', 'd'], punct_token .TOKEN_RPAREN 19 [')']]

/-! ## `basic_utility.cpp`: the size of a primitive type -/

/-- The size in bytes of a primitive type, `var_t_to_size_bytes` (`basic_utility.cpp`, lines
88-108).  The `default` branch of the switch panics; it is `none` here. -/
def var_t_to_size_bytes (type : var_t) : Option Nat :=
  match type with
  | .VAR_U8
  | .VAR_I8 => some 1
  | .VAR_U16
  | .VAR_I16 => some 2
  | .VAR_U32
  | .VAR_I32 => some 4
  | .VAR_U64
  | .VAR_I64 => some 8
  | .VAR_F32 => some 4
  | .VAR_F64 => some 8
  | .VAR_BOOLEAN => some 1
  | _ => none

/-- The widths in bytes of the primitive types, as the specification gives them for the
type keywords `i8 u8 i16 u16 i32 u32 i64 u64 f32 f64 bool`. -/
def spec_type_widths : List (token_t × Nat) :=
  [(.TOKEN_KW_I8, 1), (.TOKEN_KW_U8, 1), (.TOKEN_KW_I16, 2), (.TOKEN_KW_U16, 2),
   (.TOKEN_KW_I32, 4), (.TOKEN_KW_U32, 4), (.TOKEN_KW_I64, 8), (.TOKEN_KW_U64, 8),
   (.TOKEN_KW_F32, 4), (.TOKEN_KW_F64, 8), (.TOKEN_KW_BOOL, 1)]

/-! ## `tokens.cpp`: all the handlers -/

/-- The thirty-three handlers of `tokens.cpp`. -/
def lexer_handlers : List (Lexer → Lexer) :=
  handlers_with_end_test ++ [lexer_token_plus, lexer_token_singlequote]

/-- The empty buffer. -/
def buf_empty : List Char := []

/-- The buffer `: x`. -/
def buf_colon : List Char := [':', ' ', 'x']

/-- The buffer `:: x`. -/
def buf_colon_colon : List Char := [':', ':', ' ', 'x']

/-! ## The progress of the handlers: vocabulary of the statements -/

/-- The handlers of `tokens.cpp` other than `lexer_token_null` and `lexer_token_fwdslash`:
thirty-one handlers. -/
def handlers_with_progress : List (Lexer → Lexer) :=
  [lexer_token_skip, lexer_token_newline, lexer_token_semicolon, lexer_token_lparen,
   lexer_token_rparen, lexer_token_lbrace, lexer_token_rbrace, lexer_token_comma,
   lexer_token_hyphen, lexer_token_plus, lexer_token_asterisk, lexer_token_percent,
   lexer_token_equals, lexer_token_lessthan, lexer_token_greaterthan, lexer_token_ampersand,
   lexer_token_verticalline, lexer_token_exclamation, lexer_token_tilde, lexer_token_uparrow,
   lexer_token_quote, lexer_token_singlequote, lexer_token_lsquarebracket,
   lexer_token_rsquarebracket, lexer_token_questionmark, lexer_token_colon, lexer_token_dot,
   lexer_token_backslash, lexer_token_at, lexer_token_backtick, lexer_token_pound]

/-- A loop that dispatches handlers until end-of-file, in the words of the specification:
the handler of the byte under the cursor runs, and the loop stops when the current token is
the end-of-file token.  `dispatch` is the table from bytes to handlers; `none` is a loop
that has not stopped within `fuel` rounds. -/
def dispatch_until_end_of_file (dispatch : Char → Lexer → Lexer) : Nat → Lexer → Option Lexer
  | 0, _ => none
  | fuel + 1, lxr =>
    let lxr1 := dispatch lxr.current_char lxr
    if lxr1.current_.type = .TOKEN_END_OF_FILE then some lxr1
    else dispatch_until_end_of_file dispatch fuel lxr1

/-- A table from bytes to handlers for concrete runs: the NUL byte, the slash, the double
quote, the semicolon and the newline have their handlers, every other byte is skipped. -/
def sample_dispatch (c : Char) : Lexer → Lexer :=
  if c = NUL then lexer_token_null
  else if c = '/' then lexer_token_fwdslash
  else if c = '"' then lexer_token_quote
  else if c = ';' then lexer_token_semicolon
  else if c = NEWLINE then lexer_token_newline
  else lexer_token_skip

/-- The buffer of a newline and a line comment, a newline and then `/x`. -/
def buf_newline_slash : List Char := [NEWLINE, '/', 'x']

/-- The buffer `; "a" // c`. -/
def buf_semicolon_string_comment : List Char :=
  [';', ' ', '"', 'a', '"', ' ', '/', '/', ' ', 'c']

/-! ## `basic_utility.cpp`: the path of a struct member -/

/-- The offset of the first byte `c` of a byte string, if there is one. -/
def find_char (c : Char) : List Char → Option Nat
  | [] => none
  | x :: rest => if x = c then some 0 else (find_char c rest).map (· + 1)

/-- The library call `path.find(c, pos)`: the offset of the first byte `c` at or after the
offset `pos`; `std::string::npos` is `none`. -/
def string_find (path : List Char) (c : Char) (pos : Nat) : Option Nat :=
  (find_char c (path.drop pos)).map (· + pos)

/-- The library call `path.substr(pos, len)`. -/
def string_substr (path : List Char) (pos len : Nat) : List Char :=
  (path.drop pos).take len

/-- The loop of `split_struct_member_path` (`basic_utility.cpp`, lines 253-261), with the
local variables `chunks`, `start` and `dot`; `none` is a loop that has not ended within
`fuel` rounds. -/
def split_struct_member_path_loop (path : List Char) :
    Nat → List (List Char) → Nat → Option Nat → Option (List (List Char))
  | 0, _, _, _ => none
  | fuel + 1, chunks, start, dot =>
    match dot with
    | none => some chunks
    | some dot =>
      let chunks1 :=
        if dot > start then chunks ++ [string_substr path start (dot - start)] else chunks
      split_struct_member_path_loop path fuel chunks1 (dot + 1)
        (string_find path '.' (dot + 1))

/-- The chunks of a member path, `split_struct_member_path` (`basic_utility.cpp`, lines
240-264).  A path that is empty or does not begin with a dot panics: that is `none`.  Each
round of the loop passes a dot of the path, so the loop gets one round per byte of the path
and one more. -/
def split_struct_member_path (path : List Char) : Option (List (List Char)) :=
  if path = [] ∨ path.head? ≠ some '.' then none
  else
    let path1 := path.drop 1 ++ ['.']
    split_struct_member_path_loop path1 (path1.length + 1) [] 0 (string_find path1 '.' 0)

/-- The byte string in which each of the segments is followed by a dot. -/
def dot_terminated : List (List Char) → List Char
  | [] => []
  | s :: rest => s ++ '.' :: dot_terminated rest

/-! ## `parser.cpp`: the top-level driver -/

/-- The loop of `generate_ast_from_source` (`parser.cpp`, lines 770-784) and the end of the
function (lines 786-787).  `recurse` is `parse_expression`, which the loop calls without a
flag.  The member `toplevel_decls` of the parser is the list `toplevel_decls`.  The result
is the value returned, the list, the parser and the lexer at the return; `none` is a loop
that has not ended within `fuel` rounds, or a call that does not return. -/
def generate_ast_from_source_loop (recurse : expr_fn) :
    Nat → List ast_node → parser → lexer → Option (Bool × List ast_node × parser × lexer)
  | 0, _, _, _ => none
  | fuel + 1, toplevel_decls, p, lxr =>
    match recurse p lxr false false with
    | none => none
    | some (none, p1, lxr1) =>
      some (decide (lxr1.current.type = .TOKEN_END_OF_FILE), toplevel_decls, p1.pop_scope,
        lxr1)
    | some (some toplevel_decl, p1, lxr1) =>
      if toplevel_decl.type ≠ .NODE_PROCDECL ∧ toplevel_decl.type ≠ .NODE_VARDECL then
        some (false, toplevel_decls, p1,
          lxr1.raise_error "This is not allowed at global scope.")
      else
        generate_ast_from_source_loop recurse fuel (toplevel_decls ++ [toplevel_decl]) p1 lxr1

/-- The top-level driver, `generate_ast_from_source` (`parser.cpp`, lines 755-788).  The
call `lxr.init(source_file_name)`, whose source is not available, is the parameter `init`:
whether it succeeded, and the lexer it has set up. -/
def generate_ast_from_source (recurse : expr_fn) (fuel : Nat) (p : parser)
    (init : Bool × lexer) : Option (Bool × List ast_node × parser × lexer) :=
  if init.1 = false then some (false, [], p, init.2)
  else
    let p1 := if p.scope_stack_.isEmpty then p.push_scope else p
    generate_ast_from_source_loop recurse fuel [] p1 init.2

/-! ## The top-level driver: concrete inputs -/

/-- An identifier parser for concrete runs of the driver.  On `name :` and `name ::` it is
`parse_decl`, the first dispatch of `parse_identifier` (`parser.cpp`, lines 723-729), with
`parse_expression` over `sample_externals` for the initializers and the bodies; on any
other input it is `sample_parse_identifier`. -/
def toplevel_parse_identifier (p : parser) (lxr : lexer) : parse_result :=
  if (lxr.peek 1).type = .TOKEN_TYPE_ASSIGNMENT
      ∨ (lxr.peek 1).type = .TOKEN_CONST_TYPE_ASSIGNMENT then
    parse_decl (parse_expression sample_externals 8) 8 p lxr
  else sample_parse_identifier p lxr

/-- The instance of `externals` for concrete runs of the driver. -/
def toplevel_externals : externals :=
  { sample_externals with parse_identifier := toplevel_parse_identifier }

/-- The tokens of `x : i32`, a declaration without terminator at the end of the source. -/
def src_x_i32_no_terminator : List Token :=
  [ident_token 0 ['x'], op_token .TOKEN_TYPE_ASSIGNMENT 2 [':'],
   type_token .TOKEN_KW_I32 4 ['i', '3', '2']]

/-- The tokens of `a : i32 =`, a declaration that ends after the `=`. -/
def src_a_i32_assign : List Token :=
  [ident_token 0 ['a'], op_token .TOKEN_TYPE_ASSIGNMENT 2 [':'],
   type_token .TOKEN_KW_I32 4 ['i', '3', '2'], op_token .TOKEN_VALUE_ASSIGNMENT 8 ['=']]

/-- The tokens of `1;`, an expression that is no declaration. -/
def src_1_semicolon : List Token :=
  [int_token 0 ['1'], punct_token .TOKEN_SEMICOLON 1 [';']]

/-- The tokens of `x : i32; y :: i32 = 1;`, two declarations. -/
def src_two_declarations : List Token :=
  [ident_token 0 ['x'], op_token .TOKEN_TYPE_ASSIGNMENT 2 [':'],
   type_token .TOKEN_KW_I32 4 ['i', '3', '2'], punct_token .TOKEN_SEMICOLON 7 [';'],
   ident_token 9 ['y'], op_token .TOKEN_CONST_TYPE_ASSIGNMENT 11 [':', ':'],
   type_token .TOKEN_KW_I32 14 ['i', '3', '2'], op_token .TOKEN_VALUE_ASSIGNMENT 18 ['='],
   int_token 20 ['1'], punct_token .TOKEN_SEMICOLON 21 [';']]

/-! ## `parser_typetbl.cpp` and `directive.cpp`: types and type aliases -/

/-- The test `parser::type_exists` (`parser_typetbl.cpp`, lines 8-11): the table of types
has an entry for the name. -/
def parser.type_exists (p : parser) (name : String) : Bool :=
  p.type_table_.any (fun e => e.1 == name)

/-- The function `parser::create_type` (`parser_typetbl.cpp`, lines 13-23): a name that is
in the table is refused and the table is left; a new name gets its entry. -/
def parser.create_type (p : parser) (name : String) (type_data : List type_data) :
    Bool × parser :=
  if p.type_exists name then (false, p)
  else (true, { p with type_table_ := p.type_table_ ++ [(name, type_data)] })

/-- Modelled from the spec: `type_alias_exists(name)`, the type-alias table has an entry for
the name; the source of the function is not available. -/
def parser.type_alias_exists (p : parser) (name : String) : Bool :=
  p.type_aliases_.any (fun e => e.1 == name)

/-- Modelled from the spec: `create_type_alias(name, type)`, "attempting to create one when
the name already exists as a type or alias is an error"; the source of the function is not
available, and it is taken to work as `create_type` does: a name that is in the table is
refused and the table is left, a new name gets its entry. -/
def parser.create_type_alias (p : parser) (name : String) (type : type_data) :
    Bool × parser :=
  if p.type_alias_exists name then (false, p)
  else (true, { p with type_aliases_ := p.type_aliases_ ++ [(name, type)] })

/-- The code that `directive.cpp` uses and whose source is not available: the macro
`TOKEN_IDENT_START`, the prefix `namespace_as_string()` of the names of the current
namespace, and `parse_type`, which returns a type descriptor or nothing. -/
structure directive_externals where
  TOKEN_IDENT_START : token_t → Bool
  namespace_as_string : parser → String
  parse_type : parser → lexer → Option (Option type_data × parser × lexer)

/-- The directive `@alias`, `parse_type_alias` (`directive.cpp`, lines 8-59).  The node is
an `AstTypeAlias`, of which the embedding keeps the type. -/
def parse_type_alias (dext : directive_externals) (p : parser) (lxr : lexer) :
    parse_result :=
  if lxr.current.value ≠ ['a', 'l', 'i', 'a', 's'] then none
  else if p.scope_stack_.length > 1 then
    some (none, p, lxr.raise_error "Type alias definition at non-global scope.")
  else
    let lxr1 := lxr.advance 1
    if lxr1.current.type ≠ .TOKEN_IDENTIFIER then
      some (none, p, lxr1.raise_error "Expected alias name.")
    else
      let name := dext.namespace_as_string p ++ String.mk lxr1.current.value
      if p.type_alias_exists name ∨ p.type_exists name then
        some (none, p,
          lxr1.raise_error
            "Type or type alias with the same name already exists within this namespace.")
      else if (lxr1.peek 1).type ≠ .TOKEN_VALUE_ASSIGNMENT then
        some (none, p, lxr1.raise_error "Expected '=' after type alias name.")
      else
        let lxr2 := lxr1.advance 2
        if dext.TOKEN_IDENT_START lxr2.current.type = false
            ∧ lxr2.current.kind ≠ .KIND_TYPE_IDENTIFIER then
          some (none, p, lxr2.raise_error "Expected type identifier.")
        else
          match dext.parse_type p lxr2 with
          | none => none
          | some (some type, p1, lxr3) =>
            some (some (.other .NODE_TYPE_ALIAS []), (p1.create_type_alias name type).2, lxr3)
          | some (none, p1, lxr3) => some (none, p1, lxr3)

/-! ## Type aliases: vocabulary and concrete inputs -/

/-- A parser function of `directive.cpp` leaves the type-alias table as it found it. -/
def keeps_type_aliases (f : parser → lexer → Option (Option type_data × parser × lexer)) :
    Prop :=
  ∀ p lxr r p' lxr', f p lxr = some (r, p', lxr') → p'.type_aliases_ = p.type_aliases_

/-- A type parser for concrete runs: the type keyword of a primitive type gives its
descriptor, any other token is an error. -/
def sample_parse_type (p : parser) (lxr : lexer) :
    Option (Option type_data × parser × lexer) :=
  if token_to_var_t lxr.current.type = .VAR_NONE then
    some (none, p, lxr.raise_error "Expected type identifier.")
  else some (some { variable_type := token_to_var_t lxr.current.type }, p, lxr.advance 1)

/-- An instance of `directive_externals` for concrete runs: an identifier starts a name, and
there is no namespace. -/
def sample_directive_externals : directive_externals :=
  { TOKEN_IDENT_START := fun t => decide (t = .TOKEN_IDENTIFIER)
    namespace_as_string := fun _ => ""
    parse_type := sample_parse_type }

/-- The tokens of `alias Byte = u8;`, the directive of scenario S6 after its `@`. -/
def S6_tokens : List Token :=
  [ident_token 1 ['a', 'l', 'i', 'a', 's'], ident_token 7 ['B', 'y', 't', 'e'],
   op_token .TOKEN_VALUE_ASSIGNMENT 12 ['='], type_token .TOKEN_KW_U8 14 ['u', '8'],
   punct_token .TOKEN_SEMICOLON 16 [';']]

/-- The parser object at global scope after the directive of scenario S6. -/
def parser_with_alias_Byte : parser :=
  { parser_at_global_scope with type_aliases_ := [("Byte", { variable_type := .VAR_U8 })] }

/-! ## The table of symbols: vocabulary of the frame conditions -/

/-- The entries of the table of symbols of `p` are entries of `p'`: each symbol that `p`
holds is held by `p'`, unchanged, under the same index. -/
def keeps_existing_symbols (p p' : parser) : Prop :=
  ∀ i s, p.lookup_unique_symbol i = some s → p'.lookup_unique_symbol i = some s

/-- An expression parser leaves the symbols it finds in the table as they are, whenever
it returns. -/
def expr_keeps_symbols (f : expr_fn) : Prop :=
  ∀ p lxr s g r p' lxr', f p lxr s g = some (r, p', lxr') → keeps_existing_symbols p p'

/-- A parser function leaves the table of symbols as it found it, whenever it returns. -/
def keeps_table (f : parser → lexer → parse_result) : Prop :=
  ∀ p lxr r p' lxr', f p lxr = some (r, p', lxr') → p'.sym_table_ = p.sym_table_

/-- An expression parser leaves the table of symbols as it found it. -/
def expr_keeps_table (f : expr_fn) : Prop :=
  ∀ p lxr s g r p' lxr', f p lxr s g = some (r, p', lxr') → p'.sym_table_ = p.sym_table_

/-- The parsers of the other files leave the table of symbols as they found it. -/
def externals.keeps_table (ext : externals) : Prop :=
  Tak.keeps_table ext.parse_identifier ∧ Tak.keeps_table ext.parse_ret ∧
  Tak.keeps_table ext.parse_branch ∧ Tak.keeps_table ext.parse_switch ∧
  Tak.keeps_table ext.parse_while ∧ Tak.keeps_table ext.parse_for ∧
  Tak.keeps_table ext.parse_structdef ∧ Tak.keeps_table ext.parse_namespace

/-! ## The parameters of a procedure: vocabulary and concrete inputs -/

/-- The variable type of a declared parameter: the type of the symbol its node refers
to. -/
def parameter_type (p : parser) (n : ast_node) : var_t :=
  match n with
  | .vardecl identifier _ =>
    match p.lookup_unique_symbol identifier.symbol_index with
    | some s => s.variable_type
    | none => .VAR_NONE
  | _ => .VAR_NONE

/-- The node of a declared parameter: a `VarDecl` without initializer whose symbol is a
variable of the table. -/
def is_parameter_node (p : parser) (n : ast_node) : Prop :=
  ∃ index v, n = .vardecl { symbol_index := index } none
    ∧ p.lookup_unique_symbol index = some v ∧ v.sym_type = .SYM_VARIABLE

/-- The tokens of `proc (a : i32, b : u8) -> void { 1; }`, the type and the body of
`f :: proc (a : i32, b : u8) -> void { 1; }`. -/
def src_proc_two_parameters : List Token :=
  [type_token .TOKEN_KW_PROC 5 ['p', 'r', 'o', 'c'], punct_token .TOKEN_LPAREN 10 ['('],
   ident_token 11 ['a'], op_token .TOKEN_TYPE_ASSIGNMENT 13 [':'],
   type_token .TOKEN_KW_I32 15 ['i', '3', '2'], punct_token .TOKEN_COMMA 18 [','],
   ident_token 20 ['b'], op_token .TOKEN_TYPE_ASSIGNMENT 22 [':'],
   type_token .TOKEN_KW_U8 24 ['u', '8'], punct_token .TOKEN_RPAREN 26 [')'],
   mk_token .TOKEN_ARROW .KIND_UNSPECIFIC 28 ['-', '>'],
   type_token .TOKEN_KW_VOID 31 ['v', 'o', 'i', 'd'], punct_token .TOKEN_LBRACE 36 ['\x7b'],
   int_token 38 ['1'], punct_token .TOKEN_SEMICOLON 39 [';'],
   punct_token .TOKEN_RBRACE 41 ['\x7d']]

/-- The tokens of `proc (a : i32 b : u8) -> void { 1; }`, without the comma. -/
def src_proc_two_parameters_no_comma : List Token :=
  [type_token .TOKEN_KW_PROC 5 ['p', 'r', 'o', 'c'], punct_token .TOKEN_LPAREN 10 ['('],
   ident_token 11 ['a'], op_token .TOKEN_TYPE_ASSIGNMENT 13 [':'],
   type_token .TOKEN_KW_I32 15 ['i', '3', '2'],
   ident_token 19 ['b'], op_token .TOKEN_TYPE_ASSIGNMENT 21 [':'],
   type_token .TOKEN_KW_U8 23 ['u', '8'], punct_token .TOKEN_RPAREN 25 [')'],
   mk_token .TOKEN_ARROW .KIND_UNSPECIFIC 27 ['-', '>'],
   type_token .TOKEN_KW_VOID 30 ['v', 'o', 'i', 'd'], punct_token .TOKEN_LBRACE 35 ['\x7b'],
   int_token 37 ['1'], punct_token .TOKEN_SEMICOLON 38 [';'],
   punct_token .TOKEN_RBRACE 40 ['\x7d']]

/-- The tokens left to the lexer are tokens other than `)` and then the tokens `tail`. -/
def lexer.before (lxr : lexer) (tail : List Token) : Prop :=
  ∃ pre, lxr.tokens = pre ++ tail ∧ ∀ t ∈ pre, t.type ≠ .TOKEN_RPAREN

/-! ## The return type of a procedure: vocabulary and concrete inputs -/

/-- The part of `parse_proc_ptr` after the parameter types (lines 96-150), entered on the
`)` that closes them: the return type and the initializer. -/
def parse_proc_ptr_return_type (recurse : expr_fn) (proc : Nat) (p3 : parser)
    (lxr3 : lexer) : parse_result :=
  if (lxr3.peek 1).type ≠ .TOKEN_ARROW ∨ (lxr3.peek 2).kind ≠ .KIND_TYPE_IDENTIFIER then
    some (none, p3,
      lxr3.raise_error
        "Expected procedure return type after parameter list. Example: -> i32")
  else
    let lxr4 := lxr3.advance 2
    let p4 := p3.modify_symbol proc
      (fun s => { s with return_type := token_to_var_t lxr4.current.type })
    if token_to_var_t lxr4.current.type = .VAR_NONE ∧
        lxr4.current.type ≠ .TOKEN_KW_VOID then
      some (none, p4, lxr4.raise_error "Invalid procedure return type.")
    else parse_initializer recurse proc p4 (lxr4.advance 1)

/-- The tokens of `proc^ (i32, bool) -> i8;`, the type of `g : proc^ (i32, bool) -> i8;`. -/
def src_proc_ptr_i8 : List Token :=
  [type_token .TOKEN_KW_PROC 4 ['p', 'r', 'o', 'c'], caret_token 8,
   punct_token .TOKEN_LPAREN 10 ['('], type_token .TOKEN_KW_I32 11 ['i', '3', '2'],
   punct_token .TOKEN_COMMA 14 [','], type_token .TOKEN_KW_BOOL 16 ['b', 'o', 'o', 'l'],
   punct_token .TOKEN_RPAREN 20 [')'], mk_token .TOKEN_ARROW .KIND_UNSPECIFIC 22 ['-', '>'],
   type_token .TOKEN_KW_I8 25 ['i', '8'], punct_token .TOKEN_SEMICOLON 27 [';']]

/-- The tokens of `proc () -> proc { }`, a procedure whose return type is `proc`. -/
def src_proc_returns_proc : List Token :=
  [type_token .TOKEN_KW_PROC 5 ['p', 'r', 'o', 'c'], punct_token .TOKEN_LPAREN 10 ['('],
   punct_token .TOKEN_RPAREN 11 [')'], mk_token .TOKEN_ARROW .KIND_UNSPECIFIC 13 ['-', '>'],
   type_token .TOKEN_KW_PROC 16 ['p', 'r', 'o', 'c'], punct_token .TOKEN_LBRACE 21 ['\x7b'],
   punct_token .TOKEN_RBRACE 23 ['\x7d']]

/-- The tokens left to the lexer hold no end-of-file token: the end of the source is the end
of the list. -/
def lexer.no_end_of_file (lxr : lexer) : Prop :=
  ∀ t ∈ lxr.tokens, t.type ≠ .TOKEN_END_OF_FILE

/-! ## `parser.cpp`: the expression parser of that file

Before its driver, `parser.cpp` holds a parser of its own: `parse_expression` with two
parameters (lines 95-199) and the functions it calls, all of them defined in that file.  It
is older than `expr.cpp` and `parser_parsedecl.cpp` and writes some names differently: the
token types without `TOKEN_` (`IDENTIFIER`, `KW_RET`), the token kinds without `KIND_`, the
members `scope_stack` and `inside_parenthesized_expression` without the closing underscore,
and four flags with `VAR` (`SYM_VAR_IS_CONSTANT`).  The definitions of this section carry
the prefix `parser_cpp`; they use the types, the lexer and the symbol table of the sections
above. -/

/-- Modelled from the spec: the flag `constant` under the name it has in `parser.cpp`. -/
def SYM_VAR_IS_CONSTANT : Nat := SYM_IS_CONSTANT

/-- Modelled from the spec: the flag `procarg` under the name it has in `parser.cpp`. -/
def SYM_VAR_IS_PROCARG : Nat := SYM_IS_PROCARG

/-- Modelled from the spec: the flag `array` under the name it has in `parser.cpp`. -/
def SYM_VAR_IS_ARRAY : Nat := SYM_IS_ARRAY

/-- Modelled from the spec: the flag `default_initialized` under the name it has in
`parser.cpp`. -/
def SYM_VAR_DEFAULT_INITIALIZED : Nat := SYM_DEFAULT_INITIALIZED

/-- Modelled from the spec: `lookup_scoped_symbol(name)`, which "walks scopes inner-to-outer"
and returns "the first hit, or a sentinel `INVALID_SYMBOL_INDEX`"; the sentinel is `none`
here.  The source of the parser class is not available. -/
def parser.lookup_scoped_symbol (p : parser) (name : String) : Option Nat :=
  p.scope_stack_.reverse.findSome?
    (fun scope => (scope.find? (fun entry => entry.1 == name)).map (fun entry => entry.2))

/-- The type of the two-parameter `parse_expression` of `parser.cpp` once the fuel is
fixed: parser, lexer. -/
abbrev parser_cpp.expr_fn := parser → lexer → parse_result

/-- The function `parse_keyword` of `parser.cpp` (lines 8-11), which returns `nullptr`. -/
def parser_cpp.parse_keyword (p : parser) (lxr : lexer) : parse_result :=
  some (none, p, lxr)

/-- A parenthesised expression, `parse_parenthesized_expression` of `parser.cpp` (lines
13-34).  The counter `inside_parenthesized_expression` is taken to be a `uint16_t`, as in
`expr.cpp`. -/
def parser_cpp.parse_parenthesized_expression (recurse : parser_cpp.expr_fn) (p : parser)
    (lxr : lexer) : parse_result :=
  if lxr.current.type ≠ .TOKEN_LPAREN then none
  else
    let p1 : parser :=
      { p with inside_parenthesized_expression_ := incr16 p.inside_parenthesized_expression_ }
    match recurse p1 (lxr.advance 1) with
    | none => none
    | some (none, p2, lxr2) => some (none, p2, lxr2)
    | some (some expr, p2, lxr2) =>
      if expr.type ≠ .NODE_SINGLETON_LITERAL
          ∧ expr.type ≠ .NODE_BINEXPR
          ∧ expr.type ≠ .NODE_CALL
          ∧ expr.type ≠ .NODE_IDENT
          ∧ expr.type ≠ .NODE_ASSIGN
          ∧ expr.type ≠ .NODE_UNARYEXPR then
        some (none, p2, lxr2)
      else some (some expr, p2, lxr2)

/-- A literal, `parse_singleton_literal` of `parser.cpp` (lines 36-46): the node is made from
the current token, and the lexer is not advanced. -/
def parser_cpp.parse_singleton_literal (p : parser) (lxr : lexer) : parse_result :=
  if lxr.current.kind ≠ .KIND_LITERAL then none
  else some (some (.singleton_literal lxr.current.type lxr.current.value), p, lxr)

/-- The function `parse_braced_expression` of `parser.cpp` (lines 48-53), which returns
`nullptr`. -/
def parser_cpp.parse_braced_expression (p : parser) (lxr : lexer) : parse_result :=
  if lxr.current.type ≠ .TOKEN_LBRACE then none
  else some (none, p, lxr)

/-- A unary expression, `parse_unary_expression` of `parser.cpp` (lines 55-92). -/
def parser_cpp.parse_unary_expression (recurse : parser_cpp.expr_fn) (p : parser)
    (lxr : lexer) : parse_result :=
  if lxr.current.kind ≠ .KIND_UNARY_EXPR_OPERATOR then none
  else
    let _operator := lxr.current.type
    let src_pos := lxr.current.src_pos
    let line := lxr.current.line
    match recurse p (lxr.advance 1) with
    | none => none
    | some (none, p1, lxr1) => some (none, p1, lxr1)
    | some (some operand, p1, lxr1) =>
      if operand.type ≠ .NODE_SINGLETON_LITERAL
          ∧ operand.type ≠ .NODE_BINEXPR
          ∧ operand.type ≠ .NODE_ASSIGN
          ∧ operand.type ≠ .NODE_UNARYEXPR
          ∧ operand.type ≠ .NODE_IDENT
          ∧ operand.type ≠ .NODE_CALL
          ∧ operand.type ≠ .NODE_BRACED_EXPRESSION then
        some (none, p1,
          lxr1.raise_error_at "Unexpected expression following unary operator." src_pos line)
      else some (some (.unaryexpr _operator operand), p1, lxr1)

/-- An assignment, `parse_assign` of `parser.cpp` (lines 614-653); `ident` is the node of the
assigned identifier. -/
def parser_cpp.parse_assign (recurse : parser_cpp.expr_fn) (ident : ast_identifier)
    (p : parser) (lxr : lexer) : parse_result :=
  if lxr.current.type ≠ .TOKEN_VALUE_ASSIGNMENT then none
  else
    let line := lxr.current.line
    let src_pos := lxr.current.src_pos
    match recurse p (lxr.advance 1) with
    | none => none
    | some (none, p1, lxr1) => some (none, p1, lxr1)
    | some (some expression, p1, lxr1) =>
      if expression.type ≠ .NODE_BINEXPR
          ∧ expression.type ≠ .NODE_UNARYEXPR
          ∧ expression.type ≠ .NODE_IDENT
          ∧ expression.type ≠ .NODE_CALL
          ∧ expression.type ≠ .NODE_SINGLETON_LITERAL
          ∧ expression.type ≠ .NODE_BRACED_EXPRESSION
          ∧ expression.type ≠ .NODE_ASSIGN then
        some (none, p1,
          lxr1.raise_error_at "Invalid expression being assigned to variable" src_pos line)
      else some (some (.assign (.ident ident) expression), p1, lxr1)

/-- The function `parse_call` of `parser.cpp` (lines 656-661), which returns `nullptr`. -/
def parser_cpp.parse_call (p : parser) (lxr : lexer) : parse_result :=
  if lxr.current.type ≠ .TOKEN_IDENTIFIER then none
  else some (none, p, lxr)

/-- A binary expression, `parse_binary_expression` of `parser.cpp` (lines 664-718).  The
`dynamic_cast` of the left operand to `ast_identifier*` gives a pointer exactly for an
identifier node. -/
def parser_cpp.parse_binary_expression (recurse : parser_cpp.expr_fn)
    (left_operand : ast_node) (p : parser) (lxr : lexer) : parse_result :=
  if lxr.current.kind ≠ .KIND_BINARY_EXPR_OPERATOR then none
  else if lxr.current.type = .TOKEN_VALUE_ASSIGNMENT then
    match left_operand with
    | .ident ident => parser_cpp.parse_assign recurse ident p lxr
    | _ => some (none, p, lxr.raise_error "Assignment to constant.")
  else
    let _operator := lxr.current.type
    let src_pos := lxr.current.src_pos
    let line := lxr.current.line
    match recurse p (lxr.advance 1) with
    | none => none
    | some (none, p1, lxr1) => some (none, p1, lxr1)
    | some (some right_op, p1, lxr1) =>
      if right_op.type ≠ .NODE_SINGLETON_LITERAL
          ∧ right_op.type ≠ .NODE_BINEXPR
          ∧ right_op.type ≠ .NODE_ASSIGN
          ∧ right_op.type ≠ .NODE_UNARYEXPR
          ∧ right_op.type ≠ .NODE_IDENT
          ∧ right_op.type ≠ .NODE_CALL
          ∧ right_op.type ≠ .NODE_BRACED_EXPRESSION then
        some (none, p1,
          lxr1.raise_error_at "Unexpected expression following binary operator." src_pos line)
      else some (some (.binexpr _operator left_operand right_op), p1, lxr1)

/-- A parameter of a procedure, `parse_parameterized_vardecl` of `parser.cpp` (lines
202-292).  The loop over the pointer markers (lines 252-255) is the one of
`parse_parameterized_vardecl_depth`. -/
def parser_cpp.parse_parameterized_vardecl (p : parser) (lxr : lexer) : parse_result :=
  if lxr.current.type ≠ .TOKEN_IDENTIFIER then none
  else
    let name := String.mk lxr.current.value
    let src_pos := lxr.current.src_pos
    let line := lxr.current.line
    let lxr1 := lxr.advance 1
    if lxr1.current.type ≠ .TOKEN_CONST_TYPE_ASSIGNMENT ∧
        lxr1.current.type ≠ .TOKEN_TYPE_ASSIGNMENT then
      some (none, p, lxr1.raise_error "Expected type assignment here. Got this instead.")
    else
      let flags :=
        if lxr1.current.type = .TOKEN_CONST_TYPE_ASSIGNMENT then
          SYM_VAR_IS_PROCARG ||| SYM_VAR_IS_CONSTANT
        else SYM_VAR_IS_PROCARG
      let lxr2 := lxr1.advance 1
      if lxr2.current.kind ≠ .KIND_TYPE_IDENTIFIER then
        some (none, p, lxr2.raise_error "Expected type identifier. Got this instead.")
      else if lxr2.current.type = .TOKEN_KW_VOID then
        some (none, p,
          lxr2.raise_error "Void can only be used as a procedure return type.")
      else if lxr2.current.type = .TOKEN_KW_PROC then
        some (none, p,
          lxr2.raise_error "Procedures cannot be used as procedure parameters.")
      else if token_to_var_t lxr2.current.type = .VAR_NONE then
        some (none, p, lxr2.raise_error "Unrecognized type identifier.")
      else
        let var_type := token_to_var_t lxr2.current.type
        let lxr3 := lxr2.advance 1
        let flags1 :=
          if lxr3.current.type = .TOKEN_BITWISE_XOR_OR_PTR then flags ||| SYM_IS_POINTER
          else flags
        let (ptr_depth, lxr4) :=
          parse_parameterized_vardecl_depth (lxr3.tokens.length + 1) 0 lxr3
        if lxr4.current.type = .TOKEN_LSQUARE_BRACKET then
          some (none, p,
            lxr4.raise_error
              "Static arrays cannot be used as parameters. Pass an array as a pointer instead.")
        else if lxr4.current.type ≠ .TOKEN_COMMA ∧ lxr4.current.type ≠ .TOKEN_RPAREN then
          some (none, p,
            lxr4.raise_error
              "Expected comma at the end of parameterized variable declaration.")
        else if p.scoped_symbol_exists_at_current_scope name then
          some (none, p, lxr4.raise_error "Symbol already exists within this scope.")
        else
          match p.create_symbol name src_pos line .SYM_VARIABLE flags1 with
          | (none, p1) => some (none, p1, lxr4)
          | (some var_ptr, p1) =>
            some (some (.vardecl { symbol_index := var_ptr } none),
              p1.modify_symbol var_ptr
                (fun s =>
                  { s with
                    array_length := 0, pointer_depth := ptr_depth, variable_type := var_type }),
              lxr4)

/-- The loop over the body of a procedure, `parse_procdecl` of `parser.cpp` (lines 405-423),
and the end of the function (lines 426-428); `body` holds the expressions collected so
far. -/
def parser_cpp.parse_procdecl_body (recurse : parser_cpp.expr_fn) (proc : Nat)
    (parameters : List ast_node) : Nat → List ast_node → parser → lexer → parse_result
  | 0, _, _, _ => none
  | fuel + 1, body, p, lxr =>
    if lxr.current.type ≠ .TOKEN_RBRACE then
      let curr_pos := lxr.current.src_pos
      let line := lxr.current.line
      match recurse p lxr with
      | none => none
      | some (none, p1, lxr1) => some (none, p1, lxr1)
      | some (some expr, p1, lxr1) =>
        if expr.type = .NODE_STRUCT_DEFINITION ∨ expr.type = .NODE_PROCDECL ∨
            expr.type = .NODE_ENUM_DEFINITION then
          some (none, p1,
            lxr1.raise_error_at "Illegal expression inside of procedure body." curr_pos line)
        else parser_cpp.parse_procdecl_body recurse proc parameters fuel (body ++ [expr]) p1 lxr1
    else some (some (.procdecl { symbol_index := proc } parameters body), p, lxr.advance 1)

/-- The part of `parse_procdecl` of `parser.cpp` after the parameters (lines 361-428): the
return type, the types of the parameters, whose loop (lines 379-386) is the one of
`parse_procdecl_parameter_types`, and the body. -/
def parser_cpp.parse_procdecl_return_type (recurse : parser_cpp.expr_fn) (fuel : Nat)
    (proc : Nat) (parameters : List ast_node) (p : parser) (lxr : lexer) : parse_result :=
  let lxr1 := lxr.advance 1
  if lxr1.current.type ≠ .TOKEN_ARROW ∨ (lxr1.peek 1).kind ≠ .KIND_TYPE_IDENTIFIER then
    some (none, p, lxr1.raise_error "Expected procedure return type here.")
  else
    let lxr2 := lxr1.advance 1
    let p1 := p.modify_symbol proc
      (fun s => { s with return_type := token_to_var_t lxr2.current.type })
    if token_to_var_t lxr2.current.type = .VAR_NONE ∧ lxr2.current.type ≠ .TOKEN_KW_VOID then
      some (none, p1, lxr2.raise_error "Unrecognized return type.")
    else
      match parse_procdecl_parameter_types proc parameters p1 with
      | (false, p2) => some (none, p2, lxr2)
      | (true, p2) =>
        let lxr3 := lxr2.advance 1
        if lxr3.current.type ≠ .TOKEN_LBRACE then
          some (none, p2, lxr3.raise_error "Expected start of procedure body here.")
        else parser_cpp.parse_procdecl_body recurse proc parameters fuel [] p2 (lxr3.advance 1)

/-- The loop over the parameters of a procedure, `parse_procdecl` of `parser.cpp` (lines
333-354), and what follows it; `parameters` holds the parameters collected so far.  Every
round ends with `lxr.advance(1)` (line 353), after a comma and after a closing parenthesis
alike. -/
def parser_cpp.parse_procdecl_parameters (recurse : parser_cpp.expr_fn) (fuel : Nat)
    (proc : Nat) : Nat → List ast_node → parser → lexer → parse_result
  | 0, _, _, _ => none
  | count + 1, parameters, p, lxr =>
    if lxr.current.type ≠ .TOKEN_RPAREN then
      if lxr.current.type ≠ .TOKEN_IDENTIFIER then
        some (none, p, lxr.raise_error "Expected procedure parameter.")
      else
        match parser_cpp.parse_parameterized_vardecl p lxr with
        | none => none
        | some (none, p1, lxr1) => some (none, p1, lxr1)
        | some (some param, p1, lxr1) =>
          if lxr1.current.type = .TOKEN_COMMA ∧ (lxr1.peek 1).type ≠ .TOKEN_IDENTIFIER then
            some (none, p1, lxr1.raise_error "Expected identifier following comma.")
          else
            parser_cpp.parse_procdecl_parameters recurse fuel proc count (parameters ++ [param])
              p1 (lxr1.advance 1)
    else parser_cpp.parse_procdecl_return_type recurse fuel proc parameters p lxr

/-- A procedure definition, `parse_procdecl` of `parser.cpp` (lines 295-429); `proc` is the
index of the symbol the pointer `proc` refers to, and `fuel` bounds the iterations of the
loop over the body.  The guard of lines 322-325 runs `pop_scope()` on every return that
follows it; the function has no `push_scope()`. -/
def parser_cpp.parse_procdecl (recurse : parser_cpp.expr_fn) (fuel : Nat) (proc : Nat)
    (p : parser) (lxr : lexer) : parse_result :=
  if lxr.current.type ≠ .TOKEN_KW_PROC then none
  else
    match p.lookup_unique_symbol proc with
    | none => none
    | some s =>
      if has_flag s.flags SYM_IS_GLOBAL = false then
        some (none, p, lxr.raise_error "Declaration of procedure at non-global scope.")
      else
        let lxr1 := lxr.advance 1
        if lxr1.current.type ≠ .TOKEN_LPAREN then
          some (none, p, lxr1.raise_error "Expected parameter list here.")
        else
          match parser_cpp.parse_procdecl_parameters recurse fuel proc
              ((lxr1.advance 1).tokens.length + 1) [] p (lxr1.advance 1) with
          | none => none
          | some (node, p1, lxr2) => some (node, p1.pop_scope, lxr2)

/-- The check for an array type of `parse_vardecl` of `parser.cpp` (lines 463-491).  The
result is `false` where the source returns `nullptr`.  The member `array_length` is taken to
hold every value of an `unsigned long`. -/
def parser_cpp.parse_array_suffix (var : Nat) (p : parser) (lxr : lexer) :
    Bool × parser × lexer :=
  if lxr.current.type = .TOKEN_LSQUARE_BRACKET then
    let p1 := p.modify_symbol var (fun s => { s with flags := s.flags ||| SYM_VAR_IS_ARRAY })
    let lxr1 := lxr.advance 1
    if lxr1.current.type = .TOKEN_INTEGER_LITERAL then
      match stoul lxr1.current.value with
      | .out_of_range => (false, p1, lxr1.raise_error "Array size is too large.")
      | .invalid_argument =>
        (false, p1,
          lxr1.raise_error "Array size must be a valid non-negative integer literal.")
      | .value v =>
        let p2 := p1.modify_symbol var (fun s => { s with array_length := v })
        let lxr2 := lxr1.advance 1
        if lxr2.current.type ≠ .TOKEN_RSQUARE_BRACKET then
          (false, p2, lxr2.raise_error "Expected closing bracket here.")
        else (true, p2, lxr2.advance 1)
    else if lxr1.current.type ≠ .TOKEN_RSQUARE_BRACKET then
      (false, p1, lxr1.raise_error "Expected closing bracket here.")
    else (true, p1, lxr1.advance 1)
  else (true, p, lxr)

/-- The end of `parse_vardecl` of `parser.cpp` (lines 498-537): the node is made, and an
initializer is parsed if `=` follows.  The error of line 527 is raised at the position the
symbol records (`var->src_pos`, `var->line_number`). -/
def parser_cpp.parse_initializer (recurse : parser_cpp.expr_fn) (var : Nat) (p : parser)
    (lxr : lexer) : parse_result :=
  if lxr.current.type = .TOKEN_VALUE_ASSIGNMENT then
    match recurse p (lxr.advance 1) with
    | none => none
    | some (none, p1, lxr1) => some (none, p1, lxr1)
    | some (some init_value, p1, lxr1) =>
      if init_value.type ≠ .NODE_BINEXPR
          ∧ init_value.type ≠ .NODE_UNARYEXPR
          ∧ init_value.type ≠ .NODE_IDENT
          ∧ init_value.type ≠ .NODE_CALL
          ∧ init_value.type ≠ .NODE_SINGLETON_LITERAL
          ∧ init_value.type ≠ .NODE_BRACED_EXPRESSION
          ∧ init_value.type ≠ .NODE_ASSIGN then
        match p1.lookup_unique_symbol var with
        | none => none
        | some s =>
          some (none, p1,
            lxr1.raise_error_at "Invalid expression being assigned to variable." s.src_pos
              s.line_number)
      else some (some (.vardecl { symbol_index := var } (some init_value)), p1, lxr1)
  else
    some (some (.vardecl { symbol_index := var } none),
      p.modify_symbol var
        (fun s => { s with flags := s.flags ||| SYM_VAR_DEFAULT_INITIALIZED }),
      lxr)

/-- A variable declaration, `parse_vardecl` of `parser.cpp` (lines 432-538); `var` is the
index of the symbol the pointer `var` refers to.  The loop over the pointer markers (lines
452-455) is the one of `pointer_depth_loop`. -/
def parser_cpp.parse_vardecl (recurse : parser_cpp.expr_fn) (var : Nat) (p : parser)
    (lxr : lexer) : parse_result :=
  if lxr.current.kind ≠ .KIND_TYPE_IDENTIFIER then none
  else
    let p1 := p.modify_symbol var
      (fun s => { s with variable_type := token_to_var_t lxr.current.type })
    if token_to_var_t lxr.current.type = .VAR_NONE then
      some (none, p1, lxr.raise_error "Unrecognized type identifier.")
    else
      let lxr1 := lxr.advance 1
      let (p2, lxr2) :=
        if lxr1.current.type = .TOKEN_BITWISE_XOR_OR_PTR then
          pointer_depth_loop var (lxr1.tokens.length + 1)
            (p1.modify_symbol var (fun s => { s with flags := s.flags ||| SYM_IS_POINTER })) lxr1
        else (p1, lxr1)
      match parser_cpp.parse_array_suffix var p2 lxr2 with
      | (false, p3, lxr3) => some (none, p3, lxr3)
      | (true, p3, lxr3) => parser_cpp.parse_initializer recurse var p3 lxr3

/-- A declaration, `parse_decl` of `parser.cpp` (lines 541-611); `fuel` bounds the iterations
of the loop over the body of a procedure. -/
def parser_cpp.parse_decl (recurse : parser_cpp.expr_fn) (fuel : Nat) (p : parser)
    (lxr : lexer) : parse_result :=
  if lxr.current.type ≠ .TOKEN_IDENTIFIER then none
  else
    let name := String.mk lxr.current.value
    let src_pos := lxr.current.src_pos
    let line := lxr.current.line
    let lxr1 := lxr.advance 1
    if lxr1.current.type ≠ .TOKEN_CONST_TYPE_ASSIGNMENT ∧
        lxr1.current.type ≠ .TOKEN_TYPE_ASSIGNMENT then
      some (none, p, lxr1.raise_error "Expected type assignment.")
    else
      let flags :=
        if lxr1.current.type = .TOKEN_CONST_TYPE_ASSIGNMENT then
          SYM_FLAGS_NONE ||| SYM_VAR_IS_CONSTANT
        else SYM_FLAGS_NONE
      let flags1 := if p.scope_stack_.length = 1 then flags ||| SYM_IS_GLOBAL else flags
      if p.scoped_symbol_exists_at_current_scope name then
        some (none, p,
          lxr1.raise_error_at "Symbol redeclaration, this already exists at the current scope."
            src_pos line)
      else
        let lxr2 := lxr1.advance 1
        if lxr2.current.kind ≠ .KIND_TYPE_IDENTIFIER then
          some (none, p, lxr2.raise_error "Expected type identifier here.")
        else if lxr2.current.type = .TOKEN_KW_VOID then
          some (none, p,
            lxr2.raise_error "Type identifier \"void\" can only be used as a return type.")
        else if lxr2.current.type = .TOKEN_KW_PROC then
          match p.create_symbol name src_pos line .SYM_PROCEDURE flags1 with
          | (none, p1) => some (none, p1, lxr2)
          | (some proc_ptr, p1) => parser_cpp.parse_procdecl recurse fuel proc_ptr p1 lxr2
        else
          match p.create_symbol name src_pos line .SYM_VARIABLE flags1 with
          | (none, p1) => some (none, p1, lxr2)
          | (some var_ptr, p1) => parser_cpp.parse_vardecl recurse var_ptr p1 lxr2

/-- An identifier at the start of an expression, `parse_identifier` of `parser.cpp` (lines
721-752): a declaration, a call, an assignment or a reference to a symbol in scope. -/
def parser_cpp.parse_identifier (recurse : parser_cpp.expr_fn) (fuel : Nat) (p : parser)
    (lxr : lexer) : parse_result :=
  if lxr.current.type ≠ .TOKEN_IDENTIFIER then none
  else
    let next_type := (lxr.peek 1).type
    if next_type = .TOKEN_TYPE_ASSIGNMENT ∨ next_type = .TOKEN_CONST_TYPE_ASSIGNMENT then
      parser_cpp.parse_decl recurse fuel p lxr
    else if next_type = .TOKEN_LPAREN then parser_cpp.parse_call p lxr
    else
      match p.lookup_scoped_symbol (String.mk lxr.current.value) with
      | none => some (none, p, lxr.raise_error "Symbol does not exist in this scope.")
      | some sym_index =>
        if next_type = .TOKEN_VALUE_ASSIGNMENT then
          parser_cpp.parse_assign recurse { symbol_index := sym_index } p (lxr.advance 1)
        else some (some (.ident { symbol_index := sym_index }), p, lxr.advance 1)

/-- The end of `parse_expression` of `parser.cpp` (lines 185-198): the terminator is
consumed and `expr` is returned, a node or `nullptr`. -/
def parser_cpp.parse_expression_terminal (expr : Option ast_node) (p : parser) (lxr : lexer) :
    parse_result :=
  if lxr.current.type = .TOKEN_SEMICOLON then
    if p.inside_parenthesized_expression_ ≠ 0 then
      some (none, p, lxr.raise_error "Unexpected token inside of parenthesized expression.")
    else some (expr, p, lxr.advance 1)
  else some (none, p, lxr.raise_error "Unexpected token following expression.")

/-- The part of `parse_expression` of `parser.cpp` after the switch (lines 160-198); `expr` is
what the function called in the switch returned, a node or `nullptr`.  The test of lines
171-177 reads `expr->type` when the current token is a binary operator; with `nullptr` for
`expr` that read has no defined result, and the call is `none`. -/
def parser_cpp.parse_expression_end (recurse : parser_cpp.expr_fn) (expr : Option ast_node)
    (p : parser) (lxr : lexer) : parse_result :=
  if lxr.current.type = .TOKEN_RPAREN ∧ p.inside_parenthesized_expression_ = 0 then
    some (none, p, lxr.raise_error "Unexpected token.")
  else
    let p1 : parser :=
      if lxr.current.type = .TOKEN_RPAREN then
        { p with inside_parenthesized_expression_ := decr16 p.inside_parenthesized_expression_ }
      else p
    let lxr1 := if lxr.current.type = .TOKEN_RPAREN then lxr.advance 1 else lxr
    if lxr1.current.kind = .KIND_BINARY_EXPR_OPERATOR then
      match expr with
      | none => none
      | some left_operand =>
        if left_operand.type = .NODE_ASSIGN
            ∨ left_operand.type = .NODE_CALL
            ∨ left_operand.type = .NODE_IDENT
            ∨ left_operand.type = .NODE_BINEXPR
            ∨ left_operand.type = .NODE_SINGLETON_LITERAL
            ∨ left_operand.type = .NODE_UNARYEXPR then
          parser_cpp.parse_binary_expression recurse left_operand p1 lxr1
        else parser_cpp.parse_expression_terminal expr p1 lxr1
    else parser_cpp.parse_expression_terminal expr p1 lxr1

/-- An expression, `parse_expression` of `parser.cpp` (lines 95-199), by recursion on a fuel
counter: the switch on the type of the current token, then `parse_expression_end`. -/
def parser_cpp.parse_expression : Nat → parser → lexer → parse_result
  | 0, _, _ => none
  | fuel + 1, p, lxr =>
    match lxr.current.type with
    | .TOKEN_END_OF_FILE => some (none, p, lxr)
    | .TOKEN_IDENTIFIER =>
      match parser_cpp.parse_identifier (parser_cpp.parse_expression fuel) fuel p lxr with
      | none => none
      | some (expr, p1, lxr1) =>
        parser_cpp.parse_expression_end (parser_cpp.parse_expression fuel) expr p1 lxr1
    | .TOKEN_LPAREN =>
      match parser_cpp.parse_parenthesized_expression (parser_cpp.parse_expression fuel) p
          lxr with
      | none => none
      | some (expr, p1, lxr1) =>
        parser_cpp.parse_expression_end (parser_cpp.parse_expression fuel) expr p1 lxr1
    | .TOKEN_LBRACE =>
      match parser_cpp.parse_braced_expression p lxr with
      | none => none
      | some (expr, p1, lxr1) =>
        parser_cpp.parse_expression_end (parser_cpp.parse_expression fuel) expr p1 lxr1
    | .TOKEN_INTEGER_LITERAL
    | .TOKEN_FLOAT_LITERAL
    | .TOKEN_STRING_LITERAL
    | .TOKEN_CHARACTER_LITERAL
    | .TOKEN_BOOLEAN_LITERAL =>
      match parser_cpp.parse_singleton_literal p lxr with
      | none => none
      | some (expr, p1, lxr1) =>
        parser_cpp.parse_expression_end (parser_cpp.parse_expression fuel) expr p1 lxr1
    | .TOKEN_BITWISE_XOR_OR_PTR
    | .TOKEN_BITWISE_NOT
    | .TOKEN_CONDITIONAL_NOT
    | .TOKEN_PLUS
    | .TOKEN_SUB =>
      match parser_cpp.parse_unary_expression (parser_cpp.parse_expression fuel) p lxr with
      | none => none
      | some (expr, p1, lxr1) =>
        parser_cpp.parse_expression_end (parser_cpp.parse_expression fuel) expr p1 lxr1
    | .TOKEN_KW_RET
    | .TOKEN_KW_BRK
    | .TOKEN_KW_CONT
    | .TOKEN_KW_FOR
    | .TOKEN_KW_WHILE
    | .TOKEN_KW_DO
    | .TOKEN_KW_IF
    | .TOKEN_KW_ELSE
    | .TOKEN_KW_STRUCT
    | .TOKEN_KW_ENUM
    | .TOKEN_KW_SWITCH
    | .TOKEN_KW_CASE
    | .TOKEN_KW_ELIF =>
      match parser_cpp.parse_keyword p lxr with
      | none => none
      | some (expr, p1, lxr1) =>
        parser_cpp.parse_expression_end (parser_cpp.parse_expression fuel) expr p1 lxr1
    | _ => some (none, p, lxr.raise_error "Invalid token at the beginning of an expression.")

/-- The call `parse_expression(parser, lxr)` of the driver (line 772) when it is resolved
within `parser.cpp`: the function of lines 95-199, which takes no flag. -/
def parse_expression_of_parser_cpp (fuel : Nat) : expr_fn :=
  fun p lxr _ _ => parser_cpp.parse_expression fuel p lxr

/-- The tokens of `x : i32; x;`, a declaration and then an expression that is no
declaration. -/
def src_declaration_then_reference : List Token :=
  [ident_token 0 ['x'], op_token .TOKEN_TYPE_ASSIGNMENT 2 [':'],
   type_token .TOKEN_KW_I32 4 ['i', '3', '2'], punct_token .TOKEN_SEMICOLON 7 [';'],
   ident_token 9 ['x'], punct_token .TOKEN_SEMICOLON 10 [';']]

/-- The tokens of `x : i32;`, one declaration. -/
def src_x_i32 : List Token :=
  [ident_token 0 ['x'], op_token .TOKEN_TYPE_ASSIGNMENT 2 [':'],
   type_token .TOKEN_KW_I32 4 ['i', '3', '2'], punct_token .TOKEN_SEMICOLON 7 [';']]

/-! ## Fuel: a call that returns with some fuel returns the same with more -/

theorem parse_parenthesized_expression_mono {f g : expr_fn} (h : extends_fn f g)
    (p : parser) (lxr : lexer) (r) :
    parse_parenthesized_expression f p lxr = some r →
    parse_parenthesized_expression g p lxr = some r := by
  intro hr
  unfold parse_parenthesized_expression at hr ⊢
  split_ifs at hr ⊢ with hc
  simp only [] at hr ⊢
  generalize hf : f _ _ true false = x at hr
  cases x with
  | none => simp at hr
  | some v => rw [h _ _ _ _ _ hf]; exact hr

/-- The loop of `parse_braced_expression` returns the same with more fuel and a callback that
returns more. -/
theorem parse_braced_expression_loop_mono {f g : expr_fn} (h : extends_fn f g) :
    ∀ (n m : Nat), n ≤ m → ∀ (ms : List ast_node) (p : parser) (lxr : lexer) (r),
    parse_braced_expression_loop f n ms p lxr = some r →
    parse_braced_expression_loop g m ms p lxr = some r := by
  intro n
  induction n with
  | zero => intro m _ ms p lxr r hr; simp [parse_braced_expression_loop] at hr
  | succ n ih =>
    intro m hm ms p lxr r hr
    obtain ⟨m, rfl⟩ : ∃ k, m = k + 1 := ⟨m - 1, by omega⟩
    have hnm : n ≤ m := by omega
    unfold parse_braced_expression_loop at hr ⊢
    split_ifs at hr ⊢ with hc
    · simp only [] at hr ⊢
      generalize hf : f _ _ true false = x at hr
      cases x with
      | none => simp at hr
      | some v =>
        rw [h _ _ _ _ _ hf]
        obtain ⟨e, p1, l1⟩ := v
        cases e with
        | none => exact hr
        | some e =>
          simp only [] at hr ⊢
          split_ifs at hr ⊢ with h1 h2
          · exact hr
          · exact ih m hnm _ _ _ _ hr
          · exact ih m hnm _ _ _ _ hr
    · exact hr

/-- `parse_braced_expression` returns the same with more fuel and a callback that returns more.
-/
theorem parse_braced_expression_mono {f g : expr_fn} (h : extends_fn f g) (n m : Nat)
    (hnm : n ≤ m) (p : parser) (lxr : lexer) (r) :
    parse_braced_expression f n p lxr = some r → parse_braced_expression g m p lxr = some r := by
  intro hr
  unfold parse_braced_expression at hr ⊢
  split_ifs at hr ⊢ with hc
  exact parse_braced_expression_loop_mono h n m hnm _ _ _ _ hr

/-- `parse_unary_expression` returns the same when its callback returns more. -/
theorem parse_unary_expression_mono (ext : externals) {f g : expr_fn} (h : extends_fn f g)
    (p : parser) (lxr : lexer) (r) :
    parse_unary_expression ext f p lxr = some r → parse_unary_expression ext g p lxr = some r := by
  intro hr
  unfold parse_unary_expression at hr ⊢
  split_ifs at hr ⊢ with hc
  simp only [] at hr ⊢
  generalize hf : f _ _ true true = x at hr
  cases x with
  | none => simp at hr
  | some v => rw [h _ _ _ _ _ hf]; exact hr

/-- `parse_assign` returns the same when its callback returns more. -/
theorem parse_assign_mono {f g : expr_fn} (h : extends_fn f g) (a : ast_node)
    (p : parser) (lxr : lexer) (r) :
    parse_assign f a p lxr = some r → parse_assign g a p lxr = some r := by
  intro hr
  unfold parse_assign at hr ⊢
  split_ifs at hr ⊢ with hc
  simp only [] at hr ⊢
  generalize hf : f _ _ true false = x at hr
  cases x with
  | none => simp at hr
  | some v => rw [h _ _ _ _ _ hf]; exact hr

/-- The loop of `parse_call` returns the same with more fuel and a callback that returns more.
-/
theorem parse_call_loop_mono {f g : expr_fn} (h : extends_fn f g) (sym_index old : Nat) :
    ∀ (n m : Nat), n ≤ m → ∀ (args : List ast_node) (p : parser) (lxr : lexer) (r),
    parse_call_loop f sym_index old n args p lxr = some r →
    parse_call_loop g sym_index old m args p lxr = some r := by
  intro n
  induction n with
  | zero => intro m _ ms p lxr r hr; simp [parse_call_loop] at hr
  | succ n ih =>
    intro m hm ms p lxr r hr
    obtain ⟨m, rfl⟩ : ∃ k, m = k + 1 := ⟨m - 1, by omega⟩
    have hnm : n ≤ m := by omega
    unfold parse_call_loop at hr ⊢
    split_ifs at hr ⊢ with hc
    · simp only [] at hr ⊢
      generalize hf : f _ _ true false = x at hr
      cases x with
      | none => simp at hr
      | some v =>
        rw [h _ _ _ _ _ hf]
        obtain ⟨e, p1, l1⟩ := v
        cases e with
        | none => exact hr
        | some e =>
          simp only [] at hr ⊢
          split_ifs at hr ⊢ with h1 h2 h3 h4
          all_goals first
            | exact hr
            | exact ih m hnm _ _ _ _ hr
    · exact hr

/-- `parse_call` returns the same with more fuel and a callback that returns more. -/
theorem parse_call_mono {f g : expr_fn} (h : extends_fn f g) (n m : Nat) (hnm : n ≤ m)
    (sym_index : Nat) (p : parser) (lxr : lexer) (r) :
    parse_call f n sym_index p lxr = some r → parse_call g m sym_index p lxr = some r := by
  intro hr
  unfold parse_call at hr ⊢
  split_ifs at hr ⊢ with hc
  cases hs : p.lookup_unique_symbol sym_index with
  | none => simpa [hs] using hr
  | some sym =>
    simp only [hs] at hr ⊢
    split_ifs at hr ⊢ with h1 h2
    · exact hr
    · exact hr
    · exact parse_call_loop_mono h sym_index _ n m hnm _ _ _ _ hr

/-- `parse_binary_expression` returns the same when its callback returns more. -/
theorem parse_binary_expression_mono {f g : expr_fn} (h : extends_fn f g)
    (left : Option ast_node) (p : parser) (lxr : lexer) (r) :
    parse_binary_expression f left p lxr = some r →
    parse_binary_expression g left p lxr = some r := by
  intro hr
  unfold parse_binary_expression at hr ⊢
  split_ifs at hr ⊢ with hc h1
  · cases left with
    | none => simp at hr
    | some left => exact parse_assign_mono h _ _ _ _ hr
  · cases left with
    | none => simp at hr
    | some left =>
      simp only [] at hr ⊢
      generalize hf : f _ _ true false = x at hr
      cases x with
      | none => simp at hr
      | some v => rw [h _ _ _ _ _ hf]; exact hr

/-- `parse_subscript` returns the same when its callback returns more. -/
theorem parse_subscript_mono {f g : expr_fn} (h : extends_fn f g)
    (operand : Option ast_node) (p : parser) (lxr : lexer) (r) :
    parse_subscript f operand p lxr = some r → parse_subscript g operand p lxr = some r := by
  intro hr
  unfold parse_subscript at hr ⊢
  split_ifs at hr ⊢ with hc
  cases operand with
  | none => simp at hr
  | some operand =>
    simp only [] at hr ⊢
    generalize hf : f _ _ true false = x at hr
    cases x with
    | none => simp at hr
    | some v => rw [h _ _ _ _ _ hf]; exact hr

/-- The subscript loop returns the same with more fuel and a callback that returns more. -/
theorem parse_subscripts_mono {f g : expr_fn} (h : extends_fn f g) :
    ∀ (n m : Nat), n ≤ m → ∀ (e : Option ast_node) (p : parser) (lxr : lexer) (q : Bool) (r),
    parse_subscripts f n e p lxr q = some r → parse_subscripts g m e p lxr q = some r := by
  intro n
  induction n with
  | zero => intro m _ e p lxr q r hr; simp [parse_subscripts] at hr
  | succ n ih =>
    intro m hm e p lxr q r hr
    obtain ⟨m, rfl⟩ : ∃ k, m = k + 1 := ⟨m - 1, by omega⟩
    have hnm : n ≤ m := by omega
    unfold parse_subscripts at hr ⊢
    split_ifs at hr ⊢ with hc
    · generalize hf : parse_subscript f e p lxr = x at hr
      cases x with
      | none => simp at hr
      | some v =>
        rw [parse_subscript_mono h _ _ _ _ hf]
        exact ih m hnm _ _ _ _ _ hr
    · exact hr

/-- The suffix phase returns the same with more fuel and a callback that returns more. -/
theorem parse_suffixes_mono {f g : expr_fn} (h : extends_fn f g) (n m : Nat) (hnm : n ≤ m)
    (e : ast_node) (p : parser) (lxr : lexer) (q : Bool) (r) :
    parse_suffixes f n e p lxr q = some r → parse_suffixes g m e p lxr q = some r := by
  intro hr
  unfold parse_suffixes at hr ⊢
  generalize hf : parse_subscripts f n (some e) p lxr q = x at hr
  cases x with
  | none => simp at hr
  | some v =>
    rw [parse_subscripts_mono h n m hnm _ _ _ _ _ hf]
    obtain ⟨e1, p1, l1⟩ := v
    simp only [] at hr ⊢
    split_ifs at hr ⊢ with h1
    · exact parse_binary_expression_mono h _ _ _ _ hr
    · exact hr

/-- The part of `parse_expression` after the primary returns the same with more fuel. -/
theorem parse_after_primary_mono (ext : externals) {f g : expr_fn} (h : extends_fn f g)
    (n m : Nat) (hnm : n ≤ m) (e : ast_node) (p : parser) (lxr : lexer) (s q : Bool) (r) :
    parse_after_primary ext f n e p lxr s q = some r →
    parse_after_primary ext g m e p lxr s q = some r := by
  intro hr
  unfold parse_after_primary at hr ⊢
  generalize hf : parse_suffixes f n e p lxr q = x at hr
  cases x with
  | none =>
    split_ifs at hr ⊢ with h1 h2 h3
    · exact hr
    · exact hr
    · exact hr
  | some v =>
    rw [parse_suffixes_mono h n m hnm _ _ _ _ _ hf]; exact hr

/-- The primary dispatch returns the same with more fuel and a callback that returns more. -/
theorem parse_primary_mono (ext : externals) {f g : expr_fn} (h : extends_fn f g)
    (n m : Nat) (hnm : n ≤ m) (p : parser) (lxr : lexer) (r) :
    parse_primary ext f n p lxr = some r → parse_primary ext g m p lxr = some r := by
  intro hr
  unfold parse_primary at hr ⊢
  simp only [] at hr ⊢
  split_ifs at hr ⊢ with h1 h2 h3 h4 h5 h6 h7
  · exact hr
  · exact hr
  · exact parse_parenthesized_expression_mono h _ _ _ hr
  · exact parse_braced_expression_mono h n m hnm _ _ _ hr
  · exact hr
  · exact hr
  · exact parse_unary_expression_mono ext h _ _ _ hr
  · exact hr

/-- Fuel monotonicity: a call of `parse_expression` that returns with fuel `n` returns the same
with any fuel `m ≥ n`. -/
theorem parse_expression_mono (ext : externals) :
    ∀ (n m : Nat), n ≤ m → extends_fn (parse_expression ext n) (parse_expression ext m) := by
  intro n
  induction n with
  | zero => intro m _ p lxr s q r hr; simp [parse_expression] at hr
  | succ n ih =>
    intro m hm p lxr s q r hr
    obtain ⟨m, rfl⟩ : ∃ k, m = k + 1 := ⟨m - 1, by omega⟩
    have hnm : n ≤ m := by omega
    unfold parse_expression at hr ⊢
    generalize hf : parse_primary ext (parse_expression ext n) n p lxr = x at hr
    cases x with
    | none => simp at hr
    | some v =>
      rw [parse_primary_mono ext (ih m hnm) n m hnm _ _ _ hf]
      obtain ⟨e, p1, l1⟩ := v
      cases e with
      | none => exact hr
      | some e => exact parse_after_primary_mono ext (ih m hnm) n m hnm _ _ _ _ _ _ hr


/-- The current token of a lexer positioned on `t :: ts` is `t`. -/
theorem lexer_current_cons (lxr : lexer) (t : Token) (ts : List Token) :
    ({ lxr with tokens := t :: ts } : lexer).current = t := rfl

/-- Advancing over a token other than end-of-file drops it. -/
theorem lexer_advance_cons (lxr : lexer) (t : Token) (ts : List Token)
    (h : t.type ≠ .TOKEN_END_OF_FILE) :
    ({ lxr with tokens := t :: ts } : lexer).advance 1 = { lxr with tokens := ts } := by
  simp [lexer.advance, lexer.advance1, h]

/-- The node of a literal token is a singleton literal. -/
theorem literal_node_type {t : Token} {n : ast_node} (h : literal_node t = some n) :
    n.type = .NODE_SINGLETON_LITERAL := by
  unfold literal_node at h
  split at h
  · cases hr : remove_escaped_chars t.value with
    | none => simp [hr] at h
    | some v => simp [hr] at h; subst h; rfl
  · simp at h; subst h; rfl

/-- The primary dispatch on a literal token returns its node and advances by one token. -/
theorem parse_primary_literal (ext : externals) (recurse : expr_fn) (fuel : Nat) (p : parser)
    (lxr : lexer) (a : Token) (ts : List Token) (na : ast_node)
    (ha : is_literal a) (hna : literal_node a = some na) :
    parse_primary ext recurse fuel p { lxr with tokens := a :: ts }
      = some (some na, p, { lxr with tokens := ts }) := by
  obtain ⟨hk, ht⟩ := ha
  unfold literal_node at hna
  rcases ht with ht | ht | ht | ht | ht <;>
    simp [parse_primary, parse_singleton_literal, lexer.current, lexer.advance, lexer.advance1,
      hk, ht] at hna ⊢
  all_goals first
    | exact hna
    | (cases hr : remove_escaped_chars a.value with
       | none => simp [hr] at hna
       | some v => simp [hr] at hna; simp [hna])


/-- The subscript loop stops at once on a token other than `[`, or with `parse_single`. -/
theorem parse_subscripts_stop (recurse : expr_fn) (n : Nat) (e : Option ast_node) (p : parser)
    (lxr : lexer) (g : Bool)
    (h : lxr.current.type ≠ .TOKEN_LSQUARE_BRACKET ∨ g = true) :
    parse_subscripts recurse (n + 1) e p lxr g = some (e, p, lxr) := by
  unfold parse_subscripts
  rcases h with h | h <;> simp [h]

/-- No suffix is parsed before a token that is neither `[` nor a binary operator, or with
`parse_single`. -/
theorem parse_suffixes_none (recurse : expr_fn) (n : Nat) (e : ast_node) (p : parser)
    (lxr : lexer) (g : Bool)
    (h : (lxr.current.type ≠ .TOKEN_LSQUARE_BRACKET ∧
          lxr.current.kind ≠ .KIND_BINARY_EXPR_OPERATOR) ∨ g = true) :
    parse_suffixes recurse (n + 1) e p lxr g = some (some e, p, lxr) := by
  unfold parse_suffixes
  rcases h with ⟨h1, h2⟩ | h
  · rw [parse_subscripts_stop recurse n (some e) p lxr g (Or.inl h1)]
    simp [h2]
  · rw [parse_subscripts_stop recurse n (some e) p lxr g (Or.inr h)]
    simp [h]

/-- Before a binary operator the suffix phase is the call of `parse_binary_expression`. -/
theorem parse_suffixes_binop (recurse : expr_fn) (n : Nat) (e : ast_node) (p : parser)
    (lxr : lexer)
    (h1 : lxr.current.type ≠ .TOKEN_LSQUARE_BRACKET)
    (h2 : lxr.current.kind = .KIND_BINARY_EXPR_OPERATOR) :
    parse_suffixes recurse (n + 1) e p lxr false
      = parse_binary_expression recurse (some e) p lxr := by
  unfold parse_suffixes
  rw [parse_subscripts_stop recurse n (some e) p lxr false (Or.inl h1)]
  simp [h2]

/-- One binary operator followed by a right operand that the recursive call parses. -/
theorem parse_binary_expression_step (recurse : expr_fn) (left t : ast_node) (p p1 : parser)
    (lxr lxr1 : lexer) (op : Token) (ts : List Token)
    (hop : binary_operator op) (hna : op.type ≠ .TOKEN_VALUE_ASSIGNMENT)
    (hrec : recurse p { lxr with tokens := ts } true false = some (some t, p1, lxr1))
    (hv : VALID_SUBEXPRESSION t.type = true) :
    parse_binary_expression recurse (some left) p { lxr with tokens := op :: ts }
      = some (some (.binexpr op.type left t), p1, lxr1) := by
  obtain ⟨hk, he, _, _⟩ := hop
  simp [parse_binary_expression, lexer.current, lexer.advance, lexer.advance1, hk, he, hna,
    hrec, hv]

/-- One step of an operand chain: a literal and a binary operator in front of a stream that
parses to `t` give `BinaryExpr(op, a, t)`. -/
theorem parse_expression_chain_step (ext : externals) (n : Nat) (p p1 : parser) (lxr lxr1 : lexer)
    (a op : Token) (na t : ast_node) (ts : List Token)
    (hE : ext.EXPR_NEVER_NEEDS_TERMINAL .NODE_SINGLETON_LITERAL = false)
    (ha : is_literal a) (hna : literal_node a = some na)
    (hop : binary_operator op) (hasg : op.type ≠ .TOKEN_VALUE_ASSIGNMENT)
    (hrec : parse_expression ext (n + 1) p { lxr with tokens := ts } true false
              = some (some t, p1, lxr1))
    (hv : VALID_SUBEXPRESSION t.type = true) :
    parse_expression ext (n + 2) p { lxr with tokens := a :: op :: ts } true false
      = some (some (.binexpr op.type na t), p1, lxr1) := by
  have hb := parse_binary_expression_step (parse_expression ext (n + 1)) na t p p1 lxr lxr1 op ts
    hop hasg hrec hv
  obtain ⟨hk, he, hr, hl⟩ := hop
  rw [parse_expression, parse_primary_literal ext _ _ p lxr a (op :: ts) na ha hna]
  simp only [parse_after_primary]
  rw [parse_suffixes_binop _ n na p _ (by simpa [lexer.current] using hl)
    (by simpa [lexer.current] using hk)]
  simp [lexer.current, hr, literal_node_type hna, hE, hb]

/-- The tree of an operand chain is a valid subexpression. -/
theorem right_nested_valid (na : ast_node) (gs : List operand_group)
    (h : na.type = .NODE_SINGLETON_LITERAL) :
    VALID_SUBEXPRESSION (right_nested na gs).type = true := by
  cases gs with
  | nil => simp [right_nested, h, VALID_SUBEXPRESSION]
  | cons g gs => simp [right_nested, ast_node.type, VALID_SUBEXPRESSION]

/-- A `)` after the primary at a positive depth is consumed and the depth decremented. -/
theorem parse_after_primary_rparen (ext : externals) (recurse : expr_fn) (n : Nat)
    (e : ast_node) (p : parser) (lxr : lexer) (s g : Bool)
    (h : lxr.current.type = .TOKEN_RPAREN) (hd : 0 < p.inside_parenthesized_expression_) :
    parse_after_primary ext recurse n e p lxr s g
      = some (some e,
          { p with inside_parenthesized_expression_ := p.inside_parenthesized_expression_ - 1 },
          lxr.advance 1) := by
  unfold parse_after_primary
  simp [h, Nat.pos_iff_ne_zero.mp hd]

/-- A subexpression whose primary is followed by no suffix is the primary. -/
theorem parse_after_primary_sub_stop (ext : externals) (recurse : expr_fn) (n : Nat)
    (e : ast_node) (p : parser) (lxr : lexer) (g : Bool)
    (hE : ext.EXPR_NEVER_NEEDS_TERMINAL e.type = false)
    (h : lxr.current.type ≠ .TOKEN_RPAREN)
    (hs : (lxr.current.type ≠ .TOKEN_LSQUARE_BRACKET ∧
          lxr.current.kind ≠ .KIND_BINARY_EXPR_OPERATOR) ∨ g = true) :
    parse_after_primary ext recurse (n + 1) e p lxr true g = some (some e, p, lxr) := by
  unfold parse_after_primary
  simp [h, hE, parse_suffixes_none recurse n e p lxr g hs]

/-- A statement whose primary is followed by `;` or `,` at depth 0 is the primary, and the
terminator is consumed. -/
theorem parse_after_primary_terminator (ext : externals) (recurse : expr_fn) (n : Nat)
    (e : ast_node) (p : parser) (lxr : lexer) (g : Bool)
    (hE : ext.EXPR_NEVER_NEEDS_TERMINAL e.type = false)
    (h : lxr.current.type = .TOKEN_SEMICOLON ∨ lxr.current.type = .TOKEN_COMMA)
    (hk : lxr.current.kind ≠ .KIND_BINARY_EXPR_OPERATOR)
    (hd : p.inside_parenthesized_expression_ = 0) :
    parse_after_primary ext recurse (n + 1) e p lxr false g = some (some e, p, lxr.advance 1) := by
  have h1 : lxr.current.type ≠ .TOKEN_RPAREN := by rcases h with h | h <;> simp [h]
  have h2 : lxr.current.type ≠ .TOKEN_LSQUARE_BRACKET := by rcases h with h | h <;> simp [h]
  unfold parse_after_primary
  simp [h1, hE, parse_suffixes_none recurse n e p lxr g (Or.inl ⟨h2, hk⟩), h, hd]

/-- A literal in front of a token that ends an operand parses, as a subexpression, to its node.
-/
theorem parse_expression_literal_stop (ext : externals) (p : parser) (lxr : lexer)
    (x t : Token) (nx : ast_node) (rest : List Token)
    (hE : ext.EXPR_NEVER_NEEDS_TERMINAL .NODE_SINGLETON_LITERAL = false)
    (hx : is_literal x) (hnx : literal_node x = some nx) (ht : stops_operand t) :
    parse_expression ext 2 p { lxr with tokens := x :: t :: rest } true false
      = some (some nx, p, { lxr with tokens := t :: rest }) := by
  obtain ⟨h1, h2, h3⟩ := ht
  rw [parse_expression, parse_primary_literal ext _ _ p lxr x (t :: rest) nx hx hnx]
  exact parse_after_primary_sub_stop ext _ 0 nx p _ false (by rw [literal_node_type hnx]; exact hE)
    (by simpa [lexer.current] using h1) (Or.inl (by simpa [lexer.current] using ⟨h2, h3⟩))

/-- A literal in front of `)` at a positive depth: the `)` is consumed and the depth
decremented. -/
theorem parse_expression_literal_rparen (ext : externals) (p : parser) (lxr : lexer)
    (x t : Token) (nx : ast_node) (rest : List Token)
    (hx : is_literal x) (hnx : literal_node x = some nx) (ht : t.type = .TOKEN_RPAREN)
    (hd : 0 < p.inside_parenthesized_expression_) :
    parse_expression ext 2 p { lxr with tokens := x :: t :: rest } true false
      = some (some nx,
          { p with inside_parenthesized_expression_ := p.inside_parenthesized_expression_ - 1 },
          { lxr with tokens := rest }) := by
  rw [parse_expression, parse_primary_literal ext _ _ p lxr x (t :: rest) nx hx hnx]
  simp only []
  rw [parse_after_primary_rparen ext _ 1 nx p _ true false (by simpa [lexer.current] using ht) hd]
  simp [lexer.advance, lexer.advance1, ht]

/-- An operand chain parses, as a subexpression, to its right-nested tree, whatever the last
operand leaves behind. -/
theorem parse_expression_chain (ext : externals) (p p1 : parser) (lxr l1 : lexer)
    (tail : List Token)
    (hE : ext.EXPR_NEVER_NEEDS_TERMINAL .NODE_SINGLETON_LITERAL = false)
    (hbase : ∀ (x : Token) (nx : ast_node), is_literal x → literal_node x = some nx →
      parse_expression ext 2 p { lxr with tokens := x :: tail } true false
        = some (some nx, p1, l1)) :
    ∀ (gs : List operand_group) (a : Token) (na : ast_node), is_literal a →
      literal_node a = some na → (∀ g ∈ gs, g.ok) →
      parse_expression ext (gs.length + 2) p
          { lxr with tokens := a :: (chain_tokens gs ++ tail) } true false
        = some (some (right_nested na gs), p1, l1) := by
  intro gs
  induction gs with
  | nil => intro a na ha hna _; simpa [chain_tokens, right_nested] using hbase a na ha hna
  | cons g gs ih =>
    intro a na ha hna hok
    obtain ⟨hop, hasg, hb, hnb⟩ := hok g (List.mem_cons_self _ _)
    have hrec := ih g.operand g.node hb hnb (fun x hx => hok x (List.mem_cons_of_mem _ hx))
    have := parse_expression_chain_step ext (gs.length + 1) p p1 lxr l1 a g.op na
      (right_nested g.node gs) (g.operand :: (chain_tokens gs ++ tail)) hE ha hna hop hasg hrec
      (right_nested_valid _ _ (literal_node_type hnb))
    simpa [chain_tokens, right_nested] using this

/-- An operand chain followed by `;` or `,` at depth 0 parses, as a statement, to its right-
nested tree. -/
theorem parse_expression_chain_top (ext : externals) (p : parser) (lxr : lexer)
    (semi : Token) (rest : List Token)
    (hE : ext.EXPR_NEVER_NEEDS_TERMINAL .NODE_SINGLETON_LITERAL = false)
    (hs : semi.type = .TOKEN_SEMICOLON ∨ semi.type = .TOKEN_COMMA)
    (hk : semi.kind ≠ .KIND_BINARY_EXPR_OPERATOR)
    (hd : p.inside_parenthesized_expression_ = 0)
    (gs : List operand_group) (a : Token) (na : ast_node) (ha : is_literal a)
    (hna : literal_node a = some na) (hok : ∀ g ∈ gs, g.ok) :
    parse_expression ext (gs.length + 2) p
        { lxr with tokens := a :: (chain_tokens gs ++ semi :: rest) } false false
      = some (some (right_nested na gs), p, { lxr with tokens := rest }) := by
  have hsemi : stops_operand semi := by
    refine ⟨?_, ?_, hk⟩ <;> rcases hs with h | h <;> simp [h]
  have hne : semi.type ≠ .TOKEN_END_OF_FILE := by rcases hs with h | h <;> simp [h]
  cases gs with
  | nil =>
    simp only [chain_tokens, right_nested, List.nil_append, List.length_nil, Nat.zero_add]
    rw [parse_expression, parse_primary_literal ext _ _ p lxr a (semi :: rest) na ha hna]
    simp only []
    rw [parse_after_primary_terminator ext _ 0 na p _ false
      (by rw [literal_node_type hna]; exact hE) (by simpa [lexer.current] using hs)
      (by simpa [lexer.current] using hk) hd]
    simp [lexer.advance, lexer.advance1, hne]
  | cons g gs =>
    obtain ⟨hop, hasg, hb, hnb⟩ := hok g (List.mem_cons_self _ _)
    have hrec := parse_expression_chain ext p p lxr { lxr with tokens := semi :: rest }
      (semi :: rest) hE
      (fun x nx hx hnx => parse_expression_literal_stop ext p lxr x semi nx rest hE hx hnx hsemi)
      gs g.operand g.node hb hnb (fun x hx => hok x (List.mem_cons_of_mem _ hx))
    have hbin := parse_binary_expression_step (parse_expression ext (gs.length + 2)) na
      (right_nested g.node gs) p p lxr { lxr with tokens := semi :: rest } g.op
      (g.operand :: (chain_tokens gs ++ semi :: rest)) hop hasg hrec
      (right_nested_valid _ _ (literal_node_type hnb))
    obtain ⟨hk1, he1, hr1, hl1⟩ := hop
    simp only [chain_tokens, right_nested, List.cons_append, List.length_cons]
    rw [parse_expression, parse_primary_literal ext _ _ p lxr a _ na ha hna]
    simp only [parse_after_primary]
    rw [parse_suffixes_binop _ (gs.length + 1) na p _ (by simpa [lexer.current] using hl1)
      (by simpa [lexer.current] using hk1)]
    simp [lexer.current, hr1, literal_node_type hna, hE, hbin, hs, hd, lexer.advance,
      lexer.advance1, hne]

/-! ## Operator chains: C1, C2, C3, C5 -/

theorem precedence_of_binary {t : token_t} {k : Nat} (h : precedence_of t = some k) :
    t ≠ .TOKEN_END_OF_FILE ∧ t ≠ .TOKEN_RPAREN ∧ t ≠ .TOKEN_LSQUARE_BRACKET := by
  cases t <;> simp [precedence_of] at h ⊢

/-- The stream `a op1 b op2 c ;` with literal operands and non-assignment binary operators
parses to `BinaryExpr(op1, a, BinaryExpr(op2, b, c))`, as a statement and as a subexpression.
-/
theorem parse_expression_three_operands (ext : externals) (p : parser) (lxr : lexer)
    (a op1 b op2 c semi : Token) (na nb nc : ast_node) (rest : List Token) (fuel : Nat)
    (hE : ext.EXPR_NEVER_NEEDS_TERMINAL .NODE_SINGLETON_LITERAL = false)
    (hd : p.inside_parenthesized_expression_ = 0)
    (ha : is_literal a) (hna : literal_node a = some na)
    (hb : is_literal b) (hnb : literal_node b = some nb)
    (hc : is_literal c) (hnc : literal_node c = some nc)
    (hop1 : binary_operator op1) (hne1 : op1.type ≠ .TOKEN_VALUE_ASSIGNMENT)
    (hop2 : binary_operator op2) (hne2 : op2.type ≠ .TOKEN_VALUE_ASSIGNMENT)
    (hsemi : semi.type = .TOKEN_SEMICOLON) (hsemik : semi.kind = .KIND_PUNCTUATOR)
    (hfuel : 4 ≤ fuel) :
    parse_expression ext fuel p { lxr with tokens := a :: op1 :: b :: op2 :: c :: semi :: rest }
        false false
      = some (some (.binexpr op1.type na (.binexpr op2.type nb nc)), p,
          { lxr with tokens := rest })
    ∧ parse_expression ext fuel p { lxr with tokens := a :: op1 :: b :: op2 :: c :: semi :: rest }
        true false
      = some (some (.binexpr op1.type na (.binexpr op2.type nb nc)), p,
          { lxr with tokens := semi :: rest }) := by
  have hok : ∀ g ∈ [operand_group.mk op1 b nb, operand_group.mk op2 c nc], g.ok := by
    intro g hg
    simp only [List.mem_cons, List.mem_singleton, List.not_mem_nil, or_false] at hg
    rcases hg with rfl | rfl
    · exact ⟨hop1, hne1, hb, hnb⟩
    · exact ⟨hop2, hne2, hc, hnc⟩
  have hk : semi.kind ≠ .KIND_BINARY_EXPR_OPERATOR := by simp [hsemik]
  have hstop : stops_operand semi := ⟨by simp [hsemi], by simp [hsemi], hk⟩
  constructor
  · have h := parse_expression_chain_top ext p lxr semi rest hE (Or.inl hsemi) hk hd
      [operand_group.mk op1 b nb, operand_group.mk op2 c nc] a na ha hna hok
    exact parse_expression_mono ext 4 fuel hfuel _ _ _ _ _ h
  · have h := parse_expression_chain ext p p lxr { lxr with tokens := semi :: rest }
      (semi :: rest) hE
      (fun x nx hx hnx => parse_expression_literal_stop ext p lxr x semi nx rest hE hx hnx hstop)
      [operand_group.mk op1 b nb, operand_group.mk op2 c nc] a na ha hna hok
    exact parse_expression_mono ext 4 fuel hfuel _ _ _ _ _ h

/-- C1: with literal operands `a`, `b`, `c` and non-assignment binary operators `op1`, `op2`
such that `precedence_of op2 > precedence_of op1`, `parse_expression` on `a op1 b op2 c ;`
(at parenthesis depth 0, with enough fuel) returns `BinaryExpr(op1, a, BinaryExpr(op2, b, c))`,
having consumed the `;` as a statement and leaving it as current token as a subexpression;
in particular the call `parse_expression(parser, lxr, true)` that `parse_vardecl` makes for the
initializer of `a : i32 = 1 + 2 * 3;` returns `BinaryExpr(+, 1, BinaryExpr(*, 2, 3))`. -/
theorem parse_expression_higher_precedence_on_the_right (ext : externals) (p : parser)
    (lxr : lexer) (a op1 b op2 c semi : Token) (na nb nc : ast_node) (rest : List Token)
    (prec1 prec2 fuel : Nat)
    (hE : ext.EXPR_NEVER_NEEDS_TERMINAL .NODE_SINGLETON_LITERAL = false)
    (hd : p.inside_parenthesized_expression_ = 0)
    (ha : is_literal a) (hna : literal_node a = some na)
    (hb : is_literal b) (hnb : literal_node b = some nb)
    (hc : is_literal c) (hnc : literal_node c = some nc)
    (hop1 : op1.kind = .KIND_BINARY_EXPR_OPERATOR) (hne1 : op1.type ≠ .TOKEN_VALUE_ASSIGNMENT)
    (hop2 : op2.kind = .KIND_BINARY_EXPR_OPERATOR) (hne2 : op2.type ≠ .TOKEN_VALUE_ASSIGNMENT)
    (hp1 : precedence_of op1.type = some prec1) (hp2 : precedence_of op2.type = some prec2)
    (_hprec : prec1 < prec2)
    (hsemi : semi.type = .TOKEN_SEMICOLON) (hsemik : semi.kind = .KIND_PUNCTUATOR)
    (hfuel : 4 ≤ fuel) :
    parse_expression ext fuel p { lxr with tokens := a :: op1 :: b :: op2 :: c :: semi :: rest }
        false false
      = some (some (.binexpr op1.type na (.binexpr op2.type nb nc)), p,
          { lxr with tokens := rest })
    ∧ parse_expression ext fuel p { lxr with tokens := a :: op1 :: b :: op2 :: c :: semi :: rest }
        true false
      = some (some (.binexpr op1.type na (.binexpr op2.type nb nc)), p,
          { lxr with tokens := semi :: rest })
    ∧ parse_expression ext fuel p { lxr with tokens := S3_initializer } true false
      = some (some (.binexpr .TOKEN_PLUS (int_node ['1'])
            (.binexpr .TOKEN_MUL (int_node ['2']) (int_node ['3']))), p,
          { lxr with tokens := [punct_token .TOKEN_SEMICOLON 19 [';']] }) := by
  have h := parse_expression_three_operands ext p lxr a op1 b op2 c semi na nb nc rest fuel hE hd
    ha hna hb hnb hc hnc ⟨hop1, precedence_of_binary hp1⟩ hne1 ⟨hop2, precedence_of_binary hp2⟩
    hne2 hsemi hsemik hfuel
  refine ⟨h.1, h.2, ?_⟩
  exact (parse_expression_three_operands ext p lxr (int_token 10 ['1'])
    (op_token .TOKEN_PLUS 12 ['+']) (int_token 14 ['2']) (op_token .TOKEN_MUL 16 ['*'])
    (int_token 18 ['3']) (punct_token .TOKEN_SEMICOLON 19 [';']) (int_node ['1']) (int_node ['2'])
    (int_node ['3']) [] fuel hE hd (by decide) rfl (by decide) rfl (by decide) rfl
    (by decide) (by decide) (by decide) (by decide) rfl rfl hfuel).2

/-- C1 (witness): the statement run of `1 + 2 * 3;`, where `+` has precedence 7 and `*` 8. -/
theorem parse_expression_higher_precedence_on_the_right_witness :
    parse_expression sample_externals 4 (parser_with []) (lexer_on S3_initializer) false false
      = some (some (.binexpr .TOKEN_PLUS (int_node ['1'])
            (.binexpr .TOKEN_MUL (int_node ['2']) (int_node ['3']))), parser_with [],
          lexer_on []) :=
  (parse_expression_higher_precedence_on_the_right sample_externals (parser_with [])
    (lexer_on []) (int_token 10 ['1'])
    (op_token .TOKEN_PLUS 12 ['+']) (int_token 14 ['2']) (op_token .TOKEN_MUL 16 ['*'])
    (int_token 18 ['3']) (punct_token .TOKEN_SEMICOLON 19 [';']) (int_node ['1']) (int_node ['2'])
    (int_node ['3']) [] 7 8 4 rfl rfl (by decide) rfl (by decide) rfl (by decide) rfl
    rfl (by decide) rfl (by decide) rfl rfl (by decide) rfl rfl (le_refl 4)).1


/-- C2 (counterexample): `*` binds tighter than `+` (`precedence_of` gives 8 and 7), yet on
`1 * 2 + 3;` `parse_expression` returns `BinaryExpr(*, 1, BinaryExpr(+, 2, 3))`, and with no
amount of fuel the claimed `BinaryExpr(+, BinaryExpr(*, 1, 2), 3)`. -/
theorem parse_expression_higher_precedence_on_the_left_counterexample :
    precedence_of .TOKEN_MUL = some 8 ∧ precedence_of .TOKEN_PLUS = some 7 ∧
    parse_expression sample_externals 4 (parser_with []) (lexer_on src_1_mul_2_plus_3)
        false false
      = some (some (.binexpr .TOKEN_MUL (int_node ['1'])
            (.binexpr .TOKEN_PLUS (int_node ['2']) (int_node ['3']))), parser_with [],
          lexer_on [])
    ∧ ∀ (fuel : Nat) (p1 : parser) (lxr1 : lexer),
        parse_expression sample_externals fuel (parser_with []) (lexer_on src_1_mul_2_plus_3)
            false false
          ≠ some (some (.binexpr .TOKEN_PLUS
                (.binexpr .TOKEN_MUL (int_node ['1']) (int_node ['2'])) (int_node ['3'])),
              p1, lxr1) := by
  refine ⟨rfl, rfl, rfl, ?_⟩
  intro fuel p1 lxr1 h
  have h1 := parse_expression_mono sample_externals fuel (fuel + 4) (Nat.le_add_right _ _)
    _ _ _ _ _ h
  have h2 : parse_expression sample_externals 4 (parser_with []) (lexer_on src_1_mul_2_plus_3)
      false false = some (some (.binexpr .TOKEN_MUL (int_node ['1'])
            (.binexpr .TOKEN_PLUS (int_node ['2']) (int_node ['3']))), parser_with [],
          lexer_on []) := rfl
  have h3 := parse_expression_mono sample_externals 4 (fuel + 4) (Nat.le_add_left _ _)
    _ _ _ _ _ h2
  rw [h1] at h3
  simp at h3

/-- C2 (amended): with literal operands and non-assignment binary operators such that
`precedence_of op1 > precedence_of op2`, `parse_expression` on `a op1 b op2 c ;` returns the
right-nested tree `BinaryExpr(op1, a, BinaryExpr(op2, b, c))`: the looser operator is the one
that is nested, as `parse_expression` does not consult `precedence_of`. -/
theorem parse_expression_higher_precedence_on_the_left (ext : externals) (p : parser)
    (lxr : lexer) (a op1 b op2 c semi : Token) (na nb nc : ast_node) (rest : List Token)
    (prec1 prec2 fuel : Nat)
    (hE : ext.EXPR_NEVER_NEEDS_TERMINAL .NODE_SINGLETON_LITERAL = false)
    (hd : p.inside_parenthesized_expression_ = 0)
    (ha : is_literal a) (hna : literal_node a = some na)
    (hb : is_literal b) (hnb : literal_node b = some nb)
    (hc : is_literal c) (hnc : literal_node c = some nc)
    (hop1 : op1.kind = .KIND_BINARY_EXPR_OPERATOR) (hne1 : op1.type ≠ .TOKEN_VALUE_ASSIGNMENT)
    (hop2 : op2.kind = .KIND_BINARY_EXPR_OPERATOR) (hne2 : op2.type ≠ .TOKEN_VALUE_ASSIGNMENT)
    (hp1 : precedence_of op1.type = some prec1) (hp2 : precedence_of op2.type = some prec2)
    (_hprec : prec2 < prec1)
    (hsemi : semi.type = .TOKEN_SEMICOLON) (hsemik : semi.kind = .KIND_PUNCTUATOR)
    (hfuel : 4 ≤ fuel) :
    parse_expression ext fuel p { lxr with tokens := a :: op1 :: b :: op2 :: c :: semi :: rest }
        false false
      = some (some (.binexpr op1.type na (.binexpr op2.type nb nc)), p,
          { lxr with tokens := rest }) :=
  (parse_expression_three_operands ext p lxr a op1 b op2 c semi na nb nc rest fuel hE hd
    ha hna hb hnb hc hnc ⟨hop1, precedence_of_binary hp1⟩ hne1 ⟨hop2, precedence_of_binary hp2⟩
    hne2 hsemi hsemik hfuel).1

/-- C2 (witness of the amended claim): the run of `1 * 2 + 3;`, where `*` has precedence 8 and
`+` 7. -/
theorem parse_expression_higher_precedence_on_the_left_witness :
    parse_expression sample_externals 4 (parser_with []) (lexer_on src_1_mul_2_plus_3)
        false false
      = some (some (.binexpr .TOKEN_MUL (int_node ['1'])
            (.binexpr .TOKEN_PLUS (int_node ['2']) (int_node ['3']))), parser_with [],
          lexer_on []) :=
  parse_expression_higher_precedence_on_the_left sample_externals (parser_with [])
    (lexer_on []) (int_token 0 ['1'])
    (op_token .TOKEN_MUL 2 ['*']) (int_token 4 ['2']) (op_token .TOKEN_PLUS 6 ['+'])
    (int_token 8 ['3']) (punct_token .TOKEN_SEMICOLON 9 [';']) (int_node ['1']) (int_node ['2'])
    (int_node ['3']) [] 8 7 4 rfl rfl (by decide) rfl (by decide) rfl (by decide) rfl
    rfl (by decide) rfl (by decide) rfl rfl (by decide) rfl rfl (le_refl 4)

/-- C3 (counterexample): on `1 - 2 - 3;` `parse_expression` returns
`BinaryExpr(-, 1, BinaryExpr(-, 2, 3))`, and with no amount of fuel the left-associated
`BinaryExpr(-, BinaryExpr(-, 1, 2), 3)`. -/
theorem parse_expression_left_associative_counterexample :
    parse_expression sample_externals 4 (parser_with []) (lexer_on src_1_sub_2_sub_3)
        false false
      = some (some (.binexpr .TOKEN_SUB (int_node ['1'])
            (.binexpr .TOKEN_SUB (int_node ['2']) (int_node ['3']))), parser_with [],
          lexer_on [])
    ∧ ∀ (fuel : Nat) (p1 : parser) (lxr1 : lexer),
        parse_expression sample_externals fuel (parser_with []) (lexer_on src_1_sub_2_sub_3)
            false false
          ≠ some (some (.binexpr .TOKEN_SUB
                (.binexpr .TOKEN_SUB (int_node ['1']) (int_node ['2'])) (int_node ['3'])),
              p1, lxr1) := by
  refine ⟨rfl, ?_⟩
  intro fuel p1 lxr1 h
  have h1 := parse_expression_mono sample_externals fuel (fuel + 4) (Nat.le_add_right _ _)
    _ _ _ _ _ h
  have h2 : parse_expression sample_externals 4 (parser_with []) (lexer_on src_1_sub_2_sub_3)
      false false = some (some (.binexpr .TOKEN_SUB (int_node ['1'])
            (.binexpr .TOKEN_SUB (int_node ['2']) (int_node ['3']))), parser_with [],
          lexer_on []) := rfl
  have h3 := parse_expression_mono sample_externals 4 (fuel + 4) (Nat.le_add_left _ _)
    _ _ _ _ _ h2
  rw [h1] at h3
  simp [int_node] at h3

/-- C3 (amended): non-assignment binary operators associate to the right in the tree that
`parse_expression` returns: for literal operands and two occurrences `op1`, `op2` of the same
non-assignment binary operator, `a op b op c ;` gives `BinaryExpr(op, a, BinaryExpr(op, b, c))`. -/
theorem parse_expression_same_operator_nests_right (ext : externals) (p : parser)
    (lxr : lexer) (a op1 b op2 c semi : Token) (na nb nc : ast_node) (rest : List Token)
    (fuel : Nat)
    (hE : ext.EXPR_NEVER_NEEDS_TERMINAL .NODE_SINGLETON_LITERAL = false)
    (hd : p.inside_parenthesized_expression_ = 0)
    (ha : is_literal a) (hna : literal_node a = some na)
    (hb : is_literal b) (hnb : literal_node b = some nb)
    (hc : is_literal c) (hnc : literal_node c = some nc)
    (hop1 : binary_operator op1) (hne1 : op1.type ≠ .TOKEN_VALUE_ASSIGNMENT)
    (hop2 : binary_operator op2) (hsame : op2.type = op1.type)
    (hsemi : semi.type = .TOKEN_SEMICOLON) (hsemik : semi.kind = .KIND_PUNCTUATOR)
    (hfuel : 4 ≤ fuel) :
    parse_expression ext fuel p { lxr with tokens := a :: op1 :: b :: op2 :: c :: semi :: rest }
        false false
      = some (some (.binexpr op1.type na (.binexpr op1.type nb nc)), p,
          { lxr with tokens := rest }) := by
  have h := (parse_expression_three_operands ext p lxr a op1 b op2 c semi na nb nc rest fuel hE hd
    ha hna hb hnb hc hnc hop1 hne1 hop2 (by rw [hsame]; exact hne1) hsemi hsemik hfuel).1
  rw [hsame] at h
  exact h

/-- C3 (witness of the amended claim): the run of `1 - 2 - 3;`. -/
theorem parse_expression_same_operator_nests_right_witness :
    parse_expression sample_externals 4 (parser_with []) (lexer_on src_1_sub_2_sub_3)
        false false
      = some (some (.binexpr .TOKEN_SUB (int_node ['1'])
            (.binexpr .TOKEN_SUB (int_node ['2']) (int_node ['3']))), parser_with [],
          lexer_on []) :=
  parse_expression_same_operator_nests_right sample_externals (parser_with [])
    (lexer_on []) (int_token 0 ['1'])
    (op_token .TOKEN_SUB 2 ['-']) (int_token 4 ['2']) (op_token .TOKEN_SUB 6 ['-'])
    (int_token 8 ['3']) (punct_token .TOKEN_SEMICOLON 9 [';']) (int_node ['1']) (int_node ['2'])
    (int_node ['3']) [] 4 rfl rfl (by decide) rfl (by decide) rfl (by decide) rfl
    (by decide) (by decide) (by decide) rfl rfl rfl (le_refl 4)

/-- C5: `precedence_of` agrees with the precedence table of the specification on every
operator listed there. -/
theorem precedence_of_table :
    precedence_of .TOKEN_CONDITIONAL_AND = some 13 ∧
    precedence_of .TOKEN_CONDITIONAL_OR = some 12 ∧
    precedence_of .TOKEN_MUL = some 8 ∧
    precedence_of .TOKEN_DIV = some 8 ∧
    precedence_of .TOKEN_MOD = some 8 ∧
    precedence_of .TOKEN_PLUS = some 7 ∧
    precedence_of .TOKEN_SUB = some 7 ∧
    precedence_of .TOKEN_BITWISE_LSHIFT = some 6 ∧
    precedence_of .TOKEN_BITWISE_RSHIFT = some 6 ∧
    precedence_of .TOKEN_COMP_LT = some 5 ∧
    precedence_of .TOKEN_COMP_LTE = some 5 ∧
    precedence_of .TOKEN_COMP_GT = some 5 ∧
    precedence_of .TOKEN_COMP_GTE = some 5 ∧
    precedence_of .TOKEN_COMP_EQUALS = some 4 ∧
    precedence_of .TOKEN_COMP_NOT_EQUALS = some 4 ∧
    precedence_of .TOKEN_BITWISE_AND = some 3 ∧
    precedence_of .TOKEN_BITWISE_XOR_OR_PTR = some 2 ∧
    precedence_of .TOKEN_BITWISE_OR = some 1 ∧
    precedence_of .TOKEN_VALUE_ASSIGNMENT = some 0 ∧
    precedence_of .TOKEN_PLUSEQ = some 0 ∧
    precedence_of .TOKEN_SUBEQ = some 0 ∧
    precedence_of .TOKEN_MULEQ = some 0 ∧
    precedence_of .TOKEN_DIVEQ = some 0 ∧
    precedence_of .TOKEN_MODEQ = some 0 ∧
    precedence_of .TOKEN_BITWISE_LSHIFTEQ = some 0 ∧
    precedence_of .TOKEN_BITWISE_RSHIFTEQ = some 0 ∧
    precedence_of .TOKEN_BITWISE_ANDEQ = some 0 ∧
    precedence_of .TOKEN_BITWISE_OREQ = some 0 ∧
    precedence_of .TOKEN_BITWISE_XOREQ = some 0 := by
  decide

/-! ## Assignment, unary operands, subscripts: C4, C6, C7 -/

theorem parse_expression_primary_stop (ext : externals) (n : Nat) (p p1 : parser)
    (lxr l1 : lexer) (e : ast_node) (g : Bool)
    (hP : parse_primary ext (parse_expression ext (n + 1)) (n + 1) p lxr = some (some e, p1, l1))
    (hE : ext.EXPR_NEVER_NEEDS_TERMINAL e.type = false)
    (h : l1.current.type ≠ .TOKEN_RPAREN)
    (hs : (l1.current.type ≠ .TOKEN_LSQUARE_BRACKET ∧
          l1.current.kind ≠ .KIND_BINARY_EXPR_OPERATOR) ∨ g = true) :
    parse_expression ext (n + 2) p lxr true g = some (some e, p1, l1) := by
  rw [parse_expression, hP]
  exact parse_after_primary_sub_stop ext _ n e p1 l1 g hE h hs

/-- Before `=` the suffix phase builds the assignment of what the recursive call returns. -/
theorem parse_suffixes_assign (recurse : expr_fn) (n : Nat) (a e : ast_node)
    (p1 p3 : parser) (l1 l3 : lexer)
    (heq : l1.current.type = .TOKEN_VALUE_ASSIGNMENT)
    (heqk : l1.current.kind = .KIND_BINARY_EXPR_OPERATOR)
    (hrec : recurse p1 (l1.advance 1) true false = some (some e, p3, l3))
    (hV : VALID_SUBEXPRESSION e.type = true) :
    parse_suffixes recurse (n + 1) a p1 l1 false = some (some (.assign a e), p3, l3) := by
  rw [parse_suffixes_binop recurse n a p1 l1 (by simp [heq]) heqk]
  simp [parse_binary_expression, parse_assign, heq, heqk, hrec, hV]

/-- A primary followed by `=` and a stream that parses to `e` up to a terminator at depth 0
gives, as a statement, `Assign(a, e)`. -/
theorem parse_expression_assign_top (ext : externals) (n : Nat) (p p1 p3 : parser)
    (lxr l1 l3 : lexer) (a e : ast_node)
    (hP : parse_primary ext (parse_expression ext (n + 1)) (n + 1) p lxr = some (some a, p1, l1))
    (hE : ext.EXPR_NEVER_NEEDS_TERMINAL a.type = false)
    (heq : l1.current.type = .TOKEN_VALUE_ASSIGNMENT)
    (heqk : l1.current.kind = .KIND_BINARY_EXPR_OPERATOR)
    (hrec : parse_expression ext (n + 1) p1 (l1.advance 1) true false = some (some e, p3, l3))
    (hV : VALID_SUBEXPRESSION e.type = true)
    (hsemi : l3.current.type = .TOKEN_SEMICOLON ∨ l3.current.type = .TOKEN_COMMA)
    (hd : p3.inside_parenthesized_expression_ = 0) :
    parse_expression ext (n + 2) p lxr false false
      = some (some (.assign a e), p3, l3.advance 1) := by
  rw [parse_expression, hP]
  simp only [parse_after_primary]
  rw [parse_suffixes_assign _ n a e p1 p3 l1 l3 heq heqk hrec hV]
  simp [heq, hE, hsemi, hd]

/-- One subscript application with a literal index. -/
theorem parse_subscript_literal (recurse : expr_fn) (e : ast_node) (p : parser) (lxr : lexer)
    (g : subscript_group) (ts : List Token) (hok : g.ok)
    (hrec : recurse p { lxr with tokens := g.index :: g.rbracket :: ts } true false
              = some (some g.node, p, { lxr with tokens := g.rbracket :: ts })) :
    parse_subscript recurse (some e) p
        { lxr with tokens := g.lbracket :: g.index :: g.rbracket :: ts }
      = some (some (.subscript e g.node), p, { lxr with tokens := ts }) := by
  obtain ⟨hl, hi, hn, hr, hk⟩ := hok
  simp [parse_subscript, lexer.current, lexer.advance, lexer.advance1, hl, hrec, hr,
    literal_node_type hn, VALID_SUBEXPRESSION]

/-- The subscript loop over `[i1] ... [in]` with literal indices builds the left-nested tree.
-/
theorem parse_subscripts_literals (ext : externals) (n : Nat) (p : parser) (lxr : lexer)
    (t : Token) (rest : List Token)
    (hE : ext.EXPR_NEVER_NEEDS_TERMINAL .NODE_SINGLETON_LITERAL = false)
    (ht : t.type ≠ .TOKEN_LSQUARE_BRACKET) :
    ∀ (gs : List subscript_group) (e : ast_node) (k : Nat), (∀ g ∈ gs, g.ok) →
      parse_subscripts (parse_expression ext (n + 2)) (gs.length + 1 + k) (some e) p
          { lxr with tokens := subscript_tokens gs ++ t :: rest } false
        = some (some (subscript_tree e gs), p, { lxr with tokens := t :: rest }) := by
  intro gs
  induction gs with
  | nil =>
    intro e k _
    simp only [subscript_tokens, subscript_tree, List.nil_append, List.length_nil, Nat.zero_add]
    rw [Nat.add_comm 1 k]
    exact parse_subscripts_stop _ k (some e) p _ false (Or.inl (by simpa [lexer.current] using ht))
  | cons g gs ih =>
    intro e k hok
    have hg := hok g (List.mem_cons_self _ _)
    obtain ⟨hl, hi, hn, hr, hk⟩ := hg
    have hstop : stops_operand g.rbracket := ⟨by simp [hr], by simp [hr], hk⟩
    have hrec := parse_expression_mono ext 2 (n + 2) (by omega) _ _ _ _ _
      (parse_expression_literal_stop ext p lxr g.index g.rbracket g.node
        (subscript_tokens gs ++ t :: rest) hE hi hn hstop)
    have hsub := parse_subscript_literal (parse_expression ext (n + 2)) e p lxr g
      (subscript_tokens gs ++ t :: rest) (hok g (List.mem_cons_self _ _)) hrec
    have hih := ih (.subscript e g.node) k (fun x hx => hok x (List.mem_cons_of_mem _ hx))
    have hlen : (g :: gs).length + 1 + k = (gs.length + 1 + k) + 1 := by
      simp only [List.length_cons]; omega
    rw [hlen, parse_subscripts]
    simp only [subscript_tokens, subscript_tree, List.cons_append]
    simp [lexer.current, hl, hsub, hih]

/-- A primary followed by literal subscripts and `;` at depth 0 parses to the left-nested
subscript tree. -/
theorem parse_expression_primary_subscripts (ext : externals) (fp fuel : Nat)
    (p p1 : parser) (lxr l1 : lexer) (e : ast_node) (gs : List subscript_group)
    (semi : Token) (rest : List Token)
    (hP : parse_primary ext (parse_expression ext fp) fp p lxr = some (some e, p1, l1))
    (hE : ext.EXPR_NEVER_NEEDS_TERMINAL e.type = false)
    (hElit : ext.EXPR_NEVER_NEEDS_TERMINAL .NODE_SINGLETON_LITERAL = false)
    (hok : ∀ g ∈ gs, g.ok)
    (hl1 : l1.tokens = subscript_tokens gs ++ semi :: rest)
    (hsemi : semi.type = .TOKEN_SEMICOLON) (hsemik : semi.kind = .KIND_PUNCTUATOR)
    (hd : p1.inside_parenthesized_expression_ = 0)
    (hfuel : fp + gs.length + 3 ≤ fuel) :
    parse_expression ext fuel p lxr false false
      = some (some (subscript_tree e gs), p1, { l1 with tokens := rest }) := by
  obtain ⟨n, rfl⟩ : ∃ n, fuel = n + 3 := ⟨fuel - 3, by omega⟩
  have hP1 := parse_primary_mono ext (parse_expression_mono ext fp (n + 2) (by omega))
    fp (n + 2) (by omega) _ _ _ hP
  have hl1' : l1 = { l1 with tokens := subscript_tokens gs ++ semi :: rest } := by
    cases l1; simp at hl1; simp [hl1]
  have hsubs := parse_subscripts_literals ext n p1 l1 semi rest hElit (by simp [hsemi]) gs e
    (n + 1 - gs.length) hok
  have hfl : gs.length + 1 + (n + 1 - gs.length) = n + 2 := by omega
  rw [hfl, ← hl1'] at hsubs
  have hfirst : l1.current.type ≠ .TOKEN_RPAREN := by
    rw [hl1']
    cases gs with
    | nil => simp [subscript_tokens, lexer.current, hsemi]
    | cons g gs =>
      have := (hok g (List.mem_cons_self _ _)).1
      simp [subscript_tokens, lexer.current, this]
  rw [parse_expression, hP1]
  simp only [parse_after_primary, parse_suffixes, hsubs]
  have hfirst' := hfirst
  simp only [lexer.current] at hfirst'
  simp [hfirst', hE, lexer.current, hsemi, hsemik, hd, lexer.advance, lexer.advance1]

/-- The primary dispatch on a unary operator builds the unary expression of what the recursive
call, made with `parse_single`, returns. -/
theorem parse_primary_unary (ext : externals) (recurse : expr_fn) (fuel : Nat)
    (p p1 : parser) (lxr l1 : lexer) (u : Token) (ts : List Token) (operand : ast_node)
    (hu : unary_operator ext u)
    (hrec : recurse p { lxr with tokens := ts } true true = some (some operand, p1, l1))
    (hV : VALID_SUBEXPRESSION operand.type = true) :
    parse_primary ext recurse fuel p { lxr with tokens := u :: ts }
      = some (some (.unaryexpr u.type operand), p1, l1) := by
  obtain ⟨h1, h2, h3, h4, h5, h6, h7⟩ := hu
  simp [parse_primary, parse_unary_expression, lexer.current, lexer.advance, lexer.advance1,
    h1, h2, h3, h4, h5, h6, h7, hrec, hV]

/-- A primary followed by a non-assignment binary operator and a stream that parses to `t` up
to a terminator at depth 0 gives, as a statement, `BinaryExpr(op, a, t)`. -/
theorem parse_expression_binop_top (ext : externals) (n : Nat) (p p1 p3 : parser)
    (lxr l1 l3 : lexer) (a t : ast_node) (op : Token) (ts : List Token)
    (hP : parse_primary ext (parse_expression ext (n + 1)) (n + 1) p lxr
            = some (some a, p1, { l1 with tokens := op :: ts }))
    (hE : ext.EXPR_NEVER_NEEDS_TERMINAL a.type = false)
    (hop : binary_operator op) (hne : op.type ≠ .TOKEN_VALUE_ASSIGNMENT)
    (hrec : parse_expression ext (n + 1) p1 { l1 with tokens := ts } true false
              = some (some t, p3, l3))
    (hV : VALID_SUBEXPRESSION t.type = true)
    (hsemi : l3.current.type = .TOKEN_SEMICOLON ∨ l3.current.type = .TOKEN_COMMA)
    (hd : p3.inside_parenthesized_expression_ = 0) :
    parse_expression ext (n + 2) p lxr false false
      = some (some (.binexpr op.type a t), p3, l3.advance 1) := by
  have hbin := parse_binary_expression_step (parse_expression ext (n + 1)) a t p1 p3 l1 l3 op ts
    hop hne hrec hV
  obtain ⟨hk, he, hr, hl⟩ := hop
  rw [parse_expression, hP]
  simp only [parse_after_primary]
  rw [parse_suffixes_binop _ n a p1 _ (by simpa [lexer.current] using hl)
    (by simpa [lexer.current] using hk), hbin]
  have hcur : ({ l1 with tokens := op :: ts } : lexer).current = op := rfl
  simp [hcur, hr, hE, hsemi, hd]

/-- C6 (counterexample): on `~1 = 2;` `parse_expression` returns
`Assign(UnaryExpr(~, 1), 2)`, and with no amount of fuel a `BinaryExpr` whose operator is
the binary operator `=` of the input. -/
theorem parse_expression_unary_then_binary_counterexample :
    parse_expression sample_externals 3 (parser_with []) (lexer_on src_not_1_eq_2) false false
      = some (some (.assign (.unaryexpr .TOKEN_BITWISE_NOT (int_node ['1'])) (int_node ['2'])),
          parser_with [], lexer_on [])
    ∧ ∀ (fuel : Nat) (p1 : parser) (lxr1 : lexer),
        parse_expression sample_externals fuel (parser_with []) (lexer_on src_not_1_eq_2)
            false false
          ≠ some (some (.binexpr .TOKEN_VALUE_ASSIGNMENT
                (.unaryexpr .TOKEN_BITWISE_NOT (int_node ['1'])) (int_node ['2'])), p1, lxr1) := by
  refine ⟨rfl, ?_⟩
  intro fuel p1 lxr1 h
  have h1 := parse_expression_mono sample_externals fuel (fuel + 3) (Nat.le_add_right _ _)
    _ _ _ _ _ h
  have h2 : parse_expression sample_externals 3 (parser_with []) (lexer_on src_not_1_eq_2)
      false false
      = some (some (.assign (.unaryexpr .TOKEN_BITWISE_NOT (int_node ['1'])) (int_node ['2'])),
          parser_with [], lexer_on []) := rfl
  have h3 := parse_expression_mono sample_externals 3 (fuel + 3) (Nat.le_add_left _ _)
    _ _ _ _ _ h2
  rw [h1] at h3
  simp at h3

/-- C6 (amended): a unary operand never absorbs a following binary operator or subscript.
For a unary operator `u`, literal operands `a`, `b` and a binary operator `op`,
`parse_expression` on `u a op b ;` returns `BinaryExpr(op, UnaryExpr(u, a), b)` when `op` is
not `=` and `Assign(UnaryExpr(u, a), b)` when `op` is `=`; on `u a [ i ] ;` it returns
`Subscript(UnaryExpr(u, a), i)`. -/
theorem parse_expression_unary_operand_is_single (ext : externals) (p : parser) (lxr : lexer)
    (u a op b semi : Token) (na nb : ast_node) (g : subscript_group) (rest : List Token)
    (fuel : Nat)
    (hu : unary_operator ext u)
    (hElit : ext.EXPR_NEVER_NEEDS_TERMINAL .NODE_SINGLETON_LITERAL = false)
    (hEun : ext.EXPR_NEVER_NEEDS_TERMINAL .NODE_UNARYEXPR = false)
    (hd : p.inside_parenthesized_expression_ = 0)
    (ha : is_literal a) (hna : literal_node a = some na)
    (hb : is_literal b) (hnb : literal_node b = some nb)
    (hop : binary_operator op) (hg : g.ok)
    (hsemi : semi.type = .TOKEN_SEMICOLON) (hsemik : semi.kind = .KIND_PUNCTUATOR)
    (hfuel : 6 ≤ fuel) :
    parse_expression ext fuel p { lxr with tokens := u :: a :: op :: b :: semi :: rest }
        false false
      = some (some (if op.type = .TOKEN_VALUE_ASSIGNMENT
                    then .assign (.unaryexpr u.type na) nb
                    else .binexpr op.type (.unaryexpr u.type na) nb),
          p, { lxr with tokens := rest })
    ∧ parse_expression ext fuel p
        { lxr with tokens := u :: a :: g.lbracket :: g.index :: g.rbracket :: semi :: rest }
        false false
      = some (some (.subscript (.unaryexpr u.type na) g.node), p,
          { lxr with tokens := rest }) := by
  obtain ⟨n, rfl⟩ : ∃ n, fuel = n + 4 := ⟨fuel - 4, by omega⟩
  have hVa : VALID_SUBEXPRESSION na.type = true := by
    rw [literal_node_type hna]; rfl
  have hVb : VALID_SUBEXPRESSION nb.type = true := by
    rw [literal_node_type hnb]; rfl
  have hstop : stops_operand semi := ⟨by simp [hsemi], by simp [hsemi], by simp [hsemik]⟩
  have hne : semi.type ≠ .TOKEN_END_OF_FILE := by simp [hsemi]
  constructor
  · -- the operand of `u` is parsed with `parse_single`
    have hoper : ∀ m, parse_expression ext (m + 2) p
        { lxr with tokens := a :: op :: b :: semi :: rest } true true
        = some (some na, p, { lxr with tokens := op :: b :: semi :: rest }) := by
      intro m
      refine parse_expression_primary_stop ext m p p _ _ na true
        (parse_primary_literal ext _ _ p lxr a _ na ha hna)
        (by rw [literal_node_type hna]; exact hElit) ?_ (Or.inr rfl)
      simpa [lexer.current] using hop.2.2.1
    have hP := parse_primary_unary ext (parse_expression ext (n + 3)) (n + 3) p p lxr
      { lxr with tokens := op :: b :: semi :: rest } u _ na hu (hoper (n + 1)) hVa
    have hrec := parse_expression_mono ext 2 (n + 3) (by omega) _ _ _ _ _
      (parse_expression_literal_stop ext p lxr b semi nb rest hElit hb hnb hstop)
    by_cases hasg : op.type = .TOKEN_VALUE_ASSIGNMENT
    · have := parse_expression_assign_top ext (n + 2) p p p _ _
        { lxr with tokens := semi :: rest } (.unaryexpr u.type na) nb hP hEun
        (by simpa [lexer.current] using hasg) (by simpa [lexer.current] using hop.1)
        (by simpa [lexer.advance, lexer.advance1, hop.2.1] using hrec) hVb
        (Or.inl (by simpa [lexer.current] using hsemi)) hd
      simpa [hasg, lexer.advance, lexer.advance1, hne] using this
    · have := parse_expression_binop_top ext (n + 2) p p p _ lxr
        { lxr with tokens := semi :: rest } (.unaryexpr u.type na) nb op (b :: semi :: rest)
        hP hEun hop hasg hrec hVb (Or.inl (by simpa [lexer.current] using hsemi)) hd
      simpa [hasg, lexer.advance, lexer.advance1, hne] using this
  · have hl : g.lbracket.type ≠ .TOKEN_RPAREN := by simp [hg.1]
    have hoper : parse_expression ext 2 p
        { lxr with tokens := a :: g.lbracket :: g.index :: g.rbracket :: semi :: rest } true true
        = some (some na, p,
            { lxr with tokens := g.lbracket :: g.index :: g.rbracket :: semi :: rest }) := by
      refine parse_expression_primary_stop ext 0 p p _ _ na true
        (parse_primary_literal ext _ _ p lxr a _ na ha hna)
        (by rw [literal_node_type hna]; exact hElit) ?_ (Or.inr rfl)
      simpa [lexer.current] using hl
    have hP := parse_primary_unary ext (parse_expression ext 2) 2 p p lxr
      { lxr with tokens := g.lbracket :: g.index :: g.rbracket :: semi :: rest } u _ na hu
      hoper hVa
    have := parse_expression_primary_subscripts ext 2 (n + 4) p p
      { lxr with tokens := u :: a :: g.lbracket :: g.index :: g.rbracket :: semi :: rest }
      { lxr with tokens := g.lbracket :: g.index :: g.rbracket :: semi :: rest }
      (.unaryexpr u.type na) [g] semi rest hP hEun hElit
      (by intro x hx; simp only [List.mem_singleton] at hx; subst hx; exact hg)
      (by simp [subscript_tokens]) hsemi hsemik hd (by simp only [List.length_singleton]; omega)
    simpa [subscript_tree] using this

/-- C6 (witness of the amended claim): the run of `~1 + 2;`. -/
theorem parse_expression_unary_operand_is_single_witness :
    parse_expression sample_externals 6 (parser_with []) (lexer_on src_not_1_plus_2) false false
      = some (some (.binexpr .TOKEN_PLUS (.unaryexpr .TOKEN_BITWISE_NOT (int_node ['1']))
            (int_node ['2'])), parser_with [], lexer_on []) :=
  (parse_expression_unary_operand_is_single sample_externals (parser_with []) (lexer_on [])
    (mk_token .TOKEN_BITWISE_NOT .KIND_UNARY_EXPR_OPERATOR 0 ['~']) (int_token 1 ['1'])
    (op_token .TOKEN_PLUS 3 ['+']) (int_token 5 ['2']) (punct_token .TOKEN_SEMICOLON 6 [';'])
    (int_node ['1']) (int_node ['2'])
    { lbracket := punct_token .TOKEN_LSQUARE_BRACKET 1 ['['], index := int_token 2 ['2'],
      rbracket := punct_token .TOKEN_RSQUARE_BRACKET 3 [']'], node := int_node ['2'] }
    [] 6 (by decide) rfl rfl rfl (by decide) rfl (by decide) rfl (by decide)
    ⟨rfl, by decide, rfl, rfl, by decide⟩ rfl rfl (le_refl 6)).1

/-! ## Terminators, parentheses, calls: C8, C9, C10 -/

/-- C8: the terminator rule of `parse_expression`.  For a call that is not a subexpression:
(1) when it returns a node of a kind that is not exempt from terminators, either a `)` came
directly after the primary, the depth was positive and is decremented by one and the `)` is
the last token consumed, or the token after the suffixes is `;` or `,`, the depth is zero and
that token is the last one consumed; (2) in every other situation after a successfully parsed
expression (a `)` after the primary at depth zero; after the suffixes a token other than `;`
and `,`, or one of them at a non-zero depth) it raises one error and returns nothing.
(3) As a subexpression, when no `)` follows the primary, it returns the primary at once if its
kind is exempt and otherwise whatever the suffixes left: it consumes no `;` and no `,`;
(4) a `)` directly after the primary is treated alike for both values of `subexpression`. -/
theorem parse_expression_terminator_rule (ext : externals) (n : Nat) (p : parser) (lxr : lexer)
    (parse_single : Bool) :
    (∀ (node : ast_node) (p' : parser) (lxr' : lexer),
      parse_expression ext (n + 1) p lxr false parse_single = some (some node, p', lxr') →
      ext.EXPR_NEVER_NEEDS_TERMINAL node.type = false →
      ∃ e1 p1 l1, parse_primary ext (parse_expression ext n) n p lxr = some (some e1, p1, l1) ∧
        ((l1.current.type = .TOKEN_RPAREN ∧ 0 < p1.inside_parenthesized_expression_ ∧
            node = e1 ∧
            p' = { p1 with inside_parenthesized_expression_ :=
                             p1.inside_parenthesized_expression_ - 1 } ∧
            lxr' = l1.advance 1)
          ∨ (∃ p2 l2, parse_suffixes (parse_expression ext n) n e1 p1 l1 parse_single
                = some (some node, p2, l2) ∧
              (l2.current.type = .TOKEN_SEMICOLON ∨ l2.current.type = .TOKEN_COMMA) ∧
              p2.inside_parenthesized_expression_ = 0 ∧ p' = p2 ∧ lxr' = l2.advance 1)))
    ∧ (∀ (e1 : ast_node) (p1 : parser) (l1 : lexer),
        parse_primary ext (parse_expression ext n) n p lxr = some (some e1, p1, l1) →
        (l1.current.type = .TOKEN_RPAREN → p1.inside_parenthesized_expression_ = 0 →
          parse_expression ext (n + 1) p lxr false parse_single
            = some (none, p1, l1.raise_error "Unexpected token."))
        ∧ (l1.current.type ≠ .TOKEN_RPAREN → ext.EXPR_NEVER_NEEDS_TERMINAL e1.type = false →
            ∀ (e2 : ast_node) (p2 : parser) (l2 : lexer),
              parse_suffixes (parse_expression ext n) n e1 p1 l1 parse_single
                = some (some e2, p2, l2) →
              ¬ ((l2.current.type = .TOKEN_SEMICOLON ∨ l2.current.type = .TOKEN_COMMA) ∧
                  p2.inside_parenthesized_expression_ = 0) →
              ∃ msg, parse_expression ext (n + 1) p lxr false parse_single
                = some (none, p2, l2.raise_error msg)))
    ∧ (∀ (e1 : ast_node) (p1 : parser) (l1 : lexer),
        parse_primary ext (parse_expression ext n) n p lxr = some (some e1, p1, l1) →
        l1.current.type ≠ .TOKEN_RPAREN →
        parse_expression ext (n + 1) p lxr true parse_single
          = if ext.EXPR_NEVER_NEEDS_TERMINAL e1.type = true then some (some e1, p1, l1)
            else parse_suffixes (parse_expression ext n) n e1 p1 l1 parse_single)
    ∧ (∀ (e1 : ast_node) (p1 : parser) (l1 : lexer),
        parse_primary ext (parse_expression ext n) n p lxr = some (some e1, p1, l1) →
        l1.current.type = .TOKEN_RPAREN →
        parse_expression ext (n + 1) p lxr true parse_single
          = parse_expression ext (n + 1) p lxr false parse_single) := by
  refine ⟨?_, ?_, ?_, ?_⟩
  · intro node p' lxr' h hex
    rw [parse_expression] at h
    generalize hP : parse_primary ext (parse_expression ext n) n p lxr = x at h
    cases x with
    | none => simp at h
    | some v =>
      obtain ⟨e, p1, l1⟩ := v
      cases e with
      | none => simp at h
      | some e1 =>
        refine ⟨e1, p1, l1, rfl, ?_⟩
        simp only [parse_after_primary] at h
        by_cases h1 : l1.current.type = .TOKEN_RPAREN
        · by_cases h2 : p1.inside_parenthesized_expression_ = 0
          · simp [h1, h2] at h
          · simp only [h1, h2, if_true, if_false, Option.some.injEq, Prod.mk.injEq] at h
            obtain ⟨h4, h5, h6⟩ := h
            exact Or.inl ⟨h1, Nat.pos_of_ne_zero h2, h4.symm, h5.symm, h6.symm⟩
        · by_cases h3 : ext.EXPR_NEVER_NEEDS_TERMINAL e1.type = true
          · simp only [h1, h3, if_true, if_false, Option.some.injEq, Prod.mk.injEq] at h
            obtain ⟨h4, -, -⟩ := h
            rw [← h4, h3] at hex
            exact absurd hex (by simp)
          · simp only [h1, h3, if_false] at h
            cases hS : parse_suffixes (parse_expression ext n) n e1 p1 l1 parse_single with
            | none => simp [hS] at h
            | some w =>
              obtain ⟨e2, p2, l2⟩ := w
              simp only [hS] at h
              by_cases h5 : l2.current.type = .TOKEN_SEMICOLON ∨ l2.current.type = .TOKEN_COMMA
              · by_cases h6 : p2.inside_parenthesized_expression_ = 0
                · simp only [h5, h6, if_true, if_false, ne_eq, not_true_eq_false,
                    Bool.false_eq_true, Option.some.injEq, Prod.mk.injEq] at h
                  obtain ⟨h7, h8, h9⟩ := h
                  subst h7
                  exact Or.inr ⟨p2, l2, rfl, h5, h6, h8.symm, h9.symm⟩
                · simp [h5, h6] at h
              · simp [h5] at h
  · intro e1 p1 l1 hP
    constructor
    · intro h1 h2
      rw [parse_expression, hP]
      simp [parse_after_primary, h1, h2]
    · intro h1 hex e2 p2 l2 hS hnot
      rw [parse_expression, hP]
      simp only [parse_after_primary, hS]
      by_cases h5 : l2.current.type = .TOKEN_SEMICOLON ∨ l2.current.type = .TOKEN_COMMA
      · have h6 : p2.inside_parenthesized_expression_ ≠ 0 := fun h => hnot ⟨h5, h⟩
        exact ⟨"Unexpected token inside of parenthesized expression.",
          by simp [h1, hex, h5, h6]⟩
      · exact ⟨"Unexpected token following expression.", by simp [h1, hex, h5]⟩
  · intro e1 p1 l1 hP h1
    rw [parse_expression, hP]
    simp only [parse_after_primary]
    generalize parse_suffixes (parse_expression ext n) n e1 p1 l1 parse_single = y
    by_cases hex : ext.EXPR_NEVER_NEEDS_TERMINAL e1.type = true
    · simp [h1, hex]
    · cases y with
      | none => simp [h1, hex]
      | some w => simp [h1, hex]
  · intro e1 p1 l1 hP h1
    rw [parse_expression, parse_expression, hP]
    simp [parse_after_primary, h1]

/-- C8 (witness): the run of `1;`, whose last consumed token is the `;` at depth 0. -/
theorem parse_expression_terminator_rule_witness :
    ∃ e1 p1 l1, parse_primary sample_externals (parse_expression sample_externals 1) 1
        (parser_with []) (lexer_on src_1_semi) = some (some e1, p1, l1) ∧
      ((l1.current.type = .TOKEN_RPAREN ∧ 0 < p1.inside_parenthesized_expression_ ∧
          int_node ['1'] = e1 ∧
          parser_with [] = { p1 with inside_parenthesized_expression_ :=
                           p1.inside_parenthesized_expression_ - 1 } ∧
          lexer_on [] = l1.advance 1)
        ∨ (∃ p2 l2, parse_suffixes (parse_expression sample_externals 1) 1 e1 p1 l1 false
              = some (some (int_node ['1']), p2, l2) ∧
            (l2.current.type = .TOKEN_SEMICOLON ∨ l2.current.type = .TOKEN_COMMA) ∧
            p2.inside_parenthesized_expression_ = 0 ∧ parser_with [] = p2 ∧
            lexer_on [] = l2.advance 1)) :=
  (parse_expression_terminator_rule sample_externals 1 (parser_with []) (lexer_on src_1_semi)
    false).1 (int_node ['1']) (parser_with []) (lexer_on []) rfl rfl

/-- Every node the loop of `parse_call` returns is a `Call` with the given symbol index. -/
theorem parse_call_loop_node (recurse : expr_fn) (sym_index old : Nat) :
    ∀ (n : Nat) (args : List ast_node) (p : parser) (lxr : lexer) (node : ast_node)
      (p' : parser) (lxr' : lexer),
      parse_call_loop recurse sym_index old n args p lxr = some (some node, p', lxr') →
      ∃ args', node = .call { symbol_index := sym_index } args' := by
  intro n
  induction n with
  | zero => intro args p lxr node p' lxr' h; simp [parse_call_loop] at h
  | succ n ih =>
    intro args p lxr node p' lxr' h
    unfold parse_call_loop at h
    split_ifs at h with hc
    · simp only [] at h
      generalize hf : recurse _ _ true false = x at h
      cases x with
      | none => simp at h
      | some v =>
        obtain ⟨e, p1, l1⟩ := v
        cases e with
        | none => simp at h
        | some e =>
          simp only [] at h
          split_ifs at h with h1 h2 h3 h4
          · simp at h
          · simp only [Option.some.injEq, Prod.mk.injEq] at h
            exact ⟨_, h.1.symm⟩
          · exact ih _ _ _ _ _ _ h
          · exact ih _ _ _ _ _ _ h
          · exact ih _ _ _ _ _ _ h
    · simp only [Option.some.injEq, Prod.mk.injEq] at h
      exact ⟨_, h.1.symm⟩

/-- C10: `parse_call` returns a `Call` node only if `lookup_unique_symbol(sym_index)` is a
symbol of kind procedure, and every node it returns is a `Call` whose identifier carries
exactly `sym_index`; when the symbol is a variable it raises an error, returns nothing and
consumes no token. -/
theorem parse_call_only_procedures (recurse : expr_fn) (fuel sym_index : Nat) (p : parser)
    (lxr : lexer) :
    (∀ (node : ast_node) (p' : parser) (lxr' : lexer),
      parse_call recurse fuel sym_index p lxr = some (some node, p', lxr') →
      (∃ sym, p.lookup_unique_symbol sym_index = some sym ∧ sym.sym_type = .SYM_PROCEDURE) ∧
      ∃ args, node = .call { symbol_index := sym_index } args)
    ∧ (∀ (sym : symbol), lxr.current.type = .TOKEN_LPAREN →
        p.lookup_unique_symbol sym_index = some sym → sym.sym_type = .SYM_VARIABLE →
        ∃ lxr', parse_call recurse fuel sym_index p lxr = some (none, p, lxr') ∧
          lxr'.tokens = lxr.tokens ∧
          lxr'.errors = lxr.errors ++
            [{ msg := "Attempt to call symbol that is not a procedure.",
               pos := lxr.current.src_pos, line := lxr.current.line }]) := by
  constructor
  · intro node p' lxr' h
    unfold parse_call at h
    split_ifs at h with hc
    cases hs : p.lookup_unique_symbol sym_index with
    | none => simp [hs] at h
    | some sym =>
      simp only [hs] at h
      split_ifs at h with h1 h2
      · simp at h
      · simp only [Option.some.injEq, Prod.mk.injEq] at h
        exact ⟨⟨sym, rfl, by simpa using h1⟩, _, h.1.symm⟩
      · exact ⟨⟨sym, rfl, by simpa using h1⟩,
          parse_call_loop_node recurse sym_index _ fuel _ _ _ _ _ _ h⟩
  · intro sym hc hs hv
    refine ⟨lxr.raise_error "Attempt to call symbol that is not a procedure.", ?_, rfl, rfl⟩
    unfold parse_call
    simp [hc, hs, hv]

/-- C10 (witness): the call `f(41)` of scenario S4, with `f` a procedure of index 1. -/
theorem parse_call_only_procedures_witness :
    parse_call (parse_expression sample_externals 2) 1 1 (parser_with syms_f)
        (lexer_on src_call_41)
      = some (some (.call { symbol_index := 1 } [int_node ['4', '1']]), parser_with syms_f,
          lexer_on [punct_token .TOKEN_SEMICOLON 16 [';']])
    ∧ (∃ sym, (parser_with syms_f).lookup_unique_symbol 1 = some sym ∧
        sym.sym_type = .SYM_PROCEDURE)
    ∧ ∃ args, ast_node.call { symbol_index := 1 } [int_node ['4', '1']]
        = .call { symbol_index := 1 } args :=
  ⟨rfl, (parse_call_only_procedures (parse_expression sample_externals 2) 1 1
    (parser_with syms_f) (lexer_on src_call_41)).1
    (.call { symbol_index := 1 } [int_node ['4', '1']])
    (parser_with syms_f) (lexer_on [punct_token .TOKEN_SEMICOLON 16 [';']]) rfl⟩

/-- C9 (counterexample): on `(1;`, a stream without any `)`, `parse_parenthesized_expression`
returns the literal `1` with the `;` as current token and the depth 1, one above the depth 0
at entry; no amount of fuel gives another result. -/
theorem parse_parenthesized_expression_counterexample :
    parse_parenthesized_expression (parse_expression sample_externals 2) (parser_with [])
        (lexer_on src_lparen_1_semi)
      = some (some (int_node ['1']),
          { parser_with [] with inside_parenthesized_expression_ := 1 },
          lexer_on [punct_token .TOKEN_SEMICOLON 2 [';']])
    ∧ (∀ t ∈ src_lparen_1_semi, t.type ≠ .TOKEN_RPAREN)
    ∧ (parser_with []).inside_parenthesized_expression_ = 0
    ∧ ∀ (fuel : Nat) (r : Option ast_node × parser × lexer),
        parse_parenthesized_expression (parse_expression sample_externals fuel) (parser_with [])
            (lexer_on src_lparen_1_semi) = some r →
        r = (some (int_node ['1']),
              { parser_with [] with inside_parenthesized_expression_ := 1 },
              lexer_on [punct_token .TOKEN_SEMICOLON 2 [';']]) := by
  refine ⟨rfl, by decide, rfl, ?_⟩
  intro fuel r h
  have h1 := parse_parenthesized_expression_mono
    (parse_expression_mono sample_externals fuel (fuel + 2) (Nat.le_add_right _ _)) _ _ _ h
  have h2 : parse_parenthesized_expression (parse_expression sample_externals 2)
      (parser_with []) (lexer_on src_lparen_1_semi)
      = some (some (int_node ['1']),
          { parser_with [] with inside_parenthesized_expression_ := 1 },
          lexer_on [punct_token .TOKEN_SEMICOLON 2 [';']]) := rfl
  have h3 := parse_parenthesized_expression_mono
    (parse_expression_mono sample_externals 2 (fuel + 2) (Nat.le_add_left _ _)) _ _ _ h2
  rw [h1] at h3
  exact Option.some.inj h3

/-- C9 (amended): `parse_parenthesized_expression` does not itself require the `)`; the `)`
is consumed, and the depth decremented, by the `parse_expression` call that finds it directly
after its primary.  (1) For a stream `( a op1 b1 op2 b2 ... )` whose body is a chain of
literal operands joined by non-assignment binary operators, entered at a depth below 65535,
it returns the tree of the body with the `)` consumed and the depth at return equal to the
depth at entry.  (2) Whenever the primary of the body is directly followed by `)`, it returns
that primary with the `)` consumed and the depth one below the depth after the primary. -/
theorem parse_parenthesized_expression_closing (ext : externals) (n : Nat) (p : parser)
    (lxr : lexer) :
    (∀ (lparen a rparen : Token) (na : ast_node) (gs : List operand_group) (rest : List Token),
      ext.EXPR_NEVER_NEEDS_TERMINAL .NODE_SINGLETON_LITERAL = false →
      p.inside_parenthesized_expression_ < 65535 →
      lparen.type = .TOKEN_LPAREN → rparen.type = .TOKEN_RPAREN →
      is_literal a → literal_node a = some na → (∀ g ∈ gs, g.ok) → gs.length + 2 ≤ n →
      parse_parenthesized_expression (parse_expression ext n) p
          { lxr with tokens := lparen :: a :: (chain_tokens gs ++ rparen :: rest) }
        = some (some (right_nested na gs), p, { lxr with tokens := rest }))
    ∧ (∀ (e : ast_node) (p1 : parser) (l1 : lexer),
        lxr.current.type = .TOKEN_LPAREN →
        parse_primary ext (parse_expression ext n) n
            { p with inside_parenthesized_expression_ :=
                       incr16 p.inside_parenthesized_expression_ }
            (lxr.advance 1) = some (some e, p1, l1) →
        l1.current.type = .TOKEN_RPAREN → 0 < p1.inside_parenthesized_expression_ →
        VALID_SUBEXPRESSION e.type = true →
        parse_parenthesized_expression (parse_expression ext (n + 1)) p lxr
          = some (some e,
              { p1 with inside_parenthesized_expression_ :=
                          p1.inside_parenthesized_expression_ - 1 },
              l1.advance 1)) := by
  constructor
  · intro lparen a rparen na gs rest hE hd hl hr ha hna hok hn
    have hinc : incr16 p.inside_parenthesized_expression_
        = p.inside_parenthesized_expression_ + 1 := by
      unfold incr16; omega
    have hbase : ∀ (x : Token) (nx : ast_node), is_literal x → literal_node x = some nx →
        parse_expression ext 2
            { p with inside_parenthesized_expression_ :=
                       p.inside_parenthesized_expression_ + 1 }
            { lxr with tokens := x :: rparen :: rest } true false
          = some (some nx, p, { lxr with tokens := rest }) := by
      intro x nx hx hnx
      have := parse_expression_literal_rparen ext
        { p with inside_parenthesized_expression_ := p.inside_parenthesized_expression_ + 1 }
        lxr x rparen nx rest hx hnx hr (by simp)
      simpa using this
    have hchain := parse_expression_chain ext
      { p with inside_parenthesized_expression_ := p.inside_parenthesized_expression_ + 1 }
      p lxr { lxr with tokens := rest } (rparen :: rest) hE hbase gs a na ha hna hok
    have hrec := parse_expression_mono ext (gs.length + 2) n hn _ _ _ _ _ hchain
    have hV := right_nested_valid na gs (literal_node_type hna)
    simp [parse_parenthesized_expression, lexer.current, lexer.advance, lexer.advance1, hl,
      hinc, hrec, hV]
  · intro e p1 l1 hl hP hr hd hV
    have hrec : parse_expression ext (n + 1)
        { p with inside_parenthesized_expression_ :=
                   incr16 p.inside_parenthesized_expression_ }
        (lxr.advance 1) true false
        = some (some e,
            { p1 with inside_parenthesized_expression_ :=
                        p1.inside_parenthesized_expression_ - 1 },
            l1.advance 1) := by
      rw [parse_expression, hP]
      exact parse_after_primary_rparen ext _ n e p1 l1 true false hr hd
    simp [parse_parenthesized_expression, hl, hrec, hV]

/-- C9 (witness of the amended claim): the run of `(1 + 2);` entered at depth 0. -/
theorem parse_parenthesized_expression_closing_witness :
    parse_parenthesized_expression (parse_expression sample_externals 3) (parser_with [])
        (lexer_on src_paren_1_plus_2)
      = some (some (.binexpr .TOKEN_PLUS (int_node ['1']) (int_node ['2'])), parser_with [],
          lexer_on [punct_token .TOKEN_SEMICOLON 7 [';']]) :=
  (parse_parenthesized_expression_closing sample_externals 3 (parser_with []) (lexer_on [])).1
    (punct_token .TOKEN_LPAREN 0 ['(']) (int_token 1 ['1']) (punct_token .TOKEN_RPAREN 6 [')'])
    (int_node ['1'])
    [{ op := op_token .TOKEN_PLUS 3 ['+'], operand := int_token 5 ['2'],
       node := int_node ['2'] }]
    [punct_token .TOKEN_SEMICOLON 7 [';']] rfl (by decide) rfl rfl (by decide) rfl
    (by
      intro g hg
      simp only [List.mem_singleton] at hg
      subst hg
      exact ⟨by decide, by decide, by decide, rfl⟩)
    (le_refl 3)

/-! ## Escape sequences (`remove_escaped_chars`) -/

theorem get_escaped_char_via_real_table (x d : Char) :
    get_escaped_char_via_real x = some d ↔ (x, d) ∈ spec_escapes := by
  constructor
  · intro h
    unfold get_escaped_char_via_real at h
    unfold spec_escapes
    split_ifs at h with h1 h2 h3 h4 h5 h6 h7 h8 h9
    all_goals (simp only [Option.some.injEq] at h; subst h; subst x; decide)
  · intro h
    have hall : ∀ q ∈ spec_escapes, get_escaped_char_via_real q.1 = some q.2 := by decide
    exact hall (x, d) h

theorem remove_escaped_chars_loop_some (s : List Char) :
    ∀ (n : Nat), s.length ≤ n → ∀ (buffer out : List Char),
      (remove_escaped_chars_loop s buffer = some out ↔
        ∃ t, spec_decodes s t ∧ out = buffer ++ t) := by
  intro n
  induction n generalizing s with
  | zero =>
    intro hn buffer out
    have hs : s = [] := List.length_eq_zero.mp (Nat.le_zero.mp hn)
    subst hs
    unfold remove_escaped_chars_loop
    constructor
    · intro h
      exact ⟨[], spec_decodes.nil, by simpa using h.symm⟩
    · rintro ⟨t, ht, rfl⟩
      cases ht
      simp
  | succ n ih =>
    intro hn buffer out
    cases s with
    | nil =>
      unfold remove_escaped_chars_loop
      constructor
      · intro h
        exact ⟨[], spec_decodes.nil, by simpa using h.symm⟩
      · rintro ⟨t, ht, rfl⟩
        cases ht
        simp
    | cons c rest =>
      unfold remove_escaped_chars_loop
      by_cases hc : c = BACKSLASH
      · subst hc
        simp only [if_true]
        cases rest with
        | nil =>
          simp only []
          constructor
          · intro h; exact absurd h (by simp)
          · rintro ⟨t, ht, _⟩
            cases ht with
            | plain c s t hne _ => exact absurd rfl hne
        | cons r rest2 =>
          simp only []
          have hlen : rest2.length ≤ n := by
            simp only [List.length_cons] at hn; omega
          cases hg : get_escaped_char_via_real r with
          | none =>
            simp only []
            constructor
            · intro h; exact absurd h (by simp)
            · rintro ⟨t, ht, _⟩
              cases ht with
              | plain c s t hne _ => exact absurd rfl hne
              | escape x d s t hmem _ =>
                rw [← get_escaped_char_via_real_table, hg] at hmem
                exact absurd hmem (by simp)
          | some escaped =>
            simp only []
            rw [ih rest2 hlen]
            constructor
            · rintro ⟨t, ht, rfl⟩
              exact ⟨escaped :: t,
                spec_decodes.escape r escaped rest2 t
                  ((get_escaped_char_via_real_table r escaped).mp hg) ht, by simp⟩
            · rintro ⟨t, ht, rfl⟩
              cases ht with
              | plain c s t hne _ => exact absurd rfl hne
              | escape x d s t hmem hst =>
                rw [← get_escaped_char_via_real_table, hg] at hmem
                simp only [Option.some.injEq] at hmem
                subst hmem
                exact ⟨t, hst, by simp⟩
      · simp only [hc, if_false]
        have hlen : rest.length ≤ n := by
          simp only [List.length_cons] at hn; omega
        rw [ih rest hlen]
        constructor
        · rintro ⟨t, ht, rfl⟩
          exact ⟨c :: t, spec_decodes.plain c rest t hc ht, by simp⟩
        · rintro ⟨t, ht, rfl⟩
          cases ht with
          | plain c s t hne hst => exact ⟨t, hst, by simp⟩
          | escape x d s t hmem hst => exact absurd rfl hc
theorem remove_escaped_chars_loop_append (pre t : List Char) (h : spec_decodes pre t) :
    ∀ (s buffer : List Char),
      remove_escaped_chars_loop (pre ++ s) buffer = remove_escaped_chars_loop s (buffer ++ t) := by
  induction h with
  | nil => intro s buffer; simp
  | plain c s0 t0 hne _ ih =>
    intro s buffer
    simp only [List.cons_append]
    conv_lhs => unfold remove_escaped_chars_loop
    simp only [hne, if_false]
    rw [ih]
    simp
  | escape x d s0 t0 hmem _ ih =>
    intro s buffer
    simp only [List.cons_append]
    conv_lhs => unfold remove_escaped_chars_loop
    simp only [if_true, (get_escaped_char_via_real_table x d).mpr hmem]
    rw [ih]
    simp

theorem remove_escaped_chars_loop_none (n : Nat) :
    ∀ (s : List Char), s.length ≤ n → ∀ (buffer : List Char),
      remove_escaped_chars_loop s buffer = none →
        ∃ pre t rest, s = pre ++ BACKSLASH :: rest ∧ spec_decodes pre t ∧
          spec_bad_escape rest := by
  induction n with
  | zero =>
    intro s hn buffer h
    have hs : s = [] := List.length_eq_zero.mp (Nat.le_zero.mp hn)
    subst hs
    simp [remove_escaped_chars_loop] at h
  | succ n ih =>
    intro s hn buffer h
    cases s with
    | nil => simp [remove_escaped_chars_loop] at h
    | cons c rest =>
      unfold remove_escaped_chars_loop at h
      by_cases hc : c = BACKSLASH
      · subst hc
        simp only [if_true] at h
        cases rest with
        | nil => exact ⟨[], [], [], rfl, spec_decodes.nil, Or.inl rfl⟩
        | cons r rest2 =>
          simp only [] at h
          cases hg : get_escaped_char_via_real r with
          | none =>
            refine ⟨[], [], r :: rest2, rfl, spec_decodes.nil, Or.inr ⟨r, rest2, rfl, ?_⟩⟩
            intro d hmem
            rw [← get_escaped_char_via_real_table, hg] at hmem
            exact absurd hmem (by simp)
          | some escaped =>
            rw [hg] at h
            simp only [] at h
            have hlen : rest2.length ≤ n := by
              simp only [List.length_cons] at hn; omega
            obtain ⟨pre, t, rest3, hs, hd, hb⟩ := ih rest2 hlen _ h
            refine ⟨BACKSLASH :: r :: pre, escaped :: t, rest3, by simp [hs], ?_, hb⟩
            exact spec_decodes.escape r escaped pre t
              ((get_escaped_char_via_real_table r escaped).mp hg) hd
      · simp only [hc, if_false] at h
        have hlen : rest.length ≤ n := by
          simp only [List.length_cons] at hn; omega
        obtain ⟨pre, t, rest3, hs, hd, hb⟩ := ih rest hlen _ h
        exact ⟨c :: pre, c :: t, rest3, by simp [hs], spec_decodes.plain c pre t hc hd, hb⟩

theorem remove_escaped_chars_loop_bad (rest buffer : List Char) (h : spec_bad_escape rest) :
    remove_escaped_chars_loop (BACKSLASH :: rest) buffer = none := by
  rcases h with rfl | ⟨x, r, rfl, hx⟩
  · simp [remove_escaped_chars_loop]
  · unfold remove_escaped_chars_loop
    simp only [if_true]
    cases hg : get_escaped_char_via_real x with
    | none => rfl
    | some d => exact absurd ((get_escaped_char_via_real_table x d).mp hg) (hx d)

/-- C14. `remove_escaped_chars` decodes exactly the nine escapes `\n \b \a \r \t \0 \'
\" \\`: the escape table holds those nine pairs and no other; the function returns `out`
exactly when `out` is the input with every escape pair replaced by the byte it denotes and
every other byte copied in order; and it fails exactly when some backslash in escape
position (after a prefix that decodes) is the last byte or is followed by a byte outside
the nine. -/
theorem remove_escaped_chars_decodes_exactly_nine_escapes (str : List Char) :
    (∀ x d, get_escaped_char_via_real x = some d ↔ (x, d) ∈ spec_escapes) ∧
    (∀ out, remove_escaped_chars str = some out ↔ spec_decodes str out) ∧
    (remove_escaped_chars str = none ↔
      ∃ pre t rest, str = pre ++ BACKSLASH :: rest ∧ spec_decodes pre t ∧
        spec_bad_escape rest) := by
  refine ⟨get_escaped_char_via_real_table, ?_, ?_⟩
  · intro out
    unfold remove_escaped_chars
    rw [remove_escaped_chars_loop_some str str.length (le_refl _)]
    simp
  · unfold remove_escaped_chars
    constructor
    · exact remove_escaped_chars_loop_none str.length str (le_refl _) []
    · rintro ⟨pre, t, rest, rfl, hd, hb⟩
      rw [remove_escaped_chars_loop_append pre t hd]
      exact remove_escaped_chars_loop_bad rest _ hb

/-- C14 (witness): `a\nb` decodes to the three bytes `a`, newline, `b`, and `a\q` fails. -/
theorem remove_escaped_chars_decodes_exactly_nine_escapes_witness :
    (remove_escaped_chars ['a', BACKSLASH, 'n', 'b'] = some ['a', Char.ofNat 10, 'b'] ↔
      spec_decodes ['a', BACKSLASH, 'n', 'b'] ['a', Char.ofNat 10, 'b'])
    ∧ (remove_escaped_chars ['a', BACKSLASH, 'q'] = none ↔
        ∃ pre t rest, ['a', BACKSLASH, 'q'] = pre ++ BACKSLASH :: rest ∧ spec_decodes pre t ∧
          spec_bad_escape rest) :=
  ⟨(remove_escaped_chars_decodes_exactly_nine_escapes ['a', BACKSLASH, 'n', 'b']).2.1
      ['a', Char.ofNat 10, 'b'],
   (remove_escaped_chars_decodes_exactly_nine_escapes ['a', BACKSLASH, 'q']).2.2⟩

theorem spec_re_escape_decodes (P : List Char) : spec_decodes (spec_re_escape P) P := by
  induction P with
  | nil => exact spec_decodes.nil
  | cons c P ih =>
    unfold spec_re_escape spec_escape_byte
    split_ifs with h1 h2 h3 h4 h5 h6 h7 h8 h9
    · subst h1; exact spec_decodes.escape 'n' _ _ _ (by decide) ih
    · subst h2; exact spec_decodes.escape 'b' _ _ _ (by decide) ih
    · subst h3; exact spec_decodes.escape 'a' _ _ _ (by decide) ih
    · subst h4; exact spec_decodes.escape 'r' _ _ _ (by decide) ih
    · subst h5; exact spec_decodes.escape 't' _ _ _ (by decide) ih
    · subst h6; exact spec_decodes.escape '0' _ _ _ (by decide) ih
    · subst h7; exact spec_decodes.escape (Char.ofNat 39) _ _ _ (by decide) ih
    · subst h8; exact spec_decodes.escape (Char.ofNat 34) _ _ _ (by decide) ih
    · subst h9; exact spec_decodes.escape BACKSLASH _ _ _ (by decide) ih
    · exact spec_decodes.plain c _ _ h9 ih

/-- C15. Escape round trip: re-escaping any byte string `P` and decoding it with
`remove_escaped_chars` gives back exactly `P`; hence for every lexeme `L` that decodes to a
payload, re-escaping that payload gives a lexeme that decodes to the same payload as `L`. -/
theorem remove_escaped_chars_round_trip (P : List Char) :
    remove_escaped_chars (spec_re_escape P) = some P ∧
    ∀ L : List Char, remove_escaped_chars L = some P →
      remove_escaped_chars (spec_re_escape P) = remove_escaped_chars L := by
  have h : remove_escaped_chars (spec_re_escape P) = some P := by
    unfold remove_escaped_chars
    have := remove_escaped_chars_loop_append (spec_re_escape P) P (spec_re_escape_decodes P) [] []
    simpa [remove_escaped_chars_loop] using this
  exact ⟨h, fun L hL => by rw [h, hL]⟩

theorem remove_escaped_chars_round_trip_witness :
    remove_escaped_chars ['a', BACKSLASH, 'n', 'b'] = some ['a', Char.ofNat 10, 'b'] ∧
    remove_escaped_chars (spec_re_escape ['a', Char.ofNat 10, 'b']) =
      remove_escaped_chars ['a', BACKSLASH, 'n', 'b'] :=
  ⟨rfl, (remove_escaped_chars_round_trip ['a', Char.ofNat 10, 'b']).2
    ['a', BACKSLASH, 'n', 'b'] rfl⟩

/-! ## Calls: the parenthesis depth (`parse_call`) -/

/-- A `Call` node leaves the loop of `parse_call` only at a depth that is not above the
depth at entry of `parse_call`. -/
theorem parse_call_loop_depth (recurse : expr_fn) (sym_index old : Nat) :
    ∀ (n : Nat) (args : List ast_node) (p : parser) (lxr : lexer) (node : ast_node)
      (p' : parser) (lxr' : lexer),
      parse_call_loop recurse sym_index old n args p lxr = some (some node, p', lxr') →
      p'.inside_parenthesized_expression_ ≤ old := by
  intro n
  induction n with
  | zero => intro args p lxr node p' lxr' h; simp [parse_call_loop] at h
  | succ n ih =>
    intro args p lxr node p' lxr' h
    unfold parse_call_loop at h
    split_ifs at h with hc
    · simp only [] at h
      generalize hf : recurse _ _ true false = x at h
      cases x with
      | none => simp at h
      | some v =>
        obtain ⟨e, p1, l1⟩ := v
        cases e with
        | none => simp at h
        | some e =>
          simp only [] at h
          split_ifs at h with h1 h2 h3 h4
          · simp at h
          · simp only [Option.some.injEq, Prod.mk.injEq] at h
            rw [← h.2.1]; exact h2
          · exact ih _ _ _ _ _ _ h
          · exact ih _ _ _ _ _ _ h
          · exact ih _ _ _ _ _ _ h
    · simp only [Option.some.injEq, Prod.mk.injEq] at h
      rw [← h.2.1]; exact Nat.le_of_not_lt hc

/-- The loop of `parse_call` on literal arguments `a , b1 , b2 ... )` at a depth one above
the depth at entry: it returns the call with all the arguments at the depth at entry. -/
theorem parse_call_loop_literals (ext : externals) (sym_index old : Nat)
    (hE : ext.EXPR_NEVER_NEEDS_TERMINAL .NODE_SINGLETON_LITERAL = false)
    (rparen : Token) (rest : List Token) (hr : rparen.type = .TOKEN_RPAREN)
    (fuel : Nat) (hfuel : 2 ≤ fuel) :
    ∀ (gs : List argument_group), (∀ g ∈ gs, g.ok) →
    ∀ (n : Nat), gs.length + 1 ≤ n →
    ∀ (a : Token) (na : ast_node), is_literal a → literal_node a = some na →
    ∀ (args : List ast_node) (p : parser) (lxr : lexer),
      p.inside_parenthesized_expression_ = old + 1 →
      parse_call_loop (parse_expression ext fuel) sym_index old n args p
          { lxr with tokens := a :: (argument_tokens gs ++ rparen :: rest) } =
        some (some (.call { symbol_index := sym_index } (args ++ na :: gs.map (·.node))),
          { p with inside_parenthesized_expression_ := old },
          { lxr with tokens := rest }) := by
  intro gs
  induction gs with
  | nil =>
    intro _ n hn a na ha hna args p lxr hd
    obtain ⟨n, rfl⟩ : ∃ k, n = k + 1 := ⟨n - 1, by simp at hn; omega⟩
    have hrec := parse_expression_mono ext 2 fuel hfuel _ _ _ _ _
      (parse_expression_literal_rparen ext p lxr a rparen na rest ha hna hr (by omega))
    unfold parse_call_loop
    simp only [argument_tokens, List.nil_append, hd, Nat.lt_succ_self, if_true, hrec]
    simp [literal_node_type hna, VALID_SUBEXPRESSION]
  | cons g gs ih =>
    intro hok n hn a na ha hna args p lxr hd
    obtain ⟨n, rfl⟩ : ∃ k, n = k + 1 := ⟨n - 1, by simp at hn; omega⟩
    obtain ⟨hc, hck, hga, hgn⟩ := hok g (List.mem_cons_self _ _)
    have hstop : stops_operand g.comma := ⟨by simp [hc], by simp [hc], hck⟩
    have hrec := parse_expression_mono ext 2 fuel hfuel _ _ _ _ _
      (parse_expression_literal_stop ext p lxr a g.comma na
        (g.argument :: (argument_tokens gs ++ rparen :: rest)) hE ha hna hstop)
    have hadv := lexer_advance_cons lxr g.comma
      (g.argument :: (argument_tokens gs ++ rparen :: rest)) (by simp [hc])
    have hcur := lexer_current_cons lxr g.comma
      (g.argument :: (argument_tokens gs ++ rparen :: rest))
    have hcur2 := lexer_current_cons lxr g.argument (argument_tokens gs ++ rparen :: rest)
    have hnr : g.argument.type ≠ .TOKEN_RPAREN := by
      obtain ⟨_, h | h | h | h | h⟩ := hga <;> simp [h]
    have hih := ih (fun g' hg' => hok g' (List.mem_cons_of_mem _ hg')) n
      (by simp at hn; omega) g.argument g.node hga hgn (args ++ [na]) p lxr hd
    unfold parse_call_loop
    simp only [argument_tokens, List.cons_append, hd, Nat.lt_succ_self, if_true, hrec]
    simp only [literal_node_type hna, VALID_SUBEXPRESSION, hcur, hc, hadv, hcur2, hnr]
    simp only [List.cons_append] at hih
    simp [hd, hih]

/-- C11 (counterexample): on `(~1));` entered at the depth 1, as inside `(f(~1));`,
`parse_call` returns the `Call` node with the depth 0: the first `)` is consumed by the
parse of the operand of `~`, the second by the parse of the argument.  No amount of fuel
gives another result. -/
theorem parse_call_depth_counterexample :
    parse_call (parse_expression sample_externals 3) 1 1
        { parser_with syms_f with inside_parenthesized_expression_ := 1 }
        (lexer_on src_call_not_1_rparen)
      = some (some (.call { symbol_index := 1 }
            [.unaryexpr .TOKEN_BITWISE_NOT (int_node ['1'])]),
          parser_with syms_f, lexer_on [punct_token .TOKEN_SEMICOLON 7 [';']])
    ∧ (parser_with syms_f).inside_parenthesized_expression_ ≠ 1
    ∧ ∀ (fuel n : Nat) (r : Option ast_node × parser × lexer),
        parse_call (parse_expression sample_externals fuel) n 1
            { parser_with syms_f with inside_parenthesized_expression_ := 1 }
            (lexer_on src_call_not_1_rparen) = some r →
        r = (some (.call { symbol_index := 1 }
              [.unaryexpr .TOKEN_BITWISE_NOT (int_node ['1'])]),
            parser_with syms_f, lexer_on [punct_token .TOKEN_SEMICOLON 7 [';']]) := by
  refine ⟨rfl, by decide, ?_⟩
  intro fuel n r h
  have h1 := parse_call_mono
    (parse_expression_mono sample_externals fuel (fuel + 3) (Nat.le_add_right _ _))
    n (n + 1) (Nat.le_add_right _ _) _ _ _ _ h
  have h2 : parse_call (parse_expression sample_externals 3) 1 1
      { parser_with syms_f with inside_parenthesized_expression_ := 1 }
      (lexer_on src_call_not_1_rparen)
      = some (some (.call { symbol_index := 1 }
            [.unaryexpr .TOKEN_BITWISE_NOT (int_node ['1'])]),
          parser_with syms_f, lexer_on [punct_token .TOKEN_SEMICOLON 7 [';']]) := rfl
  have h3 := parse_call_mono
    (parse_expression_mono sample_externals 3 (fuel + 3) (Nat.le_add_left _ _))
    1 (n + 1) (Nat.le_add_left _ _) _ _ _ _ h2
  rw [h1] at h3
  exact Option.some.inj h3

/-- C11 (amended): `parse_call` never returns a `Call` node above the depth at entry, and
restores the depth when no argument runs over a further `)`.  (1) For every token stream and
entry depth `d` on which `parse_call` returns a `Call` node, the depth at return is at most
`d`; in particular it is `d` when `d = 0`.  (2) For a call `( a , b1 , b2 ... )` whose
arguments are literals, entered at a depth `d < 65535`, `parse_call` returns the call with
these arguments, the depth `d` and the token after the `)` as current token. -/
theorem parse_call_depth_at_most_entry (ext : externals) (recurse : expr_fn)
    (fuel n sym_index : Nat) (p : parser) (lxr : lexer) :
    (∀ (node : ast_node) (p' : parser) (lxr' : lexer),
      parse_call recurse n sym_index p lxr = some (some node, p', lxr') →
      p'.inside_parenthesized_expression_ ≤ p.inside_parenthesized_expression_ ∧
      (p.inside_parenthesized_expression_ = 0 → p'.inside_parenthesized_expression_ = 0))
    ∧ (∀ (lparen a rparen : Token) (na : ast_node) (gs : List argument_group)
        (rest : List Token) (sym : symbol),
        ext.EXPR_NEVER_NEEDS_TERMINAL .NODE_SINGLETON_LITERAL = false →
        lparen.type = .TOKEN_LPAREN → rparen.type = .TOKEN_RPAREN →
        is_literal a → literal_node a = some na → (∀ g ∈ gs, g.ok) →
        p.lookup_unique_symbol sym_index = some sym → sym.sym_type = .SYM_PROCEDURE →
        p.inside_parenthesized_expression_ < 65535 →
        2 ≤ fuel → gs.length + 1 ≤ n →
        parse_call (parse_expression ext fuel) n sym_index p
            { lxr with tokens := lparen :: a :: (argument_tokens gs ++ rparen :: rest) }
          = some (some (.call { symbol_index := sym_index } (na :: gs.map (·.node))), p,
              { lxr with tokens := rest })) := by
  constructor
  · intro node p' lxr' h
    have hle : p'.inside_parenthesized_expression_ ≤ p.inside_parenthesized_expression_ := by
      unfold parse_call at h
      split_ifs at h with hc
      cases hs : p.lookup_unique_symbol sym_index with
      | none => simp [hs] at h
      | some sym =>
        simp only [hs] at h
        split_ifs at h with h1 h2
        · simp at h
        · simp only [Option.some.injEq, Prod.mk.injEq] at h
          rw [← h.2.1]
        · exact parse_call_loop_depth recurse sym_index _ n _ _ _ _ _ _ h
    exact ⟨hle, fun h0 => by omega⟩
  · intro lparen a rparen na gs rest sym hE hl hr ha hna hok hs hp hd hfuel hn
    have hcur := lexer_current_cons lxr lparen (a :: (argument_tokens gs ++ rparen :: rest))
    have hadv := lexer_advance_cons lxr lparen (a :: (argument_tokens gs ++ rparen :: rest))
      (by simp [hl])
    have hcur2 := lexer_current_cons lxr a (argument_tokens gs ++ rparen :: rest)
    have hnr : a.type ≠ .TOKEN_RPAREN := by
      obtain ⟨_, h | h | h | h | h⟩ := ha <;> simp [h]
    have hinc : incr16 p.inside_parenthesized_expression_
        = p.inside_parenthesized_expression_ + 1 := by
      unfold incr16; omega
    have hloop := parse_call_loop_literals ext sym_index p.inside_parenthesized_expression_ hE
      rparen rest hr fuel hfuel gs hok n hn a na ha hna []
      { p with inside_parenthesized_expression_ := incr16 p.inside_parenthesized_expression_ }
      lxr hinc
    unfold parse_call
    simp only [hcur, hl, hs, hp, hadv, hcur2, hnr]
    simpa using hloop

/-- C11 (witness): the call `f(41)` of scenario S4 entered at the depth 0, and a call
`f(1, 2)` entered at the depth 3. -/
theorem parse_call_depth_at_most_entry_witness :
    ((parser_with syms_f).inside_parenthesized_expression_
        ≤ (parser_with syms_f).inside_parenthesized_expression_ ∧
      ((parser_with syms_f).inside_parenthesized_expression_ = 0 →
        (parser_with syms_f).inside_parenthesized_expression_ = 0))
    ∧ parse_call (parse_expression sample_externals 2) 2 1
        { parser_with syms_f with inside_parenthesized_expression_ := 3 }
        (lexer_on src_call_1_2)
      = some (some (.call { symbol_index := 1 } [int_node ['1'], int_node ['2']]),
          { parser_with syms_f with inside_parenthesized_expression_ := 3 },
          lexer_on [punct_token .TOKEN_SEMICOLON 7 [';']]) :=
  ⟨(parse_call_depth_at_most_entry sample_externals (parse_expression sample_externals 2) 2 1 1
      (parser_with syms_f) (lexer_on src_call_41)).1
      (.call { symbol_index := 1 } [int_node ['4', '1']]) (parser_with syms_f)
      (lexer_on [punct_token .TOKEN_SEMICOLON 16 [';']]) rfl,
   (parse_call_depth_at_most_entry sample_externals (parse_expression sample_externals 2) 2 2 1
      { parser_with syms_f with inside_parenthesized_expression_ := 3 } (lexer_on [])).2
      (punct_token .TOKEN_LPAREN 1 ['(']) (int_token 2 ['1'])
      (punct_token .TOKEN_RPAREN 6 [')']) (int_node ['1'])
      [{ comma := punct_token .TOKEN_COMMA 3 [','], argument := int_token 5 ['2'],
         node := int_node ['2'] }]
      [punct_token .TOKEN_SEMICOLON 7 [';']]
      { symbol_index := 1, name := "f", sym_type := .SYM_PROCEDURE, flags := 0, src_pos := 0,
        line_number := 1 }
      rfl rfl rfl ⟨rfl, Or.inl rfl⟩ rfl
      (by
        intro g hg
        rw [List.mem_singleton] at hg
        subst hg
        exact ⟨rfl, by decide, ⟨rfl, Or.inl rfl⟩, rfl⟩)
      rfl rfl (by decide) (le_refl 2) (le_refl 2)⟩

/-! ## Assignment (`parse_assign`) -/

/-- C12 (counterexample): on `1 = 2;` the left operand is a literal, and
`parse_binary_expression`, with the `=` as current token, returns `Assign(1, 2)` and raises
no error; so does `parse_expression` on the whole statement.  No amount of fuel gives
another result. -/
theorem parse_assign_literal_left_counterexample :
    parse_binary_expression (parse_expression sample_externals 2) (some (int_node ['1']))
        (parser_with []) (lexer_on src_1_eq_2.tail)
      = some (some (.assign (int_node ['1']) (int_node ['2'])), parser_with [],
          lexer_on [punct_token .TOKEN_SEMICOLON 5 [';']])
    ∧ parse_expression sample_externals 3 (parser_with []) (lexer_on src_1_eq_2) false false
      = some (some (.assign (int_node ['1']) (int_node ['2'])), parser_with [], lexer_on [])
    ∧ (lexer_on []).errors = []
    ∧ ∀ (fuel : Nat) (r : Option ast_node × parser × lexer),
        parse_expression sample_externals fuel (parser_with []) (lexer_on src_1_eq_2)
            false false = some r →
        r = (some (.assign (int_node ['1']) (int_node ['2'])), parser_with [], lexer_on []) := by
  refine ⟨rfl, rfl, rfl, ?_⟩
  intro fuel r h
  have h1 := parse_expression_mono sample_externals fuel (fuel + 3) (Nat.le_add_right _ _)
    _ _ _ _ _ h
  have h2 : parse_expression sample_externals 3 (parser_with []) (lexer_on src_1_eq_2)
      false false
      = some (some (.assign (int_node ['1']) (int_node ['2'])), parser_with [], lexer_on []) :=
    rfl
  have h3 := parse_expression_mono sample_externals 3 (fuel + 3) (Nat.le_add_left _ _)
    _ _ _ _ _ h2
  rw [h1] at h3
  exact Option.some.inj h3

/-- C12 (amended): `parse_assign` makes no check of the left operand.  For every left
operand, of whatever kind, with `=` as current token: when the right side parses to a valid
subexpression `e`, `parse_binary_expression` returns `Assign(left, e)` in the state the
parse of the right side left, raising no error; and its outcome for two left operands
differs in nothing but the left side of the `Assign` node. -/
theorem parse_assign_any_left_operand (recurse : expr_fn) (left : ast_node) (p : parser)
    (lxr : lexer) (hk : lxr.current.kind = .KIND_BINARY_EXPR_OPERATOR)
    (ht : lxr.current.type = .TOKEN_VALUE_ASSIGNMENT) :
    (∀ (e : ast_node) (p1 : parser) (lxr1 : lexer),
      recurse p (lxr.advance 1) true false = some (some e, p1, lxr1) →
      VALID_SUBEXPRESSION e.type = true →
      parse_binary_expression recurse (some left) p lxr
        = some (some (.assign left e), p1, lxr1))
    ∧ (∀ (left2 : ast_node),
        parse_binary_expression recurse (some left2) p lxr
          = (parse_binary_expression recurse (some left) p lxr).map
              (fun r => (r.1.map (fun node =>
                  match node with
                  | .assign _ e => .assign left2 e
                  | other => other), r.2))) := by
  constructor
  · intro e p1 lxr1 hr hv
    unfold parse_binary_expression parse_assign
    simp [hk, ht, hr, hv]
  · intro left2
    unfold parse_binary_expression parse_assign
    simp only [hk, ht, ne_eq, not_true_eq_false, if_false, if_true]
    generalize recurse p (lxr.advance 1) true false = x
    cases x with
    | none => rfl
    | some v =>
      obtain ⟨e, p1, l1⟩ := v
      cases e with
      | none => rfl
      | some e =>
        simp only []
        split_ifs <;> rfl

/-- C12 (witness): `1 = 2;`, the left operand a literal. -/
theorem parse_assign_any_left_operand_witness :
    parse_binary_expression (parse_expression sample_externals 2) (some (int_node ['1']))
        (parser_with []) (lexer_on src_1_eq_2.tail)
      = some (some (.assign (int_node ['1']) (int_node ['2'])), parser_with [],
          lexer_on [punct_token .TOKEN_SEMICOLON 5 [';']]) :=
  (parse_assign_any_left_operand (parse_expression sample_externals 2) (int_node ['1'])
    (parser_with []) (lexer_on src_1_eq_2.tail) rfl rfl).1 (int_node ['2']) (parser_with [])
    (lexer_on [punct_token .TOKEN_SEMICOLON 5 [';']]) rfl rfl

/-! ## Checked components (`VALID_SUBEXPRESSION`) -/

/-- The nodes `parse_parenthesized_expression` returns have checked components. -/
theorem parse_parenthesized_expression_checked {f : expr_fn} (h : expr_returns_checked f) :
    returns_checked (parse_parenthesized_expression f) := by
  intro p lxr node p' lxr' hr
  unfold parse_parenthesized_expression at hr
  split_ifs at hr with hc
  simp only [] at hr
  generalize hf : f _ _ true false = x at hr
  cases x with
  | none => simp at hr
  | some v =>
    obtain ⟨e, p1, l1⟩ := v
    cases e with
    | none => simp at hr
    | some e =>
      simp only [] at hr
      split_ifs at hr with h1
      · simp at hr
      · simp only [Option.some.injEq, Prod.mk.injEq] at hr
        rw [← hr.1]
        exact h _ _ _ _ _ _ _ hf

/-- The nodes `parse_singleton_literal` returns have checked components. -/
theorem parse_singleton_literal_checked : returns_checked parse_singleton_literal := by
  intro p lxr node p' lxr' hr
  unfold parse_singleton_literal at hr
  split_ifs at hr with hc
  simp only [] at hr
  split_ifs at hr with h1
  · cases hd : remove_escaped_chars lxr.current.value with
    | none => simp [hd] at hr
    | some real =>
      simp only [hd, Option.some.injEq, Prod.mk.injEq] at hr
      rw [← hr.1]
      exact checked_components.singleton_literal _ _
  · simp only [Option.some.injEq, Prod.mk.injEq] at hr
    rw [← hr.1]
    exact checked_components.singleton_literal _ _

/-- The nodes `parse_braced_expression_loop` returns have checked components. -/
theorem parse_braced_expression_loop_checked {f : expr_fn} (h : expr_returns_checked f) :
    ∀ (n : Nat) (members : List ast_node) (p : parser) (lxr : lexer) (node : ast_node)
      (p' : parser) (lxr' : lexer),
      (∀ m ∈ members, VALID_SUBEXPRESSION m.type = true) →
      (∀ m ∈ members, checked_components m) →
      parse_braced_expression_loop f n members p lxr = some (some node, p', lxr') →
      checked_components node := by
  intro n
  induction n with
  | zero => intro ms p lxr node p' lxr' _ _ hr; simp [parse_braced_expression_loop] at hr
  | succ n ih =>
    intro ms p lxr node p' lxr' hv hc hr
    unfold parse_braced_expression_loop at hr
    split_ifs at hr with h0
    · simp only [] at hr
      generalize hf : f _ _ true false = x at hr
      cases x with
      | none => simp at hr
      | some v =>
        obtain ⟨e, p1, l1⟩ := v
        cases e with
        | none => simp at hr
        | some e =>
          simp only [] at hr
          have he := h _ _ _ _ _ _ _ hf
          split_ifs at hr with h1 h2
          · simp at hr
          · refine ih _ _ _ _ _ _ ?_ ?_ hr
            · intro m hm
              rcases List.mem_append.mp hm with hm | hm
              · exact hv m hm
              · rw [List.mem_singleton] at hm; subst hm; simpa using h1
            · intro m hm
              rcases List.mem_append.mp hm with hm | hm
              · exact hc m hm
              · rw [List.mem_singleton] at hm; subst hm; exact he
          · refine ih _ _ _ _ _ _ ?_ ?_ hr
            · intro m hm
              rcases List.mem_append.mp hm with hm | hm
              · exact hv m hm
              · rw [List.mem_singleton] at hm; subst hm; simpa using h1
            · intro m hm
              rcases List.mem_append.mp hm with hm | hm
              · exact hc m hm
              · rw [List.mem_singleton] at hm; subst hm; exact he
    · simp only [Option.some.injEq, Prod.mk.injEq] at hr
      rw [← hr.1]
      exact checked_components.braced_expression _ hv hc

/-- The nodes `parse_braced_expression` returns have checked components. -/
theorem parse_braced_expression_checked {f : expr_fn} (h : expr_returns_checked f) (n : Nat) :
    returns_checked (parse_braced_expression f n) := by
  intro p lxr node p' lxr' hr
  unfold parse_braced_expression at hr
  split_ifs at hr with hc
  exact parse_braced_expression_loop_checked h n [] _ _ _ _ _ (by simp) (by simp) hr

/-- The nodes `parse_unary_expression` returns have checked components. -/
theorem parse_unary_expression_checked (ext : externals) {f : expr_fn}
    (h : expr_returns_checked f) : returns_checked (parse_unary_expression ext f) := by
  intro p lxr node p' lxr' hr
  unfold parse_unary_expression at hr
  split_ifs at hr with hc
  simp only [] at hr
  generalize hf : f _ _ true true = x at hr
  cases x with
  | none => simp at hr
  | some v =>
    obtain ⟨e, p1, l1⟩ := v
    cases e with
    | none => simp at hr
    | some e =>
      simp only [] at hr
      split_ifs at hr with h1
      · simp at hr
      · simp only [Option.some.injEq, Prod.mk.injEq] at hr
        rw [← hr.1]
        exact checked_components.unaryexpr _ _ (by simpa using h1) (h _ _ _ _ _ _ _ hf)

/-- The nodes `parse_assign` returns have checked components. -/
theorem parse_assign_checked {f : expr_fn} (h : expr_returns_checked f) (a : ast_node)
    (ha : checked_components a) : returns_checked (parse_assign f a) := by
  intro p lxr node p' lxr' hr
  unfold parse_assign at hr
  split_ifs at hr with hc
  simp only [] at hr
  generalize hf : f _ _ true false = x at hr
  cases x with
  | none => simp at hr
  | some v =>
    obtain ⟨e, p1, l1⟩ := v
    cases e with
    | none => simp at hr
    | some e =>
      simp only [] at hr
      split_ifs at hr with h1
      · simp at hr
      · simp only [Option.some.injEq, Prod.mk.injEq] at hr
        rw [← hr.1]
        exact checked_components.assign _ _ ha (by simpa using h1) (h _ _ _ _ _ _ _ hf)

/-- The nodes `parse_binary_expression` returns have checked components. -/
theorem parse_binary_expression_checked {f : expr_fn} (h : expr_returns_checked f)
    (left : Option ast_node) (hl : ∀ e, left = some e → checked_components e) :
    returns_checked (parse_binary_expression f left) := by
  intro p lxr node p' lxr' hr
  unfold parse_binary_expression at hr
  split_ifs at hr with hc h0
  · cases left with
    | none => simp at hr
    | some left => exact parse_assign_checked h left (hl _ rfl) _ _ _ _ _ hr
  · cases left with
    | none => simp at hr
    | some left =>
      simp only [] at hr
      generalize hf : f _ _ true false = x at hr
      cases x with
      | none => simp at hr
      | some v =>
        obtain ⟨e, p1, l1⟩ := v
        cases e with
        | none => simp at hr
        | some e =>
          simp only [] at hr
          split_ifs at hr with h1
          · simp at hr
          · simp only [Option.some.injEq, Prod.mk.injEq] at hr
            rw [← hr.1]
            exact checked_components.binexpr _ _ _ (hl _ rfl) (by simpa using h1)
              (h _ _ _ _ _ _ _ hf)

/-- The nodes `parse_subscript` returns have checked components. -/
theorem parse_subscript_checked {f : expr_fn} (h : expr_returns_checked f)
    (operand : Option ast_node) (ho : ∀ e, operand = some e → checked_components e) :
    returns_checked (parse_subscript f operand) := by
  intro p lxr node p' lxr' hr
  unfold parse_subscript at hr
  split_ifs at hr with hc
  cases operand with
  | none => simp at hr
  | some operand =>
    simp only [] at hr
    generalize hf : f _ _ true false = x at hr
    cases x with
    | none => simp at hr
    | some v =>
      obtain ⟨e, p1, l1⟩ := v
      cases e with
      | none => simp at hr
      | some e =>
        simp only [] at hr
        split_ifs at hr with h1
        · simp at hr
        · simp only [Option.some.injEq, Prod.mk.injEq] at hr
          rw [← hr.1]
          have hv : VALID_SUBEXPRESSION e.type = true := by
            by_contra hn
            exact h1 (Or.inl (by simpa using hn))
          exact checked_components.subscript _ _ (ho _ rfl) hv (h _ _ _ _ _ _ _ hf)

/-- The nodes `parse_subscripts` returns have checked components. -/
theorem parse_subscripts_checked {f : expr_fn} (h : expr_returns_checked f) :
    ∀ (n : Nat) (expr : Option ast_node) (p : parser) (lxr : lexer) (q : Bool)
      (expr' : Option ast_node) (p' : parser) (lxr' : lexer),
      (∀ e, expr = some e → checked_components e) →
      parse_subscripts f n expr p lxr q = some (expr', p', lxr') →
      ∀ e, expr' = some e → checked_components e := by
  intro n
  induction n with
  | zero => intro e p lxr q e' p' lxr' _ hr; simp [parse_subscripts] at hr
  | succ n ih =>
    intro e p lxr q e' p' lxr' he hr
    unfold parse_subscripts at hr
    split_ifs at hr with hc
    · generalize hf : parse_subscript f e p lxr = x at hr
      cases x with
      | none => simp at hr
      | some v =>
        obtain ⟨e1, p1, l1⟩ := v
        simp only [] at hr
        refine ih _ _ _ _ _ _ _ ?_ hr
        intro e2 he2
        subst he2
        exact parse_subscript_checked h e he _ _ _ _ _ hf
    · simp only [Option.some.injEq, Prod.mk.injEq] at hr
      rw [← hr.1]
      exact he

/-- The nodes `parse_suffixes` returns have checked components. -/
theorem parse_suffixes_checked {f : expr_fn} (h : expr_returns_checked f) (n : Nat)
    (expr : ast_node) (he : checked_components expr) (q : Bool) :
    returns_checked (fun p lxr => parse_suffixes f n expr p lxr q) := by
  intro p lxr node p' lxr' hr
  simp only [] at hr
  unfold parse_suffixes at hr
  generalize hf : parse_subscripts f n (some expr) p lxr q = x at hr
  cases x with
  | none => simp at hr
  | some v =>
    obtain ⟨e1, p1, l1⟩ := v
    have h1 := parse_subscripts_checked h n (some expr) p lxr q e1 p1 l1
      (fun e hh => by cases hh; exact he) hf
    simp only [] at hr
    split_ifs at hr with hc
    · exact parse_binary_expression_checked h e1 h1 _ _ _ _ _ hr
    · simp only [Option.some.injEq, Prod.mk.injEq] at hr
      exact h1 _ hr.1

/-- The nodes `parse_after_primary` returns have checked components. -/
theorem parse_after_primary_checked (ext : externals) {f : expr_fn}
    (h : expr_returns_checked f) (n : Nat) (expr : ast_node) (he : checked_components expr)
    (s q : Bool) : returns_checked (fun p lxr => parse_after_primary ext f n expr p lxr s q) := by
  intro p lxr node p' lxr' hr
  simp only [] at hr
  unfold parse_after_primary at hr
  generalize hf : parse_suffixes f n expr p lxr q = x at hr
  have hsuf := parse_suffixes_checked h n expr he q p lxr
  simp only [] at hsuf
  cases x with
  | none =>
    split_ifs at hr
    all_goals first
      | (simp at hr; done)
      | (simp only [Option.some.injEq, Prod.mk.injEq] at hr; rw [← hr.1]; exact he)
  | some v =>
    obtain ⟨e1, p1, l1⟩ := v
    simp only [] at hr
    split_ifs at hr
    all_goals first
      | (simp at hr; done)
      | (simp only [Option.some.injEq, Prod.mk.injEq] at hr; rw [← hr.1]; exact he)
      | (simp only [Option.some.injEq, Prod.mk.injEq] at hr
         exact hsuf node p1 l1 (by rw [hf, hr.1]))

/-- The nodes `parse_keyword` returns have checked components. -/
theorem parse_keyword_checked (ext : externals) (hext : ext.checked) :
    returns_checked (parse_keyword ext) := by
  obtain ⟨_, h2, h3, h4, h5, h6, h7, h8⟩ := hext
  intro p lxr node p' lxr' hr
  unfold parse_keyword at hr
  split_ifs at hr
  · exact h2 _ _ _ _ _ hr
  · exact h3 _ _ _ _ _ hr
  · exact h4 _ _ _ _ _ hr
  · exact h5 _ _ _ _ _ hr
  · exact h6 _ _ _ _ _ hr
  · exact h7 _ _ _ _ _ hr
  · exact h8 _ _ _ _ _ hr
  · simp at hr

/-- The nodes `parse_primary` returns have checked components. -/
theorem parse_primary_checked (ext : externals) (hext : ext.checked) {f : expr_fn}
    (h : expr_returns_checked f) (n : Nat) : returns_checked (parse_primary ext f n) := by
  intro p lxr node p' lxr' hr
  unfold parse_primary at hr
  simp only [] at hr
  split_ifs at hr with h1 h2 h3 h4 h5 h6 h7
  · simp at hr
  · exact hext.1 _ _ _ _ _ hr
  · exact parse_parenthesized_expression_checked h _ _ _ _ _ hr
  · exact parse_braced_expression_checked h n _ _ _ _ _ hr
  · exact parse_singleton_literal_checked _ _ _ _ _ hr
  · exact parse_keyword_checked ext hext _ _ _ _ _ hr
  · exact parse_unary_expression_checked ext h _ _ _ _ _ hr
  · simp at hr

/-- The nodes `parse_expression` returns have checked components. -/
theorem parse_expression_checked (ext : externals) (hext : ext.checked) :
    ∀ (n : Nat), expr_returns_checked (parse_expression ext n) := by
  intro n
  induction n with
  | zero => intro p lxr s g node p' lxr' hr; simp [parse_expression] at hr
  | succ n ih =>
    intro p lxr s g node p' lxr' hr
    unfold parse_expression at hr
    generalize hf : parse_primary ext (parse_expression ext n) n p lxr = x at hr
    cases x with
    | none => simp at hr
    | some v =>
      obtain ⟨e, p1, l1⟩ := v
      cases e with
      | none => simp at hr
      | some e =>
        simp only [] at hr
        have he := parse_primary_checked ext hext ih n _ _ _ _ _ hf
        exact parse_after_primary_checked ext ih n e he s g _ _ _ _ _ hr

/-- The nodes `parse_call_loop` returns have checked components. -/
theorem parse_call_loop_checked {f : expr_fn} (h : expr_returns_checked f)
    (sym_index old : Nat) :
    ∀ (n : Nat) (args : List ast_node) (p : parser) (lxr : lexer) (node : ast_node)
      (p' : parser) (lxr' : lexer),
      (∀ a ∈ args, VALID_SUBEXPRESSION a.type = true) →
      (∀ a ∈ args, checked_components a) →
      parse_call_loop f sym_index old n args p lxr = some (some node, p', lxr') →
      checked_components node := by
  intro n
  induction n with
  | zero => intro ms p lxr node p' lxr' _ _ hr; simp [parse_call_loop] at hr
  | succ n ih =>
    intro ms p lxr node p' lxr' hv hc hr
    unfold parse_call_loop at hr
    split_ifs at hr with h0
    · simp only [] at hr
      generalize hf : f _ _ true false = x at hr
      cases x with
      | none => simp at hr
      | some v =>
        obtain ⟨e, p1, l1⟩ := v
        cases e with
        | none => simp at hr
        | some e =>
          simp only [] at hr
          have he := h _ _ _ _ _ _ _ hf
          have hv' : VALID_SUBEXPRESSION e.type = false →
              ∀ a ∈ ms ++ [e], VALID_SUBEXPRESSION a.type = true := by
            intro _ a ha
            exact absurd ha (by simp_all)
          split_ifs at hr with h1 h2 h3 h4
          · simp at hr
          all_goals
            have hv2 : ∀ a ∈ ms ++ [e], VALID_SUBEXPRESSION a.type = true := by
              intro a ha
              rcases List.mem_append.mp ha with ha | ha
              · exact hv a ha
              · rw [List.mem_singleton] at ha; subst ha; simpa using h1
            have hc2 : ∀ a ∈ ms ++ [e], checked_components a := by
              intro a ha
              rcases List.mem_append.mp ha with ha | ha
              · exact hc a ha
              · rw [List.mem_singleton] at ha; subst ha; exact he
          · simp only [Option.some.injEq, Prod.mk.injEq] at hr
            rw [← hr.1]
            exact checked_components.call _ _ hv2 hc2
          · exact ih _ _ _ _ _ _ hv2 hc2 hr
          · exact ih _ _ _ _ _ _ hv2 hc2 hr
          · exact ih _ _ _ _ _ _ hv2 hc2 hr
    · simp only [Option.some.injEq, Prod.mk.injEq] at hr
      rw [← hr.1]
      exact checked_components.call _ _ hv hc

/-- The nodes `parse_call` returns have checked components. -/
theorem parse_call_checked {f : expr_fn} (h : expr_returns_checked f) (n sym_index : Nat) :
    returns_checked (parse_call f n sym_index) := by
  intro p lxr node p' lxr' hr
  unfold parse_call at hr
  split_ifs at hr with hc
  cases hs : p.lookup_unique_symbol sym_index with
  | none => simp [hs] at hr
  | some sym =>
    simp only [hs] at hr
    split_ifs at hr with h1 h2
    · simp at hr
    · simp only [Option.some.injEq, Prod.mk.injEq] at hr
      rw [← hr.1]
      exact checked_components.call _ _ (by simp) (by simp)
    · exact parse_call_loop_checked h sym_index _ n [] _ _ _ _ _ (by simp) (by simp) hr

/-- The parsers of `declaration_externals` return nodes with checked components. -/
theorem declaration_externals_checked : declaration_externals.checked := by
  refine ⟨?_, ?_, ?_, ?_, ?_, ?_, ?_, ?_⟩
  · intro p lxr node p' lxr' h
    simp only [declaration_externals, sample_parse_declaration] at h
    split_ifs at h
    · simp only [Option.some.injEq, Prod.mk.injEq] at h
      rw [← h.1]
      exact checked_components.vardecl _ _
    · simp at h
  all_goals
    intro p lxr node p' lxr' h
    simp [declaration_externals, sample_externals, sample_parse_statement] at h

/-- C13 (counterexample): on `x : i32 + 1;`, with an identifier parser that returns the
`VarDecl` of `x : i32` as `parse_vardecl` does, `parse_expression` returns
`BinaryExpr(+, VarDecl(x), 1)` and raises no error: the left operand is a `VarDecl`, a kind
that `VALID_SUBEXPRESSION` does not admit.  No amount of fuel gives another result. -/
theorem parse_expression_vardecl_left_operand_counterexample :
    parse_expression declaration_externals 3 (parser_with []) (lexer_on src_x_i32_plus_1)
        false false
      = some (some (.binexpr .TOKEN_PLUS (.vardecl { symbol_index := 1 } none)
            (int_node ['1'])), parser_with [], lexer_on [])
    ∧ VALID_SUBEXPRESSION (ast_node.vardecl { symbol_index := 1 } none).type = false
    ∧ (lexer_on []).errors = []
    ∧ ∀ (fuel : Nat) (r : Option ast_node × parser × lexer),
        parse_expression declaration_externals fuel (parser_with [])
            (lexer_on src_x_i32_plus_1) false false = some r →
        r = (some (.binexpr .TOKEN_PLUS (.vardecl { symbol_index := 1 } none)
              (int_node ['1'])), parser_with [], lexer_on []) := by
  refine ⟨rfl, rfl, rfl, ?_⟩
  intro fuel r h
  have h1 := parse_expression_mono declaration_externals fuel (fuel + 3)
    (Nat.le_add_right _ _) _ _ _ _ _ h
  have h2 : parse_expression declaration_externals 3 (parser_with [])
      (lexer_on src_x_i32_plus_1) false false
      = some (some (.binexpr .TOKEN_PLUS (.vardecl { symbol_index := 1 } none)
            (int_node ['1'])), parser_with [], lexer_on []) := rfl
  have h3 := parse_expression_mono declaration_externals 3 (fuel + 3) (Nat.le_add_left _ _)
    _ _ _ _ _ h2
  rw [h1] at h3
  exact Option.some.inj h3

/-- C13 (amended): `expr.cpp` checks with `VALID_SUBEXPRESSION` every component it parses by
a call of `parse_expression` of its own, and no other.  Given that the parsers of the other
files return trees with checked components: (1) in every tree returned by
`parse_expression`, and (2) in every tree returned by `parse_call`, the right operand of
every `BinaryExpr`, the expression of every `Assign`, the operand of every `UnaryExpr`, the
value (index) of every `Subscript`, every member of a `BracedExpression` and every `Call`
argument has a kind admitted by `VALID_SUBEXPRESSION`.  (3) The left operand is not checked:
whatever node `a` the primary dispatch returns, of a kind that needs a terminal, in front of
`op b ;` with `op` a binary operator other than `=` and `b` a literal, `parse_expression`
returns `BinaryExpr(op, a, b)`. -/
theorem parse_expression_checked_components (ext : externals) (hext : ext.checked)
    (fuel : Nat) :
    (∀ (p : parser) (lxr : lexer) (s g : Bool) (node : ast_node) (p' : parser) (lxr' : lexer),
      parse_expression ext fuel p lxr s g = some (some node, p', lxr') →
      checked_components node)
    ∧ (∀ (n sym_index : Nat) (p : parser) (lxr : lexer) (node : ast_node) (p' : parser)
        (lxr' : lexer),
        parse_call (parse_expression ext fuel) n sym_index p lxr = some (some node, p', lxr') →
        checked_components node)
    ∧ (∀ (a nb : ast_node) (op b semi : Token) (rest : List Token) (p p1 : parser)
        (lxr l1 : lexer),
        parse_primary ext (parse_expression ext (fuel + 2)) (fuel + 2) p lxr
          = some (some a, p1, { l1 with tokens := op :: b :: semi :: rest }) →
        ext.EXPR_NEVER_NEEDS_TERMINAL a.type = false →
        ext.EXPR_NEVER_NEEDS_TERMINAL .NODE_SINGLETON_LITERAL = false →
        binary_operator op → op.type ≠ .TOKEN_VALUE_ASSIGNMENT →
        is_literal b → literal_node b = some nb →
        semi.type = .TOKEN_SEMICOLON → semi.kind ≠ .KIND_BINARY_EXPR_OPERATOR →
        p1.inside_parenthesized_expression_ = 0 →
        parse_expression ext (fuel + 3) p lxr false false
          = some (some (.binexpr op.type a nb), p1, { l1 with tokens := rest })) := by
  refine ⟨parse_expression_checked ext hext fuel, ?_, ?_⟩
  · intro n sym_index
    exact parse_call_checked (parse_expression_checked ext hext fuel) n sym_index
  · intro a nb op b semi rest p p1 lxr l1 hP hE hEl hop hne hb hnb hsemi hsk hd
    have hstop : stops_operand semi := ⟨by simp [hsemi], by simp [hsemi], hsk⟩
    have hrec := parse_expression_mono ext 2 (fuel + 2) (Nat.le_add_left _ _) _ _ _ _ _
      (parse_expression_literal_stop ext p1 l1 b semi nb rest hEl hb hnb hstop)
    have := parse_expression_binop_top ext (fuel + 1) p p1 p1 lxr l1
      { l1 with tokens := semi :: rest } a nb op (b :: semi :: rest) hP hE hop hne hrec
      (by rw [literal_node_type hnb]; rfl)
      (Or.inl (by simpa [lexer.current] using hsemi)) hd
    rw [this]
    simp [lexer.advance, lexer.advance1, hsemi]

/-- C13 (witness): `x : i32 + 1;`: the tree `BinaryExpr(+, VarDecl(x), 1)` has checked
components, its right operand is a literal, and its left operand is the `VarDecl` that the
primary dispatch returned. -/
theorem parse_expression_checked_components_witness :
    checked_components
      (.binexpr .TOKEN_PLUS (.vardecl { symbol_index := 1 } none) (int_node ['1']))
    ∧ parse_expression declaration_externals 3 (parser_with []) (lexer_on src_x_i32_plus_1)
        false false
      = some (some (.binexpr .TOKEN_PLUS (.vardecl { symbol_index := 1 } none)
            (int_node ['1'])), parser_with [], lexer_on []) :=
  ⟨(parse_expression_checked_components declaration_externals declaration_externals_checked
      3).1 (parser_with []) (lexer_on src_x_i32_plus_1) false false _ _ _ rfl,
   (parse_expression_checked_components declaration_externals declaration_externals_checked
      0).2.2 (.vardecl { symbol_index := 1 } none) (int_node ['1'])
      (op_token .TOKEN_PLUS 8 ['+']) (int_token 10 ['1'])
      (punct_token .TOKEN_SEMICOLON 11 [';']) [] (parser_with [])
      (parser_with []) (lexer_on src_x_i32_plus_1) (lexer_on []) rfl rfl rfl
      ⟨rfl, by decide, by decide, by decide⟩ (by decide) ⟨rfl, Or.inl rfl⟩ rfl rfl
      (by decide) rfl⟩

/-! ## The lexer handlers (`tokens.cpp`) -/

/-- A cursor with bytes left is inside the buffer. -/
theorem Lexer.drop_cons_lt {lxr : Lexer} {c : Char} {rest : List Char}
    (h : lxr.src_.drop lxr.index = c :: rest) : ¬ lxr.index ≥ lxr.src_.length := by
  intro hge
  rw [List.drop_eq_nil_of_le hge] at h
  exact absurd h (by simp)

/-- The byte under the cursor is the first of the bytes left. -/
theorem Lexer.current_char_of_drop {lxr : Lexer} {c : Char} {rest : List Char}
    (h : lxr.src_.drop lxr.index = c :: rest) : lxr.current_char = c := by
  unfold Lexer.current_char
  have := congrArg (fun l => l.getD 0 NUL) h
  simpa [List.getD_eq_getElem?_getD, List.getElem?_drop] using this

/-- The byte after the cursor is the second of the bytes left, NUL when there is none. -/
theorem Lexer.peek_char_of_drop {lxr : Lexer} {c : Char} {rest : List Char}
    (h : lxr.src_.drop lxr.index = c :: rest) : lxr.peek_char = rest.headD NUL := by
  unfold Lexer.peek_char
  have := congrArg (fun l => l.getD 1 NUL) h
  cases rest <;> simpa [List.getD_eq_getElem?_getD, List.getElem?_drop] using this

/-- A view from the cursor on is the start of the bytes left. -/
theorem Lexer.view_of_drop {lxr : Lexer} {l : List Char}
    (h : lxr.src_.drop lxr.index = l) (n : Nat) : lxr.view lxr.index n = l.take n := by
  unfold Lexer.view
  rw [h]

/-- After one byte the bytes left are the rest. -/
theorem Lexer.drop_advance {lxr : Lexer} {c : Char} {rest : List Char}
    (h : lxr.src_.drop lxr.index = c :: rest) :
    (lxr.advance_char 1).src_.drop (lxr.advance_char 1).index = rest := by
  show lxr.src_.drop (lxr.index + 1) = rest
  rw [← List.drop_drop, h]
  rfl

/-! ## Maximal munch (the operator handlers) -/

/-- Maximal munch for the handler of `-`. -/
theorem lexer_token_hyphen_munch :
    spec_maximal_munch '-' spec_family_hyphen lexer_token_hyphen := by
  unfold spec_family_hyphen
  intro lxr rest hd
  have hlt := Lexer.drop_cons_lt hd
  have hpeek := Lexer.peek_char_of_drop hd
  have hview := Lexer.view_of_drop hd
  unfold lexer_token_hyphen
  simp only [hlt, if_false, hpeek, hview]
  cases rest with
  | nil =>
    refine ⟨⟨['-'], .TOKEN_SUB⟩, by simp, ⟨[], rfl⟩, ?_, ?_⟩
    · simp
    · simp [NUL, Lexer.set_current, Lexer.advance_char, Token.init]
  | cons d rest =>
    by_cases h1 : d = '='
    · subst h1
      refine ⟨⟨['-', '='], .TOKEN_SUBEQ⟩, by simp, ⟨rest, rfl⟩, ?_, ?_⟩
      · simp
      · simp [Lexer.set_current, Lexer.advance_char, Token.init]
    · by_cases h2 : d = '>'
      · subst h2
        refine ⟨⟨['-', '>'], .TOKEN_ARROW⟩, by simp, ⟨rest, rfl⟩, ?_, ?_⟩
        · simp
        · simp [Lexer.set_current, Lexer.advance_char, Token.init]
      · by_cases h3 : d = '-'
        · subst h3
          refine ⟨⟨['-', '-'], .TOKEN_DECREMENT⟩, by simp, ⟨rest, rfl⟩, ?_, ?_⟩
          · simp
          · simp [Lexer.set_current, Lexer.advance_char, Token.init]
        · refine ⟨⟨['-'], .TOKEN_SUB⟩, by simp, ⟨d :: rest, rfl⟩, ?_, ?_⟩
          · simp [h1, h2, h3]
          · simp [h1, h2, h3, Lexer.set_current, Lexer.advance_char, Token.init]

/-- Maximal munch for the handler of `+`. -/
theorem lexer_token_plus_munch :
    spec_maximal_munch '+' spec_family_plus lexer_token_plus := by
  unfold spec_family_plus
  intro lxr rest hd
  have hlt := Lexer.drop_cons_lt hd
  have hpeek := Lexer.peek_char_of_drop hd
  have hview := Lexer.view_of_drop hd
  unfold lexer_token_plus
  simp only [hlt, if_false, hpeek, hview]
  cases rest with
  | nil =>
    refine ⟨⟨['+'], .TOKEN_PLUS⟩, by simp, ⟨[], rfl⟩, ?_, ?_⟩
    · simp
    · simp [NUL, Lexer.set_current, Lexer.advance_char, Token.init]
  | cons d rest =>
    by_cases h1 : d = '='
    · subst h1
      refine ⟨⟨['+', '='], .TOKEN_PLUSEQ⟩, by simp, ⟨rest, rfl⟩, ?_, ?_⟩
      · simp
      · simp [Lexer.set_current, Lexer.advance_char, Token.init]
    · by_cases h2 : d = '+'
      · subst h2
        refine ⟨⟨['+', '+'], .TOKEN_INCREMENT⟩, by simp, ⟨rest, rfl⟩, ?_, ?_⟩
        · simp
        · simp [Lexer.set_current, Lexer.advance_char, Token.init]
      · refine ⟨⟨['+'], .TOKEN_PLUS⟩, by simp, ⟨d :: rest, rfl⟩, ?_, ?_⟩
        · simp [h1, h2]
        · simp [h1, h2, Lexer.set_current, Lexer.advance_char, Token.init]

/-- Maximal munch for the handler of `*`. -/
theorem lexer_token_asterisk_munch :
    spec_maximal_munch '*' spec_family_asterisk lexer_token_asterisk := by
  unfold spec_family_asterisk
  intro lxr rest hd
  have hlt := Lexer.drop_cons_lt hd
  have hpeek := Lexer.peek_char_of_drop hd
  have hview := Lexer.view_of_drop hd
  unfold lexer_token_asterisk
  simp only [hlt, if_false, hpeek, hview]
  cases rest with
  | nil =>
    refine ⟨⟨['*'], .TOKEN_MUL⟩, by simp, ⟨[], rfl⟩, ?_, ?_⟩
    · simp
    · simp [NUL, Lexer.set_current, Lexer.advance_char, Token.init]
  | cons d rest =>
    by_cases h1 : d = '='
    · subst h1
      refine ⟨⟨['*', '='], .TOKEN_MULEQ⟩, by simp, ⟨rest, rfl⟩, ?_, ?_⟩
      · simp
      · simp [Lexer.set_current, Lexer.advance_char, Token.init]
    · refine ⟨⟨['*'], .TOKEN_MUL⟩, by simp, ⟨d :: rest, rfl⟩, ?_, ?_⟩
      · simp [h1]
      · simp [h1, Lexer.set_current, Lexer.advance_char, Token.init]

/-- Maximal munch for the handler of `%`. -/
theorem lexer_token_percent_munch :
    spec_maximal_munch '%' spec_family_percent lexer_token_percent := by
  unfold spec_family_percent
  intro lxr rest hd
  have hlt := Lexer.drop_cons_lt hd
  have hpeek := Lexer.peek_char_of_drop hd
  have hview := Lexer.view_of_drop hd
  unfold lexer_token_percent
  simp only [hlt, if_false, hpeek, hview]
  cases rest with
  | nil =>
    refine ⟨⟨['%'], .TOKEN_MOD⟩, by simp, ⟨[], rfl⟩, ?_, ?_⟩
    · simp
    · simp [NUL, Lexer.set_current, Lexer.advance_char, Token.init]
  | cons d rest =>
    by_cases h1 : d = '='
    · subst h1
      refine ⟨⟨['%', '='], .TOKEN_MODEQ⟩, by simp, ⟨rest, rfl⟩, ?_, ?_⟩
      · simp
      · simp [Lexer.set_current, Lexer.advance_char, Token.init]
    · refine ⟨⟨['%'], .TOKEN_MOD⟩, by simp, ⟨d :: rest, rfl⟩, ?_, ?_⟩
      · simp [h1]
      · simp [h1, Lexer.set_current, Lexer.advance_char, Token.init]

/-- Maximal munch for the handler of `=`. -/
theorem lexer_token_equals_munch :
    spec_maximal_munch '=' spec_family_equals lexer_token_equals := by
  unfold spec_family_equals
  intro lxr rest hd
  have hlt := Lexer.drop_cons_lt hd
  have hpeek := Lexer.peek_char_of_drop hd
  have hview := Lexer.view_of_drop hd
  unfold lexer_token_equals
  simp only [hlt, if_false, hpeek, hview]
  cases rest with
  | nil =>
    refine ⟨⟨['='], .TOKEN_VALUE_ASSIGNMENT⟩, by simp, ⟨[], rfl⟩, ?_, ?_⟩
    · simp
    · simp [NUL, Lexer.set_current, Lexer.advance_char, Token.init]
  | cons d rest =>
    by_cases h1 : d = '='
    · subst h1
      refine ⟨⟨['=', '='], .TOKEN_COMP_EQUALS⟩, by simp, ⟨rest, rfl⟩, ?_, ?_⟩
      · simp
      · simp [Lexer.set_current, Lexer.advance_char, Token.init]
    · refine ⟨⟨['='], .TOKEN_VALUE_ASSIGNMENT⟩, by simp, ⟨d :: rest, rfl⟩, ?_, ?_⟩
      · simp [h1]
      · simp [h1, Lexer.set_current, Lexer.advance_char, Token.init]

/-- Maximal munch for the handler of `<`. -/
theorem lexer_token_lessthan_munch :
    spec_maximal_munch '<' spec_family_lessthan lexer_token_lessthan := by
  unfold spec_family_lessthan
  intro lxr rest hd
  have hlt := Lexer.drop_cons_lt hd
  have hpeek := Lexer.peek_char_of_drop hd
  have hview := Lexer.view_of_drop hd
  unfold lexer_token_lessthan
  simp only [hlt, if_false, hpeek, hview]
  cases rest with
  | nil =>
    refine ⟨⟨['<'], .TOKEN_COMP_LT⟩, by simp, ⟨[], rfl⟩, ?_, ?_⟩
    · simp
    · simp [NUL, Lexer.set_current, Lexer.advance_char, Token.init]
  | cons d rest =>
    have hpeek2 := Lexer.peek_char_of_drop (Lexer.drop_advance hd)
    have hview2 : ∀ n, (lxr.advance_char 1).view lxr.index n = ('<' :: d :: rest).take n :=
      fun n => hview n
    simp only [hpeek2, hview2]
    by_cases h1 : d = '='
    · subst h1
      refine ⟨⟨['<', '='], .TOKEN_COMP_LTE⟩, by simp, ⟨rest, rfl⟩, ?_, ?_⟩
      · simp
      · simp [Lexer.set_current, Lexer.advance_char, Token.init]
    · by_cases h2 : d = '<'
      · subst h2
        cases rest with
        | nil =>
          refine ⟨⟨['<', '<'], .TOKEN_BITWISE_LSHIFT⟩, by simp, ⟨[], rfl⟩, ?_, ?_⟩
          · simp
          · simp [NUL, Lexer.set_current, Lexer.advance_char, Token.init]
        | cons e rest =>
          by_cases h3 : e = '='
          · subst h3
            refine ⟨⟨['<', '<', '='], .TOKEN_BITWISE_LSHIFTEQ⟩, by simp, ⟨rest, rfl⟩, ?_, ?_⟩
            · simp
            · simp [Lexer.set_current, Lexer.advance_char, Token.init]
          · refine ⟨⟨['<', '<'], .TOKEN_BITWISE_LSHIFT⟩, by simp, ⟨e :: rest, rfl⟩, ?_, ?_⟩
            · simp [h3]
            · simp [h3, Lexer.set_current, Lexer.advance_char, Token.init]
      · refine ⟨⟨['<'], .TOKEN_COMP_LT⟩, by simp, ⟨d :: rest, rfl⟩, ?_, ?_⟩
        · simp [h1, h2]
        · simp [h1, h2, Lexer.set_current, Lexer.advance_char, Token.init]

/-- Maximal munch for the handler of `>`. -/
theorem lexer_token_greaterthan_munch :
    spec_maximal_munch '>' spec_family_greaterthan lexer_token_greaterthan := by
  unfold spec_family_greaterthan
  intro lxr rest hd
  have hlt := Lexer.drop_cons_lt hd
  have hpeek := Lexer.peek_char_of_drop hd
  have hview := Lexer.view_of_drop hd
  unfold lexer_token_greaterthan
  simp only [hlt, if_false, hpeek, hview]
  cases rest with
  | nil =>
    refine ⟨⟨['>'], .TOKEN_COMP_GT⟩, by simp, ⟨[], rfl⟩, ?_, ?_⟩
    · simp
    · simp [NUL, Lexer.set_current, Lexer.advance_char, Token.init]
  | cons d rest =>
    have hpeek2 := Lexer.peek_char_of_drop (Lexer.drop_advance hd)
    have hview2 : ∀ n, (lxr.advance_char 1).view lxr.index n = ('>' :: d :: rest).take n :=
      fun n => hview n
    simp only [hpeek2, hview2]
    by_cases h1 : d = '='
    · subst h1
      refine ⟨⟨['>', '='], .TOKEN_COMP_GTE⟩, by simp, ⟨rest, rfl⟩, ?_, ?_⟩
      · simp
      · simp [Lexer.set_current, Lexer.advance_char, Token.init]
    · by_cases h2 : d = '>'
      · subst h2
        cases rest with
        | nil =>
          refine ⟨⟨['>', '>'], .TOKEN_BITWISE_RSHIFT⟩, by simp, ⟨[], rfl⟩, ?_, ?_⟩
          · simp
          · simp [NUL, Lexer.set_current, Lexer.advance_char, Token.init]
        | cons e rest =>
          by_cases h3 : e = '='
          · subst h3
            refine ⟨⟨['>', '>', '='], .TOKEN_BITWISE_RSHIFTEQ⟩, by simp, ⟨rest, rfl⟩, ?_, ?_⟩
            · simp
            · simp [Lexer.set_current, Lexer.advance_char, Token.init]
          · refine ⟨⟨['>', '>'], .TOKEN_BITWISE_RSHIFT⟩, by simp, ⟨e :: rest, rfl⟩, ?_, ?_⟩
            · simp [h3]
            · simp [h3, Lexer.set_current, Lexer.advance_char, Token.init]
      · refine ⟨⟨['>'], .TOKEN_COMP_GT⟩, by simp, ⟨d :: rest, rfl⟩, ?_, ?_⟩
        · simp [h1, h2]
        · simp [h1, h2, Lexer.set_current, Lexer.advance_char, Token.init]

/-- Maximal munch for the handler of `&`. -/
theorem lexer_token_ampersand_munch :
    spec_maximal_munch '&' spec_family_ampersand lexer_token_ampersand := by
  unfold spec_family_ampersand
  intro lxr rest hd
  have hlt := Lexer.drop_cons_lt hd
  have hpeek := Lexer.peek_char_of_drop hd
  have hview := Lexer.view_of_drop hd
  unfold lexer_token_ampersand
  simp only [hlt, if_false, hpeek, hview]
  cases rest with
  | nil =>
    refine ⟨⟨['&'], .TOKEN_BITWISE_AND⟩, by simp, ⟨[], rfl⟩, ?_, ?_⟩
    · simp
    · simp [NUL, Lexer.set_current, Lexer.advance_char, Token.init]
  | cons d rest =>
    by_cases h1 : d = '&'
    · subst h1
      refine ⟨⟨['&', '&'], .TOKEN_CONDITIONAL_AND⟩, by simp, ⟨rest, rfl⟩, ?_, ?_⟩
      · simp
      · simp [Lexer.set_current, Lexer.advance_char, Token.init]
    · by_cases h2 : d = '='
      · subst h2
        refine ⟨⟨['&', '='], .TOKEN_BITWISE_ANDEQ⟩, by simp, ⟨rest, rfl⟩, ?_, ?_⟩
        · simp
        · simp [Lexer.set_current, Lexer.advance_char, Token.init]
      · refine ⟨⟨['&'], .TOKEN_BITWISE_AND⟩, by simp, ⟨d :: rest, rfl⟩, ?_, ?_⟩
        · simp [h1, h2]
        · simp [h1, h2, Lexer.set_current, Lexer.advance_char, Token.init]

/-- Maximal munch for the handler of `|`. -/
theorem lexer_token_verticalline_munch :
    spec_maximal_munch '|' spec_family_verticalline lexer_token_verticalline := by
  unfold spec_family_verticalline
  intro lxr rest hd
  have hlt := Lexer.drop_cons_lt hd
  have hpeek := Lexer.peek_char_of_drop hd
  have hview := Lexer.view_of_drop hd
  unfold lexer_token_verticalline
  simp only [hlt, if_false, hpeek, hview]
  cases rest with
  | nil =>
    refine ⟨⟨['|'], .TOKEN_BITWISE_OR⟩, by simp, ⟨[], rfl⟩, ?_, ?_⟩
    · simp
    · simp [NUL, Lexer.set_current, Lexer.advance_char, Token.init]
  | cons d rest =>
    by_cases h1 : d = '|'
    · subst h1
      refine ⟨⟨['|', '|'], .TOKEN_CONDITIONAL_OR⟩, by simp, ⟨rest, rfl⟩, ?_, ?_⟩
      · simp
      · simp [Lexer.set_current, Lexer.advance_char, Token.init]
    · by_cases h2 : d = '='
      · subst h2
        refine ⟨⟨['|', '='], .TOKEN_BITWISE_OREQ⟩, by simp, ⟨rest, rfl⟩, ?_, ?_⟩
        · simp
        · simp [Lexer.set_current, Lexer.advance_char, Token.init]
      · refine ⟨⟨['|'], .TOKEN_BITWISE_OR⟩, by simp, ⟨d :: rest, rfl⟩, ?_, ?_⟩
        · simp [h1, h2]
        · simp [h1, h2, Lexer.set_current, Lexer.advance_char, Token.init]

/-- Maximal munch for the handler of `!`. -/
theorem lexer_token_exclamation_munch :
    spec_maximal_munch '!' spec_family_exclamation lexer_token_exclamation := by
  unfold spec_family_exclamation
  intro lxr rest hd
  have hlt := Lexer.drop_cons_lt hd
  have hpeek := Lexer.peek_char_of_drop hd
  have hview := Lexer.view_of_drop hd
  unfold lexer_token_exclamation
  simp only [hlt, if_false, hpeek, hview]
  cases rest with
  | nil =>
    refine ⟨⟨['!'], .TOKEN_CONDITIONAL_NOT⟩, by simp, ⟨[], rfl⟩, ?_, ?_⟩
    · simp
    · simp [NUL, Lexer.set_current, Lexer.advance_char, Token.init]
  | cons d rest =>
    by_cases h1 : d = '='
    · subst h1
      refine ⟨⟨['!', '='], .TOKEN_COMP_NOT_EQUALS⟩, by simp, ⟨rest, rfl⟩, ?_, ?_⟩
      · simp
      · simp [Lexer.set_current, Lexer.advance_char, Token.init]
    · refine ⟨⟨['!'], .TOKEN_CONDITIONAL_NOT⟩, by simp, ⟨d :: rest, rfl⟩, ?_, ?_⟩
      · simp [h1]
      · simp [h1, Lexer.set_current, Lexer.advance_char, Token.init]

/-- Maximal munch for the handler of `^`. -/
theorem lexer_token_uparrow_munch :
    spec_maximal_munch '^' spec_family_uparrow lexer_token_uparrow := by
  unfold spec_family_uparrow
  intro lxr rest hd
  have hlt := Lexer.drop_cons_lt hd
  have hpeek := Lexer.peek_char_of_drop hd
  have hview := Lexer.view_of_drop hd
  unfold lexer_token_uparrow
  simp only [hlt, if_false, hpeek, hview]
  cases rest with
  | nil =>
    refine ⟨⟨['^'], .TOKEN_BITWISE_XOR_OR_PTR⟩, by simp, ⟨[], rfl⟩, ?_, ?_⟩
    · simp
    · simp [NUL, Lexer.set_current, Lexer.advance_char, Token.init]
  | cons d rest =>
    by_cases h1 : d = '='
    · subst h1
      refine ⟨⟨['^', '='], .TOKEN_BITWISE_XOREQ⟩, by simp, ⟨rest, rfl⟩, ?_, ?_⟩
      · simp
      · simp [Lexer.set_current, Lexer.advance_char, Token.init]
    · refine ⟨⟨['^'], .TOKEN_BITWISE_XOR_OR_PTR⟩, by simp, ⟨d :: rest, rfl⟩, ?_, ?_⟩
      · simp [h1]
      · simp [h1, Lexer.set_current, Lexer.advance_char, Token.init]

/-- Maximal munch for the handler of `:`. -/
theorem lexer_token_colon_munch :
    spec_maximal_munch ':' spec_family_colon lexer_token_colon := by
  unfold spec_family_colon
  intro lxr rest hd
  have hlt := Lexer.drop_cons_lt hd
  have hpeek := Lexer.peek_char_of_drop hd
  have hview := Lexer.view_of_drop hd
  unfold lexer_token_colon
  simp only [hlt, if_false, hpeek, hview]
  cases rest with
  | nil =>
    refine ⟨⟨[':'], .TOKEN_TYPE_ASSIGNMENT⟩, by simp, ⟨[], rfl⟩, ?_, ?_⟩
    · simp
    · simp [NUL, Lexer.set_current, Lexer.advance_char, Token.init]
  | cons d rest =>
    by_cases h1 : d = ':'
    · subst h1
      refine ⟨⟨[':', ':'], .TOKEN_CONST_TYPE_ASSIGNMENT⟩, by simp, ⟨rest, rfl⟩, ?_, ?_⟩
      · simp
      · simp [Lexer.set_current, Lexer.advance_char, Token.init]
    · refine ⟨⟨[':'], .TOKEN_TYPE_ASSIGNMENT⟩, by simp, ⟨d :: rest, rfl⟩, ?_, ?_⟩
      · simp [h1]
      · simp [h1, Lexer.set_current, Lexer.advance_char, Token.init]

/-- C16. Maximal munch: for each leading character among `- + * % = < > & | ! ^ :` and
every buffer with the cursor on that character, the handler of the character emits the
longest operator of its family that starts the remaining input, with exactly the bytes of
that operator as lexeme and the cursor as position, and advances the cursor by exactly the
length of the lexeme, leaving the buffer and the line counter as they were. -/
theorem lexer_operator_maximal_munch :
    ∀ e ∈ spec_operator_families, spec_maximal_munch e.1 e.2.1 e.2.2 := by
  unfold spec_operator_families
  simp only [List.forall_mem_cons, List.not_mem_nil, false_implies, implies_true, and_true]
  exact ⟨lexer_token_hyphen_munch, lexer_token_plus_munch, lexer_token_asterisk_munch,
    lexer_token_percent_munch, lexer_token_equals_munch, lexer_token_lessthan_munch,
    lexer_token_greaterthan_munch, lexer_token_ampersand_munch, lexer_token_verticalline_munch,
    lexer_token_exclamation_munch, lexer_token_uparrow_munch, lexer_token_colon_munch⟩

/-- C16 (witness): the handler of `<` on `<<=1`, the cursor on the first byte. -/
theorem lexer_operator_maximal_munch_witness :
    ∃ op ∈ spec_family_lessthan,
      (∃ tail, '<' :: ['<', '=', '1'] = op.bytes ++ tail) ∧
      (∀ op' ∈ spec_family_lessthan,
        (∃ tail, '<' :: ['<', '=', '1'] = op'.bytes ++ tail) →
          op'.bytes.length ≤ op.bytes.length) ∧
      (lexer_token_lessthan (lexer_at ['<', '<', '=', '1'] 0)).current_.type = op.type ∧
      (lexer_token_lessthan (lexer_at ['<', '<', '=', '1'] 0)).current_.value = op.bytes ∧
      (lexer_token_lessthan (lexer_at ['<', '<', '=', '1'] 0)).current_.src_pos
        = (lexer_at ['<', '<', '=', '1'] 0).index ∧
      (lexer_token_lessthan (lexer_at ['<', '<', '=', '1'] 0)).index
        = (lexer_at ['<', '<', '=', '1'] 0).index + op.bytes.length ∧
      (lexer_token_lessthan (lexer_at ['<', '<', '=', '1'] 0)).src_
        = (lexer_at ['<', '<', '=', '1'] 0).src_ ∧
      (lexer_token_lessthan (lexer_at ['<', '<', '=', '1'] 0)).curr_line
        = (lexer_at ['<', '<', '=', '1'] 0).curr_line :=
  lexer_operator_maximal_munch
    ('<', spec_family_lessthan, lexer_token_lessthan)
    (by simp [spec_operator_families]) (lexer_at ['<', '<', '=', '1'] 0) ['<', '=', '1'] rfl

/-! ## Comments (`lexer_token_fwdslash`) and the line counter -/

/-- The byte under the cursor, from the bytes left. -/
theorem Lexer.current_char_eq (lxr : Lexer) :
    lxr.current_char = (lxr.src_.drop lxr.index).headD NUL := by
  unfold Lexer.current_char
  rw [List.getD_eq_getElem?_getD, ← List.head?_drop]
  cases (lxr.src_.drop lxr.index) <;> rfl

/-- The byte after the cursor, from the bytes left. -/
theorem Lexer.peek_char_eq (lxr : Lexer) :
    lxr.peek_char = (lxr.src_.drop lxr.index).tail.headD NUL := by
  unfold Lexer.peek_char
  rw [List.getD_eq_getElem?_getD, ← List.head?_drop, List.tail_drop]
  cases (lxr.src_.drop (lxr.index + 1)) <;> rfl

/-- On a counter of 32 bits, `k` calls of `advance_line` add `k` modulo `2 ^ 32`. -/
theorem advance_lines_eq (k : Nat) : ∀ (line : Nat), line < 2 ^ 32 →
    advance_lines k line = (line + k) % 2 ^ 32 := by
  induction k with
  | zero =>
    intro line h
    rw [advance_lines, Nat.add_zero, Nat.mod_eq_of_lt h]
  | succ k ih =>
    intro line h
    rw [advance_lines, ih _ (Nat.mod_lt _ (by norm_num))]
    omega

/-- The loop of a block comment moves the cursor by `block_comment_scan` bytes and calls
`advance_line` once for each newline among them. -/
theorem lexer_token_fwdslash_block_eq :
    ∀ (fuel : Nat) (lxr : Lexer), (lxr.src_.drop lxr.index).length < fuel →
      lexer_token_fwdslash_block fuel lxr =
        { lxr with
          index := lxr.index + block_comment_scan (lxr.src_.drop lxr.index)
          curr_line := advance_lines
            (((lxr.src_.drop lxr.index).take
              (block_comment_scan (lxr.src_.drop lxr.index))).count NEWLINE) lxr.curr_line } := by
  intro fuel
  induction fuel with
  | zero => intro lxr h; omega
  | succ fuel ih =>
    intro lxr hfuel
    have hcur := lxr.current_char_eq
    have hpeek := lxr.peek_char_eq
    unfold lexer_token_fwdslash_block
    cases hl : lxr.src_.drop lxr.index with
    | nil =>
      rw [hl] at hcur
      simp only [List.headD_nil] at hcur
      simp [hcur, block_comment_scan, advance_lines]
    | cons c rest =>
      rw [hl] at hcur hpeek hfuel
      simp only [List.headD_cons, List.tail_cons] at hcur hpeek
      have hdrop : (lxr.advance_char 1).src_.drop (lxr.advance_char 1).index = rest :=
        Lexer.drop_advance hl
      by_cases h0 : c = NUL
      · simp [hcur, h0, block_comment_scan, advance_lines]
      · by_cases h1 : c = '*' ∧ rest.headD NUL = '/'
        · have hc : c = '*' := h1.1
          subst hc
          have hn : ('*' : Char) ≠ NEWLINE := by decide
          cases rest with
          | nil => simp [NUL] at h1
          | cons d rest2 =>
            have hd : d = '/' := by simpa using h1.2
            subst hd
            have hn2 : ('/' : Char) ≠ NEWLINE := by decide
            simp [hcur, hpeek, h0, block_comment_scan, Lexer.advance_char,
              List.count_cons, hn, hn2, advance_lines]
        · simp only [hcur, hpeek, h0, h1, if_false]
          by_cases hn : c = NEWLINE
          · subst hn
            have hdrop2 : (lxr.advance_line.advance_char 1).src_.drop
                (lxr.advance_line.advance_char 1).index = rest := hdrop
            have hf : ((lxr.advance_line.advance_char 1).src_.drop
                (lxr.advance_line.advance_char 1).index).length < fuel := by
              rw [hdrop2]; simp at hfuel; omega
            rw [if_pos rfl, ih _ hf, hdrop2]
            simp only [block_comment_scan, h0, h1, if_false]
            have e1 : 1 + block_comment_scan rest = block_comment_scan rest + 1 := by omega
            simp only [e1, List.take_succ_cons, List.count_cons_self, advance_lines]
            simp only [Lexer.advance_char, Lexer.advance_line]
            congr 1
            omega
          · have hf : ((lxr.advance_char 1).src_.drop (lxr.advance_char 1).index).length
                < fuel := by
              rw [hdrop]; simp at hfuel; omega
            rw [if_neg hn, ih _ hf, hdrop]
            simp only [block_comment_scan, h0, h1, if_false]
            have e1 : 1 + block_comment_scan rest = block_comment_scan rest + 1 := by omega
            simp only [e1, List.take_succ_cons, List.count_cons_of_ne (Ne.symm hn)]
            simp only [Lexer.advance_char]
            congr 1
            omega

/-- In a buffer without NUL the byte under the cursor is NUL exactly at the end. -/
theorem Lexer.current_char_nul_iff (lxr : Lexer) (h : ∀ c ∈ lxr.src_, c ≠ NUL) :
    lxr.current_char = NUL ↔ lxr.src_.length ≤ lxr.index := by
  rw [lxr.current_char_eq]
  constructor
  · intro hc
    by_contra hlt
    have hlt' : lxr.index < lxr.src_.length := by omega
    have hne : lxr.src_.drop lxr.index ≠ [] := by
      intro he
      have := congrArg List.length he
      simp at this
      omega
    obtain ⟨c, rest, hcr⟩ := List.exists_cons_of_ne_nil hne
    rw [hcr] at hc
    simp only [List.headD_cons] at hc
    have hmem : c ∈ lxr.src_ := List.mem_of_mem_drop (by rw [hcr]; exact List.mem_cons_self _ _)
    exact h c hmem hc
  · intro hle
    rw [List.drop_eq_nil_of_le hle]
    rfl

/-- Without NUL, the loop of a block comment passes the first `*/` and stops after it, or
passes all the bytes when there is no `*/`. -/
theorem block_comment_scan_of_close (l : List Char) (h : ∀ c ∈ l, c ≠ NUL) :
    block_comment_scan l =
      match spec_first_close l with
      | some k => k + 2
      | none => l.length := by
  induction l with
  | nil => rfl
  | cons c rest ih =>
    have hc : c ≠ NUL := h c (List.mem_cons_self _ _)
    have ih' := ih (fun x hx => h x (List.mem_cons_of_mem _ hx))
    have hiff : rest.headD NUL = '/' ↔ rest.head? = some '/' := by
      cases rest with
      | nil => simp [NUL]
      | cons d r => simp
    unfold block_comment_scan spec_first_close
    by_cases h1 : c = '*' ∧ rest.head? = some '/'
    · have h1' : c = '*' ∧ rest.headD NUL = '/' := ⟨h1.1, hiff.mpr h1.2⟩
      have hs : ('*' : Char) ≠ NUL := by decide
      simp [h1, h1', hs]
    · have h1' : ¬ (c = '*' ∧ rest.headD NUL = '/') := fun hh => h1 ⟨hh.1, hiff.mp hh.2⟩
      simp only [hc, h1, h1', if_false]
      rw [ih']
      cases spec_first_close rest with
      | none => simp only [Option.map_none', List.length_cons]; ring
      | some k => simp only [Option.map_some']; ring
/-- The loop of a block comment stays inside the buffer. -/
theorem block_comment_scan_le (l : List Char) : block_comment_scan l ≤ l.length := by
  induction l with
  | nil => simp [block_comment_scan]
  | cons c rest ih =>
    unfold block_comment_scan
    split_ifs with h0 h1
    · simp
    · cases rest with
      | nil => simp [NUL] at h1
      | cons d r => simp
    · simp only [List.length_cons]; omega

/-- The loop of a line comment moves the cursor by `line_comment_scan` bytes. -/
theorem lexer_token_fwdslash_line_eq :
    ∀ (fuel : Nat) (lxr : Lexer), (lxr.src_.drop lxr.index).length < fuel →
      lexer_token_fwdslash_line fuel lxr =
        { lxr with index := lxr.index + line_comment_scan (lxr.src_.drop lxr.index) } := by
  intro fuel
  induction fuel with
  | zero => intro lxr h; omega
  | succ fuel ih =>
    intro lxr hfuel
    have hcur := lxr.current_char_eq
    unfold lexer_token_fwdslash_line
    cases hl : lxr.src_.drop lxr.index with
    | nil =>
      rw [hl] at hcur
      simp only [List.headD_nil] at hcur
      simp [hcur, line_comment_scan]
    | cons c rest =>
      rw [hl] at hcur hfuel
      simp only [List.headD_cons] at hcur
      have hdrop : (lxr.advance_char 1).src_.drop (lxr.advance_char 1).index = rest :=
        Lexer.drop_advance hl
      by_cases h0 : c ≠ NUL ∧ c ≠ NEWLINE
      · have hf : ((lxr.advance_char 1).src_.drop (lxr.advance_char 1).index).length
            < fuel := by
          rw [hdrop]; simp at hfuel; omega
        rw [hcur, if_pos h0, ih _ hf, hdrop]
        simp only [line_comment_scan, Lexer.advance_char]
        rw [if_pos h0]
        congr 1
        ring
      · rw [hcur, if_neg h0]
        simp [line_comment_scan, h0]

/-- Without NUL, the loop of a line comment passes the bytes before the first newline. -/
theorem line_comment_scan_split (l : List Char) (h : ∀ c ∈ l, c ≠ NUL) :
    ∃ pre post, l = pre ++ post ∧ NEWLINE ∉ pre ∧ (post = [] ∨ ∃ t, post = NEWLINE :: t) ∧
      line_comment_scan l = pre.length := by
  induction l with
  | nil => exact ⟨[], [], rfl, by simp, Or.inl rfl, rfl⟩
  | cons c rest ih =>
    have hc : c ≠ NUL := h c (List.mem_cons_self _ _)
    obtain ⟨pre, post, hl, hpre, hpost, hlen⟩ := ih (fun x hx => h x (List.mem_cons_of_mem _ hx))
    by_cases hn : c = NEWLINE
    · subst hn
      exact ⟨[], NEWLINE :: rest, rfl, by simp, Or.inr ⟨rest, rfl⟩, by simp [line_comment_scan]⟩
    · refine ⟨c :: pre, post, by simp [hl], ?_, hpost, ?_⟩
      · simp [hpre, Ne.symm hn]
      · simp only [line_comment_scan, hc, hn, ne_eq, not_false_eq_true, and_self, if_true,
          hlen, List.length_cons]
        ring

/-- The handler of `/` on a block comment: the state after the loop, then the end-of-file
token when the byte under the cursor is NUL and no token otherwise. -/
theorem lexer_token_fwdslash_block_comment (lxr : Lexer) (rest : List Char)
    (hd : lxr.src_.drop lxr.index = '/' :: '*' :: rest) :
    lexer_token_fwdslash lxr =
      if (lexer_token_fwdslash_block (lxr.src_.length + 1) lxr).current_char = NUL then
        (lexer_token_fwdslash_block (lxr.src_.length + 1) lxr).set_current
          (lexer_token_fwdslash_block (lxr.src_.length + 1) lxr).end_of_file
      else (lexer_token_fwdslash_block (lxr.src_.length + 1) lxr).set_none := by
  have hlt := Lexer.drop_cons_lt hd
  have hpeek := Lexer.peek_char_of_drop hd
  unfold lexer_token_fwdslash
  simp only [hlt, if_false, hpeek, List.headD_cons]
  have h1 : ¬ ('*' : Char) = '/' := by decide
  simp only [h1, if_false, if_true]

/-- The state after the loop of a block comment that starts at the cursor. -/
theorem lexer_token_fwdslash_block_opener (lxr : Lexer) (rest : List Char)
    (hd : lxr.src_.drop lxr.index = '/' :: '*' :: rest) :
    lexer_token_fwdslash_block (lxr.src_.length + 1) lxr =
      { lxr with
        index := lxr.index + (1 + block_comment_scan ('*' :: rest))
        curr_line := advance_lines
          ((('*' :: rest).take (block_comment_scan ('*' :: rest))).count NEWLINE)
          lxr.curr_line } := by
  have hf : (lxr.src_.drop lxr.index).length < lxr.src_.length + 1 := by
    simp only [List.length_drop]; omega
  rw [lexer_token_fwdslash_block_eq _ lxr hf, hd]
  have h0 : ¬ ('/' : Char) = NUL := by decide
  have h1 : ¬ ('/' : Char) = '*' := by decide
  have h2 : ¬ (NEWLINE : Char) = '/' := by decide
  have e1 : block_comment_scan ('/' :: '*' :: rest) = block_comment_scan ('*' :: rest) + 1 := by
    conv_lhs => unfold block_comment_scan
    simp only [h0, h1, false_and, if_false]
    ring
  rw [e1, List.take_succ_cons, List.count_cons_of_ne h2]
  congr 1
  ring
/-- The token a handler sets after a scan does not touch the buffer, the cursor or the line
counter. -/
theorem Lexer.scan_result (c : Prop) [Decidable c] (lxr : Lexer) (t : Token) :
    (if c then lxr.set_current t else lxr.set_none).src_ = lxr.src_ ∧
    (if c then lxr.set_current t else lxr.set_none).index = lxr.index ∧
    (if c then lxr.set_current t else lxr.set_none).curr_line = lxr.curr_line := by
  split_ifs <;> exact ⟨rfl, rfl, rfl⟩

/-- C19. The scan of a block comment counts newlines exactly: for every buffer with the
cursor on `/*` (and a line counter of 32 bits), `lexer_token_fwdslash` leaves the buffer as
it is, moves the cursor forward inside the buffer, and increases the line counter, modulo
`2 ^ 32`, by precisely the number of newline bytes among the bytes it passed; so, short of
an overflow, the line counter after a comment that spans `k` newlines is `k` greater than
at the start of the comment. -/
theorem lexer_token_fwdslash_counts_newlines (lxr : Lexer) (rest : List Char)
    (hd : lxr.src_.drop lxr.index = '/' :: '*' :: rest) (hline : lxr.curr_line < 2 ^ 32) :
    (lexer_token_fwdslash lxr).src_ = lxr.src_ ∧
    lxr.index ≤ (lexer_token_fwdslash lxr).index ∧
    (lexer_token_fwdslash lxr).index ≤ lxr.src_.length ∧
    (lexer_token_fwdslash lxr).curr_line =
      (lxr.curr_line + ((lxr.src_.drop lxr.index).take
          ((lexer_token_fwdslash lxr).index - lxr.index)).count NEWLINE) % 2 ^ 32 ∧
    (lxr.curr_line + ((lxr.src_.drop lxr.index).take
          ((lexer_token_fwdslash lxr).index - lxr.index)).count NEWLINE < 2 ^ 32 →
      (lexer_token_fwdslash lxr).curr_line =
        lxr.curr_line + ((lxr.src_.drop lxr.index).take
          ((lexer_token_fwdslash lxr).index - lxr.index)).count NEWLINE) := by
  have hf : (lxr.src_.drop lxr.index).length < lxr.src_.length + 1 := by
    simp only [List.length_drop]; omega
  have hscan := block_comment_scan_le (lxr.src_.drop lxr.index)
  have hlen : (lxr.src_.drop lxr.index).length = lxr.src_.length - lxr.index :=
    List.length_drop _ _
  have hlt := Lexer.drop_cons_lt hd
  rw [lexer_token_fwdslash_block_comment lxr rest hd]
  obtain ⟨h1, h2, h3⟩ := Lexer.scan_result
    ((lexer_token_fwdslash_block (lxr.src_.length + 1) lxr).current_char = NUL)
    (lexer_token_fwdslash_block (lxr.src_.length + 1) lxr)
    (lexer_token_fwdslash_block (lxr.src_.length + 1) lxr).end_of_file
  rw [h1, h2, h3, lexer_token_fwdslash_block_eq _ lxr hf]
  simp only [Nat.add_sub_cancel_left]
  rw [advance_lines_eq _ _ hline]
  refine ⟨trivial, by omega, by omega, rfl, ?_⟩
  intro h
  exact Nat.mod_eq_of_lt h

/-- C19 (witness): a comment over three lines, entered on line 1: the cursor is left after
the closer and the line counter is 3. -/
theorem lexer_token_fwdslash_counts_newlines_witness :
    (lexer_token_fwdslash (lexer_at buf_comment_lines 0)).index = 9 ∧
    (lexer_token_fwdslash (lexer_at buf_comment_lines 0)).curr_line = 3 ∧
    (lexer_token_fwdslash (lexer_at buf_comment_lines 0)).curr_line =
      ((lexer_at buf_comment_lines 0).curr_line +
        (((lexer_at buf_comment_lines 0).src_.drop (lexer_at buf_comment_lines 0).index).take
          ((lexer_token_fwdslash (lexer_at buf_comment_lines 0)).index -
            (lexer_at buf_comment_lines 0).index)).count NEWLINE) % 2 ^ 32 :=
  ⟨rfl, rfl, (lexer_token_fwdslash_counts_newlines (lexer_at buf_comment_lines 0)
    [' ', 'a', NEWLINE, 'b', NEWLINE, '*', '/', ' ', 'y'] rfl (by decide)).2.2.2.1⟩

/-- C17 (counterexample): on `/* x */`, where the closer ends the buffer, the handler
leaves the cursor after the closer but sets the end-of-file token, not the type none.  And
on `/*/ x */`, where the first `*/` after the opener is at the offset 4 after it, the
handler takes the `*` of the opener for the start of the closer and leaves the cursor at the
offset 3, not at the offset 8 past that `*/`. -/
theorem lexer_token_fwdslash_closer_at_end_counterexample :
    (∀ c ∈ buf_comment_at_end, c ≠ NUL)
    ∧ (lexer_at buf_comment_at_end 0).src_.drop (lexer_at buf_comment_at_end 0).index
        = '/' :: '*' :: [' ', 'x', ' ', '*', '/']
    ∧ spec_first_close [' ', 'x', ' ', '*', '/'] = some 3
    ∧ (lexer_token_fwdslash (lexer_at buf_comment_at_end 0)).index = 7
    ∧ (lexer_token_fwdslash (lexer_at buf_comment_at_end 0)).current_
        = (lexer_at buf_comment_at_end 0).end_of_file
    ∧ (lexer_token_fwdslash (lexer_at buf_comment_at_end 0)).current_.type ≠ .TOKEN_NONE
    ∧ (∀ c ∈ buf_opener_slash_closed, c ≠ NUL)
    ∧ (lexer_at buf_opener_slash_closed 0).src_.drop (lexer_at buf_opener_slash_closed 0).index
        = '/' :: '*' :: ['/', ' ', 'x', ' ', '*', '/']
    ∧ spec_first_close ['/', ' ', 'x', ' ', '*', '/'] = some 4
    ∧ (lexer_token_fwdslash (lexer_at buf_opener_slash_closed 0)).index = 3
    ∧ (lexer_token_fwdslash (lexer_at buf_opener_slash_closed 0)).index ≠ 2 + 4 + 2 := by
  refine ⟨by decide, rfl, rfl, rfl, rfl, by decide, by decide, rfl, rfl, rfl, by decide⟩

/-- The cursor after a block comment, in a buffer without NUL whose third byte after the
cursor is not `/`. -/
theorem lexer_token_fwdslash_block_index (lxr : Lexer) (rest : List Char)
    (hnul : ∀ c ∈ lxr.src_, c ≠ NUL)
    (hd : lxr.src_.drop lxr.index = '/' :: '*' :: rest) (h3 : rest.head? ≠ some '/') :
    (lexer_token_fwdslash_block (lxr.src_.length + 1) lxr).src_ = lxr.src_ ∧
    (lexer_token_fwdslash_block (lxr.src_.length + 1) lxr).current_ = lxr.current_ ∧
    (lexer_token_fwdslash_block (lxr.src_.length + 1) lxr).index =
      match spec_first_close rest with
      | some k => lxr.index + 2 + k + 2
      | none => lxr.src_.length := by
  rw [lexer_token_fwdslash_block_opener lxr rest hd]
  refine ⟨rfl, rfl, ?_⟩
  have hrest : ∀ c ∈ rest, c ≠ NUL := by
    intro c hc
    apply hnul c
    apply List.mem_of_mem_drop (n := lxr.index)
    rw [hd]
    exact List.mem_cons_of_mem _ (List.mem_cons_of_mem _ hc)
  have hlen : lxr.src_.length = lxr.index + (2 + rest.length) := by
    have h1 := List.length_drop lxr.index lxr.src_
    rw [hd] at h1
    simp only [List.length_cons] at h1
    omega
  have h0 : ¬ ('*' : Char) = NUL := by decide
  have h1 : ¬ (('*' : Char) = '*' ∧ rest.headD NUL = '/') := by
    rintro ⟨_, h⟩
    cases rest with
    | nil => simp [NUL] at h
    | cons d r => simp at h h3; exact h3 h
  have e1 : block_comment_scan ('*' :: rest) = 1 + block_comment_scan rest := by
    conv_lhs => unfold block_comment_scan
    rw [if_neg h0, if_neg h1]
  simp only [e1, block_comment_scan_of_close rest hrest]
  cases spec_first_close rest with
  | none => simp only []; rw [hlen]; ring
  | some k => simp only []; ring

/-- C17 (amended): a block comment whose third byte is not `/` is consumed up to the first
`*/` after the opener.  For every buffer without NUL with the cursor on `/*`, not followed
directly by `/`: if a `*/` occurs after the two-byte opener, the first at the offset `k`
after it, then `lexer_token_fwdslash` leaves the cursor just past that `*/`, inside the
buffer; when bytes remain after the closer it produces no token (only the type of the
current token becomes none), and when the closer ends the buffer it sets the end-of-file
token. -/
theorem lexer_token_fwdslash_block_comment_closed (lxr : Lexer) (rest : List Char) (k : Nat)
    (hnul : ∀ c ∈ lxr.src_, c ≠ NUL)
    (hd : lxr.src_.drop lxr.index = '/' :: '*' :: rest) (h3 : rest.head? ≠ some '/')
    (hk : spec_first_close rest = some k) :
    (lexer_token_fwdslash lxr).src_ = lxr.src_ ∧
    (lexer_token_fwdslash lxr).index = lxr.index + 2 + k + 2 ∧
    (lexer_token_fwdslash lxr).index ≤ lxr.src_.length ∧
    ((lexer_token_fwdslash lxr).index < lxr.src_.length →
      (lexer_token_fwdslash lxr).current_ = { lxr.current_ with type := .TOKEN_NONE }) ∧
    ((lexer_token_fwdslash lxr).index = lxr.src_.length →
      (lexer_token_fwdslash lxr).current_ = lxr.end_of_file) := by
  obtain ⟨hs, hc, hi⟩ := lexer_token_fwdslash_block_index lxr rest hnul hd h3
  rw [hk] at hi
  simp only [] at hi
  have hnul' : ∀ c ∈ (lexer_token_fwdslash_block (lxr.src_.length + 1) lxr).src_, c ≠ NUL := by
    rw [hs]; exact hnul
  have hiff := Lexer.current_char_nul_iff _ hnul'
  rw [hs, hi] at hiff
  have hle : lxr.index + 2 + k + 2 ≤ lxr.src_.length := by
    have h1 := block_comment_scan_le (lxr.src_.drop lxr.index)
    have h2 := List.length_drop lxr.index lxr.src_
    have h4 := lexer_token_fwdslash_block_eq (lxr.src_.length + 1) lxr
      (by simp only [List.length_drop]; omega)
    have h5 : lxr.index + 2 + k + 2
        = lxr.index + block_comment_scan (lxr.src_.drop lxr.index) := by
      rw [← hi, h4]
    have hlt := Lexer.drop_cons_lt hd
    clear hiff
    omega
  rw [lexer_token_fwdslash_block_comment lxr rest hd]
  by_cases hend : lxr.src_.length ≤ lxr.index + 2 + k + 2
  · rw [if_pos (hiff.mpr hend)]
    refine ⟨hs, hi, hi.trans_le hle, ?_, ?_⟩
    · intro h
      have h' : lxr.index + 2 + k + 2 < lxr.src_.length := by rw [← hi]; exact h
      clear hiff
      omega
    · intro _
      show (lexer_token_fwdslash_block (lxr.src_.length + 1) lxr).end_of_file = lxr.end_of_file
      unfold Lexer.end_of_file
      rw [hs]
  · rw [if_neg (fun h => hend (hiff.mp h))]
    refine ⟨hs, hi, hi.trans_le hle, ?_, ?_⟩
    · intro _
      show ({ (lexer_token_fwdslash_block (lxr.src_.length + 1) lxr).current_ with
        type := .TOKEN_NONE } : Token) = _
      rw [hc]
    · intro h
      have h' : lxr.index + 2 + k + 2 = lxr.src_.length := by rw [← hi]; exact h
      clear hiff
      omega

/-- C17 (witness): `/* x */ y`: the cursor is left on the byte after the closer and no token
is produced. -/
theorem lexer_token_fwdslash_block_comment_closed_witness :
    (lexer_token_fwdslash (lexer_at buf_comment_then_y 0)).index = 7 ∧
    (lexer_token_fwdslash (lexer_at buf_comment_then_y 0)).current_.type = .TOKEN_NONE ∧
    (lexer_token_fwdslash (lexer_at buf_comment_then_y 0)).index
      = (lexer_at buf_comment_then_y 0).index + 2 + 3 + 2 :=
  ⟨rfl, rfl, (lexer_token_fwdslash_block_comment_closed (lexer_at buf_comment_then_y 0)
    [' ', 'x', ' ', '*', '/', ' ', 'y'] 3 (by decide) rfl (by decide) rfl).2.1⟩

/-- An unterminated block comment whose third byte is not `/`, in a buffer without NUL:
the handler passes all the bytes left and sets the end-of-file token. -/
theorem lexer_token_fwdslash_block_comment_open (lxr : Lexer) (rest : List Char)
    (hnul : ∀ c ∈ lxr.src_, c ≠ NUL)
    (hd : lxr.src_.drop lxr.index = '/' :: '*' :: rest) (h3 : rest.head? ≠ some '/')
    (hk : spec_first_close rest = none) :
    (lexer_token_fwdslash lxr).src_ = lxr.src_ ∧
    (lexer_token_fwdslash lxr).index = lxr.src_.length ∧
    (lexer_token_fwdslash lxr).current_ = lxr.end_of_file := by
  obtain ⟨hs, hc, hi⟩ := lexer_token_fwdslash_block_index lxr rest hnul hd h3
  rw [hk] at hi
  simp only [] at hi
  have hnul' : ∀ c ∈ (lexer_token_fwdslash_block (lxr.src_.length + 1) lxr).src_, c ≠ NUL := by
    rw [hs]; exact hnul
  have hiff := Lexer.current_char_nul_iff _ hnul'
  rw [hs, hi] at hiff
  rw [lexer_token_fwdslash_block_comment lxr rest hd, if_pos (hiff.mpr (le_refl _))]
  refine ⟨hs, hi, ?_⟩
  show (lexer_token_fwdslash_block (lxr.src_.length + 1) lxr).end_of_file = lxr.end_of_file
  unfold Lexer.end_of_file
  rw [hs]

/-- A line comment in a buffer without NUL: the handler produces no token, leaves the line
counter, and leaves the cursor on the first newline byte from the cursor on, or at the end
of the buffer when there is none. -/
theorem lexer_token_fwdslash_line_comment (lxr : Lexer) (rest : List Char)
    (hnul : ∀ c ∈ lxr.src_, c ≠ NUL)
    (hd : lxr.src_.drop lxr.index = '/' :: '/' :: rest) :
    ∃ pre post, lxr.src_.drop lxr.index = pre ++ post ∧ NEWLINE ∉ pre ∧
      (post = [] ∨ ∃ t, post = NEWLINE :: t) ∧
      lexer_token_fwdslash lxr =
        { lxr with index := lxr.index + pre.length
                   current_ := { lxr.current_ with type := .TOKEN_NONE } } := by
  have hlt := Lexer.drop_cons_lt hd
  have hpeek := Lexer.peek_char_of_drop hd
  have hf : (lxr.src_.drop lxr.index).length < lxr.src_.length + 1 := by
    simp only [List.length_drop]; omega
  have hl : ∀ c ∈ lxr.src_.drop lxr.index, c ≠ NUL :=
    fun c hc => hnul c (List.mem_of_mem_drop hc)
  obtain ⟨pre, post, h1, h2, h4, h5⟩ := line_comment_scan_split _ hl
  refine ⟨pre, post, h1, h2, h4, ?_⟩
  unfold lexer_token_fwdslash
  simp only [hlt, if_false, hpeek, List.headD_cons, if_true]
  rw [lexer_token_fwdslash_line_eq _ lxr hf, h5]
  rfl

/-- C18 (failing input): on `/*/ x`, a buffer without NUL in which no `*/` occurs after the
opener `/*`, `lexer_token_fwdslash` takes the `*` of the opener and the `/` after it for the
closer: it leaves the cursor at the offset 3 of the 5 bytes and produces no token, where an
unterminated comment passes all the bytes and gives the end-of-file token. -/
theorem lexer_token_fwdslash_opener_star_closes :
    (∀ c ∈ buf_opener_slash, c ≠ NUL)
    ∧ (lexer_at buf_opener_slash 0).src_.drop (lexer_at buf_opener_slash 0).index
        = '/' :: '*' :: ['/', ' ', 'x']
    ∧ spec_first_close ['/', ' ', 'x'] = none
    ∧ (lexer_token_fwdslash (lexer_at buf_opener_slash 0)).index = 3
    ∧ buf_opener_slash.length = 5
    ∧ (lexer_token_fwdslash (lexer_at buf_opener_slash 0)).current_.type = .TOKEN_NONE
    ∧ (lexer_token_fwdslash (lexer_at buf_opener_slash 0)).current_.type
        ≠ .TOKEN_END_OF_FILE := by
  refine ⟨by decide, rfl, rfl, rfl, rfl, rfl, by decide⟩

/-- C20 (failing input): a string literal and a character literal with a raw newline.  On
`"a`, `b" x`, entered on line 1 at the offset 0, `lexer_token_quote` emits the string
literal and leaves the cursor at the offset 5, after one newline byte, with the line
counter still 1; `lexer_token_singlequote` does the same on a character literal that is a
raw newline.  The invariant holds before each call and not after it. -/
theorem lexer_token_quote_raw_newline :
    line_invariant (lexer_at buf_string_newline 0)
    ∧ (lexer_token_quote (lexer_at buf_string_newline 0)).current_.type = .TOKEN_STRING_LITERAL
    ∧ (lexer_token_quote (lexer_at buf_string_newline 0)).index = 5
    ∧ (lexer_token_quote (lexer_at buf_string_newline 0)).curr_line = 1
    ∧ ((lexer_token_quote (lexer_at buf_string_newline 0)).src_.take 5).count NEWLINE = 1
    ∧ ¬ line_invariant (lexer_token_quote (lexer_at buf_string_newline 0))
    ∧ line_invariant (lexer_at buf_char_newline 0)
    ∧ (lexer_token_singlequote (lexer_at buf_char_newline 0)).current_.type
        = .TOKEN_CHARACTER_LITERAL
    ∧ (lexer_token_singlequote (lexer_at buf_char_newline 0)).index = 3
    ∧ (lexer_token_singlequote (lexer_at buf_char_newline 0)).curr_line = 1
    ∧ ¬ line_invariant (lexer_token_singlequote (lexer_at buf_char_newline 0)) := by
  refine ⟨rfl, rfl, rfl, rfl, rfl, ?_, rfl, rfl, rfl, rfl, ?_⟩
  · unfold line_invariant; decide
  · unfold line_invariant; decide

/-! ## The line counter: the handlers that keep its invariant -/

/-- A byte that is not a newline does not count. -/
theorem count_newline_take_succ (l : List Char) (n : Nat) (h : l.getD n NUL ≠ NEWLINE) :
    (l.take (n + 1)).count NEWLINE = (l.take n).count NEWLINE := by
  rw [List.take_succ, List.count_append]
  rw [List.getD_eq_getElem?_getD] at h
  cases hc : l[n]? with
  | none => simp
  | some c =>
    rw [hc] at h
    simp only [Option.getD_some] at h
    simp [List.count_cons, Ne.symm h]

/-- A handler that leaves the buffer and the line counter and passes `n` bytes, none of them
a newline, keeps the invariant of the line counter. -/
theorem line_invariant_pass (lxr r : Lexer) (n : Nat) (hs : r.src_ = lxr.src_)
    (hl : r.curr_line = lxr.curr_line) (hi : r.index = lxr.index + n)
    (hn : ∀ j < n, lxr.src_.getD (lxr.index + j) NUL ≠ NEWLINE) (hinv : line_invariant lxr) :
    line_invariant r := by
  unfold line_invariant at hinv ⊢
  rw [hs, hl, hi, hinv]
  congr 1
  clear hinv hi hl hs
  induction n with
  | zero => rfl
  | succ n ih =>
    rw [← Nat.add_assoc, count_newline_take_succ _ _ (hn n (Nat.lt_succ_self n))]
    exact ih (fun j hj => hn j (Nat.lt_succ_of_lt hj))

/-- The handlers without a loop keep the invariant of the line counter when the byte under
the cursor is not a newline. -/
theorem handlers_without_loop_keep_line_invariant :
    ∀ handler ∈ handlers_without_loop, ∀ (lxr : Lexer), lxr.current_char ≠ NEWLINE →
      line_invariant lxr → line_invariant (handler lxr) := by
  unfold handlers_without_loop
  simp only [List.forall_mem_cons, List.not_mem_nil, false_implies, implies_true, and_true]
  repeat' apply And.intro
  all_goals
    intro lxr hcur hinv
    simp only [
    lexer_token_skip, lexer_token_semicolon, lexer_token_lparen, lexer_token_rparen,
    lexer_token_lbrace, lexer_token_rbrace, lexer_token_comma, lexer_token_hyphen,
    lexer_token_plus, lexer_token_asterisk, lexer_token_percent, lexer_token_equals,
    lexer_token_lessthan, lexer_token_greaterthan, lexer_token_ampersand,
    lexer_token_verticalline, lexer_token_exclamation, lexer_token_tilde,
    lexer_token_uparrow, lexer_token_lsquarebracket, lexer_token_rsquarebracket,
    lexer_token_questionmark, lexer_token_colon, lexer_token_dot, lexer_token_backslash,
    lexer_token_null, lexer_token_at, lexer_token_backtick, lexer_token_pound]
    try split_ifs
    all_goals first
      | exact line_invariant_pass lxr _ 0 rfl rfl rfl (by intro j hj; omega) hinv
      | exact line_invariant_pass lxr _ 1 rfl rfl rfl
          (by intro j hj; interval_cases j; exact hcur) hinv
      | exact line_invariant_pass lxr _ 2 rfl rfl rfl
          (by
            intro j hj
            interval_cases j
            · exact hcur
            · show lxr.peek_char ≠ NEWLINE
              intro hp
              simp_all [NEWLINE, Lexer.peek_char, Lexer.set_current]) hinv
      | exact line_invariant_pass lxr _ 3 rfl rfl rfl
          (by
            intro j hj
            interval_cases j
            · exact hcur
            · show lxr.peek_char ≠ NEWLINE
              intro hp
              simp_all [NEWLINE, Lexer.peek_char, Lexer.set_current]
            · show (lxr.advance_char 1).peek_char ≠ NEWLINE
              intro hp
              simp_all [NEWLINE, Lexer.peek_char, Lexer.set_current, Lexer.advance_char]) hinv

/-- The handler of the newline keeps the invariant of the line counter, short of an overflow
of the counter. -/
theorem lexer_token_newline_keeps_line_invariant (lxr : Lexer)
    (hcur : lxr.index < lxr.src_.length → lxr.current_char = NEWLINE)
    (hov : lxr.curr_line + 1 < 2 ^ 32) (hinv : line_invariant lxr) :
    line_invariant (lexer_token_newline lxr) := by
  unfold lexer_token_newline
  split_ifs with h
  · exact line_invariant_pass lxr _ 0 rfl rfl rfl (by intro j hj; omega) hinv
  · have hlt : lxr.index < lxr.src_.length := by omega
    have hc := hcur hlt
    unfold line_invariant at hinv ⊢
    show (lxr.curr_line + 1) % 2 ^ 32 = 1 + (lxr.src_.take (lxr.index + 1)).count NEWLINE
    rw [Nat.mod_eq_of_lt hov, List.take_succ, List.count_append, hinv]
    unfold Lexer.current_char at hc
    rw [List.getD_eq_getElem?_getD] at hc
    have hsome : lxr.src_[lxr.index]? = some NEWLINE := by
      rw [List.getElem?_eq_getElem hlt] at hc ⊢
      simpa using hc
    rw [hsome]
    simp
    ring

/-- The loop of a line comment passes no newline. -/
theorem line_comment_scan_no_newline (l : List Char) :
    ∀ j < line_comment_scan l, l.getD j NUL ≠ NEWLINE := by
  induction l with
  | nil => intro j hj; simp [line_comment_scan] at hj
  | cons c rest ih =>
    intro j hj
    unfold line_comment_scan at hj
    split_ifs at hj with h
    · cases j with
      | zero => simpa using h.2
      | succ j =>
        have : j < line_comment_scan rest := by omega
        simpa using ih j this
    · omega

/-- The handler of `/` keeps the invariant of the line counter, short of an overflow of the
counter. -/
theorem lexer_token_fwdslash_keeps_line_invariant (lxr : Lexer)
    (hcur : lxr.current_char ≠ NEWLINE) (hov : 1 + lxr.src_.count NEWLINE < 2 ^ 32)
    (hinv : line_invariant lxr) : line_invariant (lexer_token_fwdslash lxr) := by
  have hf : (lxr.src_.drop lxr.index).length < lxr.src_.length + 1 := by
    simp only [List.length_drop]; omega
  unfold lexer_token_fwdslash
  split_ifs with h0 h1 h2 h3
  · exact line_invariant_pass lxr _ 0 rfl rfl rfl (by intro j hj; omega) hinv
  · rw [lexer_token_fwdslash_line_eq _ lxr hf]
    refine line_invariant_pass lxr _ (line_comment_scan (lxr.src_.drop lxr.index)) rfl rfl rfl
      ?_ hinv
    intro j hj
    have := line_comment_scan_no_newline _ j hj
    rwa [List.getD_eq_getElem?_getD, List.getElem?_drop, ← List.getD_eq_getElem?_getD] at this
  · obtain ⟨e1, e2, e3⟩ := Lexer.scan_result
      ((lexer_token_fwdslash_block (lxr.src_.length + 1) lxr).current_char = NUL)
      (lexer_token_fwdslash_block (lxr.src_.length + 1) lxr)
      (lexer_token_fwdslash_block (lxr.src_.length + 1) lxr).end_of_file
    unfold line_invariant at hinv ⊢
    simp only []
    rw [e1, e2, e3, lexer_token_fwdslash_block_eq _ lxr hf]
    simp only []
    have hle : (lxr.src_.take
          (lxr.index + block_comment_scan (lxr.src_.drop lxr.index))).count NEWLINE
        ≤ lxr.src_.count NEWLINE := (List.take_sublist _ _).count_le _
    have hsplit : (lxr.src_.take
          (lxr.index + block_comment_scan (lxr.src_.drop lxr.index))).count NEWLINE
        = (lxr.src_.take lxr.index).count NEWLINE
          + ((lxr.src_.drop lxr.index).take
              (block_comment_scan (lxr.src_.drop lxr.index))).count NEWLINE := by
      rw [List.take_add, List.count_append]
    have hcl : lxr.curr_line < 2 ^ 32 := by
      have := (List.take_sublist lxr.index lxr.src_).count_le NEWLINE
      omega
    rw [advance_lines_eq _ _ hcl, Nat.mod_eq_of_lt (by omega)]
    omega
  · exact line_invariant_pass lxr _ 2 rfl rfl rfl
      (by
        intro j hj
        interval_cases j
        · exact hcur
        · show lxr.peek_char ≠ NEWLINE
          rw [h3]; decide) hinv
  · exact line_invariant_pass lxr _ 1 rfl rfl rfl
      (by intro j hj; interval_cases j; exact hcur) hinv

/-! ## String and character literals, the end of the buffer, token positions -/

/-- A byte of a buffer without NUL that is read inside the buffer is not NUL. -/
theorem getD_ne_nul (src : List Char) (h : ∀ c ∈ src, c ≠ NUL) (j : Nat) (hj : j < src.length) :
    src.getD j NUL ≠ NUL := by
  rw [List.getD_eq_getElem?_getD, List.getElem?_eq_getElem hj]
  exact h _ (List.getElem_mem hj)

/-- The loop of `lexer_token_quote` stops on the smallest unescaped closing quote: entered
between the opening quote and that offset, on a byte that it does not skip, it emits the
string literal that ends there. -/
theorem lexer_token_quote_loop_close (q : Char) (s e : Nat) (src : List Char)
    (hnul : ∀ c ∈ src, c ≠ NUL) (hq : q ≠ BACKSLASH) (he : spec_closing_quote src s q e) :
    ∀ (fuel : Nat) (lxr : Lexer), lxr.src_ = src → s < lxr.index → lxr.index ≤ e →
      e - lxr.index < fuel →
      (lxr.current_char = q → src.getD (lxr.index - 1) NUL ≠ BACKSLASH) →
      lexer_token_quote_loop q s fuel lxr =
        { lxr with
          index := e + 1
          current_ := Token.init .TOKEN_STRING_LITERAL .KIND_LITERAL e
            ((src.drop s).take ((e - s) + 1)) } := by
  obtain ⟨⟨hse, helen, heq, hepre⟩, hmin⟩ := he
  intro fuel
  induction fuel with
  | zero => intro lxr _ _ _ h; omega
  | succ fuel ih =>
    intro lxr hsrc hs hle hfuel hvis
    have hcur : lxr.current_char = src.getD lxr.index NUL := by
      unfold Lexer.current_char; rw [hsrc]
    have hpeek : lxr.peek_char = src.getD (lxr.index + 1) NUL := by
      unfold Lexer.peek_char; rw [hsrc]
    have hnn : lxr.current_char ≠ NUL := by
      rw [hcur]; exact getD_ne_nul src hnul _ (by omega)
    unfold lexer_token_quote_loop
    rw [if_neg hnn]
    by_cases hcq : lxr.current_char = q
    · rw [if_pos hcq]
      have hie : lxr.index = e := by
        by_contra hne
        have hlt : lxr.index < e := by omega
        exact hmin _ hlt ⟨hs, by omega, by rw [← hcur]; exact hcq, hvis hcq⟩
      simp only [Lexer.set_current, Lexer.advance_char, Lexer.view, hsrc, hie]
    · rw [if_neg hcq]
      have hlt : lxr.index < e := by
        rcases Nat.lt_or_ge lxr.index e with h | h
        · exact h
        · exfalso
          have hie : lxr.index = e := by omega
          rw [hcur, hie] at hcq
          exact hcq heq
      by_cases hesc : lxr.current_char = BACKSLASH ∧ lxr.peek_char = q
      · rw [if_pos hesc]
        have hne : lxr.index + 1 ≠ e := by
          intro h1
          apply hepre
          rw [← h1, Nat.add_sub_cancel, ← hcur]
          exact hesc.1
        rw [ih (lxr.advance_char 2) hsrc (by show s < lxr.index + 2; omega)
          (by show lxr.index + 2 ≤ e; omega) (by show e - (lxr.index + 2) < fuel; omega)
          (by
            intro _
            show src.getD (lxr.index + 2 - 1) NUL ≠ BACKSLASH
            rw [show lxr.index + 2 - 1 = lxr.index + 1 by omega, ← hpeek, hesc.2]
            exact hq)]
        rfl
      · rw [if_neg hesc]
        rw [ih (lxr.advance_char 1) hsrc (by show s < lxr.index + 1; omega)
          (by show lxr.index + 1 ≤ e; omega) (by show e - (lxr.index + 1) < fuel; omega)
          (by
            intro hc
            show src.getD (lxr.index + 1 - 1) NUL ≠ BACKSLASH
            rw [Nat.add_sub_cancel, ← hcur]
            intro hb
            exact hesc ⟨hb, by rw [hpeek, ← hsrc]; exact hc⟩)]
        rfl

/-- Without an unescaped closing quote the loop of `lexer_token_quote` runs to the end of
the buffer and emits the illegal token. -/
theorem lexer_token_quote_loop_open (q : Char) (s : Nat) (src : List Char)
    (hq : q ≠ BACKSLASH)
    (hno : ∀ j, ¬ spec_unescaped_quote src s q j) :
    ∀ (fuel : Nat) (lxr : Lexer), lxr.src_ = src → s < lxr.index →
      src.length - lxr.index < fuel →
      (lxr.current_char = q → src.getD (lxr.index - 1) NUL ≠ BACKSLASH) →
      (lexer_token_quote_loop q s fuel lxr).current_ =
        Token.init .TOKEN_ILLEGAL .KIND_UNSPECIFIC ((src.length + 2 ^ 64 - 1) % 2 ^ 64)
          [BACKSLASH, '0'] := by
  intro fuel
  induction fuel with
  | zero => intro lxr _ _ h; omega
  | succ fuel ih =>
    intro lxr hsrc hs hfuel hvis
    have hcur : lxr.current_char = src.getD lxr.index NUL := by
      unfold Lexer.current_char; rw [hsrc]
    have hpeek : lxr.peek_char = src.getD (lxr.index + 1) NUL := by
      unfold Lexer.peek_char; rw [hsrc]
    unfold lexer_token_quote_loop
    by_cases h0 : lxr.current_char = NUL
    · rw [if_pos h0]
      simp only [Lexer.set_current, hsrc]
    · rw [if_neg h0]
      have hlt : lxr.index < src.length := by
        by_contra hge
        apply h0
        rw [hcur, List.getD_eq_getElem?_getD, List.getElem?_eq_none (by omega)]
        rfl
      have hcq : lxr.current_char ≠ q := by
        intro hc
        exact hno lxr.index ⟨hs, hlt, by rw [← hcur]; exact hc, hvis hc⟩
      rw [if_neg hcq]
      by_cases hesc : lxr.current_char = BACKSLASH ∧ lxr.peek_char = q
      · rw [if_pos hesc]
        exact ih (lxr.advance_char 2) hsrc (by show s < lxr.index + 2; omega)
          (by show src.length - (lxr.index + 2) < fuel; omega)
          (by
            intro _
            show src.getD (lxr.index + 2 - 1) NUL ≠ BACKSLASH
            rw [show lxr.index + 2 - 1 = lxr.index + 1 by omega, ← hpeek, hesc.2]
            exact hq)
      · rw [if_neg hesc]
        exact ih (lxr.advance_char 1) hsrc (by show s < lxr.index + 1; omega)
          (by show src.length - (lxr.index + 1) < fuel; omega)
          (by
            intro hc
            show src.getD (lxr.index + 1 - 1) NUL ≠ BACKSLASH
            rw [Nat.add_sub_cancel, ← hcur]
            intro hb
            exact hesc ⟨hb, by rw [hpeek, ← hsrc]; exact hc⟩)

/-- C21: the scan of a string literal.  In a buffer without NUL, with the cursor at the
offset `s` on an opening quote `q` (any byte but the backslash), let `e` be the smallest
offset after `s` that holds `q` with a byte before it that is not a backslash.  If `e`
exists, `lexer_token_quote` emits a string literal whose lexeme is the bytes from `s` to `e`
inclusive and leaves the cursor at `e + 1`; if there is no such offset, it emits an illegal
token at the last byte of the buffer. -/
theorem lexer_token_quote_scans_to_unescaped_quote (lxr : Lexer) (q : Char)
    (rest : List Char) (hnul : ∀ c ∈ lxr.src_, c ≠ NUL) (hsize : lxr.src_.length < 2 ^ 64)
    (hq : q ≠ BACKSLASH) (hcursor : lxr.src_.drop lxr.index = q :: rest) :
    (∀ e, spec_closing_quote lxr.src_ lxr.index q e →
      (lexer_token_quote lxr).current_.type = .TOKEN_STRING_LITERAL
      ∧ (lexer_token_quote lxr).current_.value =
          (lxr.src_.drop lxr.index).take (e + 1 - lxr.index)
      ∧ (lexer_token_quote lxr).current_.value.length = e + 1 - lxr.index
      ∧ (lexer_token_quote lxr).index = e + 1)
    ∧ ((∀ j, ¬ spec_unescaped_quote lxr.src_ lxr.index q j) →
      (lexer_token_quote lxr).current_.type = .TOKEN_ILLEGAL
      ∧ (lexer_token_quote lxr).current_.src_pos = lxr.src_.length - 1) := by
  have hlt : ¬ lxr.index ≥ lxr.src_.length := Lexer.drop_cons_lt hcursor
  have hc : lxr.current_char = q := Lexer.current_char_of_drop hcursor
  have hvis : (lxr.advance_char 1).current_char = lxr.current_char →
      lxr.src_.getD ((lxr.advance_char 1).index - 1) NUL ≠ BACKSLASH := by
    intro _
    show lxr.src_.getD (lxr.index + 1 - 1) NUL ≠ BACKSLASH
    rw [Nat.add_sub_cancel]
    have : lxr.src_.getD lxr.index NUL = q := hc
    rw [this]
    exact hq
  unfold lexer_token_quote
  rw [if_neg hlt]
  simp only []
  constructor
  · intro e he
    have hse : lxr.index < e := he.1.1
    have hel : e < lxr.src_.length := he.1.2.1
    rw [hc] at hvis ⊢
    rw [lexer_token_quote_loop_close q lxr.index e lxr.src_ hnul hq he _ (lxr.advance_char 1) rfl
      (by show lxr.index < lxr.index + 1; omega) (by show lxr.index + 1 ≤ e; omega)
      (by show e - (lxr.index + 1) < lxr.src_.length + 1; omega) hvis]
    have e1 : e - lxr.index + 1 = e + 1 - lxr.index := by omega
    refine ⟨rfl, ?_, ?_, rfl⟩
    · show (lxr.src_.drop lxr.index).take (e - lxr.index + 1) = _
      rw [e1]
    · show ((lxr.src_.drop lxr.index).take (e - lxr.index + 1)).length = _
      rw [List.length_take, List.length_drop]
      omega
  · intro hno
    rw [hc] at hvis ⊢
    rw [lexer_token_quote_loop_open q lxr.index lxr.src_ hq hno _ (lxr.advance_char 1) rfl
      (by show lxr.index < lxr.index + 1; omega)
      (by show lxr.src_.length - (lxr.index + 1) < lxr.src_.length + 1; omega) hvis]
    refine ⟨rfl, ?_⟩
    show (lxr.src_.length + 2 ^ 64 - 1) % 2 ^ 64 = lxr.src_.length - 1
    omega

/-- C21 (witness): on `"a\"b" x` the closing quote is at the offset 5, and the literal is the
first six bytes. -/
theorem lexer_token_quote_scans_to_unescaped_quote_witness :
    spec_closing_quote buf_string_escaped_quote 0 '"' 5
    ∧ (lexer_token_quote (lexer_at buf_string_escaped_quote 0)).current_.type
        = .TOKEN_STRING_LITERAL
    ∧ (lexer_token_quote (lexer_at buf_string_escaped_quote 0)).current_.value
        = ['"', 'a', BACKSLASH, '"', 'b', '"']
    ∧ (lexer_token_quote (lexer_at buf_string_escaped_quote 0)).index = 6
    ∧ (∀ j, ¬ spec_unescaped_quote buf_string_unterminated 0 '"' j)
    ∧ (lexer_token_quote (lexer_at buf_string_unterminated 0)).current_.type = .TOKEN_ILLEGAL
    ∧ (lexer_token_quote (lexer_at buf_string_unterminated 0)).current_.src_pos = 3 := by
  have h1 := lexer_token_quote_scans_to_unescaped_quote (lexer_at buf_string_escaped_quote 0)
    '"' ['a', BACKSLASH, '"', 'b', '"', ' ', 'x'] (by decide) (by decide) (by decide) rfl
  have h2 := lexer_token_quote_scans_to_unescaped_quote (lexer_at buf_string_unterminated 0)
    '"' ['a', BACKSLASH, '"'] (by decide) (by decide) (by decide) rfl
  have hc : spec_closing_quote buf_string_escaped_quote 0 '"' 5 := by decide
  have hno : ∀ j, ¬ spec_unescaped_quote buf_string_unterminated 0 '"' j := by
    intro j hj
    have hl : j < 4 := hj.2.1
    interval_cases j <;> revert hj <;> decide
  obtain ⟨ht, hv, _, hi⟩ := h1.1 5 hc
  exact ⟨hc, ht, hv, hi, hno, (h2.2 hno).1, (h2.2 hno).2⟩

/-- The byte read `n` places after the cursor, from the bytes left. -/
theorem Lexer.getD_of_drop {lxr : Lexer} {l : List Char} (h : lxr.src_.drop lxr.index = l)
    (n : Nat) : lxr.src_.getD (lxr.index + n) NUL = l.getD n NUL := by
  rw [← h, List.getD_eq_getElem?_getD, List.getD_eq_getElem?_getD, List.getElem?_drop]

/-- The result of `lexer_token_singlequote`, by the bytes after the opening quote. -/
theorem lexer_token_singlequote_eq (lxr : Lexer) (rest : List Char)
    (hcursor : lxr.src_.drop lxr.index = SINGLE_QUOTE :: rest) :
    lexer_token_singlequote lxr =
      if rest.getD 0 NUL = BACKSLASH then
        lexer_token_singlequote_close lxr.index (lxr.advance_char 3)
      else if rest.getD 0 NUL = SINGLE_QUOTE then
        { lxr with
          index := lxr.index + 2
          current_ := Token.init .TOKEN_CHARACTER_LITERAL .KIND_LITERAL lxr.index
            ((SINGLE_QUOTE :: rest).take 2) }
      else lexer_token_singlequote_close lxr.index (lxr.advance_char 2) := by
  have h1 : (lxr.advance_char 1).current_char = rest.getD 0 NUL := by
    show lxr.src_.getD (lxr.index + 1) NUL = _
    rw [Lexer.getD_of_drop hcursor 1]
    rfl
  unfold lexer_token_singlequote
  simp only [h1]
  split_ifs
  · rfl
  · simp only [Lexer.set_current, Lexer.advance_char, Lexer.view, hcursor]
    congr 2
    congr 1
    omega
  · rfl

/-- The last step of `lexer_token_singlequote`, by the byte under the cursor. -/
theorem lexer_token_singlequote_close_eq (start : Nat) (lxr : Lexer) :
    lexer_token_singlequote_close start lxr =
      if lxr.current_char = NUL then
        lxr.set_current (Token.init .TOKEN_ILLEGAL .KIND_UNSPECIFIC
          ((lxr.src_.length + 2 ^ 64 - 1) % 2 ^ 64) [BACKSLASH, '0'])
      else if lxr.current_char = SINGLE_QUOTE then
        { lxr with
          index := lxr.index + 1
          current_ := Token.init .TOKEN_CHARACTER_LITERAL .KIND_LITERAL start
            ((lxr.src_.drop start).take (lxr.index + 1 - start)) }
      else
        lxr.set_current (Token.init .TOKEN_ILLEGAL .KIND_UNSPECIFIC start
          ((lxr.src_.drop start).take (lxr.index - start))) := by
  unfold lexer_token_singlequote_close
  split_ifs <;> rfl

/-- The result of `lexer_token_singlequote` on the three shapes of a character literal. -/
theorem lexer_token_singlequote_of_shape (lxr : Lexer) (l : List Char) (n : Nat)
    (hcursor : lxr.src_.drop lxr.index = l)
    (h : spec_char_literal l n) :
    lexer_token_singlequote lxr =
      { lxr with
        index := lxr.index + n
        current_ := Token.init .TOKEN_CHARACTER_LITERAL .KIND_LITERAL lxr.index (l.take n) } := by
  have hsb : SINGLE_QUOTE ≠ BACKSLASH := by decide
  have hsn : SINGLE_QUOTE ≠ NUL := by decide
  cases h with
  | empty tail =>
    rw [lexer_token_singlequote_eq lxr _ hcursor]
    simp [hsb]
  | single c tail hc1 hc2 =>
    have h2 : (lxr.advance_char 2).current_char = SINGLE_QUOTE := by
      show lxr.src_.getD (lxr.index + 2) NUL = _
      rw [Lexer.getD_of_drop hcursor 2]
      rfl
    have e2 : (lxr.advance_char 2).index + 1 - lxr.index = 3 := by
      show lxr.index + 2 + 1 - lxr.index = 3
      omega
    rw [lexer_token_singlequote_eq lxr _ hcursor]
    simp only [List.getD_cons_zero, hc1, hc2, if_false]
    rw [lexer_token_singlequote_close_eq, h2, e2]
    simp [hsn, Lexer.advance_char, hcursor]
  | escape x tail =>
    have h3 : (lxr.advance_char 3).current_char = SINGLE_QUOTE := by
      show lxr.src_.getD (lxr.index + 3) NUL = _
      rw [Lexer.getD_of_drop hcursor 3]
      rfl
    have e3 : (lxr.advance_char 3).index + 1 - lxr.index = 4 := by
      show lxr.index + 3 + 1 - lxr.index = 4
      omega
    rw [lexer_token_singlequote_eq lxr _ hcursor]
    simp only [List.getD_cons_zero, if_true]
    rw [lexer_token_singlequote_close_eq, h3, e3]
    simp [hsn, Lexer.advance_char, hcursor]

/-- A character literal comes from one of the three shapes only; every other input gives
the illegal token. -/
theorem lexer_token_singlequote_shape_or_illegal (lxr : Lexer) (rest : List Char)
    (hcursor : lxr.src_.drop lxr.index = SINGLE_QUOTE :: rest) :
    (∃ n, spec_char_literal (SINGLE_QUOTE :: rest) n)
    ∨ (lexer_token_singlequote lxr).current_.type = .TOKEN_ILLEGAL := by
  have h2 : (lxr.advance_char 2).current_char = rest.getD 1 NUL := by
    show lxr.src_.getD (lxr.index + 2) NUL = _
    rw [Lexer.getD_of_drop hcursor 2]
    rfl
  have h3 : (lxr.advance_char 3).current_char = rest.getD 2 NUL := by
    show lxr.src_.getD (lxr.index + 3) NUL = _
    rw [Lexer.getD_of_drop hcursor 3]
    rfl
  rw [lexer_token_singlequote_eq lxr rest hcursor, lexer_token_singlequote_close_eq,
    lexer_token_singlequote_close_eq, h2, h3]
  rcases rest with _ | ⟨a, rest⟩
  · right
    simp [NUL, BACKSLASH, SINGLE_QUOTE, Lexer.set_current, Token.init]
  · by_cases hab : a = BACKSLASH
    · subst hab
      rcases rest with _ | ⟨x, _ | ⟨c, tail⟩⟩
      · right; simp [Lexer.set_current, Token.init]
      · right; simp [Lexer.set_current, Token.init]
      · by_cases hcs : c = SINGLE_QUOTE
        · left
          subst hcs
          exact ⟨4, .escape x tail⟩
        · right
          simp only [List.getD_cons_zero, List.getD_cons_succ, if_true, hcs, if_false]
          split_ifs <;> rfl
    · by_cases has : a = SINGLE_QUOTE
      · left
        subst has
        exact ⟨2, .empty rest⟩
      · rcases rest with _ | ⟨c, tail⟩
        · right; simp [hab, has, Lexer.set_current, Token.init]
        · by_cases hcs : c = SINGLE_QUOTE
          · left
            subst hcs
            exact ⟨3, .single a tail has hab⟩
          · right
            simp only [List.getD_cons_zero, List.getD_cons_succ, hab, has, hcs, if_false]
            split_ifs <;> rfl

/-- C22: the scan of a character literal.  In every buffer, without NUL or not, with the
cursor on a single quote, `lexer_token_singlequote` emits a character literal exactly when
the bytes at the cursor have one of the three shapes of the specification; the lexeme is
then the bytes of the shape (2, 3 or 4 of them) and the cursor is left just after the
closing quote.  On every other input it emits an illegal token. -/
theorem lexer_token_singlequote_three_shapes (lxr : Lexer) (rest : List Char)
    (hcursor : lxr.src_.drop lxr.index = SINGLE_QUOTE :: rest) :
    ((lexer_token_singlequote lxr).current_.type = .TOKEN_CHARACTER_LITERAL
      ↔ ∃ n, spec_char_literal (SINGLE_QUOTE :: rest) n)
    ∧ (∀ n, spec_char_literal (SINGLE_QUOTE :: rest) n →
        (lexer_token_singlequote lxr).current_.value = (SINGLE_QUOTE :: rest).take n
        ∧ (lexer_token_singlequote lxr).current_.value.length = n
        ∧ (lexer_token_singlequote lxr).index = lxr.index + n)
    ∧ ((¬ ∃ n, spec_char_literal (SINGLE_QUOTE :: rest) n) →
        (lexer_token_singlequote lxr).current_.type = .TOKEN_ILLEGAL) := by
  have hor := lexer_token_singlequote_shape_or_illegal lxr rest hcursor
  refine ⟨⟨?_, ?_⟩, ?_, ?_⟩
  · intro ht
    rcases hor with h | h
    · exact h
    · rw [h] at ht
      exact absurd ht (by decide)
  · rintro ⟨n, hn⟩
    rw [lexer_token_singlequote_of_shape lxr _ n hcursor hn]
    rfl
  · intro n hn
    rw [lexer_token_singlequote_of_shape lxr _ n hcursor hn]
    refine ⟨rfl, ?_, rfl⟩
    show ((SINGLE_QUOTE :: rest).take n).length = n
    cases hn <;> rfl
  · intro hno
    rcases hor with h | h
    · exact absurd h hno
    · exact h

/-- C22 (witness): `'\n' x` is a character literal of four bytes, and `'ab'` is not one. -/
theorem lexer_token_singlequote_three_shapes_witness :
    (lexer_token_singlequote (lexer_at buf_char_escape 0)).current_.type
        = .TOKEN_CHARACTER_LITERAL
    ∧ (lexer_token_singlequote (lexer_at buf_char_escape 0)).current_.value
        = [SINGLE_QUOTE, BACKSLASH, 'n', SINGLE_QUOTE]
    ∧ (lexer_token_singlequote (lexer_at buf_char_escape 0)).index = 4
    ∧ (¬ ∃ n, spec_char_literal buf_char_two_bytes n)
    ∧ (lexer_token_singlequote (lexer_at buf_char_two_bytes 0)).current_.type
        = .TOKEN_ILLEGAL := by
  have h1 := lexer_token_singlequote_three_shapes (lexer_at buf_char_escape 0)
    [BACKSLASH, 'n', SINGLE_QUOTE, ' ', 'x'] rfl
  have h2 := lexer_token_singlequote_three_shapes (lexer_at buf_char_two_bytes 0)
    ['a', 'b', SINGLE_QUOTE] rfl
  have hs : spec_char_literal buf_char_escape 4 := .escape 'n' [' ', 'x']
  have hno : ¬ ∃ n, spec_char_literal buf_char_two_bytes n := by
    rintro ⟨n, hn⟩
    rw [spec_char_literal_iff] at hn
    revert hn
    simp [buf_char_two_bytes, SINGLE_QUOTE, BACKSLASH]
  exact ⟨h1.1.2 ⟨4, hs⟩, (h1.2.1 4 hs).1, (h1.2.1 4 hs).2.2, hno, h2.2.2 hno⟩

/-- With the cursor at or past the end of the buffer, each handler that tests for the end
sets the end-of-file token and changes nothing else. -/
theorem handlers_with_end_test_sticky :
    ∀ handler ∈ handlers_with_end_test, ∀ (lxr : Lexer), lxr.index ≥ lxr.src_.length →
      handler lxr = lxr.set_current lxr.end_of_file := by
  unfold handlers_with_end_test
  simp only [List.forall_mem_cons, List.not_mem_nil, false_implies, implies_true, and_true]
  repeat' apply And.intro
  all_goals
    intro lxr h
    first
      | rfl
      | (simp only [
          lexer_token_skip, lexer_token_newline, lexer_token_semicolon, lexer_token_lparen,
          lexer_token_rparen, lexer_token_lbrace, lexer_token_rbrace, lexer_token_comma,
          lexer_token_hyphen, lexer_token_asterisk, lexer_token_fwdslash, lexer_token_percent,
          lexer_token_equals, lexer_token_lessthan, lexer_token_greaterthan,
          lexer_token_ampersand, lexer_token_verticalline, lexer_token_exclamation,
          lexer_token_tilde, lexer_token_uparrow, lexer_token_quote,
          lexer_token_lsquarebracket, lexer_token_rsquarebracket, lexer_token_questionmark,
          lexer_token_colon, lexer_token_dot, lexer_token_backslash, lexer_token_at,
          lexer_token_backtick, lexer_token_pound]
         rw [if_pos h])

/-- C23 (failing input): the buffer `x` with the cursor at its end, the offset 1.
`lexer_token_null` sets the end-of-file token at the last byte and moves nothing.
`lexer_token_plus` sets the end-of-file token and goes on: it emits `+` and leaves the
cursor at the offset 2.  `lexer_token_singlequote` does not test for the end: it emits an
illegal token and leaves the cursor at the offset 3. -/
theorem lexer_token_plus_past_the_end :
    (lexer_at buf_x 1).index ≥ (lexer_at buf_x 1).src_.length
    ∧ (lexer_token_null (lexer_at buf_x 1)).current_.type = .TOKEN_END_OF_FILE
    ∧ (lexer_token_null (lexer_at buf_x 1)).current_.src_pos = 0
    ∧ (lexer_token_null (lexer_at buf_x 1)).index = 1
    ∧ (lexer_token_plus (lexer_at buf_x 1)).current_.type = .TOKEN_PLUS
    ∧ (lexer_token_plus (lexer_at buf_x 1)).current_.type ≠ .TOKEN_END_OF_FILE
    ∧ (lexer_token_plus (lexer_at buf_x 1)).index = 2
    ∧ (lexer_token_singlequote (lexer_at buf_x 1)).current_.type = .TOKEN_ILLEGAL
    ∧ (lexer_token_singlequote (lexer_at buf_x 1)).current_.type ≠ .TOKEN_END_OF_FILE
    ∧ (lexer_token_singlequote (lexer_at buf_x 1)).index = 3 := by
  refine ⟨by decide, rfl, rfl, rfl, rfl, by decide, rfl, rfl, by decide, rfl⟩

/-- A view is a slice of the buffer of its own length. -/
theorem take_take_length (l : List Char) (n : Nat) : l.take n = l.take (l.take n).length := by
  rw [List.take_eq_take, List.length_take]
  omega

/-- Each handler but `lexer_token_quote` gives its token the offset of the cursor on entry,
and the lexeme is the slice of the buffer that starts there; the end-of-file token, the
illegal token of the end of the buffer and the handlers that emit no token apart. -/
theorem handlers_from_cursor_slice :
    ∀ handler ∈ handlers_from_cursor, ∀ (lxr : Lexer),
      (handler lxr).current_.type ≠ .TOKEN_END_OF_FILE →
      (handler lxr).current_.type ≠ .TOKEN_NONE →
      (handler lxr).current_ ≠ Token.init .TOKEN_ILLEGAL .KIND_UNSPECIFIC
        ((lxr.src_.length + 2 ^ 64 - 1) % 2 ^ 64) [BACKSLASH, '0'] →
      (handler lxr).current_.src_pos = lxr.index
      ∧ (handler lxr).current_.is_slice_of (handler lxr).src_ := by
  unfold handlers_from_cursor handlers_without_loop
  simp only [List.cons_append, List.nil_append, List.forall_mem_cons, List.not_mem_nil,
    false_implies, implies_true, and_true]
  repeat' apply And.intro
  all_goals
    intro lxr
    simp only [
    lexer_token_skip, lexer_token_semicolon, lexer_token_lparen, lexer_token_rparen,
    lexer_token_lbrace, lexer_token_rbrace, lexer_token_comma, lexer_token_hyphen,
    lexer_token_plus, lexer_token_asterisk, lexer_token_percent, lexer_token_equals,
    lexer_token_lessthan, lexer_token_greaterthan, lexer_token_ampersand,
    lexer_token_verticalline, lexer_token_exclamation, lexer_token_tilde,
    lexer_token_uparrow, lexer_token_lsquarebracket, lexer_token_rsquarebracket,
    lexer_token_questionmark, lexer_token_colon, lexer_token_dot, lexer_token_backslash,
    lexer_token_null, lexer_token_at, lexer_token_backtick, lexer_token_pound,
    lexer_token_newline, lexer_token_fwdslash, lexer_token_singlequote,
    lexer_token_singlequote_close, Lexer.set_current, Lexer.advance_char, Lexer.set_none,
    Lexer.advance_line, Lexer.end_of_file, Lexer.view, Token.is_slice_of, Token.init]
    try split_ifs
    all_goals
      intro h1 h2 h3
      first
        | exact absurd (by with_reducible rfl) h1
        | exact absurd (by with_reducible rfl) h2
        | exact absurd (by with_reducible rfl) h3
        | exact ⟨by with_reducible rfl, by with_reducible exact take_take_length _ _⟩

/-- C24 (failing input): on the buffer `"ab"`, entered at the offset 0, `lexer_token_quote`
emits the string literal with the lexeme `"ab"`, whose first byte is at the offset 0, and
with the position 3, the offset of the closing quote: the lexeme is not the slice of the
buffer at the position of the token.  On `<<=` the handler of `<` gives the token the
offset of its first byte. -/
theorem lexer_token_quote_position_of_closing_quote :
    (lexer_token_quote (lexer_at buf_string_ab 0)).current_.type = .TOKEN_STRING_LITERAL
    ∧ (lexer_token_quote (lexer_at buf_string_ab 0)).current_.value = ['"', 'a', 'b', '"']
    ∧ (lexer_token_quote (lexer_at buf_string_ab 0)).current_.src_pos = 3
    ∧ ¬ (lexer_token_quote (lexer_at buf_string_ab 0)).current_.is_slice_of buf_string_ab
    ∧ (lexer_token_lessthan (lexer_at buf_shift_assign 0)).current_.type
        = .TOKEN_BITWISE_LSHIFTEQ
    ∧ (lexer_token_lessthan (lexer_at buf_shift_assign 0)).current_.src_pos = 0
    ∧ (lexer_token_lessthan (lexer_at buf_shift_assign 0)).current_.is_slice_of
        buf_shift_assign := by
  refine ⟨rfl, rfl, rfl, ?_, rfl, rfl, ?_⟩
  · intro h
    have h4 : ['"', 'a', 'b', '"'] = ['"'] := h
    exact absurd h4 (by decide)
  · show ['<', '<', '='] = ['<', '<', '=']
    rfl

/-! ## The declaration parser (`parser_parsedecl.cpp`) -/

/-- A symbol of the table has an index below the next one. -/
theorem parser.index_lt_next (p : parser) :
    ∀ s ∈ p.sym_table_, s.symbol_index < p.next_symbol_index := by
  unfold parser.next_symbol_index
  induction p.sym_table_ with
  | nil => intro s hs; simp at hs
  | cons a l ih =>
    intro s hs
    rcases List.mem_cons.mp hs with h | h
    · subst h
      simp only [List.foldr_cons]
      omega
    · have := ih s h
      simp only [List.foldr_cons]
      omega

/-- The next index is not in the table. -/
theorem parser.lookup_next_symbol_index (p : parser) :
    p.lookup_unique_symbol p.next_symbol_index = none := by
  unfold parser.lookup_unique_symbol
  rw [List.find?_eq_none]
  intro s hs
  have := p.index_lt_next s hs
  simp only [beq_iff_eq]
  omega

/-- A write through a pointer changes the symbol it points to. -/
theorem parser.lookup_modify_symbol (p : parser) (sym : Nat) (f : symbol → symbol)
    (hf : ∀ s, (f s).symbol_index = s.symbol_index) :
    (p.modify_symbol sym f).lookup_unique_symbol sym = (p.lookup_unique_symbol sym).map f := by
  unfold parser.lookup_unique_symbol parser.modify_symbol
  simp only []
  induction p.sym_table_ with
  | nil => rfl
  | cons a l ih =>
    simp only [List.map_cons, List.find?_cons]
    by_cases h : a.symbol_index = sym
    · simp [h, hf]
    · have hb : (a.symbol_index == sym) = false := by simpa using h
      simp only [h, if_false, hb]
      exact ih

/-- A write through a pointer leaves the scopes. -/
theorem parser.scope_stack_modify_symbol (p : parser) (sym : Nat) (f : symbol → symbol) :
    (p.modify_symbol sym f).scope_stack_ = p.scope_stack_ := rfl

/-- The symbol that `create_symbol` makes for a name that is not in the current scope: it has
the next index, which was not in the table, and the members given; the number of scopes
stays. -/
theorem parser.create_symbol_new (p : parser) (name : String) (src_pos line : Nat)
    (sym_type : sym_t) (flags : Nat)
    (h : p.scoped_symbol_exists_at_current_scope name = false) :
    (p.create_symbol name src_pos line sym_type flags).1 = some p.next_symbol_index
    ∧ (p.create_symbol name src_pos line sym_type flags).2.lookup_unique_symbol
        p.next_symbol_index
      = some { symbol_index := p.next_symbol_index, name := name, sym_type := sym_type,
               flags := flags, src_pos := src_pos, line_number := line }
    ∧ (p.create_symbol name src_pos line sym_type flags).2.scope_stack_.length
      = p.scope_stack_.length
    ∧ (p.create_symbol name src_pos line sym_type flags).2.inside_parenthesized_expression_
      = p.inside_parenthesized_expression_ := by
  unfold parser.create_symbol
  rw [h]
  rw [if_neg (by simp)]
  refine ⟨rfl, ?_, ?_, rfl⟩
  · unfold parser.lookup_unique_symbol
    simp only []
    rw [List.find?_append]
    have := p.lookup_next_symbol_index
    unfold parser.lookup_unique_symbol at this
    rw [this]
    simp
  · cases hl : p.scope_stack_.getLast? with
    | none => rfl
    | some scope =>
      simp only [List.length_append, List.length_dropLast, List.length_singleton]
      have : p.scope_stack_ ≠ [] := by
        intro h0
        rw [h0] at hl
        simp at hl
      have := List.length_pos.mpr this
      omega

/-- A flag that is a single bit is the test of that bit. -/
theorem has_flag_two_pow (flags i : Nat) : has_flag flags (2 ^ i) = flags.testBit i := by
  unfold has_flag
  rw [Nat.and_two_pow]
  cases flags.testBit i <;> simp

/-- Setting a bit sets its flag. -/
theorem has_flag_or_self (flags i : Nat) : has_flag (flags ||| 2 ^ i) (2 ^ i) = true := by
  rw [has_flag_two_pow, Nat.testBit_or, Nat.testBit_two_pow_self, Bool.or_true]

/-- Setting a bit leaves the other flags. -/
theorem has_flag_or_other (flags i j : Nat) (h : i ≠ j) :
    has_flag (flags ||| 2 ^ j) (2 ^ i) = has_flag flags (2 ^ i) := by
  rw [has_flag_two_pow, has_flag_two_pow, Nat.testBit_or, Nat.testBit_two_pow_of_ne h.symm,
    Bool.or_false]


/-- C26: a redeclaration is rejected.  For every name that exists in the current scope,
`parse_decl` on `name :` or `name ::` returns nothing and raises the redeclaration error at
the position and the line of the identifier token; the parser object is as before, so no
symbol is created, and the lexer is left on the `:` or `::`, whatever follows it: the type is
not examined. -/
theorem parse_decl_rejects_redeclaration (recurse : expr_fn) (fuel : Nat) (p : parser)
    (lxr : lexer) (name colon : Token) (rest : List Token)
    (hname : name.type = .TOKEN_IDENTIFIER)
    (hcolon : colon.type = .TOKEN_TYPE_ASSIGNMENT ∨ colon.type = .TOKEN_CONST_TYPE_ASSIGNMENT)
    (hexists : p.scoped_symbol_exists_at_current_scope (String.mk name.value) = true) :
    parse_decl recurse fuel p { lxr with tokens := name :: colon :: rest }
      = some (none, p,
          { lxr with
            tokens := colon :: rest
            errors := lxr.errors ++
              [{ msg := "Symbol redeclaration, this already exists at the current scope.",
                 pos := name.src_pos, line := name.line }] }) := by
  have hadv : ({ lxr with tokens := name :: colon :: rest } : lexer).advance 1
      = { lxr with tokens := colon :: rest } :=
    lexer_advance_cons lxr name (colon :: rest) (by rw [hname]; decide)
  unfold parse_decl
  simp only [lexer_current_cons, hadv, hname, ne_eq, not_true_eq_false, if_false]
  rw [if_neg (by rcases hcolon with h | h <;> simp [h]), if_pos hexists]
  rfl

/-- C26 (witness): `x :: i32 = 1; x :: i32 = 2;`.  The first declaration, parsed at global
scope, installs `x`; the second one is rejected at the offset 14, the position of its
identifier. -/
theorem parse_decl_rejects_redeclaration_witness :
    parse_decl (parse_expression sample_externals 2) 0 parser_at_global_scope
        (lexer_on src_decl_x_1)
      = some (some (.vardecl { symbol_index := 1 } (some (int_node ['1']))), parser_with_x,
          lexer_on [punct_token .TOKEN_SEMICOLON 12 [';']])
    ∧ parse_decl (parse_expression sample_externals 2) 0 parser_with_x (lexer_on src_decl_x_2)
      = some (none, parser_with_x,
          { lexer_on src_decl_x_2.tail with
            errors :=
              [{ msg := "Symbol redeclaration, this already exists at the current scope.",
                 pos := 14, line := 1 }] }) :=
  ⟨rfl, parse_decl_rejects_redeclaration (parse_expression sample_externals 2) 0 parser_with_x
    (lexer_on []) (ident_token 14 ['x']) (op_token .TOKEN_CONST_TYPE_ASSIGNMENT 16 [':', ':'])
    src_decl_x_2.tail.tail rfl (Or.inr rfl) rfl⟩

/-- C28: a procedure definition needs the global scope and `::`.  Whenever the symbol of the
procedure lacks the flag `global` or the flag `constant`, `parse_procdecl` returns nothing
and raises an error; the parser object is as before, so no scope is pushed, and the tokens
of the lexer are as before, so no token is consumed.  In `parse_decl` the flag `global` is
missing when the scope stack has more than one scope and the flag `constant` when the
declaration is written with `:`: the definition `name : proc ...` or `name :: proc ...` is
then rejected with the lexer left on `proc` and the number of scopes as before. -/
theorem parse_procdecl_requires_global_and_constant (recurse : expr_fn) (fuel : Nat) :
    (∀ (proc : Nat) (p : parser) (lxr : lexer) (s : symbol),
      lxr.current.type = .TOKEN_KW_PROC → p.lookup_unique_symbol proc = some s →
      has_flag s.flags SYM_IS_GLOBAL = false ∨ has_flag s.flags SYM_IS_CONSTANT = false →
      ∃ msg, parse_procdecl recurse fuel proc p lxr = some (none, p, lxr.raise_error msg)
        ∧ (lxr.raise_error msg).tokens = lxr.tokens
        ∧ (lxr.raise_error msg).errors.length = lxr.errors.length + 1)
    ∧ (∀ (p : parser) (lxr : lexer) (name colon type next : Token) (rest : List Token),
      name.type = .TOKEN_IDENTIFIER →
      colon.type = .TOKEN_TYPE_ASSIGNMENT ∨ colon.type = .TOKEN_CONST_TYPE_ASSIGNMENT →
      type.type = .TOKEN_KW_PROC → type.kind = .KIND_TYPE_IDENTIFIER →
      next.type ≠ .TOKEN_BITWISE_XOR_OR_PTR →
      p.scoped_symbol_exists_at_current_scope (String.mk name.value) = false →
      1 < p.scope_stack_.length ∨ colon.type = .TOKEN_TYPE_ASSIGNMENT →
      ∃ p' lxr', parse_decl recurse fuel p
            { lxr with tokens := name :: colon :: type :: next :: rest }
          = some (none, p', lxr')
        ∧ p'.scope_stack_.length = p.scope_stack_.length
        ∧ lxr'.tokens = type :: next :: rest
        ∧ lxr'.errors.length = lxr.errors.length + 1) := by
  have hfirst : ∀ (proc : Nat) (p : parser) (lxr : lexer) (s : symbol),
      lxr.current.type = .TOKEN_KW_PROC → p.lookup_unique_symbol proc = some s →
      has_flag s.flags SYM_IS_GLOBAL = false ∨ has_flag s.flags SYM_IS_CONSTANT = false →
      ∃ msg, parse_procdecl recurse fuel proc p lxr = some (none, p, lxr.raise_error msg)
        ∧ (lxr.raise_error msg).tokens = lxr.tokens
        ∧ (lxr.raise_error msg).errors.length = lxr.errors.length + 1 := by
    intro proc p lxr s hproc hs hflags
    unfold parse_procdecl
    rw [if_neg (by simp [hproc]), hs]
    simp only []
    by_cases hg : has_flag s.flags SYM_IS_GLOBAL = false
    · rw [if_pos hg]
      exact ⟨_, rfl, rfl, by simp [lexer.raise_error, lexer.raise_error_at]⟩
    · rw [if_neg hg]
      have hc : has_flag s.flags SYM_IS_CONSTANT = false := by
        rcases hflags with h | h
        · exact absurd h hg
        · exact h
      rw [if_pos hc]
      exact ⟨_, rfl, rfl, by simp [lexer.raise_error, lexer.raise_error_at]⟩
  refine ⟨hfirst, ?_⟩
  intro p lxr name colon type next rest hname hcolon htype hkind hnext hnew hlacks
  have hcne : colon.type ≠ .TOKEN_END_OF_FILE := by
    rcases hcolon with h | h <;> rw [h] <;> decide
  have hadv1 : ({ lxr with tokens := name :: colon :: type :: next :: rest } : lexer).advance 1
      = { lxr with tokens := colon :: type :: next :: rest } :=
    lexer_advance_cons lxr name _ (by rw [hname]; decide)
  have hadv2 : ({ lxr with tokens := colon :: type :: next :: rest } : lexer).advance 1
      = { lxr with tokens := type :: next :: rest } :=
    lexer_advance_cons lxr colon _ hcne
  have hpeek : ({ lxr with tokens := type :: next :: rest } : lexer).peek 1 = next := by
    unfold lexer.peek
    rw [lexer_advance_cons lxr type _ (by rw [htype]; decide)]
    rfl
  unfold parse_decl
  simp only [lexer_current_cons, hadv1, hadv2, hname, ne_eq, not_true_eq_false, if_false]
  rw [if_neg (by rcases hcolon with h | h <;> simp [h]), hnew]
  simp only [Bool.false_eq_true, if_false, hkind, htype, not_true_eq_false, if_true]
  rw [if_neg (by decide)]
  obtain ⟨hc1, hc2, hc3, _⟩ := parser.create_symbol_new p (String.mk name.value) name.src_pos
    name.line .SYM_PROCEDURE
    (if p.scope_stack_.length ≤ 1 then
      (if colon.type = .TOKEN_CONST_TYPE_ASSIGNMENT then SYM_FLAGS_NONE ||| SYM_IS_CONSTANT
        else SYM_FLAGS_NONE) ||| SYM_IS_GLOBAL
    else
      (if colon.type = .TOKEN_CONST_TYPE_ASSIGNMENT then SYM_FLAGS_NONE ||| SYM_IS_CONSTANT
        else SYM_FLAGS_NONE)) hnew
  generalize hcs : p.create_symbol _ _ _ _ _ = cs at hc1 hc2 hc3 ⊢
  obtain ⟨o, p1⟩ := cs
  simp only [] at hc1 hc2 hc3
  subst hc1
  simp only [hpeek, hnext, if_false]
  have hlack : has_flag (if p.scope_stack_.length ≤ 1 then
      (if colon.type = .TOKEN_CONST_TYPE_ASSIGNMENT then SYM_FLAGS_NONE ||| SYM_IS_CONSTANT
        else SYM_FLAGS_NONE) ||| SYM_IS_GLOBAL
    else
      (if colon.type = .TOKEN_CONST_TYPE_ASSIGNMENT then SYM_FLAGS_NONE ||| SYM_IS_CONSTANT
        else SYM_FLAGS_NONE)) SYM_IS_GLOBAL = false
      ∨ has_flag (if p.scope_stack_.length ≤ 1 then
      (if colon.type = .TOKEN_CONST_TYPE_ASSIGNMENT then SYM_FLAGS_NONE ||| SYM_IS_CONSTANT
        else SYM_FLAGS_NONE) ||| SYM_IS_GLOBAL
    else
      (if colon.type = .TOKEN_CONST_TYPE_ASSIGNMENT then SYM_FLAGS_NONE ||| SYM_IS_CONSTANT
        else SYM_FLAGS_NONE)) SYM_IS_CONSTANT = false := by
    rcases hlacks with h | h
    · left
      rw [if_neg (by omega)]
      split_ifs <;> decide
    · right
      have hne : ¬ colon.type = .TOKEN_CONST_TYPE_ASSIGNMENT := by rw [h]; decide
      simp only [hne, if_false]
      split_ifs <;> decide
  obtain ⟨msg, hr, ht, he⟩ := hfirst p.next_symbol_index p1
    { lxr with tokens := type :: next :: rest } _ (by rw [lexer_current_cons]; exact htype)
    hc2 hlack
  exact ⟨p1, _, hr, hc3, ht, he⟩

/-- C28 (witness): `f : proc () -> void { }` at global scope: the symbol of `f` has the flag
`global` and lacks the flag `constant`. -/
theorem parse_procdecl_requires_global_and_constant_witness :
    ∃ msg, parse_procdecl (parse_expression sample_externals 2) 2 1
        { parser_with [symbol_f_not_constant] with scope_stack_ := [[("f", 1)]] }
        (lexer_on src_proc_void)
      = some (none, { parser_with [symbol_f_not_constant] with scope_stack_ := [[("f", 1)]] },
          (lexer_on src_proc_void).raise_error msg)
      ∧ ((lexer_on src_proc_void).raise_error msg).tokens = (lexer_on src_proc_void).tokens
      ∧ ((lexer_on src_proc_void).raise_error msg).errors.length
          = (lexer_on src_proc_void).errors.length + 1 :=
  (parse_procdecl_requires_global_and_constant (parse_expression sample_externals 2) 2).1 1
    { parser_with [symbol_f_not_constant] with scope_stack_ := [[("f", 1)]] }
    (lexer_on src_proc_void) symbol_f_not_constant rfl rfl (Or.inr rfl)

/-- The type keyword of a primitive type has a primitive type and is none of the tokens the
declaration parser tests for. -/
theorem primitive_type_token_facts {t : Token} (h : primitive_type_token t) :
    t.kind = .KIND_TYPE_IDENTIFIER ∧ token_to_var_t t.type ≠ .VAR_NONE
    ∧ t.type ≠ .TOKEN_END_OF_FILE ∧ t.type ≠ .TOKEN_KW_VOID ∧ t.type ≠ .TOKEN_KW_PROC := by
  obtain ⟨hk, ht⟩ := h
  refine ⟨hk, ?_⟩
  have hall : ∀ ty ∈ spec_primitive_types, token_to_var_t ty ≠ .VAR_NONE
      ∧ ty ≠ .TOKEN_END_OF_FILE ∧ ty ≠ .TOKEN_KW_VOID ∧ ty ≠ .TOKEN_KW_PROC := by decide
  exact hall _ ht

/-- An integer literal in front of a `;`, parsed as a subexpression, is its node, and the
`;` is left. -/
theorem parse_expression_integer_before_semicolon (ext : externals) (k : Nat) (p : parser)
    (lxr : lexer) (n semi : Token) (rest : List Token)
    (hn : n.type = .TOKEN_INTEGER_LITERAL) (hnk : n.kind = .KIND_LITERAL)
    (hsemi : semi.type = .TOKEN_SEMICOLON) (hsemik : semi.kind = .KIND_PUNCTUATOR) :
    parse_expression ext (k + 2) p { lxr with tokens := n :: semi :: rest } true false
      = some (some (.singleton_literal .TOKEN_INTEGER_LITERAL n.value), p,
          { lxr with tokens := semi :: rest }) := by
  have hlit : is_literal n := ⟨hnk, Or.inl hn⟩
  have hnode : literal_node n = some (.singleton_literal .TOKEN_INTEGER_LITERAL n.value) := by
    unfold literal_node
    rw [if_neg (by rw [hn]; decide), hn]
  apply parse_expression_mono ext 2 (k + 2) (by omega)
  by_cases hE : ext.EXPR_NEVER_NEEDS_TERMINAL .NODE_SINGLETON_LITERAL = false
  · exact parse_expression_literal_stop ext p lxr n semi _ rest hE hlit hnode
      ⟨by rw [hsemi]; decide, by rw [hsemi]; decide, by rw [hsemik]; decide⟩
  · have hE' : ext.EXPR_NEVER_NEEDS_TERMINAL .NODE_SINGLETON_LITERAL = true := by
      simpa using hE
    rw [parse_expression, parse_primary_literal ext _ _ p lxr n (semi :: rest) _ hlit hnode]
    simp only []
    unfold parse_after_primary
    rw [if_neg (by rw [lexer_current_cons, hsemi]; decide)]
    rw [if_pos (by exact hE')]

/-- A variable declaration whose type is a primitive type with no pointer marker and no
array suffix, initialized with an integer literal. -/
theorem parse_vardecl_integer_initializer (ext : externals) (k var : Nat) (p : parser)
    (lxr : lexer) (type eq n semi : Token) (rest : List Token)
    (htype : primitive_type_token type) (heq : eq.type = .TOKEN_VALUE_ASSIGNMENT)
    (hn : n.type = .TOKEN_INTEGER_LITERAL) (hnk : n.kind = .KIND_LITERAL)
    (hsemi : semi.type = .TOKEN_SEMICOLON) (hsemik : semi.kind = .KIND_PUNCTUATOR) :
    parse_vardecl (parse_expression ext (k + 2)) var p
        { lxr with tokens := type :: eq :: n :: semi :: rest }
      = some (some (.vardecl { symbol_index := var }
            (some (.singleton_literal .TOKEN_INTEGER_LITERAL n.value))),
          p.modify_symbol var (fun s => { s with variable_type := token_to_var_t type.type }),
          { lxr with tokens := semi :: rest }) := by
  obtain ⟨hk, hv, hne, _, _⟩ := primitive_type_token_facts htype
  have hadv1 : ({ lxr with tokens := type :: eq :: n :: semi :: rest } : lexer).advance 1
      = { lxr with tokens := eq :: n :: semi :: rest } := lexer_advance_cons lxr type _ hne
  have hadv2 : ({ lxr with tokens := eq :: n :: semi :: rest } : lexer).advance 1
      = { lxr with tokens := n :: semi :: rest } :=
    lexer_advance_cons lxr eq _ (by rw [heq]; decide)
  unfold parse_vardecl
  simp only [lexer_current_cons, hadv1, hk, ne_eq, not_true_eq_false, if_false, hv, heq]
  rw [if_neg (by decide)]
  simp only [parse_array_suffix, lexer_current_cons, heq]
  rw [if_neg (by decide)]
  simp only [parse_initializer, lexer_current_cons, heq, if_true, hadv2]
  rw [parse_expression_integer_before_semicolon ext k _ lxr n semi rest hn hnk hsemi hsemik]
  rfl

/-- C25: a constant with an initializer at global scope.  For every identifier `x` that is
not declared in the current scope, every type keyword `T` of a primitive type and every
integer literal `n`, `parse_decl` on `x :: T = n;`, with at most one scope on the stack,
returns a `VarDecl` and leaves the `;`.  The identifier of the node refers to a symbol that
was not in the table before: a variable named `x`, of the type of `T`, with the flags
`global` and `constant` and without the flag `default_initialized`.  The initializer is the
singleton literal whose value is the lexeme of `n`. -/
theorem parse_decl_global_constant_with_initializer (ext : externals) (k fuel : Nat)
    (p : parser) (lxr : lexer) (x colon type eq n semi : Token) (rest : List Token)
    (hx : x.type = .TOKEN_IDENTIFIER) (hcolon : colon.type = .TOKEN_CONST_TYPE_ASSIGNMENT)
    (htype : primitive_type_token type) (heq : eq.type = .TOKEN_VALUE_ASSIGNMENT)
    (hn : n.type = .TOKEN_INTEGER_LITERAL) (hnk : n.kind = .KIND_LITERAL)
    (hsemi : semi.type = .TOKEN_SEMICOLON) (hsemik : semi.kind = .KIND_PUNCTUATOR)
    (hglobal : p.scope_stack_.length ≤ 1)
    (hnew : p.scoped_symbol_exists_at_current_scope (String.mk x.value) = false) :
    ∃ p' s,
      parse_decl (parse_expression ext (k + 2)) fuel p
          { lxr with tokens := x :: colon :: type :: eq :: n :: semi :: rest }
        = some (some (.vardecl { symbol_index := p.next_symbol_index }
              (some (.singleton_literal .TOKEN_INTEGER_LITERAL n.value))),
            p', { lxr with tokens := semi :: rest })
      ∧ p.lookup_unique_symbol p.next_symbol_index = none
      ∧ p'.lookup_unique_symbol p.next_symbol_index = some s
      ∧ s.name = String.mk x.value ∧ s.sym_type = .SYM_VARIABLE
      ∧ s.variable_type = token_to_var_t type.type
      ∧ has_flag s.flags SYM_IS_GLOBAL = true ∧ has_flag s.flags SYM_IS_CONSTANT = true
      ∧ has_flag s.flags SYM_DEFAULT_INITIALIZED = false := by
  obtain ⟨hk, hv, hne, hvoid, hproc⟩ := primitive_type_token_facts htype
  have hadv1 : ({ lxr with tokens := x :: colon :: type :: eq :: n :: semi :: rest } :
      lexer).advance 1 = { lxr with tokens := colon :: type :: eq :: n :: semi :: rest } :=
    lexer_advance_cons lxr x _ (by rw [hx]; decide)
  have hadv2 : ({ lxr with tokens := colon :: type :: eq :: n :: semi :: rest } :
      lexer).advance 1 = { lxr with tokens := type :: eq :: n :: semi :: rest } :=
    lexer_advance_cons lxr colon _ (by rw [hcolon]; decide)
  obtain ⟨hc1, hc2, _, _⟩ := parser.create_symbol_new p (String.mk x.value) x.src_pos x.line
    .SYM_VARIABLE (SYM_FLAGS_NONE ||| SYM_IS_CONSTANT ||| SYM_IS_GLOBAL) hnew
  unfold parse_decl
  simp only [lexer_current_cons, hadv1, hadv2, hx, hcolon, ne_eq, not_true_eq_false, if_false,
    false_and, hnew, Bool.false_eq_true, hk, hvoid, hproc, hglobal, if_true]
  generalize hcs : p.create_symbol _ _ _ _ _ = cs at hc1 hc2 ⊢
  obtain ⟨o, p1⟩ := cs
  simp only [] at hc1 hc2
  subst hc1
  simp only []
  rw [parse_vardecl_integer_initializer ext k _ p1 lxr type eq n semi rest htype heq hn hnk
    hsemi hsemik]
  refine ⟨_,
    { symbol_index := p.next_symbol_index, name := String.mk x.value, sym_type := .SYM_VARIABLE,
      flags := SYM_FLAGS_NONE ||| SYM_IS_CONSTANT ||| SYM_IS_GLOBAL, src_pos := x.src_pos,
      line_number := x.line, variable_type := token_to_var_t type.type },
    rfl, p.lookup_next_symbol_index, ?_, ?_⟩
  · rw [parser.lookup_modify_symbol p1 p.next_symbol_index
      (fun s => { s with variable_type := token_to_var_t type.type }) (fun _ => rfl), hc2]
    rfl
  · have h1 : has_flag (SYM_FLAGS_NONE ||| SYM_IS_CONSTANT ||| SYM_IS_GLOBAL) SYM_IS_GLOBAL
        = true := by decide
    have h2 : has_flag (SYM_FLAGS_NONE ||| SYM_IS_CONSTANT ||| SYM_IS_GLOBAL) SYM_IS_CONSTANT
        = true := by decide
    have h3 : has_flag (SYM_FLAGS_NONE ||| SYM_IS_CONSTANT ||| SYM_IS_GLOBAL)
        SYM_DEFAULT_INITIALIZED = false := by decide
    exact ⟨rfl, rfl, rfl, h1, h2, h3⟩

/-- C25 (witness): scenario S1, `x :: i32 = 42;` at global scope: the initializer has the
value `42`. -/
theorem parse_decl_global_constant_with_initializer_witness :
    ∃ p' s,
      parse_decl (parse_expression sample_externals 2) 0 parser_at_global_scope
          (lexer_on S1_tokens)
        = some (some (.vardecl { symbol_index := 1 } (some (int_node ['4', '2']))), p',
            lexer_on [punct_token .TOKEN_SEMICOLON 13 [';']])
      ∧ parser_at_global_scope.lookup_unique_symbol 1 = none
      ∧ p'.lookup_unique_symbol 1 = some s
      ∧ s.name = "x" ∧ s.sym_type = .SYM_VARIABLE ∧ s.variable_type = .VAR_I32
      ∧ has_flag s.flags SYM_IS_GLOBAL = true ∧ has_flag s.flags SYM_IS_CONSTANT = true
      ∧ has_flag s.flags SYM_DEFAULT_INITIALIZED = false :=
  parse_decl_global_constant_with_initializer sample_externals 0 0 parser_at_global_scope
    (lexer_on []) (ident_token 0 ['x']) (op_token .TOKEN_CONST_TYPE_ASSIGNMENT 2 [':', ':'])
    (type_token .TOKEN_KW_I32 5 ['i', '3', '2']) (op_token .TOKEN_VALUE_ASSIGNMENT 9 ['='])
    (int_token 11 ['4', '2']) (punct_token .TOKEN_SEMICOLON 13 [';']) [] rfl rfl
    ⟨rfl, by decide⟩ rfl rfl rfl rfl rfl (by decide) rfl

/-- The code of a decimal digit. -/
theorem isDigit_toNat (c : Char) (h : c.isDigit = true) : 48 ≤ c.toNat ∧ c.toNat ≤ 57 := by
  unfold Char.isDigit at h
  simp only [Bool.and_eq_true, decide_eq_true_eq] at h
  obtain ⟨h1, h2⟩ := h
  rw [ge_iff_le, UInt32.le_def] at h1
  rw [UInt32.le_def] at h2
  exact ⟨h1, h2⟩

/-- A decimal digit is no white space and no sign. -/
theorem isDigit_not_space (c : Char) (h : c.isDigit = true) :
    stoul_space c = false ∧ c ≠ '-' ∧ c ≠ '+' := by
  have hd := isDigit_toNat c h
  refine ⟨?_, ?_, ?_⟩
  · unfold stoul_space
    simp only [decide_eq_false_iff_not, not_or, not_and, not_le]
    constructor
    · intro hc
      rw [hc] at hd
      revert hd
      decide
    · intro _
      omega
  · intro hc
    rw [hc] at hd
    revert hd
    decide
  · intro hc
    rw [hc] at hd
    revert hd
    decide

/-- `std::stoul` on a string of decimal digits. -/
theorem stoul_digits (str : List Char) (hne : str ≠ []) (hd : ∀ c ∈ str, c.isDigit = true) :
    stoul str = if decimal_value str ≥ 2 ^ 64 then .out_of_range
      else .value (decimal_value str) := by
  cases str with
  | nil => exact absurd rfl hne
  | cons c t =>
    obtain ⟨h1, h2, h3⟩ := isDigit_not_space c (hd c (by simp))
    have htw : (c :: t).takeWhile Char.isDigit = c :: t := by
      rw [List.takeWhile_eq_self_iff]
      exact hd
    unfold stoul
    simp only [List.dropWhile_cons, h1, Bool.false_eq_true, if_false, List.head?_cons,
      Option.some.injEq, h2, h3, or_self, htw, decide_False]
    simp

/-- `parse_vardecl` on a primitive type without pointer marker: the type is written to the
symbol, then the array suffix and the initializer are parsed. -/
theorem parse_vardecl_no_pointer (recurse : expr_fn) (var : Nat) (p : parser) (lxr : lexer)
    (type next : Token) (rest : List Token) (htype : primitive_type_token type)
    (hnext : next.type ≠ .TOKEN_BITWISE_XOR_OR_PTR) :
    parse_vardecl recurse var p { lxr with tokens := type :: next :: rest }
      = match parse_array_suffix var
            (p.modify_symbol var
              (fun s => { s with variable_type := token_to_var_t type.type }))
            { lxr with tokens := next :: rest } with
        | (false, p3, lxr3) => some (none, p3, lxr3)
        | (true, p3, lxr3) => parse_initializer recurse var p3 lxr3 := by
  obtain ⟨hk, hv, hne, _, _⟩ := primitive_type_token_facts htype
  have hadv1 : ({ lxr with tokens := type :: next :: rest } : lexer).advance 1
      = { lxr with tokens := next :: rest } := lexer_advance_cons lxr type _ hne
  unfold parse_vardecl
  simp only [lexer_current_cons, hadv1, hk, ne_eq, not_true_eq_false, if_false, hv, hnext]
  try rfl

/-- Without `=` the declaration has no initializer: the node is returned and the symbol gets
the flag `default_initialized`. -/
theorem parse_initializer_absent (recurse : expr_fn) (sym : Nat) (p : parser) (lxr : lexer)
    (h : lxr.current.type ≠ .TOKEN_VALUE_ASSIGNMENT) :
    parse_initializer recurse sym p lxr
      = some (some (.vardecl { symbol_index := sym } none),
          p.modify_symbol sym
            (fun s => { s with flags := s.flags ||| SYM_DEFAULT_INITIALIZED }),
          lxr) := by
  unfold parse_initializer
  rw [if_neg h]

/-- The array suffix `[N]` with a decimal literal `N`. -/
theorem parse_array_suffix_literal (sym : Nat) (p : parser) (lxr : lexer)
    (lb N rb : Token) (rest : List Token) (n : Nat)
    (hlb : lb.type = .TOKEN_LSQUARE_BRACKET) (hN : spec_integer_literal N n)
    (hrb : rb.type = .TOKEN_RSQUARE_BRACKET) :
    parse_array_suffix sym p { lxr with tokens := lb :: N :: rb :: rest }
      = if 2 ^ 64 ≤ n then
          (false, p.modify_symbol sym (fun s => { s with flags := s.flags ||| SYM_IS_ARRAY }),
            ({ lxr with tokens := N :: rb :: rest } : lexer).raise_error
              "Array size is too large.")
        else if n = 0 then
          (false,
            (p.modify_symbol sym
              (fun s => { s with flags := s.flags ||| SYM_IS_ARRAY })).modify_symbol sym
              (fun s => { s with array_length := n }),
            ({ lxr with tokens := N :: rb :: rest } : lexer).raise_error
              "Array length cannot be 0.")
        else
          (true,
            (p.modify_symbol sym
              (fun s => { s with flags := s.flags ||| SYM_IS_ARRAY })).modify_symbol sym
              (fun s => { s with array_length := n }),
            { lxr with tokens := rest }) := by
  obtain ⟨hNt, _, hne, hdig, hval⟩ := hN
  have hadv1 : ({ lxr with tokens := lb :: N :: rb :: rest } : lexer).advance 1
      = { lxr with tokens := N :: rb :: rest } :=
    lexer_advance_cons lxr lb _ (by rw [hlb]; decide)
  have hadv2 : ({ lxr with tokens := N :: rb :: rest } : lexer).advance 1
      = { lxr with tokens := rb :: rest } :=
    lexer_advance_cons lxr N _ (by rw [hNt]; decide)
  have hadv3 : ({ lxr with tokens := rb :: rest } : lexer).advance 1
      = { lxr with tokens := rest } :=
    lexer_advance_cons lxr rb _ (by rw [hrb]; decide)
  unfold parse_array_suffix
  simp only [lexer_current_cons, hlb, if_true, hadv1, hNt, stoul_digits N.value hne hdig, hval]
  by_cases hbig : 2 ^ 64 ≤ n
  · rw [if_pos hbig, if_pos hbig]
  · rw [if_neg hbig, if_neg hbig]
    simp only []
    by_cases h0 : n = 0
    · rw [if_pos h0, if_pos h0]
    · rw [if_neg h0, if_neg h0]
      simp only [hadv2, lexer_current_cons, hrb, ne_eq, not_true_eq_false, if_false, hadv3]

/-- C27 (counterexample): `x : i32 [18446744073709551616];`.  The literal denotes `2 ^ 64`,
which is not 0, and `parse_vardecl` returns nothing, with the error of a length that is too
large: the length of the symbol is not set. -/
theorem parse_vardecl_array_length_counterexample :
    spec_integer_literal
      (int_token 9 ['1', '8', '4', '4', '6', '7', '4', '4', '0', '7', '3', '7', '0', '9', '5', '5',
        '1', '6', '1', '6']) (2 ^ 64)
    ∧ parse_vardecl (parse_expression sample_externals 2) 1 parser_with_x_new
        (lexer_on src_array_two_pow_64)
      = some (none,
          { parser_with [{ symbol_x_new with
              flags := SYM_IS_GLOBAL ||| SYM_IS_ARRAY, variable_type := .VAR_I32 }] with
            scope_stack_ := [[("x", 1)]] },
          { lexer_on src_array_two_pow_64.tail.tail with
            errors := [{ msg := "Array size is too large.", pos := 9, line := 1 }] }) := by
  refine ⟨⟨rfl, rfl, by decide, by decide, by decide⟩, ?_⟩
  rfl

/-- C27 (amended): the array suffix of a variable declaration without initializer.  The
symbol of the declaration is in the table, with the length 0 and without the flag `array`,
as `create_symbol` leaves it.  On `T [N]` with a decimal literal `N`, `parse_vardecl` returns
nothing and raises an error when `N` denotes 0, and also when `N` denotes `2 ^ 64` or more;
otherwise it returns the node, and the symbol has the flag `array` and the length `N`.  On
`T []` it returns the node, and the symbol has the flag `array` and the length 0.  With no
bracket after `T` it returns the node and the symbol does not have the flag `array`. -/
theorem parse_vardecl_array_suffix (recurse : expr_fn) (var : Nat) (p : parser) (lxr : lexer)
    (s : symbol) (type : Token) (htype : primitive_type_token type)
    (hs : p.lookup_unique_symbol var = some s) (hlen : s.array_length = 0)
    (harr : has_flag s.flags SYM_IS_ARRAY = false) :
    (∀ (lb N rb next : Token) (rest : List Token) (n : Nat),
      lb.type = .TOKEN_LSQUARE_BRACKET → spec_integer_literal N n →
      rb.type = .TOKEN_RSQUARE_BRACKET → next.type ≠ .TOKEN_VALUE_ASSIGNMENT →
      (n = 0 → ∃ p',
        parse_vardecl recurse var p { lxr with tokens := type :: lb :: N :: rb :: next :: rest }
          = some (none, p',
              { lxr with
                tokens := N :: rb :: next :: rest
                errors := lxr.errors ++
                  [{ msg := "Array length cannot be 0.", pos := N.src_pos, line := N.line }] }))
      ∧ (2 ^ 64 ≤ n → ∃ p',
        parse_vardecl recurse var p { lxr with tokens := type :: lb :: N :: rb :: next :: rest }
          = some (none, p',
              { lxr with
                tokens := N :: rb :: next :: rest
                errors := lxr.errors ++
                  [{ msg := "Array size is too large.", pos := N.src_pos, line := N.line }] }))
      ∧ (0 < n → n < 2 ^ 64 → ∃ p' s',
        parse_vardecl recurse var p { lxr with tokens := type :: lb :: N :: rb :: next :: rest }
          = some (some (.vardecl { symbol_index := var } none), p',
              { lxr with tokens := next :: rest })
        ∧ p'.lookup_unique_symbol var = some s'
        ∧ has_flag s'.flags SYM_IS_ARRAY = true ∧ s'.array_length = n))
    ∧ (∀ (lb rb next : Token) (rest : List Token),
      lb.type = .TOKEN_LSQUARE_BRACKET → rb.type = .TOKEN_RSQUARE_BRACKET →
      next.type ≠ .TOKEN_VALUE_ASSIGNMENT → ∃ p' s',
        parse_vardecl recurse var p { lxr with tokens := type :: lb :: rb :: next :: rest }
          = some (some (.vardecl { symbol_index := var } none), p',
              { lxr with tokens := next :: rest })
        ∧ p'.lookup_unique_symbol var = some s'
        ∧ has_flag s'.flags SYM_IS_ARRAY = true ∧ s'.array_length = 0)
    ∧ (∀ (next : Token) (rest : List Token),
      next.type ≠ .TOKEN_BITWISE_XOR_OR_PTR → next.type ≠ .TOKEN_LSQUARE_BRACKET →
      next.type ≠ .TOKEN_VALUE_ASSIGNMENT → ∃ p' s',
        parse_vardecl recurse var p { lxr with tokens := type :: next :: rest }
          = some (some (.vardecl { symbol_index := var } none), p',
              { lxr with tokens := next :: rest })
        ∧ p'.lookup_unique_symbol var = some s'
        ∧ has_flag s'.flags SYM_IS_ARRAY = false) := by
  have e8 : SYM_IS_ARRAY = 2 ^ 3 := rfl
  have e32 : SYM_DEFAULT_INITIALIZED = 2 ^ 5 := rfl
  have hlb_ne : ∀ lb : Token, lb.type = .TOKEN_LSQUARE_BRACKET →
      lb.type ≠ .TOKEN_BITWISE_XOR_OR_PTR := by
    intro lb h
    rw [h]
    decide
  refine ⟨?_, ?_, ?_⟩
  · intro lb N rb next rest n hlb hN hrb hnext
    have hsuf := parse_array_suffix_literal var
      (p.modify_symbol var (fun s => { s with variable_type := token_to_var_t type.type })) lxr
      lb N rb (next :: rest) n hlb hN hrb
    rw [parse_vardecl_no_pointer recurse var p lxr type lb _ htype (hlb_ne lb hlb), hsuf]
    refine ⟨?_, ?_, ?_⟩
    · intro h0
      rw [if_neg (by omega), if_pos h0]
      exact ⟨_, rfl⟩
    · intro hbig
      rw [if_pos hbig]
      exact ⟨_, rfl⟩
    · intro hpos hlt
      rw [if_neg (by omega), if_neg (by omega)]
      simp only []
      rw [parse_initializer_absent recurse var _ _ (by rw [lexer_current_cons]; exact hnext)]
      refine ⟨_,
        { s with
          variable_type := token_to_var_t type.type
          flags := s.flags ||| SYM_IS_ARRAY ||| SYM_DEFAULT_INITIALIZED
          array_length := n }, rfl, ?_, ?_, ?_⟩
      · rw [parser.lookup_modify_symbol _ var
            (fun s => { s with flags := s.flags ||| SYM_DEFAULT_INITIALIZED }) (fun _ => rfl),
          parser.lookup_modify_symbol _ var (fun s => { s with array_length := n })
            (fun _ => rfl),
          parser.lookup_modify_symbol _ var
            (fun s => { s with flags := s.flags ||| SYM_IS_ARRAY }) (fun _ => rfl),
          parser.lookup_modify_symbol _ var
            (fun s => { s with variable_type := token_to_var_t type.type }) (fun _ => rfl), hs]
        rfl
      · show has_flag (s.flags ||| SYM_IS_ARRAY ||| SYM_DEFAULT_INITIALIZED) SYM_IS_ARRAY = true
        rw [e8, e32, has_flag_or_other _ 3 5 (by decide), has_flag_or_self]
      · rfl
  · intro lb rb next rest hlb hrb hnext
    have hadv1 : ({ lxr with tokens := lb :: rb :: next :: rest } : lexer).advance 1
        = { lxr with tokens := rb :: next :: rest } :=
      lexer_advance_cons lxr lb _ (by rw [hlb]; decide)
    have hadv2 : ({ lxr with tokens := rb :: next :: rest } : lexer).advance 1
        = { lxr with tokens := next :: rest } :=
      lexer_advance_cons lxr rb _ (by rw [hrb]; decide)
    rw [parse_vardecl_no_pointer recurse var p lxr type lb _ htype (hlb_ne lb hlb)]
    unfold parse_array_suffix
    simp only [lexer_current_cons, hlb, if_true, hadv1, hrb, ne_eq, not_true_eq_false, if_false,
      hadv2]
    rw [if_neg (by decide)]
    simp only []
    rw [parse_initializer_absent recurse var _ _ (by rw [lexer_current_cons]; exact hnext)]
    refine ⟨_,
      { s with
        variable_type := token_to_var_t type.type
        flags := s.flags ||| SYM_IS_ARRAY ||| SYM_DEFAULT_INITIALIZED }, rfl, ?_, ?_, ?_⟩
    · rw [parser.lookup_modify_symbol _ var
          (fun s => { s with flags := s.flags ||| SYM_DEFAULT_INITIALIZED }) (fun _ => rfl),
        parser.lookup_modify_symbol _ var
          (fun s => { s with flags := s.flags ||| SYM_IS_ARRAY }) (fun _ => rfl),
        parser.lookup_modify_symbol _ var
          (fun s => { s with variable_type := token_to_var_t type.type }) (fun _ => rfl), hs]
      rfl
    · show has_flag (s.flags ||| SYM_IS_ARRAY ||| SYM_DEFAULT_INITIALIZED) SYM_IS_ARRAY = true
      rw [e8, e32, has_flag_or_other _ 3 5 (by decide), has_flag_or_self]
    · exact hlen
  · intro next rest hn1 hn2 hn3
    rw [parse_vardecl_no_pointer recurse var p lxr type next _ htype hn1]
    unfold parse_array_suffix
    simp only [lexer_current_cons, hn2, if_false]
    rw [parse_initializer_absent recurse var _ _ (by rw [lexer_current_cons]; exact hn3)]
    refine ⟨_,
      { s with
        variable_type := token_to_var_t type.type
        flags := s.flags ||| SYM_DEFAULT_INITIALIZED }, rfl, ?_, ?_⟩
    · rw [parser.lookup_modify_symbol _ var
          (fun s => { s with flags := s.flags ||| SYM_DEFAULT_INITIALIZED }) (fun _ => rfl),
        parser.lookup_modify_symbol _ var
          (fun s => { s with variable_type := token_to_var_t type.type }) (fun _ => rfl), hs]
      rfl
    · show has_flag (s.flags ||| SYM_DEFAULT_INITIALIZED) SYM_IS_ARRAY = false
      rw [e8, e32, has_flag_or_other _ 3 5 (by decide), ← e8]
      exact harr

/-- C27 (witness): `x : i32 [16];`. -/
theorem parse_vardecl_array_suffix_witness :
    ∃ p' s',
      parse_vardecl (parse_expression sample_externals 2) 1 parser_with_x_new
          (lexer_on src_array_16)
        = some (some (.vardecl { symbol_index := 1 } none), p',
            lexer_on [punct_token .TOKEN_SEMICOLON 12 [';']])
      ∧ p'.lookup_unique_symbol 1 = some s'
      ∧ has_flag s'.flags SYM_IS_ARRAY = true ∧ s'.array_length = 16 :=
  ((parse_vardecl_array_suffix (parse_expression sample_externals 2) 1 parser_with_x_new
    (lexer_on []) symbol_x_new (type_token .TOKEN_KW_I32 4 ['i', '3', '2']) ⟨rfl, by decide⟩
    rfl rfl (by decide)).1
    (punct_token .TOKEN_LSQUARE_BRACKET 8 ['[']) (int_token 9 ['1', '6'])
    (punct_token .TOKEN_RSQUARE_BRACKET 11 [']']) (punct_token .TOKEN_SEMICOLON 12 [';']) [] 16
    rfl ⟨rfl, rfl, by decide, by decide, by decide⟩ rfl (by decide)).2.2 (by decide) (by decide)

/-- The loop over the pointer markers of a parameter counts them modulo `2 ^ 16`. -/
theorem parse_parameterized_vardecl_depth_eq (lxr : lexer) (next : Token) (rest : List Token)
    (hnext : next.type ≠ .TOKEN_BITWISE_XOR_OR_PTR) :
    ∀ (carets : List Token) (fuel ptr_depth : Nat),
      (∀ c ∈ carets, c.type = .TOKEN_BITWISE_XOR_OR_PTR) → carets.length < fuel →
      ptr_depth < 65536 →
      parse_parameterized_vardecl_depth fuel ptr_depth
          { lxr with tokens := carets ++ next :: rest }
        = ((ptr_depth + carets.length) % 65536, { lxr with tokens := next :: rest }) := by
  intro carets
  induction carets with
  | nil =>
    intro fuel d _ hf hd
    cases fuel with
    | zero => omega
    | succ fuel =>
      simp only [parse_parameterized_vardecl_depth, List.nil_append, lexer_current_cons, hnext,
        if_false, List.length_nil, Nat.add_zero, Nat.mod_eq_of_lt hd]
  | cons c cs ih =>
    intro fuel d hc hf hd
    cases fuel with
    | zero => simp at hf
    | succ fuel =>
      have hct : c.type = .TOKEN_BITWISE_XOR_OR_PTR := hc c (by simp)
      have hadv : ({ lxr with tokens := c :: (cs ++ next :: rest) } : lexer).advance 1
          = { lxr with tokens := cs ++ next :: rest } :=
        lexer_advance_cons lxr c _ (by rw [hct]; decide)
      simp only [parse_parameterized_vardecl_depth, List.cons_append, lexer_current_cons, hct,
        if_true, hadv]
      rw [ih fuel (incr16 d) (fun x hx => hc x (by simp [hx])) (by simp at hf; omega)
        (Nat.mod_lt _ (by norm_num))]
      simp only [incr16, List.length_cons]
      congr 1
      omega

/-- A flag set by `parse_parameterized_vardecl`. -/
theorem parameter_flags (constant pointer : Prop) [Decidable constant] [Decidable pointer] :
    has_flag
        (if pointer then
          (if constant then SYM_IS_PROCARG ||| SYM_IS_CONSTANT else SYM_IS_PROCARG)
            ||| SYM_IS_POINTER
        else if constant then SYM_IS_PROCARG ||| SYM_IS_CONSTANT else SYM_IS_PROCARG)
        SYM_IS_PROCARG = true
    ∧ (has_flag
        (if pointer then
          (if constant then SYM_IS_PROCARG ||| SYM_IS_CONSTANT else SYM_IS_PROCARG)
            ||| SYM_IS_POINTER
        else if constant then SYM_IS_PROCARG ||| SYM_IS_CONSTANT else SYM_IS_PROCARG)
        SYM_IS_POINTER = true ↔ pointer) := by
  by_cases hp : pointer <;> by_cases hc : constant <;> simp [hp, hc] <;> decide

/-- A parameter that `parse_parameterized_vardecl` accepts: a name that is new in the current
scope, `:` or `::`, the keyword of a primitive type, pointer markers, and then a token that is
neither a marker nor `[`.  The symbol of the parameter is new; its depth is the number of the
markers modulo `2 ^ 16`. -/
theorem parse_parameterized_vardecl_accepted (p : parser) (lxr : lexer)
    (name colon type next : Token) (carets rest : List Token)
    (hname : name.type = .TOKEN_IDENTIFIER)
    (hcolon : colon.type = .TOKEN_TYPE_ASSIGNMENT ∨ colon.type = .TOKEN_CONST_TYPE_ASSIGNMENT)
    (htype : primitive_type_token type)
    (hcarets : ∀ c ∈ carets, c.type = .TOKEN_BITWISE_XOR_OR_PTR)
    (hnext : next.type ≠ .TOKEN_BITWISE_XOR_OR_PTR) (hnext2 : next.type ≠ .TOKEN_LSQUARE_BRACKET)
    (hnew : p.scoped_symbol_exists_at_current_scope (String.mk name.value) = false) :
    ∃ p' s,
      parse_parameterized_vardecl p
          { lxr with tokens := name :: colon :: type :: (carets ++ next :: rest) }
        = some (some (.vardecl { symbol_index := p.next_symbol_index } none), p',
            { lxr with tokens := next :: rest })
      ∧ p.lookup_unique_symbol p.next_symbol_index = none
      ∧ p'.lookup_unique_symbol p.next_symbol_index = some s
      ∧ p'.scope_stack_.length = p.scope_stack_.length
      ∧ s.name = String.mk name.value ∧ s.sym_type = .SYM_VARIABLE
      ∧ s.variable_type = token_to_var_t type.type
      ∧ has_flag s.flags SYM_IS_PROCARG = true ∧ s.array_length = 0
      ∧ s.pointer_depth = carets.length % 65536
      ∧ (has_flag s.flags SYM_IS_POINTER = true ↔ 0 < carets.length) := by
  obtain ⟨hk, hv, hne, hvoid, hproc⟩ := primitive_type_token_facts htype
  have hcne : colon.type ≠ .TOKEN_END_OF_FILE := by
    rcases hcolon with h | h <;> rw [h] <;> decide
  have hadv1 : ({ lxr with tokens := name :: colon :: type :: (carets ++ next :: rest) } :
      lexer).advance 1 = { lxr with tokens := colon :: type :: (carets ++ next :: rest) } :=
    lexer_advance_cons lxr name _ (by rw [hname]; decide)
  have hadv2 : ({ lxr with tokens := colon :: type :: (carets ++ next :: rest) } :
      lexer).advance 1 = { lxr with tokens := type :: (carets ++ next :: rest) } :=
    lexer_advance_cons lxr colon _ hcne
  have hadv3 : ({ lxr with tokens := type :: (carets ++ next :: rest) } :
      lexer).advance 1 = { lxr with tokens := carets ++ next :: rest } :=
    lexer_advance_cons lxr type _ hne
  have hloop := parse_parameterized_vardecl_depth_eq lxr next rest hnext carets
    ((carets ++ next :: rest).length + 1) 0 hcarets (by simp; omega) (by norm_num)
  have hhead : (({ lxr with tokens := carets ++ next :: rest } : lexer).current.type
      = .TOKEN_BITWISE_XOR_OR_PTR) ↔ 0 < carets.length := by
    cases carets with
    | nil => simp [lexer.current, hnext]
    | cons c cs => simp [lexer.current, hcarets c (by simp)]
  obtain ⟨hf1, hf2⟩ := parameter_flags (colon.type = .TOKEN_CONST_TYPE_ASSIGNMENT)
    (({ lxr with tokens := carets ++ next :: rest } : lexer).current.type
      = .TOKEN_BITWISE_XOR_OR_PTR)
  obtain ⟨hc1, hc2, hc3, _⟩ := parser.create_symbol_new p (String.mk name.value) name.src_pos
    name.line .SYM_VARIABLE
    (if ({ lxr with tokens := carets ++ next :: rest } : lexer).current.type
        = .TOKEN_BITWISE_XOR_OR_PTR then
      (if colon.type = .TOKEN_CONST_TYPE_ASSIGNMENT then SYM_IS_PROCARG ||| SYM_IS_CONSTANT
        else SYM_IS_PROCARG) ||| SYM_IS_POINTER
    else if colon.type = .TOKEN_CONST_TYPE_ASSIGNMENT then SYM_IS_PROCARG ||| SYM_IS_CONSTANT
      else SYM_IS_PROCARG) hnew
  unfold parse_parameterized_vardecl
  simp only [lexer_current_cons, hadv1, hadv2, hadv3, hname, ne_eq, not_true_eq_false, if_false,
    hk, hvoid, hproc, hv]
  rw [if_neg (by rcases hcolon with h | h <;> simp [h])]
  simp only [Nat.zero_add] at hloop
  simp only [show ({ lxr with tokens := carets ++ next :: rest } : lexer).tokens
    = carets ++ next :: rest from rfl, hloop, lexer_current_cons, hnext2, if_false, hnew,
    Bool.false_eq_true]
  generalize hcs : p.create_symbol _ _ _ _ _ = cs at hc1 hc2 hc3 ⊢
  obtain ⟨o, p1⟩ := cs
  simp only [] at hc1 hc2 hc3
  subst hc1
  simp only []
  refine ⟨_,
    { symbol_index := p.next_symbol_index, name := String.mk name.value,
      sym_type := .SYM_VARIABLE,
      flags :=
        if ({ lxr with tokens := carets ++ next :: rest } : lexer).current.type
            = .TOKEN_BITWISE_XOR_OR_PTR then
          (if colon.type = .TOKEN_CONST_TYPE_ASSIGNMENT then SYM_IS_PROCARG ||| SYM_IS_CONSTANT
            else SYM_IS_PROCARG) ||| SYM_IS_POINTER
        else if colon.type = .TOKEN_CONST_TYPE_ASSIGNMENT then
          SYM_IS_PROCARG ||| SYM_IS_CONSTANT
        else SYM_IS_PROCARG,
      src_pos := name.src_pos, line_number := name.line,
      variable_type := token_to_var_t type.type, pointer_depth := carets.length % 65536,
      array_length := 0 },
    rfl, p.lookup_next_symbol_index, ?_, ?_, rfl, rfl, rfl, hf1, rfl, rfl, ?_⟩
  · rw [parser.lookup_modify_symbol p1 p.next_symbol_index
      (fun s =>
        { s with
          array_length := 0, pointer_depth := carets.length % 65536,
          variable_type := token_to_var_t type.type }) (fun _ => rfl), hc2]
    rfl
  · exact hc3
  · exact hf2.trans hhead

/-- An error adds one diagnostic. -/
theorem lexer.raise_error_length (lxr : lexer) (msg : String) :
    (lxr.raise_error msg).errors.length = lxr.errors.length + 1 := by
  simp [lexer.raise_error, lexer.raise_error_at]

/-- C29 (counterexample): the parameter `a : i32` followed by 65536 pointer markers is
accepted, with the flag `pointer`, and the depth of its symbol is 0: the counter of the
markers is a `uint16_t`. -/
theorem parse_parameterized_vardecl_depth_counterexample :
    (List.replicate 65536 (caret_token 7)).length = 65536
    ∧ ∃ p' s,
      parse_parameterized_vardecl parser_at_global_scope
          (lexer_on (src_parameter_with_markers 65536))
        = some (some (.vardecl { symbol_index := 1 } none), p',
            lexer_on [punct_token .TOKEN_RPAREN 8 [')']])
      ∧ p'.lookup_unique_symbol 1 = some s
      ∧ has_flag s.flags SYM_IS_POINTER = true
      ∧ s.pointer_depth = 0 := by
  refine ⟨List.length_replicate _ _, ?_⟩
  obtain ⟨p', s, h, _, hs, _, _, _, _, _, _, hd, hp⟩ :=
    parse_parameterized_vardecl_accepted parser_at_global_scope (lexer_on [])
      (ident_token 0 ['a']) (op_token .TOKEN_TYPE_ASSIGNMENT 2 [':'])
      (type_token .TOKEN_KW_I32 4 ['i', '3', '2']) (punct_token .TOKEN_RPAREN 8 [')'])
      (List.replicate 65536 (caret_token 7)) [] rfl (Or.inl rfl) ⟨rfl, by decide⟩
      (fun c hc => by rw [List.eq_of_mem_replicate hc]; rfl) (by decide) (by decide) rfl
  rw [List.length_replicate] at hd hp
  exact ⟨p', s, h, hs, hp.mpr (by norm_num), hd⟩

/-- C29 (amended): the parameters `parse_parameterized_vardecl` rejects and accepts.  A
parameter whose type token is `void` or `proc`, and a parameter whose type is followed, after
any number of pointer markers, by `[`, is rejected: an error is raised, nothing is returned
and the parser object is as before, so no symbol is created.  For an accepted parameter with
fewer than 65536 pointer markers the symbol created has the flag `procarg`, the length 0, a
depth equal to the number of the markers, and the flag `pointer` exactly when that number is
positive. -/
theorem parse_parameterized_vardecl_parameter_types (p : parser) (lxr : lexer)
    (name colon type : Token) (hname : name.type = .TOKEN_IDENTIFIER) :
    (∀ (rest : List Token), type.type = .TOKEN_KW_VOID ∨ type.type = .TOKEN_KW_PROC →
      ∃ lxr', parse_parameterized_vardecl p { lxr with tokens := name :: colon :: type :: rest }
          = some (none, p, lxr')
        ∧ lxr'.errors.length = lxr.errors.length + 1)
    ∧ (∀ (carets : List Token) (lb : Token) (rest : List Token),
      (∀ c ∈ carets, c.type = .TOKEN_BITWISE_XOR_OR_PTR) → lb.type = .TOKEN_LSQUARE_BRACKET →
      ∃ lxr', parse_parameterized_vardecl p
            { lxr with tokens := name :: colon :: type :: (carets ++ lb :: rest) }
          = some (none, p, lxr')
        ∧ lxr'.errors.length = lxr.errors.length + 1)
    ∧ (∀ (carets : List Token) (next : Token) (rest : List Token),
      colon.type = .TOKEN_TYPE_ASSIGNMENT ∨ colon.type = .TOKEN_CONST_TYPE_ASSIGNMENT →
      primitive_type_token type →
      (∀ c ∈ carets, c.type = .TOKEN_BITWISE_XOR_OR_PTR) →
      next.type ≠ .TOKEN_BITWISE_XOR_OR_PTR → next.type ≠ .TOKEN_LSQUARE_BRACKET →
      p.scoped_symbol_exists_at_current_scope (String.mk name.value) = false →
      carets.length < 65536 →
      ∃ p' s,
        parse_parameterized_vardecl p
            { lxr with tokens := name :: colon :: type :: (carets ++ next :: rest) }
          = some (some (.vardecl { symbol_index := p.next_symbol_index } none), p',
              { lxr with tokens := next :: rest })
        ∧ p.lookup_unique_symbol p.next_symbol_index = none
        ∧ p'.lookup_unique_symbol p.next_symbol_index = some s
        ∧ has_flag s.flags SYM_IS_PROCARG = true ∧ s.array_length = 0
        ∧ s.pointer_depth = carets.length
        ∧ (has_flag s.flags SYM_IS_POINTER = true ↔ 0 < carets.length)) := by
  have hstart : ∀ (tail : List Token),
      (¬ (colon.type = .TOKEN_TYPE_ASSIGNMENT ∨ colon.type = .TOKEN_CONST_TYPE_ASSIGNMENT) ∨
        type.kind ≠ .KIND_TYPE_IDENTIFIER ∨ type.type = .TOKEN_KW_VOID ∨
        type.type = .TOKEN_KW_PROC ∨ token_to_var_t type.type = .VAR_NONE) →
      ∃ lxr', parse_parameterized_vardecl p { lxr with tokens := name :: colon :: type :: tail }
          = some (none, p, lxr')
        ∧ lxr'.errors.length = lxr.errors.length + 1 := by
    intro tail hbad
    have hadv1 : ({ lxr with tokens := name :: colon :: type :: tail } : lexer).advance 1
        = { lxr with tokens := colon :: type :: tail } :=
      lexer_advance_cons lxr name _ (by rw [hname]; decide)
    unfold parse_parameterized_vardecl
    simp only [lexer_current_cons, hadv1, hname, ne_eq, not_true_eq_false, if_false]
    by_cases hc : colon.type = .TOKEN_TYPE_ASSIGNMENT ∨ colon.type = .TOKEN_CONST_TYPE_ASSIGNMENT
    · have hcne : colon.type ≠ .TOKEN_END_OF_FILE := by
        rcases hc with h | h <;> rw [h] <;> decide
      have hadv2 : ({ lxr with tokens := colon :: type :: tail } : lexer).advance 1
          = { lxr with tokens := type :: tail } := lexer_advance_cons lxr colon _ hcne
      rw [if_neg (by rcases hc with h | h <;> simp [h])]
      simp only [hadv2, lexer_current_cons]
      by_cases h1 : type.kind = .KIND_TYPE_IDENTIFIER
      · rw [if_neg (by simp [h1])]
        by_cases h2 : type.type = .TOKEN_KW_VOID
        · rw [if_pos h2]
          exact ⟨_, rfl, lexer.raise_error_length _ _⟩
        · rw [if_neg h2]
          by_cases h3 : type.type = .TOKEN_KW_PROC
          · rw [if_pos h3]
            exact ⟨_, rfl, lexer.raise_error_length _ _⟩
          · rw [if_neg h3]
            have h4 : token_to_var_t type.type = .VAR_NONE := by
              rcases hbad with h | h | h | h | h
              · exact absurd hc h
              · exact absurd h1 h
              · exact absurd h h2
              · exact absurd h h3
              · exact h
            rw [if_pos h4]
            exact ⟨_, rfl, lexer.raise_error_length _ _⟩
      · rw [if_pos (by simpa using h1)]
        exact ⟨_, rfl, lexer.raise_error_length _ _⟩
    · rw [if_pos (by
        constructor
        · intro h; exact hc (Or.inr h)
        · intro h; exact hc (Or.inl h))]
      exact ⟨_, rfl, lexer.raise_error_length _ _⟩
  refine ⟨?_, ?_, ?_⟩
  · intro rest hvp
    apply hstart rest
    rcases hvp with h | h
    · exact Or.inr (Or.inr (Or.inl h))
    · exact Or.inr (Or.inr (Or.inr (Or.inl h)))
  · intro carets lb rest hcarets hlb
    by_cases hbad : ¬ (colon.type = .TOKEN_TYPE_ASSIGNMENT ∨
        colon.type = .TOKEN_CONST_TYPE_ASSIGNMENT) ∨
        type.kind ≠ .KIND_TYPE_IDENTIFIER ∨ type.type = .TOKEN_KW_VOID ∨
        type.type = .TOKEN_KW_PROC ∨ token_to_var_t type.type = .VAR_NONE
    · exact hstart _ hbad
    · have hc : colon.type = .TOKEN_TYPE_ASSIGNMENT ∨
          colon.type = .TOKEN_CONST_TYPE_ASSIGNMENT := by
        by_contra h
        exact hbad (Or.inl h)
      have hk : type.kind = .KIND_TYPE_IDENTIFIER := by
        by_contra h
        exact hbad (Or.inr (Or.inl h))
      have hvoid : ¬ type.type = .TOKEN_KW_VOID := fun h => hbad (Or.inr (Or.inr (Or.inl h)))
      have hproc : ¬ type.type = .TOKEN_KW_PROC :=
        fun h => hbad (Or.inr (Or.inr (Or.inr (Or.inl h))))
      have hv : ¬ token_to_var_t type.type = .VAR_NONE :=
        fun h => hbad (Or.inr (Or.inr (Or.inr (Or.inr h))))
      have hne : type.type ≠ .TOKEN_END_OF_FILE := by
        intro h
        rw [h] at hv
        exact hv rfl
      have hcne : colon.type ≠ .TOKEN_END_OF_FILE := by
        rcases hc with h | h <;> rw [h] <;> decide
      have hadv1 : ({ lxr with tokens := name :: colon :: type :: (carets ++ lb :: rest) } :
          lexer).advance 1 = { lxr with tokens := colon :: type :: (carets ++ lb :: rest) } :=
        lexer_advance_cons lxr name _ (by rw [hname]; decide)
      have hadv2 : ({ lxr with tokens := colon :: type :: (carets ++ lb :: rest) } :
          lexer).advance 1 = { lxr with tokens := type :: (carets ++ lb :: rest) } :=
        lexer_advance_cons lxr colon _ hcne
      have hadv3 : ({ lxr with tokens := type :: (carets ++ lb :: rest) } :
          lexer).advance 1 = { lxr with tokens := carets ++ lb :: rest } :=
        lexer_advance_cons lxr type _ hne
      have hloop := parse_parameterized_vardecl_depth_eq lxr lb rest (by rw [hlb]; decide)
        carets ((carets ++ lb :: rest).length + 1) 0 hcarets (by simp; omega) (by norm_num)
      unfold parse_parameterized_vardecl
      simp only [lexer_current_cons, hadv1, hadv2, hadv3, hname, ne_eq, not_true_eq_false,
        if_false, hk, hvoid, hproc, hv]
      rw [if_neg (by rcases hc with h | h <;> simp [h])]
      simp only [show ({ lxr with tokens := carets ++ lb :: rest } : lexer).tokens
        = carets ++ lb :: rest from rfl, hloop, lexer_current_cons, hlb, if_true]
      exact ⟨_, rfl, lexer.raise_error_length _ _⟩
  · intro carets next rest hcolon htype hcarets hnext hnext2 hnew hlt
    obtain ⟨p', s, h, h0, hs, _, _, _, _, hf, hl, hd, hp⟩ :=
      parse_parameterized_vardecl_accepted p lxr name colon type next carets rest hname hcolon
        htype hcarets hnext hnext2 hnew
    rw [Nat.mod_eq_of_lt hlt] at hd
    exact ⟨p', s, h, h0, hs, hf, hl, hd, hp⟩

/-- C29 (witness): the parameter `a : i32 ^^` followed by `)`. -/
theorem parse_parameterized_vardecl_parameter_types_witness :
    ∃ p' s,
      parse_parameterized_vardecl parser_at_global_scope
          (lexer_on (src_parameter_with_markers 2))
        = some (some (.vardecl { symbol_index := 1 } none), p',
            lexer_on [punct_token .TOKEN_RPAREN 8 [')']])
      ∧ parser_at_global_scope.lookup_unique_symbol 1 = none
      ∧ p'.lookup_unique_symbol 1 = some s
      ∧ has_flag s.flags SYM_IS_PROCARG = true ∧ s.array_length = 0
      ∧ s.pointer_depth = 2
      ∧ (has_flag s.flags SYM_IS_POINTER = true ↔ 0 < 2) :=
  (parse_parameterized_vardecl_parameter_types parser_at_global_scope (lexer_on [])
    (ident_token 0 ['a']) (op_token .TOKEN_TYPE_ASSIGNMENT 2 [':'])
    (type_token .TOKEN_KW_I32 4 ['i', '3', '2']) rfl).2.2
    [caret_token 7, caret_token 7] (punct_token .TOKEN_RPAREN 8 [')']) [] (Or.inl rfl)
    ⟨rfl, by decide⟩ (by decide) (by decide) (by decide) rfl (by decide)

/-! ## Scope balance -/

/-- `parse_parenthesized_expression` keeps the number of scopes. -/
theorem parse_parenthesized_expression_keeps_scopes {f : expr_fn} (h : expr_keeps_scopes f) :
    keeps_scopes (parse_parenthesized_expression f) := by
  intro p lxr r p' lxr' hr
  unfold parse_parenthesized_expression at hr
  split_ifs at hr with hc
  simp only [] at hr
  generalize hf : f _ _ true false = x at hr
  cases x with
  | none => simp at hr
  | some v =>
    obtain ⟨e, p1, l1⟩ := v
    have hk := h _ _ _ _ _ _ _ hf
    cases e with
    | none =>
      simp only [Option.some.injEq, Prod.mk.injEq] at hr
      rw [← hr.2.1]
      exact hk
    | some e =>
      simp only [] at hr
      split_ifs at hr with h1
      all_goals
        simp only [Option.some.injEq, Prod.mk.injEq] at hr
        rw [← hr.2.1]
        exact hk

/-- `parse_singleton_literal` keeps the parser object. -/
theorem parse_singleton_literal_keeps_scopes : keeps_scopes parse_singleton_literal := by
  intro p lxr r p' lxr' hr
  unfold parse_singleton_literal at hr
  split_ifs at hr with hc
  simp only [] at hr
  split_ifs at hr with h1
  · cases hx : remove_escaped_chars lxr.current.value with
    | none =>
      rw [hx] at hr
      simp only [Option.some.injEq, Prod.mk.injEq] at hr
      rw [← hr.2.1]
    | some v =>
      rw [hx] at hr
      simp only [Option.some.injEq, Prod.mk.injEq] at hr
      rw [← hr.2.1]
  · simp only [Option.some.injEq, Prod.mk.injEq] at hr
    rw [← hr.2.1]

/-- The loop of `parse_braced_expression` keeps the number of scopes. -/
theorem parse_braced_expression_loop_keeps_scopes {f : expr_fn} (h : expr_keeps_scopes f) :
    ∀ (n : Nat) (members : List ast_node),
      keeps_scopes (parse_braced_expression_loop f n members) := by
  intro n
  induction n with
  | zero => intro ms p lxr r p' lxr' hr; simp [parse_braced_expression_loop] at hr
  | succ n ih =>
    intro ms p lxr r p' lxr' hr
    unfold parse_braced_expression_loop at hr
    split_ifs at hr with h0
    · simp only [] at hr
      generalize hf : f _ _ true false = x at hr
      cases x with
      | none => simp at hr
      | some v =>
        obtain ⟨e, p1, l1⟩ := v
        have hk := h _ _ _ _ _ _ _ hf
        cases e with
        | none =>
          simp only [Option.some.injEq, Prod.mk.injEq] at hr
          rw [← hr.2.1]
          exact hk
        | some e =>
          simp only [] at hr
          split_ifs at hr with h1 h2
          · simp only [Option.some.injEq, Prod.mk.injEq] at hr
            rw [← hr.2.1]
            exact hk
          · exact (ih _ _ _ _ _ _ hr).trans hk
          · exact (ih _ _ _ _ _ _ hr).trans hk
    · simp only [Option.some.injEq, Prod.mk.injEq] at hr
      rw [← hr.2.1]

/-- `parse_braced_expression` keeps the number of scopes. -/
theorem parse_braced_expression_keeps_scopes {f : expr_fn} (h : expr_keeps_scopes f)
    (n : Nat) : keeps_scopes (parse_braced_expression f n) := by
  intro p lxr r p' lxr' hr
  unfold parse_braced_expression at hr
  split_ifs at hr with hc
  exact parse_braced_expression_loop_keeps_scopes h n [] _ _ _ _ _ hr

/-- `parse_unary_expression` keeps the number of scopes. -/
theorem parse_unary_expression_keeps_scopes (ext : externals) {f : expr_fn}
    (h : expr_keeps_scopes f) : keeps_scopes (parse_unary_expression ext f) := by
  intro p lxr r p' lxr' hr
  unfold parse_unary_expression at hr
  split_ifs at hr with hc
  simp only [] at hr
  generalize hf : f _ _ true true = x at hr
  cases x with
  | none => simp at hr
  | some v =>
    obtain ⟨e, p1, l1⟩ := v
    have hk := h _ _ _ _ _ _ _ hf
    cases e with
    | none =>
      simp only [Option.some.injEq, Prod.mk.injEq] at hr
      rw [← hr.2.1]
      exact hk
    | some e =>
      simp only [] at hr
      split_ifs at hr with h1
      all_goals
        simp only [Option.some.injEq, Prod.mk.injEq] at hr
        rw [← hr.2.1]
        exact hk

/-- `parse_assign` keeps the number of scopes. -/
theorem parse_assign_keeps_scopes {f : expr_fn} (h : expr_keeps_scopes f) (a : ast_node) :
    keeps_scopes (parse_assign f a) := by
  intro p lxr r p' lxr' hr
  unfold parse_assign at hr
  split_ifs at hr with hc
  simp only [] at hr
  generalize hf : f _ _ true false = x at hr
  cases x with
  | none => simp at hr
  | some v =>
    obtain ⟨e, p1, l1⟩ := v
    have hk := h _ _ _ _ _ _ _ hf
    cases e with
    | none =>
      simp only [Option.some.injEq, Prod.mk.injEq] at hr
      rw [← hr.2.1]
      exact hk
    | some e =>
      simp only [] at hr
      split_ifs at hr with h1
      all_goals
        simp only [Option.some.injEq, Prod.mk.injEq] at hr
        rw [← hr.2.1]
        exact hk

/-- `parse_binary_expression` keeps the number of scopes. -/
theorem parse_binary_expression_keeps_scopes {f : expr_fn} (h : expr_keeps_scopes f)
    (left : Option ast_node) : keeps_scopes (parse_binary_expression f left) := by
  intro p lxr r p' lxr' hr
  unfold parse_binary_expression at hr
  split_ifs at hr with hc h0
  · cases left with
    | none => simp at hr
    | some left => exact parse_assign_keeps_scopes h left _ _ _ _ _ hr
  · cases left with
    | none => simp at hr
    | some left =>
      simp only [] at hr
      generalize hf : f _ _ true false = x at hr
      cases x with
      | none => simp at hr
      | some v =>
        obtain ⟨e, p1, l1⟩ := v
        have hk := h _ _ _ _ _ _ _ hf
        cases e with
        | none =>
          simp only [Option.some.injEq, Prod.mk.injEq] at hr
          rw [← hr.2.1]
          exact hk
        | some e =>
          simp only [] at hr
          split_ifs at hr with h1
          all_goals
            simp only [Option.some.injEq, Prod.mk.injEq] at hr
            rw [← hr.2.1]
            exact hk

/-- `parse_subscript` keeps the number of scopes. -/
theorem parse_subscript_keeps_scopes {f : expr_fn} (h : expr_keeps_scopes f)
    (operand : Option ast_node) : keeps_scopes (parse_subscript f operand) := by
  intro p lxr r p' lxr' hr
  unfold parse_subscript at hr
  split_ifs at hr with hc
  cases operand with
  | none => simp at hr
  | some operand =>
    simp only [] at hr
    generalize hf : f _ _ true false = x at hr
    cases x with
    | none => simp at hr
    | some v =>
      obtain ⟨e, p1, l1⟩ := v
      have hk := h _ _ _ _ _ _ _ hf
      cases e with
      | none =>
        simp only [Option.some.injEq, Prod.mk.injEq] at hr
        rw [← hr.2.1]
        exact hk
      | some e =>
        simp only [] at hr
        split_ifs at hr with h1
        all_goals
          simp only [Option.some.injEq, Prod.mk.injEq] at hr
          rw [← hr.2.1]
          exact hk

/-- The loop over the subscripts keeps the number of scopes. -/
theorem parse_subscripts_keeps_scopes {f : expr_fn} (h : expr_keeps_scopes f) :
    ∀ (n : Nat) (expr : Option ast_node) (q : Bool),
      keeps_scopes (fun p lxr => parse_subscripts f n expr p lxr q) := by
  intro n
  induction n with
  | zero => intro e q p lxr r p' lxr' hr; simp [parse_subscripts] at hr
  | succ n ih =>
    intro e q p lxr r p' lxr' hr
    simp only [] at hr
    unfold parse_subscripts at hr
    split_ifs at hr with h0
    · generalize hf : parse_subscript f e p lxr = x at hr
      cases x with
      | none => simp at hr
      | some v =>
        obtain ⟨e1, p1, l1⟩ := v
        simp only [] at hr
        exact (ih e1 q _ _ _ _ _ hr).trans (parse_subscript_keeps_scopes h e _ _ _ _ _ hf)
    · simp only [Option.some.injEq, Prod.mk.injEq] at hr
      rw [← hr.2.1]

/-- The suffixes of a primary keep the number of scopes. -/
theorem parse_suffixes_keeps_scopes {f : expr_fn} (h : expr_keeps_scopes f) (n : Nat)
    (expr : ast_node) (q : Bool) :
    keeps_scopes (fun p lxr => parse_suffixes f n expr p lxr q) := by
  intro p lxr r p' lxr' hr
  simp only [] at hr
  unfold parse_suffixes at hr
  generalize hf : parse_subscripts f n (some expr) p lxr q = x at hr
  cases x with
  | none => simp at hr
  | some v =>
    obtain ⟨e1, p1, l1⟩ := v
    have hk := parse_subscripts_keeps_scopes h n (some expr) q _ _ _ _ _ hf
    simp only [] at hr
    split_ifs at hr with h0
    · exact (parse_binary_expression_keeps_scopes h e1 _ _ _ _ _ hr).trans hk
    · simp only [Option.some.injEq, Prod.mk.injEq] at hr
      rw [← hr.2.1]
      exact hk

/-- The part of `parse_expression` after the primary keeps the number of scopes. -/
theorem parse_after_primary_keeps_scopes (ext : externals) {f : expr_fn}
    (h : expr_keeps_scopes f) (n : Nat) (expr : ast_node) (s q : Bool) :
    keeps_scopes (fun p lxr => parse_after_primary ext f n expr p lxr s q) := by
  intro p lxr r p' lxr' hr
  simp only [] at hr
  unfold parse_after_primary at hr
  generalize hf : parse_suffixes f n expr p lxr q = x at hr
  have hx : ∀ e1 p1 l1, x = some (e1, p1, l1) →
      p1.scope_stack_.length = p.scope_stack_.length := by
    intro e1 p1 l1 he
    rw [he] at hf
    exact parse_suffixes_keeps_scopes h n expr q _ _ _ _ _ hf
  cases x with
  | none =>
    simp only [] at hr
    split_ifs at hr
    all_goals
      simp only [Option.some.injEq, Prod.mk.injEq] at hr
      rw [← hr.2.1]
  | some v =>
    obtain ⟨e1, p1, l1⟩ := v
    have hk := hx e1 p1 l1 rfl
    simp only [] at hr
    split_ifs at hr
    all_goals
      simp only [Option.some.injEq, Prod.mk.injEq] at hr
      rw [← hr.2.1]
      try exact hk

/-- `parse_keyword` keeps the number of scopes when the statement parsers do. -/
theorem parse_keyword_keeps_scopes (ext : externals) (hext : ext.keeps_scopes) :
    keeps_scopes (parse_keyword ext) := by
  obtain ⟨_, h1, h2, h3, h4, h5, h6, h7⟩ := hext
  intro p lxr r p' lxr' hr
  unfold parse_keyword at hr
  split_ifs at hr
  · exact h1 _ _ _ _ _ hr
  · exact h2 _ _ _ _ _ hr
  · exact h3 _ _ _ _ _ hr
  · exact h4 _ _ _ _ _ hr
  · exact h5 _ _ _ _ _ hr
  · exact h6 _ _ _ _ _ hr
  · exact h7 _ _ _ _ _ hr
  · simp only [Option.some.injEq, Prod.mk.injEq] at hr
    rw [← hr.2.1]

/-- The primary dispatch keeps the number of scopes. -/
theorem parse_primary_keeps_scopes (ext : externals) (hext : ext.keeps_scopes) {f : expr_fn}
    (h : expr_keeps_scopes f) (n : Nat) : keeps_scopes (parse_primary ext f n) := by
  intro p lxr r p' lxr' hr
  unfold parse_primary at hr
  simp only [] at hr
  split_ifs at hr
  · simp only [Option.some.injEq, Prod.mk.injEq] at hr
    rw [← hr.2.1]
  · exact hext.1 _ _ _ _ _ hr
  · exact parse_parenthesized_expression_keeps_scopes h _ _ _ _ _ hr
  · exact parse_braced_expression_keeps_scopes h n _ _ _ _ _ hr
  · exact parse_singleton_literal_keeps_scopes _ _ _ _ _ hr
  · exact parse_keyword_keeps_scopes ext hext _ _ _ _ _ hr
  · exact parse_unary_expression_keeps_scopes ext h _ _ _ _ _ hr
  · simp only [Option.some.injEq, Prod.mk.injEq] at hr
    rw [← hr.2.1]

/-- `parse_expression` keeps the number of scopes when the parsers of the other files do. -/
theorem parse_expression_keeps_scopes (ext : externals) (hext : ext.keeps_scopes) :
    ∀ (n : Nat), expr_keeps_scopes (parse_expression ext n) := by
  intro n
  induction n with
  | zero => intro p lxr s g r p' lxr' hr; simp [parse_expression] at hr
  | succ n ih =>
    intro p lxr s g r p' lxr' hr
    rw [parse_expression] at hr
    generalize hf : parse_primary ext (parse_expression ext n) n p lxr = x at hr
    cases x with
    | none => simp at hr
    | some v =>
      obtain ⟨e, p1, l1⟩ := v
      have hk := parse_primary_keeps_scopes ext hext ih n _ _ _ _ _ hf
      cases e with
      | none =>
        simp only [Option.some.injEq, Prod.mk.injEq] at hr
        rw [← hr.2.1]
        exact hk
      | some e =>
        simp only [] at hr
        exact (parse_after_primary_keeps_scopes ext ih n e s g _ _ _ _ _ hr).trans hk

/-- `create_symbol` keeps the number of scopes. -/
theorem parser.create_symbol_scopes (p : parser) (name : String) (src_pos line : Nat)
    (sym_type : sym_t) (flags : Nat) :
    (p.create_symbol name src_pos line sym_type flags).2.scope_stack_.length
      = p.scope_stack_.length := by
  cases h : p.scoped_symbol_exists_at_current_scope name with
  | false => exact (parser.create_symbol_new p name src_pos line sym_type flags h).2.2.1
  | true =>
    unfold parser.create_symbol
    rw [h, if_pos rfl]

/-- `parse_parameterized_vardecl` keeps the number of scopes. -/
theorem parse_parameterized_vardecl_keeps_scopes : keeps_scopes parse_parameterized_vardecl := by
  intro p lxr r p' lxr' hr
  unfold parse_parameterized_vardecl at hr
  simp only [] at hr
  generalize parse_parameterized_vardecl_depth _ _ _ = dl at hr
  obtain ⟨d, l4⟩ := dl
  simp only [] at hr
  generalize hg : p.create_symbol _ _ _ _ _ = cs at hr
  have hk : cs.2.scope_stack_.length = p.scope_stack_.length := by
    rw [← hg]
    exact parser.create_symbol_scopes _ _ _ _ _ _
  obtain ⟨o, p1⟩ := cs
  cases o
  all_goals
    simp only [] at hr
    split_ifs at hr
    all_goals
      simp only [Option.some.injEq, Prod.mk.injEq] at hr
      rw [← hr.2.1]
      try exact hk

/-- The loop over the body of a procedure keeps the number of scopes. -/
theorem parse_procdecl_body_keeps_scopes {f : expr_fn} (h : expr_keeps_scopes f) (proc : Nat)
    (parameters : List ast_node) :
    ∀ (fuel : Nat) (body : List ast_node),
      keeps_scopes (parse_procdecl_body f proc parameters fuel body) := by
  intro fuel
  induction fuel with
  | zero => intro body p lxr r p' lxr' hr; simp [parse_procdecl_body] at hr
  | succ fuel ih =>
    intro body p lxr r p' lxr' hr
    unfold parse_procdecl_body at hr
    split_ifs at hr with h0
    · simp only [] at hr
      generalize hf : f _ _ false false = x at hr
      cases x with
      | none => simp at hr
      | some v =>
        obtain ⟨e, p1, l1⟩ := v
        have hk := h _ _ _ _ _ _ _ hf
        cases e with
        | none =>
          simp only [Option.some.injEq, Prod.mk.injEq] at hr
          rw [← hr.2.1]
          exact hk
        | some e =>
          simp only [] at hr
          split_ifs at hr with h1
          · simp only [Option.some.injEq, Prod.mk.injEq] at hr
            rw [← hr.2.1]
            exact hk
          · exact (ih _ _ _ _ _ _ hr).trans hk
    · simp only [Option.some.injEq, Prod.mk.injEq] at hr
      rw [← hr.2.1]

/-- The loop that copies the types of the parameters keeps the scopes. -/
theorem parse_procdecl_parameter_types_scopes (proc : Nat) :
    ∀ (parameters : List ast_node) (p : parser),
      (parse_procdecl_parameter_types proc parameters p).2.scope_stack_ = p.scope_stack_ := by
  intro parameters
  induction parameters with
  | nil => intro p; rfl
  | cons a rest ih =>
    intro p
    cases a with
    | vardecl identifier init =>
      unfold parse_procdecl_parameter_types
      cases hl : p.lookup_unique_symbol identifier.symbol_index with
      | none => rfl
      | some symbol_ptr =>
        simp only []
        split_ifs
        · rfl
        · rw [ih]
          rfl
    | _ => rfl

/-- The part of `parse_procdecl` after the parameters keeps the number of scopes. -/
theorem parse_procdecl_return_type_keeps_scopes {f : expr_fn} (h : expr_keeps_scopes f)
    (fuel proc : Nat) (parameters : List ast_node) :
    keeps_scopes (parse_procdecl_return_type f fuel proc parameters) := by
  intro p lxr r p' lxr' hr
  unfold parse_procdecl_return_type at hr
  simp only [] at hr
  generalize hg : parse_procdecl_parameter_types proc parameters _ = x at hr
  have hk := parse_procdecl_parameter_types_scopes proc parameters
    (p.modify_symbol proc
      (fun s =>
        { s with return_type := token_to_var_t ((lxr.advance 1).advance 1).current.type }))
  rw [hg] at hk
  obtain ⟨b, p2⟩ := x
  have hk2 : p2.scope_stack_.length = p.scope_stack_.length := congrArg List.length hk
  cases b
  all_goals
    simp only [] at hr
    split_ifs at hr
    all_goals
      first
        | exact (parse_procdecl_body_keeps_scopes h proc parameters fuel [] _ _ _ _ _ hr).trans
            hk2
        | (simp only [Option.some.injEq, Prod.mk.injEq] at hr
           rw [← hr.2.1]
           try first
             | exact hk2
             | rfl)

/-- The loop over the parameters of a procedure, with what follows it, keeps the number of
scopes. -/
theorem parse_procdecl_parameters_keeps_scopes {f : expr_fn} (h : expr_keeps_scopes f)
    (fuel proc : Nat) :
    ∀ (count : Nat) (parameters : List ast_node),
      keeps_scopes (parse_procdecl_parameters f fuel proc count parameters) := by
  intro count
  induction count with
  | zero => intro ps p lxr r p' lxr' hr; simp [parse_procdecl_parameters] at hr
  | succ count ih =>
    intro ps p lxr r p' lxr' hr
    unfold parse_procdecl_parameters at hr
    split_ifs at hr with h0 h1
    · simp only [Option.some.injEq, Prod.mk.injEq] at hr
      rw [← hr.2.1]
    · generalize hf : parse_parameterized_vardecl p lxr = x at hr
      cases x with
      | none => simp at hr
      | some v =>
        obtain ⟨e, p1, l1⟩ := v
        have hk := parse_parameterized_vardecl_keeps_scopes _ _ _ _ _ hf
        cases e with
        | none =>
          simp only [Option.some.injEq, Prod.mk.injEq] at hr
          rw [← hr.2.1]
          exact hk
        | some e =>
          simp only [] at hr
          split_ifs at hr with h2
          · exact (ih _ _ _ _ _ _ hr).trans hk
          · exact (ih _ _ _ _ _ _ hr).trans hk
    · exact parse_procdecl_return_type_keeps_scopes h fuel proc ps _ _ _ _ _ hr

/-- The parsers of `sample_externals` keep the parser object. -/
theorem sample_externals_keeps_scopes : sample_externals.keeps_scopes := by
  have hs : keeps_scopes sample_parse_statement := by
    intro p lxr r p' lxr' hr
    unfold sample_parse_statement at hr
    simp only [Option.some.injEq, Prod.mk.injEq] at hr
    rw [← hr.2.1]
  refine ⟨?_, hs, hs, hs, hs, hs, hs, hs⟩
  intro p lxr r p' lxr' hr
  change sample_parse_identifier p lxr = _ at hr
  unfold sample_parse_identifier at hr
  split at hr
  all_goals
    simp only [Option.some.injEq, Prod.mk.injEq] at hr
    rw [← hr.2.1]

/-- C30: the scope balance of `parse_procdecl`.  When the parsers of the other files leave
the number of scopes as they find it, so does `parse_procdecl`: for every token stream and
every parser object, whenever the function returns, with a node or with nothing, before or
after its own scope is pushed, the scope stack has the size it had on entry. -/
theorem parse_procdecl_scope_balance (ext : externals) (hext : ext.keeps_scopes)
    (n fuel proc : Nat) (p : parser) (lxr : lexer) (r : Option ast_node) (p' : parser)
    (lxr' : lexer)
    (hr : parse_procdecl (parse_expression ext n) fuel proc p lxr = some (r, p', lxr')) :
    p'.scope_stack_.length = p.scope_stack_.length := by
  unfold parse_procdecl at hr
  split_ifs at hr with h0
  cases hl : p.lookup_unique_symbol proc with
  | none => rw [hl] at hr; simp at hr
  | some s =>
    rw [hl] at hr
    simp only [] at hr
    split_ifs at hr with h1 h2 h3
    · simp only [Option.some.injEq, Prod.mk.injEq] at hr
      rw [← hr.2.1]
    · simp only [Option.some.injEq, Prod.mk.injEq] at hr
      rw [← hr.2.1]
    · simp only [Option.some.injEq, Prod.mk.injEq] at hr
      rw [← hr.2.1]
    · generalize hf : parse_procdecl_parameters _ _ _ _ _ _ _ = x at hr
      cases x with
      | none => simp at hr
      | some v =>
        obtain ⟨e, p1, l1⟩ := v
        have hk := parse_procdecl_parameters_keeps_scopes
          (parse_expression_keeps_scopes ext hext n) fuel proc _ _ _ _ _ _ _ hf
        simp only [Option.some.injEq, Prod.mk.injEq] at hr
        rw [← hr.2.1]
        show p1.scope_stack_.dropLast.length = _
        rw [List.length_dropLast, hk]
        show (p.scope_stack_ ++ [[]]).length - 1 = _
        simp

/-- C30 (witness): `f :: proc (a : i32) -> void { 1; }` returns its node, and
`f :: proc (a : void)` returns nothing after the scope of the parameters was pushed; each
time one scope is on the stack, as before the call. -/
theorem parse_procdecl_scope_balance_witness :
    (∃ node p' lxr', parse_procdecl (parse_expression sample_externals 3) 3 1 parser_with_f
          (lexer_on src_proc_one_parameter) = some (some node, p', lxr')
        ∧ p'.scope_stack_.length = 1)
    ∧ (∃ p' lxr', parse_procdecl (parse_expression sample_externals 3) 3 1 parser_with_f
          (lexer_on src_proc_void_parameter) = some (none, p', lxr')
        ∧ lxr'.tokens = src_proc_void_parameter.drop 4
        ∧ p'.scope_stack_.length = 1) :=
  ⟨⟨_, _, _, rfl,
      parse_procdecl_scope_balance sample_externals sample_externals_keeps_scopes 3 3 1
        parser_with_f (lexer_on src_proc_one_parameter) _ _ _ rfl⟩,
    ⟨_, _, rfl, rfl,
      parse_procdecl_scope_balance sample_externals sample_externals_keeps_scopes 3 3 1
        parser_with_f (lexer_on src_proc_void_parameter) _ _ _ rfl⟩⟩

/-! ## C34: the primitive types and their widths -/

/-- C34: `token_to_var_t` and `var_t_to_size_bytes` on the type keywords.  The keywords of
the width table of the specification are the eleven type keywords
`i8 u8 i16 u16 i32 u32 i64 u64 f32 f64 bool`.  For each of them `token_to_var_t` returns a
kind other than `VAR_NONE`, the eleven kinds are pairwise distinct, and
`var_t_to_size_bytes` of the kind returns the width of the table, `1 1 2 2 4 4 8 8 4 8 1`,
not reaching its panic branch.  For every other token type `token_to_var_t` returns
`VAR_NONE`. -/
theorem token_to_var_t_primitive_widths :
    spec_type_widths.map Prod.fst = spec_primitive_types
    ∧ (∀ e ∈ spec_type_widths, token_to_var_t e.1 ≠ .VAR_NONE
        ∧ var_t_to_size_bytes (token_to_var_t e.1) = some e.2)
    ∧ (spec_type_widths.map (fun e => token_to_var_t e.1)).Nodup
    ∧ ∀ t : token_t, t ∉ spec_primitive_types → token_to_var_t t = .VAR_NONE := by
  refine ⟨rfl, by decide, by decide, ?_⟩
  intro t ht
  cases t <;> first | rfl | exact absurd (by decide) ht

/-! ## C39: the position of the end-of-file token -/

/-- On a buffer that is not empty and shorter than `2 ^ 64` bytes the end-of-file token has
the offset of the last byte. -/
theorem Lexer.end_of_file_src_pos (lxr : Lexer) (hne : lxr.src_ ≠ [])
    (hsize : lxr.src_.length < 2 ^ 64) :
    lxr.end_of_file.src_pos = lxr.src_.length - 1
    ∧ lxr.end_of_file.src_pos ≤ lxr.src_.length := by
  have hpos : 0 < lxr.src_.length := List.length_pos.mpr hne
  have h : lxr.end_of_file.src_pos = (lxr.src_.length + 2 ^ 64 - 1) % 2 ^ 64 := rfl
  rw [h]
  omega

/-- On the empty buffer each handler that tests for the end of the buffer sets the
end-of-file token with the offset `2 ^ 64 - 1`. -/
theorem handlers_with_end_test_empty_buffer :
    ∀ handler ∈ handlers_with_end_test, ∀ (lxr : Lexer), lxr.src_ = [] →
      (handler lxr).current_.type = .TOKEN_END_OF_FILE
      ∧ (handler lxr).current_.src_pos = 2 ^ 64 - 1 := by
  intro handler hmem lxr hsrc
  rw [handlers_with_end_test_sticky handler hmem lxr (by rw [hsrc]; exact Nat.zero_le _)]
  refine ⟨rfl, ?_⟩
  simp only [Lexer.set_current, Lexer.end_of_file, Token.init, hsrc, List.length_nil]
  norm_num

/-- C39 (failing input): the empty buffer.  `lexer_token_null` and `lexer_token_skip` set
the end-of-file token; its `src_pos` is `size - 1` on 64 bits, which wraps around to
`18446744073709551615`, and that is greater than the length of the buffer, zero. -/
theorem end_of_file_position_on_empty_buffer :
    (lexer_at buf_empty 0).src_.length = 0
    ∧ (lexer_token_null (lexer_at buf_empty 0)).current_.type = .TOKEN_END_OF_FILE
    ∧ (lexer_token_null (lexer_at buf_empty 0)).current_.src_pos = 18446744073709551615
    ∧ (lexer_token_skip (lexer_at buf_empty 0)).current_.type = .TOKEN_END_OF_FILE
    ∧ (lexer_token_skip (lexer_at buf_empty 0)).current_.src_pos = 18446744073709551615
    ∧ ¬ (lexer_token_null (lexer_at buf_empty 0)).current_.src_pos
        ≤ (lexer_at buf_empty 0).src_.length
    ∧ ¬ (lexer_token_skip (lexer_at buf_empty 0)).current_.src_pos
        ≤ (lexer_at buf_empty 0).src_.length := by
  have hnull : (lexer_token_null (lexer_at buf_empty 0)).current_.src_pos
      = 18446744073709551615 := by
    simp only [lexer_token_null, Lexer.set_current, Lexer.end_of_file, Token.init, lexer_at,
      buf_empty, List.length_nil]
    norm_num
  have hskip : (lexer_token_skip (lexer_at buf_empty 0)).current_.src_pos
      = 18446744073709551615 := by
    simp only [lexer_token_skip, Lexer.set_current, Lexer.end_of_file, Token.init, lexer_at,
      buf_empty, List.length_nil, ge_iff_le, le_refl, if_true]
    norm_num
  refine ⟨rfl, rfl, hnull, rfl, hskip, ?_, ?_⟩
  · rw [hnull]
    simp [lexer_at, buf_empty]
  · rw [hskip]
    simp [lexer_at, buf_empty]

/-! ## C37: the precedence of the binary operators of the lexer -/

/-- With enough fuel the loop of `lexer_token_quote` ends on a token it has built: an
illegal token or a string literal. -/
theorem lexer_token_quote_loop_kind (q : Char) (s : Nat) :
    ∀ (fuel : Nat) (lxr : Lexer), lxr.src_.length + 1 ≤ lxr.index + fuel → 1 ≤ fuel →
      (lexer_token_quote_loop q s fuel lxr).current_.kind ≠ .KIND_BINARY_EXPR_OPERATOR := by
  intro fuel
  induction fuel with
  | zero => intro lxr _ h; omega
  | succ k ih =>
    intro lxr hlen _
    unfold lexer_token_quote_loop
    by_cases hend : lxr.src_.length ≤ lxr.index
    · have hnul : lxr.current_char = NUL := by
        unfold Lexer.current_char
        exact List.getD_eq_default _ _ hend
      rw [if_pos hnul]
      simp [Lexer.set_current, Token.init]
    · have hk : 1 ≤ k := by omega
      split_ifs
      · simp [Lexer.set_current, Token.init]
      · simp [Lexer.set_current, Token.init, Lexer.advance_char]
      · exact ih _ (by simp only [Lexer.advance_char]; omega) hk
      · exact ih _ (by simp only [Lexer.advance_char]; omega) hk

/-- The token of `lexer_token_quote` is not of the kind of the binary operators. -/
theorem lexer_token_quote_kind (lxr : Lexer) :
    (lexer_token_quote lxr).current_.kind ≠ .KIND_BINARY_EXPR_OPERATOR := by
  unfold lexer_token_quote
  split_ifs
  · simp [Lexer.set_current, Lexer.end_of_file, Token.init]
  · exact lexer_token_quote_loop_kind _ _ _ _
      (by simp only [Lexer.advance_char]; omega) (by omega)

/-- Each token that a handler of `tokens.cpp` sets with the kind of the binary operators,
the tokens `:` and `::` apart, has a precedence. -/
theorem lexer_handlers_binary_operator :
    ∀ handler ∈ lexer_handlers, ∀ (lxr : Lexer),
      (handler lxr).current_.type ≠ .TOKEN_NONE →
      (handler lxr).current_.kind = .KIND_BINARY_EXPR_OPERATOR →
      (handler lxr).current_.type ≠ .TOKEN_TYPE_ASSIGNMENT →
      (handler lxr).current_.type ≠ .TOKEN_CONST_TYPE_ASSIGNMENT →
      (precedence_of (handler lxr).current_.type).isSome = true := by
  unfold lexer_handlers handlers_with_end_test
  simp only [List.cons_append, List.nil_append, List.forall_mem_cons, List.not_mem_nil,
    false_implies, implies_true, and_true]
  repeat' apply And.intro
  all_goals
    intro lxr
    first
      | (intro _ hk; exact absurd hk (lexer_token_quote_kind lxr))
      | (simp only [
          lexer_token_skip, lexer_token_newline, lexer_token_semicolon, lexer_token_lparen,
          lexer_token_rparen, lexer_token_lbrace, lexer_token_rbrace, lexer_token_comma,
          lexer_token_hyphen, lexer_token_plus, lexer_token_asterisk, lexer_token_fwdslash,
          lexer_token_percent, lexer_token_equals, lexer_token_lessthan,
          lexer_token_greaterthan, lexer_token_ampersand, lexer_token_verticalline,
          lexer_token_exclamation, lexer_token_tilde, lexer_token_uparrow,
          lexer_token_singlequote, lexer_token_singlequote_close,
          lexer_token_lsquarebracket, lexer_token_rsquarebracket, lexer_token_questionmark,
          lexer_token_colon, lexer_token_dot, lexer_token_backslash, lexer_token_null,
          lexer_token_at, lexer_token_backtick, lexer_token_pound]
         (try split_ifs) <;>
           simp [Lexer.set_current, Lexer.set_none, Lexer.advance_char, Lexer.advance_line,
             Lexer.end_of_file, Token.init, precedence_of])

/-- C37 (counterexample): the buffers `: x` and `:: x`.  `lexer_token_colon` sets the tokens
`:` and `::` with the kind of the binary operators, and `precedence_of` has no case for
their types: it reaches its panic branch. -/
theorem precedence_of_colon_counterexample :
    lexer_token_colon ∈ lexer_handlers
    ∧ (lexer_token_colon (lexer_at buf_colon 0)).current_.type = .TOKEN_TYPE_ASSIGNMENT
    ∧ (lexer_token_colon (lexer_at buf_colon 0)).current_.kind = .KIND_BINARY_EXPR_OPERATOR
    ∧ precedence_of (lexer_token_colon (lexer_at buf_colon 0)).current_.type = none
    ∧ (lexer_token_colon (lexer_at buf_colon_colon 0)).current_.type
        = .TOKEN_CONST_TYPE_ASSIGNMENT
    ∧ (lexer_token_colon (lexer_at buf_colon_colon 0)).current_.kind
        = .KIND_BINARY_EXPR_OPERATOR
    ∧ precedence_of (lexer_token_colon (lexer_at buf_colon_colon 0)).current_.type = none := by
  refine ⟨?_, rfl, rfl, rfl, rfl, rfl, rfl⟩
  simp [lexer_handlers, handlers_with_end_test]

/-- C37 (amended): for every handler of `tokens.cpp` and every state of the lexer, if the
handler sets a token (a type other than `TOKEN_NONE`) of the kind of the binary operators
and the token is neither `:` nor `::`, then `precedence_of` returns a value for its type
and does not reach its panic branch; for the types of `:` and `::` it reaches the panic
branch. -/
theorem precedence_of_total_on_binary_operators (handler : Lexer → Lexer) (lxr : Lexer)
    (hmem : handler ∈ lexer_handlers)
    (hset : (handler lxr).current_.type ≠ .TOKEN_NONE)
    (hkind : (handler lxr).current_.kind = .KIND_BINARY_EXPR_OPERATOR)
    (hcolon : (handler lxr).current_.type ≠ .TOKEN_TYPE_ASSIGNMENT)
    (hcolons : (handler lxr).current_.type ≠ .TOKEN_CONST_TYPE_ASSIGNMENT) :
    (∃ n, precedence_of (handler lxr).current_.type = some n)
    ∧ precedence_of .TOKEN_TYPE_ASSIGNMENT = none
    ∧ precedence_of .TOKEN_CONST_TYPE_ASSIGNMENT = none :=
  ⟨Option.isSome_iff_exists.mp
    (lexer_handlers_binary_operator handler hmem lxr hset hkind hcolon hcolons), rfl, rfl⟩

/-- C37 (witness): `lexer_token_equals` on the buffer `=`. -/
theorem precedence_of_total_on_binary_operators_witness :
    lexer_token_equals ∈ lexer_handlers
    ∧ (lexer_token_equals (lexer_at ['='] 0)).current_.kind = .KIND_BINARY_EXPR_OPERATOR
    ∧ ((∃ n, precedence_of (lexer_token_equals (lexer_at ['='] 0)).current_.type = some n)
      ∧ precedence_of .TOKEN_TYPE_ASSIGNMENT = none
      ∧ precedence_of .TOKEN_CONST_TYPE_ASSIGNMENT = none) :=
  ⟨by simp [lexer_handlers, handlers_with_end_test], rfl,
    precedence_of_total_on_binary_operators lexer_token_equals (lexer_at ['='] 0)
      (by simp [lexer_handlers, handlers_with_end_test]) (by decide) rfl (by decide)
      (by decide)⟩

/-! ## C38: the progress of the handlers -/

/-- The loop of `lexer_token_quote` keeps the buffer and does not move the cursor back. -/
theorem lexer_token_quote_loop_index (q : Char) (s : Nat) :
    ∀ (fuel : Nat) (lxr : Lexer),
      (lexer_token_quote_loop q s fuel lxr).src_ = lxr.src_
      ∧ lxr.index ≤ (lexer_token_quote_loop q s fuel lxr).index := by
  intro fuel
  induction fuel with
  | zero => intro lxr; exact ⟨rfl, le_refl _⟩
  | succ k ih =>
    intro lxr
    unfold lexer_token_quote_loop
    split_ifs
    · exact ⟨rfl, le_refl _⟩
    · exact ⟨rfl, Nat.le_add_right _ _⟩
    · obtain ⟨h1, h2⟩ := ih (lxr.advance_char 2)
      exact ⟨h1, le_trans (Nat.le_add_right _ 2) h2⟩
    · obtain ⟨h1, h2⟩ := ih (lxr.advance_char 1)
      exact ⟨h1, le_trans (Nat.le_add_right _ 1) h2⟩

/-- The loop of a line comment keeps the buffer and does not move the cursor back. -/
theorem lexer_token_fwdslash_line_index :
    ∀ (fuel : Nat) (lxr : Lexer),
      (lexer_token_fwdslash_line fuel lxr).src_ = lxr.src_
      ∧ lxr.index ≤ (lexer_token_fwdslash_line fuel lxr).index := by
  intro fuel
  induction fuel with
  | zero => intro lxr; exact ⟨rfl, le_refl _⟩
  | succ k ih =>
    intro lxr
    unfold lexer_token_fwdslash_line
    split_ifs
    · obtain ⟨h1, h2⟩ := ih (lxr.advance_char 1)
      exact ⟨h1, le_trans (Nat.le_add_right _ 1) h2⟩
    · exact ⟨rfl, le_refl _⟩

/-- The loop of a block comment keeps the buffer and does not move the cursor back. -/
theorem lexer_token_fwdslash_block_index_le :
    ∀ (fuel : Nat) (lxr : Lexer),
      (lexer_token_fwdslash_block fuel lxr).src_ = lxr.src_
      ∧ lxr.index ≤ (lexer_token_fwdslash_block fuel lxr).index := by
  intro fuel
  induction fuel with
  | zero => intro lxr; exact ⟨rfl, le_refl _⟩
  | succ k ih =>
    intro lxr
    unfold lexer_token_fwdslash_block
    split_ifs
    · exact ⟨rfl, le_refl _⟩
    · exact ⟨rfl, Nat.le_add_right _ _⟩
    · obtain ⟨h1, h2⟩ := ih (lxr.advance_line.advance_char 1)
      exact ⟨h1, le_trans (Nat.le_add_right _ 1) h2⟩
    · obtain ⟨h1, h2⟩ := ih (lxr.advance_char 1)
      exact ⟨h1, le_trans (Nat.le_add_right _ 1) h2⟩

/-- Each handler other than `lexer_token_null` and `lexer_token_fwdslash` keeps the buffer
and, with the cursor inside the buffer, moves the cursor forward. -/
theorem handlers_with_progress_index :
    ∀ handler ∈ handlers_with_progress, ∀ (lxr : Lexer),
      (handler lxr).src_ = lxr.src_
      ∧ (lxr.index < lxr.src_.length → lxr.index < (handler lxr).index) := by
  unfold handlers_with_progress
  simp only [List.forall_mem_cons, List.not_mem_nil, false_implies, implies_true, and_true]
  repeat' apply And.intro
  all_goals
    intro lxr
    first
      | (refine ⟨?_, ?_⟩
         · unfold lexer_token_quote
           split_ifs
           · rfl
           · exact (lexer_token_quote_loop_index _ _ _ _).1
         · intro hin
           unfold lexer_token_quote
           rw [if_neg (by omega)]
           exact Nat.lt_of_succ_le (lexer_token_quote_loop_index _ _ _ (lxr.advance_char 1)).2)
      | (simp only [
          lexer_token_skip, lexer_token_newline, lexer_token_semicolon, lexer_token_lparen,
          lexer_token_rparen, lexer_token_lbrace, lexer_token_rbrace, lexer_token_comma,
          lexer_token_hyphen, lexer_token_plus, lexer_token_asterisk,
          lexer_token_percent, lexer_token_equals, lexer_token_lessthan,
          lexer_token_greaterthan, lexer_token_ampersand, lexer_token_verticalline,
          lexer_token_exclamation, lexer_token_tilde, lexer_token_uparrow,
          lexer_token_singlequote, lexer_token_singlequote_close,
          lexer_token_lsquarebracket, lexer_token_rsquarebracket, lexer_token_questionmark,
          lexer_token_colon, lexer_token_dot, lexer_token_backslash,
          lexer_token_at, lexer_token_backtick, lexer_token_pound]
         refine ⟨?_, ?_⟩
         · (try split_ifs) <;> rfl
         · intro hin
           (try split_ifs) <;>
             (try simp only [Lexer.set_current, Lexer.set_none, Lexer.advance_char,
               Lexer.advance_line]) <;> omega)

/-- The handler of the slash keeps the buffer and, with the cursor inside the buffer on a
slash, moves the cursor forward. -/
theorem lexer_token_fwdslash_progress (lxr : Lexer) :
    (lexer_token_fwdslash lxr).src_ = lxr.src_
    ∧ (lxr.index < lxr.src_.length → lxr.current_char = '/' →
        lxr.index < (lexer_token_fwdslash lxr).index) := by
  refine ⟨?_, ?_⟩
  · unfold lexer_token_fwdslash
    split_ifs
    · rfl
    · exact (lexer_token_fwdslash_line_index _ _).1
    · simp only
      split_ifs
      · exact (lexer_token_fwdslash_block_index_le _ _).1
      · exact (lexer_token_fwdslash_block_index_le _ _).1
    · rfl
    · rfl
  · intro hin hc
    have h1 : lxr.current_char ≠ NUL := by rw [hc]; decide
    have h2 : lxr.current_char ≠ NEWLINE := by rw [hc]; decide
    have h3 : ¬ (lxr.current_char = '*' ∧ lxr.peek_char = '/') := by
      rw [hc]; exact fun h => absurd h.1 (by decide)
    have hline : lxr.index < (lexer_token_fwdslash_line (lxr.src_.length + 1) lxr).index := by
      unfold lexer_token_fwdslash_line
      rw [if_pos ⟨h1, h2⟩]
      exact Nat.lt_of_succ_le (lexer_token_fwdslash_line_index _ (lxr.advance_char 1)).2
    have hblock :
        lxr.index < (lexer_token_fwdslash_block (lxr.src_.length + 1) lxr).index := by
      unfold lexer_token_fwdslash_block
      rw [if_neg h1, if_neg h3]
      simp only [if_neg h2]
      exact Nat.lt_of_succ_le (lexer_token_fwdslash_block_index_le _ (lxr.advance_char 1)).2
    unfold lexer_token_fwdslash
    rw [if_neg (by omega)]
    split_ifs
    · exact hline
    · simp only
      split_ifs
      · exact hblock
      · exact hblock
    · exact Nat.lt_add_of_pos_right (by decide)
    · exact Nat.lt_add_of_pos_right (by decide)

/-- A loop that dispatches handlers stops at end-of-file: the table `dispatch` gives each
byte a handler of `tokens.cpp`, `lexer_token_null` to the NUL byte and `lexer_token_fwdslash`
to no byte but the slash. -/
theorem dispatch_until_end_of_file_stops (dispatch : Char → Lexer → Lexer)
    (hdispatch : ∀ c, dispatch c ∈ handlers_with_progress ∨ dispatch c = lexer_token_null
      ∨ (c = '/' ∧ dispatch c = lexer_token_fwdslash))
    (hnul : dispatch NUL = lexer_token_null) :
    ∀ (n : Nat) (lxr : Lexer) (fuel : Nat), lxr.src_.length - lxr.index ≤ n → n + 1 ≤ fuel →
      ∃ r, dispatch_until_end_of_file dispatch fuel lxr = some r
        ∧ r.current_.type = .TOKEN_END_OF_FILE ∧ r.src_ = lxr.src_ := by
  intro n
  induction n with
  | zero =>
    intro lxr fuel hn hfuel
    obtain ⟨k, rfl⟩ : ∃ k, fuel = k + 1 := ⟨fuel - 1, by omega⟩
    have hc : lxr.current_char = NUL := by
      unfold Lexer.current_char
      exact List.getD_eq_default _ _ (by omega)
    unfold dispatch_until_end_of_file
    simp only [hc, hnul]
    exact ⟨_, if_pos rfl, rfl, rfl⟩
  | succ m ih =>
    intro lxr fuel hn hfuel
    obtain ⟨k, rfl⟩ : ∃ k, fuel = k + 1 := ⟨fuel - 1, by omega⟩
    unfold dispatch_until_end_of_file
    simp only
    by_cases hE : (dispatch lxr.current_char lxr).current_.type = .TOKEN_END_OF_FILE
    · rw [if_pos hE]
      refine ⟨_, rfl, hE, ?_⟩
      rcases hdispatch lxr.current_char with h | h | ⟨_, h⟩
      · exact (handlers_with_progress_index _ h lxr).1
      · rw [h]; rfl
      · rw [h]; exact (lexer_token_fwdslash_progress lxr).1
    · rw [if_neg hE]
      by_cases hin : lxr.index < lxr.src_.length
      · have hstep : (dispatch lxr.current_char lxr).src_ = lxr.src_
            ∧ lxr.index < (dispatch lxr.current_char lxr).index := by
          rcases hdispatch lxr.current_char with h | h | ⟨hc, h⟩
          · exact ⟨(handlers_with_progress_index _ h lxr).1,
              (handlers_with_progress_index _ h lxr).2 hin⟩
          · exact absurd (by rw [h]; rfl) hE
          · rw [h]
            exact ⟨(lexer_token_fwdslash_progress lxr).1,
              (lexer_token_fwdslash_progress lxr).2 hin hc⟩
        obtain ⟨r, hr, hE', hsrc⟩ := ih (dispatch lxr.current_char lxr) k
          (by rw [hstep.1]; omega) (by omega)
        exact ⟨r, hr, hE', hsrc.trans hstep.1⟩
      · have hc : lxr.current_char = NUL := by
          unfold Lexer.current_char
          exact List.getD_eq_default _ _ (by omega)
        exact absurd (by rw [hc, hnul]; rfl) hE

/-- The table `sample_dispatch` gives each byte a handler of `tokens.cpp`, the slash
handler to the slash only. -/
theorem sample_dispatch_handlers (c : Char) :
    sample_dispatch c ∈ handlers_with_progress ∨ sample_dispatch c = lexer_token_null
      ∨ (c = '/' ∧ sample_dispatch c = lexer_token_fwdslash) := by
  unfold sample_dispatch
  split_ifs with h1 h2 h3 h4 h5
  · exact Or.inr (Or.inl rfl)
  · exact Or.inr (Or.inr ⟨h2, rfl⟩)
  all_goals
    left
    simp [handlers_with_progress]

/-- Each handler of `tokens.cpp` is `lexer_token_null`, `lexer_token_fwdslash` or one of the
thirty-one other handlers. -/
theorem lexer_handlers_cases :
    ∀ handler ∈ lexer_handlers, handler = lexer_token_null ∨ handler = lexer_token_fwdslash
      ∨ handler ∈ handlers_with_progress := by
  unfold lexer_handlers handlers_with_end_test
  simp only [List.cons_append, List.nil_append, List.forall_mem_cons, List.not_mem_nil,
    false_implies, implies_true, and_true]
  repeat' apply And.intro
  all_goals
    first
      | exact Or.inl trivial
      | exact Or.inr (Or.inl trivial)
      | (right; right; simp [handlers_with_progress])

/-- C38 (counterexample): the buffer `x`, which has no NUL byte, with the cursor on its
byte.  `lexer_token_null` is a handler of `tokens.cpp`; it sets the end-of-file token and
leaves the cursor at the offset 0.  On the buffer of a newline and `/x`, with the cursor on
the newline, `lexer_token_fwdslash` leaves the cursor at the offset 0 as well: the loop of
the line comment stops on the newline under the cursor. -/
theorem lexer_token_null_progress_counterexample :
    lexer_token_null ∈ lexer_handlers
    ∧ (∀ c ∈ buf_x, c ≠ NUL)
    ∧ (lexer_at buf_x 0).index < (lexer_at buf_x 0).src_.length
    ∧ (lexer_token_null (lexer_at buf_x 0)).index = 0
    ∧ ¬ (lexer_at buf_x 0).index < (lexer_token_null (lexer_at buf_x 0)).index
    ∧ lexer_token_fwdslash ∈ lexer_handlers
    ∧ (∀ c ∈ buf_newline_slash, c ≠ NUL)
    ∧ (lexer_at buf_newline_slash 0).index < (lexer_at buf_newline_slash 0).src_.length
    ∧ (lexer_token_fwdslash (lexer_at buf_newline_slash 0)).index = 0
    ∧ ¬ (lexer_at buf_newline_slash 0).index
        < (lexer_token_fwdslash (lexer_at buf_newline_slash 0)).index := by
  refine ⟨by simp [lexer_handlers, handlers_with_end_test], by decide, by decide, rfl,
    by decide, by simp [lexer_handlers, handlers_with_end_test], by decide, by decide, rfl,
    by decide⟩

/-- C38 (amended): progress of the handlers other than `lexer_token_null`.  For every
handler of `tokens.cpp` but `lexer_token_null` and every buffer with the cursor strictly
inside it, on a slash if the handler is `lexer_token_fwdslash`, running the handler keeps
the buffer and leaves the cursor strictly greater than before; `lexer_token_null` leaves
the cursor and sets the end-of-file token.  So a loop that dispatches handlers until
end-of-file, by a table that gives each byte a handler of `tokens.cpp`, the NUL byte
`lexer_token_null` and no byte but the slash `lexer_token_fwdslash`, stops within one round
per byte left and one more, on the end-of-file token. -/
theorem lexer_handlers_progress (handler : Lexer → Lexer) (dispatch : Char → Lexer → Lexer)
    (lxr : Lexer) (hmem : handler ∈ lexer_handlers) (hnot_null : handler ≠ lexer_token_null)
    (hin : lxr.index < lxr.src_.length)
    (hslash : handler = lexer_token_fwdslash → lxr.current_char = '/')
    (hdispatch : ∀ c, dispatch c ∈ handlers_with_progress ∨ dispatch c = lexer_token_null
      ∨ (c = '/' ∧ dispatch c = lexer_token_fwdslash))
    (hnul : dispatch NUL = lexer_token_null) :
    lxr.index < (handler lxr).index
    ∧ (handler lxr).src_ = lxr.src_
    ∧ (lexer_token_null lxr).index = lxr.index
    ∧ (lexer_token_null lxr).current_.type = .TOKEN_END_OF_FILE
    ∧ ∃ r, dispatch_until_end_of_file dispatch (lxr.src_.length - lxr.index + 1) lxr = some r
        ∧ r.current_.type = .TOKEN_END_OF_FILE := by
  refine ⟨?_, ?_, rfl, rfl, ?_⟩
  · rcases lexer_handlers_cases handler hmem with h | h | h
    · exact absurd h hnot_null
    · rw [h]; exact (lexer_token_fwdslash_progress lxr).2 hin (hslash h)
    · exact (handlers_with_progress_index handler h lxr).2 hin
  · rcases lexer_handlers_cases handler hmem with h | h | h
    · exact absurd h hnot_null
    · rw [h]; exact (lexer_token_fwdslash_progress lxr).1
    · exact (handlers_with_progress_index handler h lxr).1
  · obtain ⟨r, hr, hE, _⟩ := dispatch_until_end_of_file_stops dispatch hdispatch hnul
      (lxr.src_.length - lxr.index) lxr (lxr.src_.length - lxr.index + 1) (le_refl _)
      (le_refl _)
    exact ⟨r, hr, hE⟩

/-- C38 (witness): the buffer `; "a" // c` with the cursor on the first slash, the handler
`lexer_token_fwdslash` and the table `sample_dispatch`. -/
theorem lexer_handlers_progress_witness :
    (lexer_at buf_semicolon_string_comment 6).index
        < (lexer_token_fwdslash (lexer_at buf_semicolon_string_comment 6)).index
    ∧ (lexer_token_fwdslash (lexer_at buf_semicolon_string_comment 6)).src_
        = (lexer_at buf_semicolon_string_comment 6).src_
    ∧ (lexer_token_null (lexer_at buf_semicolon_string_comment 6)).index
        = (lexer_at buf_semicolon_string_comment 6).index
    ∧ (lexer_token_null (lexer_at buf_semicolon_string_comment 6)).current_.type
        = .TOKEN_END_OF_FILE
    ∧ ∃ r, dispatch_until_end_of_file sample_dispatch
          ((lexer_at buf_semicolon_string_comment 6).src_.length
            - (lexer_at buf_semicolon_string_comment 6).index + 1)
          (lexer_at buf_semicolon_string_comment 6) = some r
        ∧ r.current_.type = .TOKEN_END_OF_FILE :=
  lexer_handlers_progress lexer_token_fwdslash sample_dispatch
    (lexer_at buf_semicolon_string_comment 6)
    (by simp [lexer_handlers, handlers_with_end_test])
    (fun h => absurd (congrArg (fun f => (f (lexer_at ['/'] 0)).index) h) (by decide))
    (by decide) (fun _ => rfl) sample_dispatch_handlers rfl

/-! ## C40: `split_struct_member_path` -/

/-- The first dot of a byte string that begins with a segment without a dot and a dot. -/
theorem find_char_segment (seg rest : List Char) (hseg : '.' ∉ seg) :
    find_char '.' (seg ++ '.' :: rest) = some seg.length := by
  induction seg with
  | nil => simp [find_char]
  | cons c t ih =>
    have hc : c ≠ '.' := fun h => hseg (by rw [h]; exact List.mem_cons_self _ _)
    have ht : '.' ∉ t := fun h => hseg (List.mem_cons_of_mem _ h)
    simp [find_char, hc, ih ht]

/-- The loop of `split_struct_member_path` on a path whose bytes from `start` on are
segments without a dot, each followed by a dot: it appends the segments that are not empty,
within one round per segment and one more. -/
theorem split_struct_member_path_loop_segments (path : List Char) :
    ∀ (segs : List (List Char)) (fuel : Nat) (chunks : List (List Char)) (start : Nat),
      (∀ s ∈ segs, '.' ∉ s) → path.drop start = dot_terminated segs → segs.length + 1 ≤ fuel →
      split_struct_member_path_loop path fuel chunks start (string_find path '.' start)
        = some (chunks ++ segs.filter (· ≠ [])) := by
  intro segs
  induction segs with
  | nil =>
    intro fuel chunks start _ hdrop hfuel
    obtain ⟨k, rfl⟩ : ∃ k, fuel = k + 1 := ⟨fuel - 1, by simp at hfuel; omega⟩
    simp [split_struct_member_path_loop, string_find, hdrop, dot_terminated, find_char]
  | cons seg more ih =>
    intro fuel chunks start hsegs hdrop hfuel
    obtain ⟨k, rfl⟩ : ∃ k, fuel = k + 1 := ⟨fuel - 1, by simp at hfuel; omega⟩
    have hseg : '.' ∉ seg := hsegs seg (List.mem_cons_self _ _)
    have hmore : ∀ s ∈ more, '.' ∉ s := fun s hs => hsegs s (List.mem_cons_of_mem _ hs)
    have hdrop1 : path.drop start = seg ++ '.' :: dot_terminated more := hdrop
    have hfind : string_find path '.' start = some (seg.length + start) := by
      simp [string_find, hdrop1, find_char_segment seg _ hseg]
    have hnext : path.drop (seg.length + start + 1) = dot_terminated more := by
      have h1 : path.drop (seg.length + start + 1)
          = (path.drop start).drop (seg.length + 1) := by
        rw [List.drop_drop]
        congr 1
        omega
      rw [h1, hdrop1, List.drop_append_eq_append_drop]
      simp
    have hsub : string_substr path start (seg.length + start - start) = seg := by
      simp [string_substr, hdrop1]
    rw [hfind]
    unfold split_struct_member_path_loop
    simp only
    rw [ih k _ (seg.length + start + 1) hmore hnext (by simp at hfuel ⊢; omega)]
    by_cases hempty : seg = []
    · subst hempty
      simp
    · have hpos : 0 < seg.length := List.length_pos.mpr hempty
      rw [if_pos (by omega), hsub]
      simp [List.filter_cons, hempty]

/-- The strings of a list that is not empty, joined with dots, and a dot after them. -/
theorem intercalate_dot_terminated (s : List Char) (strs : List (List Char)) :
    List.intercalate ['.'] (s :: strs) ++ ['.'] = dot_terminated (s :: strs) := by
  induction strs generalizing s with
  | nil => simp [List.intercalate, dot_terminated]
  | cons t more ih =>
    have h := ih t
    simp only [List.intercalate, List.intersperse, dot_terminated] at h ⊢
    simp only [List.flatten, List.append_assoc, List.singleton_append,
      List.cons_append, List.nil_append] at h ⊢
    rw [h]

/-- Every byte string with a dot after it is a list of segments without a dot, each
followed by a dot. -/
theorem dot_terminated_segments (l : List Char) :
    ∃ segs : List (List Char), (∀ s ∈ segs, '.' ∉ s) ∧ l ++ ['.'] = dot_terminated segs := by
  induction l with
  | nil => exact ⟨[[]], by simp, rfl⟩
  | cons c t ih =>
    obtain ⟨segs, hsegs, heq⟩ := ih
    by_cases hc : c = '.'
    · refine ⟨[] :: segs, ?_, ?_⟩
      · intro s hs
        rcases List.mem_cons.mp hs with h | h
        · rw [h]; simp
        · exact hsegs s h
      · simp [dot_terminated, hc, ← heq]
    · cases segs with
      | nil => simp [dot_terminated] at heq
      | cons s0 more =>
        refine ⟨(c :: s0) :: more, ?_, ?_⟩
        · intro s hs
          rcases List.mem_cons.mp hs with h | h
          · rw [h]
            intro hmem
            rcases List.mem_cons.mp hmem with h1 | h1
            · exact hc h1.symm
            · exact hsegs s0 (List.mem_cons_self _ _) h1
          · exact hsegs s (List.mem_cons_of_mem _ h)
        · simp only [dot_terminated, List.cons_append] at heq ⊢
          rw [heq]

/-- The chunks of a path that is a dot and segments without a dot, each followed by a dot
but the last: the segments that are not empty. -/
theorem split_struct_member_path_segments (l : List Char) (segs : List (List Char))
    (hsegs : ∀ s ∈ segs, '.' ∉ s) (heq : l ++ ['.'] = dot_terminated segs) :
    split_struct_member_path ('.' :: l) = some (segs.filter (· ≠ [])) := by
  have hlen : segs.length ≤ (l ++ ['.']).length := by
    rw [heq]
    clear heq hsegs
    induction segs with
    | nil => simp
    | cons s more ih => simp [dot_terminated]; omega
  unfold split_struct_member_path
  rw [if_neg (by simp)]
  simp only [List.drop_succ_cons, List.drop_zero]
  rw [split_struct_member_path_loop_segments (l ++ ['.']) segs _ [] 0 hsegs
    (by simpa using heq) (by omega)]
  simp

/-- C40: `split_struct_member_path` inverts joining with dots.  For every list of strings
without a dot, the path that is a dot and the strings joined with dots gives the strings
that are not empty, in order; so it gives exactly the list when none of its strings is
empty, and the path `.` alone gives the empty list.  For every path that begins with a dot
the function returns chunks, none of which is empty or contains a dot: the empty segments
between dots are dropped. -/
theorem split_struct_member_path_inverts_join (strs : List (List Char))
    (hdot : ∀ s ∈ strs, '.' ∉ s) :
    split_struct_member_path ('.' :: List.intercalate ['.'] strs)
      = some (strs.filter (· ≠ []))
    ∧ ((∀ s ∈ strs, s ≠ []) →
        split_struct_member_path ('.' :: List.intercalate ['.'] strs) = some strs)
    ∧ split_struct_member_path ['.'] = some []
    ∧ ∀ l : List Char, ∃ chunks, split_struct_member_path ('.' :: l) = some chunks
        ∧ ∀ c ∈ chunks, c ≠ [] ∧ '.' ∉ c := by
  have hfirst : split_struct_member_path ('.' :: List.intercalate ['.'] strs)
      = some (strs.filter (· ≠ [])) := by
    cases strs with
    | nil => rfl
    | cons s more =>
      exact split_struct_member_path_segments _ (s :: more) hdot
        (intercalate_dot_terminated s more)
  refine ⟨hfirst, ?_, rfl, ?_⟩
  · intro hne
    rw [hfirst]
    congr 1
    exact List.filter_eq_self.mpr (fun s hs => by simpa using hne s hs)
  · intro l
    obtain ⟨segs, hsegs, heq⟩ := dot_terminated_segments l
    refine ⟨_, split_struct_member_path_segments l segs hsegs heq, ?_⟩
    intro c hc
    obtain ⟨hmem, hne⟩ := List.mem_filter.mp hc
    exact ⟨by simpa using hne, hsegs c hmem⟩

/-- C40 (witness): the strings `a` and `bc`, the path `.a.bc`. -/
theorem split_struct_member_path_inverts_join_witness :
    split_struct_member_path ['.', 'a', '.', 'b', 'c'] = some [['a'], ['b', 'c']]
    ∧ split_struct_member_path ['.', '.', 'a', '.', '.'] = some [['a']] :=
  ⟨((split_struct_member_path_inverts_join [['a'], ['b', 'c']] (by decide)).2.1
      (by decide)),
    by rfl⟩

/-! ## C31 and C32: the top-level driver -/

/-- When `parse_expression` returns no node and leaves the lexer on the end-of-file token,
the driver returns `true`, whatever errors the lexer holds. -/
theorem generate_ast_from_source_loop_break (recurse : expr_fn) (fuel : Nat)
    (toplevel_decls : List ast_node) (p p1 : parser) (lxr lxr1 : lexer)
    (hr : recurse p lxr false false = some (none, p1, lxr1))
    (heof : lxr1.current.type = .TOKEN_END_OF_FILE) :
    generate_ast_from_source_loop recurse (fuel + 1) toplevel_decls p lxr
      = some (true, toplevel_decls, p1.pop_scope, lxr1) := by
  unfold generate_ast_from_source_loop
  rw [hr]
  simp [heof]

/-- The scope stack after the loop of the driver, with an expression parser that keeps the
scopes: one scope less than before, the pop of line 786, or as many as before on the return
of line 779, after the error `This is not allowed at global scope.`. -/
theorem generate_ast_from_source_loop_scopes {recurse : expr_fn}
    (h : expr_keeps_scopes recurse) :
    ∀ (fuel : Nat) (toplevel_decls : List ast_node) (p : parser) (lxr : lexer) (b : Bool)
      (decls : List ast_node) (p' : parser) (lxr' : lexer),
      generate_ast_from_source_loop recurse fuel toplevel_decls p lxr
        = some (b, decls, p', lxr') →
      p'.scope_stack_.length = p.scope_stack_.length - 1
      ∨ (b = false ∧ p'.scope_stack_.length = p.scope_stack_.length
        ∧ (lxr'.errors.getLast?).map (·.msg) = some "This is not allowed at global scope.") := by
  intro fuel
  induction fuel with
  | zero => intro d p lxr b decls p' lxr' hr; simp [generate_ast_from_source_loop] at hr
  | succ k ih =>
    intro d p lxr b decls p' lxr' hr
    unfold generate_ast_from_source_loop at hr
    generalize hf : recurse p lxr false false = x at hr
    cases x with
    | none => simp at hr
    | some v =>
      obtain ⟨e, p1, l1⟩ := v
      have hk := h _ _ _ _ _ _ _ hf
      cases e with
      | none =>
        simp only [Option.some.injEq, Prod.mk.injEq] at hr
        left
        rw [← hr.2.2.1, ← hk]
        simp [parser.pop_scope]
      | some node =>
        simp only at hr
        split_ifs at hr with hnode
        · simp only [Option.some.injEq, Prod.mk.injEq] at hr
          right
          refine ⟨hr.1.symm, ?_, ?_⟩
          · rw [← hr.2.2.1]; exact hk
          · rw [← hr.2.2.2]
            simp [lexer.raise_error, lexer.raise_error_at]
        · rcases ih _ _ _ _ _ _ _ hr with h1 | h1
          · left; rw [h1, hk]
          · right; exact ⟨h1.1, by rw [h1.2.1, hk], h1.2.2⟩

/-- C31 (failing inputs): the sources `x : i32` and `a : i32 =`, each ending in the middle
of a declaration, with `parse_expression` over `toplevel_externals`.  On `x : i32` the
declaration is parsed and `parse_expression` raises `Unexpected token following
expression.` at the end of the source; on `a : i32 =` the initializer is missing and no
node is made.  In both runs `parse_expression` returns no node: the loop of the driver
breaks, and the driver returns `true`, the current token being the end-of-file token,
with no top-level declaration and, in the first run, with the error in the lexer. -/
theorem generate_ast_from_source_true_after_error :
    (generate_ast_from_source (parse_expression toplevel_externals 8) 8 (parser_with [])
        (true, lexer_on src_x_i32_no_terminator)).map (fun r => r.1) = some true
    ∧ (generate_ast_from_source (parse_expression toplevel_externals 8) 8 (parser_with [])
        (true, lexer_on src_x_i32_no_terminator)).map (fun r => r.2.2.2.errors.map (·.msg))
        = some ["Unexpected token following expression."]
    ∧ (generate_ast_from_source (parse_expression toplevel_externals 8) 8 (parser_with [])
        (true, lexer_on src_x_i32_no_terminator)).map (fun r => r.2.1.length) = some 0
    ∧ (generate_ast_from_source (parse_expression toplevel_externals 8) 8 (parser_with [])
        (true, lexer_on src_a_i32_assign)).map (fun r => r.1) = some true
    ∧ (generate_ast_from_source (parse_expression toplevel_externals 8) 8 (parser_with [])
        (true, lexer_on src_a_i32_assign)).map (fun r => r.2.2.2.errors.map (·.msg))
        = some []
    ∧ (generate_ast_from_source (parse_expression toplevel_externals 8) 8 (parser_with [])
        (true, lexer_on src_a_i32_assign)).map (fun r => r.2.1.length) = some 0
    ∧ (parse_expression toplevel_externals 8 (parser_with []).push_scope
        (lexer_on src_a_i32_assign) false false).map (fun r => r.1.isNone) = some true := by
  refine ⟨rfl, rfl, rfl, rfl, rfl, rfl, rfl⟩

/-- The return of line 779, for every expression parser: when `parse_expression` returns a
node that is neither a procedure nor a variable declaration, the loop of the driver raises
the error and returns `false` with the parser as the call left it; no scope is popped. -/
theorem generate_ast_from_source_loop_not_allowed (recurse : expr_fn) (fuel : Nat)
    (toplevel_decls : List ast_node) (node : ast_node) (p p1 : parser) (lxr lxr1 : lexer)
    (hr : recurse p lxr false false = some (some node, p1, lxr1))
    (hproc : node.type ≠ .NODE_PROCDECL) (hvar : node.type ≠ .NODE_VARDECL) :
    generate_ast_from_source_loop recurse (fuel + 1) toplevel_decls p lxr
      = some (false, toplevel_decls, p1,
          lxr1.raise_error "This is not allowed at global scope.") := by
  unfold generate_ast_from_source_loop
  rw [hr]
  simp [hproc, hvar]

/-- C32 (failing input): the source `x : i32; x;`, with the driver entered with an empty
scope stack.  The driver pushes the global scope; the first top-level node is the
declaration of `x`, which is recorded; the second is the reference `x`, an identifier node
that `parse_expression` returns with its terminator consumed.  The node is neither a
procedure nor a variable declaration: the error `This is not allowed at global scope.` is
raised and the driver returns `false` at once (line 779), without the `pop_scope()` of line
786, so one scope is left on the stack.  This is so with the `parse_expression` of
`parser.cpp` itself as the callee, and with the one of `expr.cpp` over
`toplevel_externals`.  Where the loop is left by its `break`, the scope is popped and the
stack is empty again: with the callee of `parser.cpp` on `x : i32;` and on `1;`, whose
literal that callee does not consume, and with the callee of `expr.cpp` on
`x : i32; y :: i32 = 1;` and on `x : i32`. -/
theorem generate_ast_from_source_leaves_global_scope :
    (parser_with []).scope_stack_.length = 0
    ∧ (generate_ast_from_source (parse_expression_of_parser_cpp 8) 8 (parser_with [])
        (true, lexer_on src_declaration_then_reference)).map
          (fun r => (r.1, r.2.1.map ast_node.type, r.2.2.1.scope_stack_.length,
            r.2.2.2.errors.map (·.msg), r.2.2.2.tokens.length))
        = some (false, [.NODE_VARDECL], 1, ["This is not allowed at global scope."], 0)
    ∧ (generate_ast_from_source (parse_expression toplevel_externals 8) 8 (parser_with [])
        (true, lexer_on src_declaration_then_reference)).map
          (fun r => (r.1, r.2.1.map ast_node.type, r.2.2.1.scope_stack_.length,
            r.2.2.2.errors.map (·.msg), r.2.2.2.tokens.length))
        = some (false, [.NODE_VARDECL], 1, ["This is not allowed at global scope."], 0)
    ∧ (generate_ast_from_source (parse_expression_of_parser_cpp 8) 8 (parser_with [])
        (true, lexer_on src_x_i32)).map
          (fun r => (r.1, r.2.1.map ast_node.type, r.2.2.1.scope_stack_.length,
            r.2.2.2.errors.map (·.msg)))
        = some (true, [.NODE_VARDECL], 0, [])
    ∧ (generate_ast_from_source (parse_expression_of_parser_cpp 8) 8 (parser_with [])
        (true, lexer_on src_1_semicolon)).map
          (fun r => (r.1, r.2.1.length, r.2.2.1.scope_stack_.length,
            r.2.2.2.errors.map (·.msg)))
        = some (false, 0, 0, ["Unexpected token following expression."])
    ∧ (generate_ast_from_source (parse_expression toplevel_externals 8) 8 (parser_with [])
        (true, lexer_on src_two_declarations)).map
          (fun r => (r.1, r.2.1.length, r.2.2.1.scope_stack_.length)) = some (true, 2, 0)
    ∧ (generate_ast_from_source (parse_expression toplevel_externals 8) 8 (parser_with [])
        (true, lexer_on src_x_i32_no_terminator)).map
          (fun r => r.2.2.1.scope_stack_.length) = some 0 := by
  refine ⟨rfl, rfl, rfl, rfl, rfl, rfl, rfl⟩

/-! ## C33: `parse_type_alias` and the type-alias table -/

/-- C33: `parse_type_alias` is all-or-nothing on the type-alias table.  The lexer is on the
word `alias`, `parse_type` leaves the type-alias table as it finds it, and it returns.
Then `parse_type_alias` returns.  With more than one scope on the stack it raises `Type
alias definition at non-global scope.` and returns nothing.  When the token after `alias`
is an identifier and the name it gives, qualified by the namespace, is in the type-alias
table or in the table of types, it raises an error and returns nothing.  Whenever it
returns nothing, the type-alias table is what it was at entry.  When it returns a node, the
node is a `TypeAlias`, at most one scope is on the stack, the name was in neither table,
and the type-alias table is the one at entry with one new entry, for the name. -/
theorem parse_type_alias_all_or_nothing (dext : directive_externals) (p : parser)
    (lxr : lexer) (halias : lxr.current.value = ['a', 'l', 'i', 'a', 's'])
    (hkeeps : keeps_type_aliases dext.parse_type)
    (hreturns : ∀ p1 lxr1, (dext.parse_type p1 lxr1).isSome = true) :
    (parse_type_alias dext p lxr).isSome = true
    ∧ (p.scope_stack_.length > 1 →
        parse_type_alias dext p lxr
          = some (none, p, lxr.raise_error "Type alias definition at non-global scope."))
    ∧ ((lxr.advance 1).current.type = .TOKEN_IDENTIFIER →
        (p.type_alias_exists
            (dext.namespace_as_string p ++ String.mk (lxr.advance 1).current.value) = true
          ∨ p.type_exists
            (dext.namespace_as_string p ++ String.mk (lxr.advance 1).current.value) = true) →
        ∃ (lxr0 : lexer) (message : String),
          parse_type_alias dext p lxr = some (none, p, lxr0.raise_error message))
    ∧ (∀ p' lxr', parse_type_alias dext p lxr = some (none, p', lxr') →
        p'.type_aliases_ = p.type_aliases_)
    ∧ (∀ node p' lxr', parse_type_alias dext p lxr = some (some node, p', lxr') →
        node.type = .NODE_TYPE_ALIAS
        ∧ p.scope_stack_.length ≤ 1
        ∧ p.type_alias_exists
            (dext.namespace_as_string p ++ String.mk (lxr.advance 1).current.value) = false
        ∧ p.type_exists
            (dext.namespace_as_string p ++ String.mk (lxr.advance 1).current.value) = false
        ∧ ∃ type, p'.type_aliases_ = p.type_aliases_
            ++ [(dext.namespace_as_string p ++ String.mk (lxr.advance 1).current.value,
                  type)]) := by
  refine ⟨?_, ?_, ?_, ?_, ?_⟩
  · unfold parse_type_alias
    rw [if_neg (by simpa using halias)]
    simp only []
    split_ifs
    all_goals try rfl
    have h := hreturns p ((lxr.advance 1).advance 2)
    cases hpt : dext.parse_type p ((lxr.advance 1).advance 2) with
    | none => rw [hpt] at h; simp at h
    | some v =>
      obtain ⟨t, p1, l1⟩ := v
      cases t <;> rfl
  · intro hscope
    unfold parse_type_alias
    rw [if_neg (by simpa using halias), if_pos hscope]
  · intro hident hexists
    unfold parse_type_alias
    rw [if_neg (by simpa using halias)]
    simp only []
    split_ifs with hscope
    all_goals exact ⟨_, _, rfl⟩
  · intro p' lxr' hr
    unfold parse_type_alias at hr
    rw [if_neg (by simpa using halias)] at hr
    simp only [] at hr
    split_ifs at hr
    all_goals try (simp only [Option.some.injEq, Prod.mk.injEq, true_and] at hr; rw [← hr.1])
    cases hpt : dext.parse_type p ((lxr.advance 1).advance 2) with
    | none => rw [hpt] at hr; simp at hr
    | some v =>
      obtain ⟨t, p1, l1⟩ := v
      rw [hpt] at hr
      cases t with
      | none =>
        simp only [Option.some.injEq, Prod.mk.injEq, true_and] at hr
        rw [← hr.1]
        exact hkeeps _ _ _ _ _ hpt
      | some type => simp at hr
  · intro node p' lxr' hr
    unfold parse_type_alias at hr
    rw [if_neg (by simpa using halias)] at hr
    simp only [] at hr
    split_ifs at hr with hscope hident hexists hassign hstart
    all_goals try (exact absurd hr (by simp))
    cases hpt : dext.parse_type p ((lxr.advance 1).advance 2) with
    | none => rw [hpt] at hr; simp at hr
    | some v =>
      obtain ⟨t, p1, l1⟩ := v
      rw [hpt] at hr
      cases t with
      | none => simp at hr
      | some type =>
        simp only [Option.some.injEq, Prod.mk.injEq] at hr
        have hp1 := hkeeps _ _ _ _ _ hpt
        have hne : p.type_alias_exists
            (dext.namespace_as_string p ++ String.mk (lxr.advance 1).current.value)
            = false := by
          by_contra hc
          exact hexists (Or.inl (by simpa using hc))
        have hnt : p.type_exists
            (dext.namespace_as_string p ++ String.mk (lxr.advance 1).current.value)
            = false := by
          by_contra hc
          exact hexists (Or.inr (by simpa using hc))
        have hne1 : p1.type_alias_exists
            (dext.namespace_as_string p ++ String.mk (lxr.advance 1).current.value)
            = false := by
          unfold parser.type_alias_exists at hne ⊢
          rw [hp1]
          exact hne
        refine ⟨?_, by omega, hne, hnt, type, ?_⟩
        · rw [← hr.1]; rfl
        · rw [← hr.2.1]
          unfold parser.create_type_alias
          rw [hne1]
          simp [hp1]

/-- The type parser `sample_parse_type` leaves the type-alias table as it finds it, and it
returns. -/
theorem sample_parse_type_facts :
    keeps_type_aliases sample_directive_externals.parse_type
    ∧ ∀ p1 lxr1, (sample_directive_externals.parse_type p1 lxr1).isSome = true := by
  refine ⟨?_, ?_⟩
  · intro p lxr r p' lxr' hr
    change sample_parse_type p lxr = _ at hr
    unfold sample_parse_type at hr
    split_ifs at hr
    all_goals
      simp only [Option.some.injEq, Prod.mk.injEq] at hr
      rw [← hr.2.1]
  · intro p lxr
    change (sample_parse_type p lxr).isSome = true
    unfold sample_parse_type
    split_ifs <;> rfl

/-- C33 (witness): scenario S6, the directive `alias Byte = u8;` at global scope, with the
empty tables and then with the alias `Byte` in the table. -/
theorem parse_type_alias_all_or_nothing_witness :
    (parse_type_alias sample_directive_externals parser_at_global_scope
        (lexer_on S6_tokens)).map (fun r => (r.1.map ast_node.type, r.2.1.type_aliases_))
      = some (some .NODE_TYPE_ALIAS, [("Byte", { variable_type := .VAR_U8 })])
    ∧ (parse_type_alias sample_directive_externals parser_with_alias_Byte
        (lexer_on S6_tokens)).map
          (fun r => (r.1.map ast_node.type, r.2.1.type_aliases_, r.2.2.errors.map (·.msg)))
      = some (none, [("Byte", { variable_type := .VAR_U8 })],
          ["Type or type alias with the same name already exists within this namespace."])
    ∧ ∀ p' lxr', parse_type_alias sample_directive_externals parser_with_alias_Byte
          (lexer_on S6_tokens) = some (none, p', lxr') →
        p'.type_aliases_ = parser_with_alias_Byte.type_aliases_ :=
  ⟨by rfl, by rfl,
    (parse_type_alias_all_or_nothing sample_directive_externals parser_with_alias_Byte
      (lexer_on S6_tokens) rfl sample_parse_type_facts.1 sample_parse_type_facts.2).2.2.2.1⟩

/-! ## The table of symbols through the expression parser -/

/-- `parse_parenthesized_expression` keeps the table of symbols. -/
theorem parse_parenthesized_expression_keeps_table {f : expr_fn} (h : expr_keeps_table f) :
    keeps_table (parse_parenthesized_expression f) := by
  intro p lxr r p' lxr' hr
  unfold parse_parenthesized_expression at hr
  split_ifs at hr with hc
  simp only [] at hr
  generalize hf : f _ _ true false = x at hr
  cases x with
  | none => simp at hr
  | some v =>
    obtain ⟨e, p1, l1⟩ := v
    have hk := h _ _ _ _ _ _ _ hf
    cases e with
    | none =>
      simp only [Option.some.injEq, Prod.mk.injEq] at hr
      rw [← hr.2.1]
      exact hk
    | some e =>
      simp only [] at hr
      split_ifs at hr with h1
      all_goals
        simp only [Option.some.injEq, Prod.mk.injEq] at hr
        rw [← hr.2.1]
        exact hk

/-- `parse_singleton_literal` keeps the parser object. -/
theorem parse_singleton_literal_keeps_table : keeps_table parse_singleton_literal := by
  intro p lxr r p' lxr' hr
  unfold parse_singleton_literal at hr
  split_ifs at hr with hc
  simp only [] at hr
  split_ifs at hr with h1
  · cases hx : remove_escaped_chars lxr.current.value with
    | none =>
      rw [hx] at hr
      simp only [Option.some.injEq, Prod.mk.injEq] at hr
      rw [← hr.2.1]
    | some v =>
      rw [hx] at hr
      simp only [Option.some.injEq, Prod.mk.injEq] at hr
      rw [← hr.2.1]
  · simp only [Option.some.injEq, Prod.mk.injEq] at hr
    rw [← hr.2.1]

/-- The loop of `parse_braced_expression` keeps the table of symbols. -/
theorem parse_braced_expression_loop_keeps_table {f : expr_fn} (h : expr_keeps_table f) :
    ∀ (n : Nat) (members : List ast_node),
      keeps_table (parse_braced_expression_loop f n members) := by
  intro n
  induction n with
  | zero => intro ms p lxr r p' lxr' hr; simp [parse_braced_expression_loop] at hr
  | succ n ih =>
    intro ms p lxr r p' lxr' hr
    unfold parse_braced_expression_loop at hr
    split_ifs at hr with h0
    · simp only [] at hr
      generalize hf : f _ _ true false = x at hr
      cases x with
      | none => simp at hr
      | some v =>
        obtain ⟨e, p1, l1⟩ := v
        have hk := h _ _ _ _ _ _ _ hf
        cases e with
        | none =>
          simp only [Option.some.injEq, Prod.mk.injEq] at hr
          rw [← hr.2.1]
          exact hk
        | some e =>
          simp only [] at hr
          split_ifs at hr with h1 h2
          · simp only [Option.some.injEq, Prod.mk.injEq] at hr
            rw [← hr.2.1]
            exact hk
          · exact (ih _ _ _ _ _ _ hr).trans hk
          · exact (ih _ _ _ _ _ _ hr).trans hk
    · simp only [Option.some.injEq, Prod.mk.injEq] at hr
      rw [← hr.2.1]

/-- `parse_braced_expression` keeps the table of symbols. -/
theorem parse_braced_expression_keeps_table {f : expr_fn} (h : expr_keeps_table f)
    (n : Nat) : keeps_table (parse_braced_expression f n) := by
  intro p lxr r p' lxr' hr
  unfold parse_braced_expression at hr
  split_ifs at hr with hc
  exact parse_braced_expression_loop_keeps_table h n [] _ _ _ _ _ hr

/-- `parse_unary_expression` keeps the table of symbols. -/
theorem parse_unary_expression_keeps_table (ext : externals) {f : expr_fn}
    (h : expr_keeps_table f) : keeps_table (parse_unary_expression ext f) := by
  intro p lxr r p' lxr' hr
  unfold parse_unary_expression at hr
  split_ifs at hr with hc
  simp only [] at hr
  generalize hf : f _ _ true true = x at hr
  cases x with
  | none => simp at hr
  | some v =>
    obtain ⟨e, p1, l1⟩ := v
    have hk := h _ _ _ _ _ _ _ hf
    cases e with
    | none =>
      simp only [Option.some.injEq, Prod.mk.injEq] at hr
      rw [← hr.2.1]
      exact hk
    | some e =>
      simp only [] at hr
      split_ifs at hr with h1
      all_goals
        simp only [Option.some.injEq, Prod.mk.injEq] at hr
        rw [← hr.2.1]
        exact hk

/-- `parse_assign` keeps the table of symbols. -/
theorem parse_assign_keeps_table {f : expr_fn} (h : expr_keeps_table f) (a : ast_node) :
    keeps_table (parse_assign f a) := by
  intro p lxr r p' lxr' hr
  unfold parse_assign at hr
  split_ifs at hr with hc
  simp only [] at hr
  generalize hf : f _ _ true false = x at hr
  cases x with
  | none => simp at hr
  | some v =>
    obtain ⟨e, p1, l1⟩ := v
    have hk := h _ _ _ _ _ _ _ hf
    cases e with
    | none =>
      simp only [Option.some.injEq, Prod.mk.injEq] at hr
      rw [← hr.2.1]
      exact hk
    | some e =>
      simp only [] at hr
      split_ifs at hr with h1
      all_goals
        simp only [Option.some.injEq, Prod.mk.injEq] at hr
        rw [← hr.2.1]
        exact hk

/-- `parse_binary_expression` keeps the table of symbols. -/
theorem parse_binary_expression_keeps_table {f : expr_fn} (h : expr_keeps_table f)
    (left : Option ast_node) : keeps_table (parse_binary_expression f left) := by
  intro p lxr r p' lxr' hr
  unfold parse_binary_expression at hr
  split_ifs at hr with hc h0
  · cases left with
    | none => simp at hr
    | some left => exact parse_assign_keeps_table h left _ _ _ _ _ hr
  · cases left with
    | none => simp at hr
    | some left =>
      simp only [] at hr
      generalize hf : f _ _ true false = x at hr
      cases x with
      | none => simp at hr
      | some v =>
        obtain ⟨e, p1, l1⟩ := v
        have hk := h _ _ _ _ _ _ _ hf
        cases e with
        | none =>
          simp only [Option.some.injEq, Prod.mk.injEq] at hr
          rw [← hr.2.1]
          exact hk
        | some e =>
          simp only [] at hr
          split_ifs at hr with h1
          all_goals
            simp only [Option.some.injEq, Prod.mk.injEq] at hr
            rw [← hr.2.1]
            exact hk

/-- `parse_subscript` keeps the table of symbols. -/
theorem parse_subscript_keeps_table {f : expr_fn} (h : expr_keeps_table f)
    (operand : Option ast_node) : keeps_table (parse_subscript f operand) := by
  intro p lxr r p' lxr' hr
  unfold parse_subscript at hr
  split_ifs at hr with hc
  cases operand with
  | none => simp at hr
  | some operand =>
    simp only [] at hr
    generalize hf : f _ _ true false = x at hr
    cases x with
    | none => simp at hr
    | some v =>
      obtain ⟨e, p1, l1⟩ := v
      have hk := h _ _ _ _ _ _ _ hf
      cases e with
      | none =>
        simp only [Option.some.injEq, Prod.mk.injEq] at hr
        rw [← hr.2.1]
        exact hk
      | some e =>
        simp only [] at hr
        split_ifs at hr with h1
        all_goals
          simp only [Option.some.injEq, Prod.mk.injEq] at hr
          rw [← hr.2.1]
          exact hk

/-- The loop over the subscripts keeps the table of symbols. -/
theorem parse_subscripts_keeps_table {f : expr_fn} (h : expr_keeps_table f) :
    ∀ (n : Nat) (expr : Option ast_node) (q : Bool),
      keeps_table (fun p lxr => parse_subscripts f n expr p lxr q) := by
  intro n
  induction n with
  | zero => intro e q p lxr r p' lxr' hr; simp [parse_subscripts] at hr
  | succ n ih =>
    intro e q p lxr r p' lxr' hr
    simp only [] at hr
    unfold parse_subscripts at hr
    split_ifs at hr with h0
    · generalize hf : parse_subscript f e p lxr = x at hr
      cases x with
      | none => simp at hr
      | some v =>
        obtain ⟨e1, p1, l1⟩ := v
        simp only [] at hr
        exact (ih e1 q _ _ _ _ _ hr).trans (parse_subscript_keeps_table h e _ _ _ _ _ hf)
    · simp only [Option.some.injEq, Prod.mk.injEq] at hr
      rw [← hr.2.1]

/-- The suffixes of a primary keep the table of symbols. -/
theorem parse_suffixes_keeps_table {f : expr_fn} (h : expr_keeps_table f) (n : Nat)
    (expr : ast_node) (q : Bool) :
    keeps_table (fun p lxr => parse_suffixes f n expr p lxr q) := by
  intro p lxr r p' lxr' hr
  simp only [] at hr
  unfold parse_suffixes at hr
  generalize hf : parse_subscripts f n (some expr) p lxr q = x at hr
  cases x with
  | none => simp at hr
  | some v =>
    obtain ⟨e1, p1, l1⟩ := v
    have hk := parse_subscripts_keeps_table h n (some expr) q _ _ _ _ _ hf
    simp only [] at hr
    split_ifs at hr with h0
    · exact (parse_binary_expression_keeps_table h e1 _ _ _ _ _ hr).trans hk
    · simp only [Option.some.injEq, Prod.mk.injEq] at hr
      rw [← hr.2.1]
      exact hk

/-- The part of `parse_expression` after the primary keeps the table of symbols. -/
theorem parse_after_primary_keeps_table (ext : externals) {f : expr_fn}
    (h : expr_keeps_table f) (n : Nat) (expr : ast_node) (s q : Bool) :
    keeps_table (fun p lxr => parse_after_primary ext f n expr p lxr s q) := by
  intro p lxr r p' lxr' hr
  simp only [] at hr
  unfold parse_after_primary at hr
  generalize hf : parse_suffixes f n expr p lxr q = x at hr
  have hx : ∀ e1 p1 l1, x = some (e1, p1, l1) →
      p1.sym_table_ = p.sym_table_ := by
    intro e1 p1 l1 he
    rw [he] at hf
    exact parse_suffixes_keeps_table h n expr q _ _ _ _ _ hf
  cases x with
  | none =>
    simp only [] at hr
    split_ifs at hr
    all_goals
      simp only [Option.some.injEq, Prod.mk.injEq] at hr
      rw [← hr.2.1]
  | some v =>
    obtain ⟨e1, p1, l1⟩ := v
    have hk := hx e1 p1 l1 rfl
    simp only [] at hr
    split_ifs at hr
    all_goals
      simp only [Option.some.injEq, Prod.mk.injEq] at hr
      rw [← hr.2.1]
      try exact hk

/-- `parse_keyword` keeps the table of symbols when the statement parsers do. -/
theorem parse_keyword_keeps_table (ext : externals) (hext : ext.keeps_table) :
    keeps_table (parse_keyword ext) := by
  obtain ⟨_, h1, h2, h3, h4, h5, h6, h7⟩ := hext
  intro p lxr r p' lxr' hr
  unfold parse_keyword at hr
  split_ifs at hr
  · exact h1 _ _ _ _ _ hr
  · exact h2 _ _ _ _ _ hr
  · exact h3 _ _ _ _ _ hr
  · exact h4 _ _ _ _ _ hr
  · exact h5 _ _ _ _ _ hr
  · exact h6 _ _ _ _ _ hr
  · exact h7 _ _ _ _ _ hr
  · simp only [Option.some.injEq, Prod.mk.injEq] at hr
    rw [← hr.2.1]

/-- The primary dispatch keeps the table of symbols. -/
theorem parse_primary_keeps_table (ext : externals) (hext : ext.keeps_table) {f : expr_fn}
    (h : expr_keeps_table f) (n : Nat) : keeps_table (parse_primary ext f n) := by
  intro p lxr r p' lxr' hr
  unfold parse_primary at hr
  simp only [] at hr
  split_ifs at hr
  · simp only [Option.some.injEq, Prod.mk.injEq] at hr
    rw [← hr.2.1]
  · exact hext.1 _ _ _ _ _ hr
  · exact parse_parenthesized_expression_keeps_table h _ _ _ _ _ hr
  · exact parse_braced_expression_keeps_table h n _ _ _ _ _ hr
  · exact parse_singleton_literal_keeps_table _ _ _ _ _ hr
  · exact parse_keyword_keeps_table ext hext _ _ _ _ _ hr
  · exact parse_unary_expression_keeps_table ext h _ _ _ _ _ hr
  · simp only [Option.some.injEq, Prod.mk.injEq] at hr
    rw [← hr.2.1]

/-- `parse_expression` keeps the table of symbols when the parsers of the other files do. -/
theorem parse_expression_keeps_table (ext : externals) (hext : ext.keeps_table) :
    ∀ (n : Nat), expr_keeps_table (parse_expression ext n) := by
  intro n
  induction n with
  | zero => intro p lxr s g r p' lxr' hr; simp [parse_expression] at hr
  | succ n ih =>
    intro p lxr s g r p' lxr' hr
    rw [parse_expression] at hr
    generalize hf : parse_primary ext (parse_expression ext n) n p lxr = x at hr
    cases x with
    | none => simp at hr
    | some v =>
      obtain ⟨e, p1, l1⟩ := v
      have hk := parse_primary_keeps_table ext hext ih n _ _ _ _ _ hf
      cases e with
      | none =>
        simp only [Option.some.injEq, Prod.mk.injEq] at hr
        rw [← hr.2.1]
        exact hk
      | some e =>
        simp only [] at hr
        exact (parse_after_primary_keeps_table ext ih n e s g _ _ _ _ _ hr).trans hk

/-- The parsers of `sample_externals` keep the parser object. -/
theorem sample_externals_keeps_table : sample_externals.keeps_table := by
  have hs : keeps_table sample_parse_statement := by
    intro p lxr r p' lxr' hr
    unfold sample_parse_statement at hr
    simp only [Option.some.injEq, Prod.mk.injEq] at hr
    rw [← hr.2.1]
  refine ⟨?_, hs, hs, hs, hs, hs, hs, hs⟩
  intro p lxr r p' lxr' hr
  change sample_parse_identifier p lxr = _ at hr
  unfold sample_parse_identifier at hr
  split at hr
  all_goals
    simp only [Option.some.injEq, Prod.mk.injEq] at hr
    rw [← hr.2.1]

/-! ## C35: the parameter list of a procedure -/

/-- Keeping the symbols is reflexive. -/
theorem keeps_existing_symbols_refl (p : parser) : keeps_existing_symbols p p :=
  fun _ _ h => h

/-- Keeping the symbols is transitive. -/
theorem keeps_existing_symbols_trans {p p1 p2 : parser} (h1 : keeps_existing_symbols p p1)
    (h2 : keeps_existing_symbols p1 p2) : keeps_existing_symbols p p2 :=
  fun i s h => h2 i s (h1 i s h)

/-- A parser object with the same table keeps the symbols. -/
theorem keeps_existing_symbols_of_table {p p' : parser} (h : p'.sym_table_ = p.sym_table_) :
    keeps_existing_symbols p p' := by
  intro i s hs
  unfold parser.lookup_unique_symbol at hs ⊢
  rw [h]
  exact hs

/-- An expression parser that keeps the table keeps the symbols. -/
theorem expr_keeps_symbols_of_table {f : expr_fn} (h : expr_keeps_table f) :
    expr_keeps_symbols f :=
  fun _ _ _ _ _ _ _ hr => keeps_existing_symbols_of_table (h _ _ _ _ _ _ _ hr)

/-- A write through a pointer leaves the other symbols. -/
theorem parser.lookup_modify_symbol_ne (p : parser) (sym : Nat) (f : symbol → symbol)
    (hf : ∀ s, (f s).symbol_index = s.symbol_index) (i : Nat) (hi : i ≠ sym) :
    (p.modify_symbol sym f).lookup_unique_symbol i = p.lookup_unique_symbol i := by
  unfold parser.lookup_unique_symbol parser.modify_symbol
  simp only []
  induction p.sym_table_ with
  | nil => rfl
  | cons a l ih =>
    simp only [List.map_cons, List.find?_cons]
    by_cases h : a.symbol_index = sym
    · have hb : (a.symbol_index == i) = false := by
        simp only [beq_eq_false_iff_ne, ne_eq]
        omega
      have hb2 : ((f a).symbol_index == i) = false := by rw [hf]; exact hb
      rw [if_pos h, hb, hb2]
      exact ih
    · rw [if_neg h]
      cases hc : (a.symbol_index == i)
      · exact ih
      · rfl

/-- The symbols of the table stay when a symbol is created. -/
theorem parser.create_symbol_keeps (p : parser) (name : String) (src_pos line : Nat)
    (sym_type : sym_t) (flags : Nat) :
    keeps_existing_symbols p (p.create_symbol name src_pos line sym_type flags).2 := by
  intro i s hs
  unfold parser.create_symbol
  split_ifs
  · exact hs
  · unfold parser.lookup_unique_symbol at hs ⊢
    rw [List.find?_append, hs]
    rfl

/-- A write through a pointer to a symbol that is not in the table keeps the symbols. -/
theorem parser.modify_symbol_keeps (p : parser) (sym : Nat) (f : symbol → symbol)
    (hf : ∀ s, (f s).symbol_index = s.symbol_index)
    (hnew : p.lookup_unique_symbol sym = none) :
    keeps_existing_symbols p (p.modify_symbol sym f) := by
  intro i s hs
  rw [parser.lookup_modify_symbol_ne p sym f hf i
    (fun h => by rw [h, hnew] at hs; exact absurd hs (by simp))]
  exact hs

/-- The node of a parameter stays one when the symbols are kept, with the same type. -/
theorem is_parameter_node_keeps {p p' : parser} (h : keeps_existing_symbols p p')
    {n : ast_node} (hn : is_parameter_node p n) :
    is_parameter_node p' n ∧ parameter_type p' n = parameter_type p n := by
  obtain ⟨index, v, rfl, hv, ht⟩ := hn
  have hv' := h index v hv
  refine ⟨⟨index, v, rfl, hv', ht⟩, ?_⟩
  simp only [parameter_type, hv, hv']

/-- A parameter that `parse_parameterized_vardecl` returns: its node is the node of a
parameter, and the symbols that were in the table are kept. -/
theorem parse_parameterized_vardecl_node (p : parser) (lxr : lexer) (param : ast_node)
    (p1 : parser) (lxr1 : lexer)
    (hr : parse_parameterized_vardecl p lxr = some (some param, p1, lxr1)) :
    is_parameter_node p1 param ∧ keeps_existing_symbols p p1 := by
  unfold parse_parameterized_vardecl at hr
  simp only [] at hr
  generalize parse_parameterized_vardecl_depth _ _ _ = dl at hr
  obtain ⟨d, l4⟩ := dl
  simp only [] at hr
  generalize hcs : p.create_symbol _ _ _ _ _ = cs at hr
  have hck : keeps_existing_symbols p cs.2 := by
    rw [← hcs]
    exact parser.create_symbol_keeps _ _ _ _ _ _
  have hfacts : p.scoped_symbol_exists_at_current_scope (String.mk lxr.current.value) = false →
      cs.1 = some p.next_symbol_index
      ∧ ∃ s0, cs.2.lookup_unique_symbol p.next_symbol_index = some s0
        ∧ s0.sym_type = .SYM_VARIABLE := by
    intro hnew
    rw [← hcs]
    obtain ⟨a, b, _⟩ := parser.create_symbol_new p _ _ _ .SYM_VARIABLE _ hnew
    exact ⟨a, _, b, rfl⟩
  obtain ⟨o, pc⟩ := cs
  cases o with
  | none =>
    simp only [] at hr
    split_ifs at hr
    all_goals exact absurd hr (by simp)
  | some var_ptr =>
    simp only [] at hr
    split_ifs at hr with h1 h2 h3 h4 h5 h6 h7 h8
    all_goals try (simp at hr; done)
    obtain ⟨hv, s0, hs0, ht0⟩ := hfacts (by simpa using h8)
    simp only [Option.some.injEq] at hv
    subst hv
    simp only [Option.some.injEq, Prod.mk.injEq] at hr
    obtain ⟨hnode, hp, _⟩ := hr
    subst hnode hp
    have hs1 : pc.lookup_unique_symbol p.next_symbol_index = some s0 := hs0
    refine ⟨⟨p.next_symbol_index,
      { s0 with
        array_length := 0, pointer_depth := d,
        variable_type := token_to_var_t ((lxr.advance 1).advance 1).current.type },
      rfl, ?_, ht0⟩, ?_⟩
    · rw [parser.lookup_modify_symbol pc p.next_symbol_index
        (fun s =>
          { s with
            array_length := 0, pointer_depth := d,
            variable_type := token_to_var_t ((lxr.advance 1).advance 1).current.type })
        (fun _ => rfl), hs1]
      rfl
    · intro i s hs
      have hi : i ≠ p.next_symbol_index := by
        intro h
        rw [h, parser.lookup_next_symbol_index] at hs
        exact absurd hs (by simp)
      rw [parser.lookup_modify_symbol_ne _ _ _ (by intro _; rfl) i hi]
      exact hck i s hs

/-- Advancing over a token other than `)` stays before the `)`. -/
theorem lexer.before_advance (lxr : lexer) (rp : Token) (tl : List Token)
    (hrp : rp.type = .TOKEN_RPAREN) (h : lxr.before (rp :: tl))
    (hc : lxr.current.type ≠ .TOKEN_RPAREN) : (lxr.advance 1).before (rp :: tl) := by
  obtain ⟨pre, hpre, hall⟩ := h
  cases pre with
  | nil =>
    exfalso
    apply hc
    simp only [List.nil_append] at hpre
    simp [lexer.current, hpre, hrp]
  | cons t pre' =>
    simp only [List.cons_append] at hpre
    by_cases hE : t.type = .TOKEN_END_OF_FILE
    · have : lxr.advance 1 = lxr := by simp [lexer.advance, lexer.advance1, hpre, hE]
      rw [this]
      exact ⟨t :: pre', by simpa using hpre, hall⟩
    · have : (lxr.advance 1).tokens = pre' ++ rp :: tl := by
        simp [lexer.advance, lexer.advance1, hpre, hE]
      exact ⟨pre', this, fun x hx => hall x (List.mem_cons_of_mem _ hx)⟩

/-- A lexer before the `)` whose current token is a `)` is on that `)`. -/
theorem lexer.before_current (lxr : lexer) (rp : Token) (tl : List Token)
    (h : lxr.before (rp :: tl)) (hc : lxr.current.type = .TOKEN_RPAREN) :
    lxr.tokens = rp :: tl := by
  obtain ⟨pre, hpre, hall⟩ := h
  cases pre with
  | nil => simpa using hpre
  | cons t pre' =>
    exfalso
    apply hall t (List.mem_cons_self _ _)
    simp only [List.cons_append] at hpre
    simpa [lexer.current, hpre] using hc

/-- The loop over the pointer markers of a parameter stays before the `)`. -/
theorem parse_parameterized_vardecl_depth_before (rp : Token) (tl : List Token)
    (hrp : rp.type = .TOKEN_RPAREN) :
    ∀ (fuel d : Nat) (lxr : lexer), lxr.before (rp :: tl) →
      (parse_parameterized_vardecl_depth fuel d lxr).2.before (rp :: tl) := by
  intro fuel
  induction fuel with
  | zero => intro d lxr h; exact h
  | succ k ih =>
    intro d lxr h
    unfold parse_parameterized_vardecl_depth
    split_ifs with hc
    · exact ih _ _ (lexer.before_advance lxr rp tl hrp h (by rw [hc]; decide))
    · exact h

/-- A parameter that `parse_parameterized_vardecl` returns ends before the `)`. -/
theorem parse_parameterized_vardecl_before (p : parser) (lxr : lexer) (param : ast_node)
    (p1 : parser) (lxr1 : lexer) (rp : Token) (tl : List Token)
    (hrp : rp.type = .TOKEN_RPAREN) (h : lxr.before (rp :: tl))
    (hr : parse_parameterized_vardecl p lxr = some (some param, p1, lxr1)) :
    lxr1.before (rp :: tl) := by
  unfold parse_parameterized_vardecl at hr
  simp only [] at hr
  have hd := parse_parameterized_vardecl_depth_before rp tl hrp
    ((((lxr.advance 1).advance 1).advance 1).tokens.length + 1) 0
    (((lxr.advance 1).advance 1).advance 1)
  generalize parse_parameterized_vardecl_depth _ _ _ = dl at hr hd
  obtain ⟨d, l4⟩ := dl
  simp only [] at hr hd
  generalize hcs : p.create_symbol _ _ _ _ _ = cs at hr
  obtain ⟨o, pc⟩ := cs
  cases o with
  | none =>
    simp only [] at hr
    split_ifs at hr
    all_goals exact absurd hr (by simp)
  | some var_ptr =>
    simp only [] at hr
    split_ifs at hr with h1 h2 h3 h4 h5 h6 h7 h8
    all_goals try (simp at hr; done)
    simp only [Option.some.injEq, Prod.mk.injEq] at hr
    rw [← hr.2.2]
    apply hd
    have hb1 := lexer.before_advance lxr rp tl hrp h
      (by rw [not_not.mp h1]; decide)
    have hb2 := lexer.before_advance _ rp tl hrp hb1 (by
      intro hc
      exact h2 ⟨by rw [hc]; decide, by rw [hc]; decide⟩)
    exact lexer.before_advance _ rp tl hrp hb2 (by
      intro hc
      apply h6
      rw [hc]
      rfl)

/-- The loop that copies the types of the parameters to the symbol of a procedure: it copies
the type of each parameter, in order, and leaves the other symbols. -/
theorem parse_procdecl_parameter_types_copies (proc : Nat) :
    ∀ (parameters : List ast_node) (p : parser) (s : symbol),
      p.lookup_unique_symbol proc = some s → s.sym_type = .SYM_PROCEDURE →
      (∀ n ∈ parameters, is_parameter_node p n) →
      ∃ p2, parse_procdecl_parameter_types proc parameters p = (true, p2)
        ∧ p2.lookup_unique_symbol proc
          = some { s with
              parameter_list := s.parameter_list ++ parameters.map (parameter_type p) }
        ∧ ∀ i, i ≠ proc → p2.lookup_unique_symbol i = p.lookup_unique_symbol i := by
  intro parameters
  induction parameters with
  | nil =>
    intro p s hs _ _
    exact ⟨p, rfl, by simpa using hs, fun _ _ => rfl⟩
  | cons a rest ih =>
    intro p s hs hst hparams
    obtain ⟨index, v, rfl, hv, ht⟩ := hparams _ (List.mem_cons_self _ _)
    have hne : ∀ j w, p.lookup_unique_symbol j = some w → w.sym_type = .SYM_VARIABLE →
        j ≠ proc := by
      intro j w hw hwt hj
      rw [hj, hs] at hw
      simp only [Option.some.injEq] at hw
      rw [← hw, hst] at hwt
      exact absurd hwt (by decide)
    have hlook : ∀ i, i ≠ proc →
        (p.modify_symbol proc
          (fun s => { s with parameter_list := s.parameter_list ++ [v.variable_type] })
          ).lookup_unique_symbol i = p.lookup_unique_symbol i :=
      fun i hi => parser.lookup_modify_symbol_ne _ _ _ (by intro _; rfl) i hi
    have hrest : ∀ n ∈ rest,
        is_parameter_node
          (p.modify_symbol proc
            (fun s => { s with parameter_list := s.parameter_list ++ [v.variable_type] })) n
        ∧ parameter_type
          (p.modify_symbol proc
            (fun s => { s with parameter_list := s.parameter_list ++ [v.variable_type] })) n
          = parameter_type p n := by
      intro n hn
      obtain ⟨j, w, rfl, hw, hwt⟩ := hparams n (List.mem_cons_of_mem _ hn)
      have hj := hlook j (hne j w hw hwt)
      refine ⟨⟨j, w, rfl, by rw [hj]; exact hw, hwt⟩, ?_⟩
      simp only [parameter_type, hj]
    obtain ⟨p2, h1, h2, h3⟩ := ih
      (p.modify_symbol proc
        (fun s => { s with parameter_list := s.parameter_list ++ [v.variable_type] }))
      { s with parameter_list := s.parameter_list ++ [v.variable_type] }
      (by
        rw [parser.lookup_modify_symbol p proc
          (fun s => { s with parameter_list := s.parameter_list ++ [v.variable_type] })
          (by intro _; rfl), hs]
        rfl)
      hst (fun n hn => (hrest n hn).1)
    refine ⟨p2, ?_, ?_, ?_⟩
    · unfold parse_procdecl_parameter_types
      simp only [hv]
      rw [if_neg (by simp [ht])]
      exact h1
    · rw [h2]
      have hmap : rest.map (parameter_type
          (p.modify_symbol proc
            (fun s => { s with parameter_list := s.parameter_list ++ [v.variable_type] })))
          = rest.map (parameter_type p) :=
        List.map_congr_left (fun n hn => (hrest n hn).2)
      have hhead : parameter_type p (.vardecl { symbol_index := index } none)
          = v.variable_type := by
        simp only [parameter_type, hv]
      simp only [hmap, List.map_cons, hhead, List.append_assoc, List.singleton_append]
    · intro i hi
      rw [h3 i hi, hlook i hi]

/-- The loop over the body of a procedure: the node it returns is the `ProcDecl` of the
procedure with the parameters given, and the symbols are kept. -/
theorem parse_procdecl_body_node {f : expr_fn} (h : expr_keeps_symbols f) (proc : Nat)
    (parameters : List ast_node) :
    ∀ (fuel : Nat) (body : List ast_node) (p : parser) (lxr : lexer) (node : ast_node)
      (p' : parser) (lxr' : lexer),
      parse_procdecl_body f proc parameters fuel body p lxr = some (some node, p', lxr') →
      (∃ body', node = .procdecl { symbol_index := proc } parameters body')
      ∧ keeps_existing_symbols p p' := by
  intro fuel
  induction fuel with
  | zero => intro body p lxr node p' lxr' hr; simp [parse_procdecl_body] at hr
  | succ fuel ih =>
    intro body p lxr node p' lxr' hr
    unfold parse_procdecl_body at hr
    split_ifs at hr with h0
    · simp only [] at hr
      generalize hf : f _ _ false false = x at hr
      cases x with
      | none => simp at hr
      | some v =>
        obtain ⟨e, p1, l1⟩ := v
        have hk := h _ _ _ _ _ _ _ hf
        cases e with
        | none => simp at hr
        | some e =>
          simp only [] at hr
          split_ifs at hr with h1
          · simp at hr
          · obtain ⟨hn, hk2⟩ := ih _ _ _ _ _ _ hr
            exact ⟨hn, keeps_existing_symbols_trans hk hk2⟩
    · simp only [Option.some.injEq, Prod.mk.injEq] at hr
      exact ⟨⟨body, hr.1.symm⟩, by rw [← hr.2.1]; exact keeps_existing_symbols_refl p⟩

/-- The part of `parse_procdecl` after the parameters, when it returns a node: the token
after the `)` is `->`, the next one is a type keyword that is `void` or maps to a type, the
node is the `ProcDecl` of the procedure with the parameters given, and the symbol of the
procedure has got the type of that token as its return type and the types of the
parameters, in order, after the entries its parameter list had. -/
theorem parse_procdecl_return_type_node {f : expr_fn} (h : expr_keeps_symbols f)
    (fuel proc : Nat) (parameters : List ast_node) (p : parser) (lxr : lexer) (s : symbol)
    (node : ast_node) (p' : parser) (lxr' : lexer)
    (hs : p.lookup_unique_symbol proc = some s) (hst : s.sym_type = .SYM_PROCEDURE)
    (hparams : ∀ n ∈ parameters, is_parameter_node p n)
    (hr : parse_procdecl_return_type f fuel proc parameters p lxr
      = some (some node, p', lxr')) :
    (∃ body, node = .procdecl { symbol_index := proc } parameters body)
    ∧ p'.lookup_unique_symbol proc
      = some { s with
          return_type := token_to_var_t ((lxr.advance 1).advance 1).current.type
          parameter_list := s.parameter_list ++ parameters.map (parameter_type p') }
    ∧ (∀ n ∈ parameters, is_parameter_node p' n)
    ∧ (lxr.advance 1).current.type = .TOKEN_ARROW
    ∧ ((lxr.advance 1).advance 1).current.kind = .KIND_TYPE_IDENTIFIER
    ∧ (token_to_var_t ((lxr.advance 1).advance 1).current.type = .VAR_NONE →
        ((lxr.advance 1).advance 1).current.type = .TOKEN_KW_VOID) := by
  have hne : ∀ j w, p.lookup_unique_symbol j = some w → w.sym_type = .SYM_VARIABLE →
      j ≠ proc := by
    intro j w hw hwt hj
    rw [hj, hs] at hw
    simp only [Option.some.injEq] at hw
    rw [← hw, hst] at hwt
    exact absurd hwt (by decide)
  have hlook : ∀ i, i ≠ proc →
      (p.modify_symbol proc
        (fun s =>
          { s with return_type := token_to_var_t ((lxr.advance 1).advance 1).current.type })
        ).lookup_unique_symbol i = p.lookup_unique_symbol i :=
    fun i hi => parser.lookup_modify_symbol_ne _ _ _ (by intro _; rfl) i hi
  have hparams1 : ∀ n ∈ parameters,
      is_parameter_node
        (p.modify_symbol proc
          (fun s =>
            { s with
              return_type := token_to_var_t ((lxr.advance 1).advance 1).current.type })) n := by
    intro n hn
    obtain ⟨j, w, rfl, hw, hwt⟩ := hparams n hn
    exact ⟨j, w, rfl, by rw [hlook j (hne j w hw hwt)]; exact hw, hwt⟩
  obtain ⟨p2, hc1, hc2, hc3⟩ := parse_procdecl_parameter_types_copies proc parameters
    (p.modify_symbol proc
      (fun s =>
        { s with return_type := token_to_var_t ((lxr.advance 1).advance 1).current.type }))
    { s with return_type := token_to_var_t ((lxr.advance 1).advance 1).current.type }
    (by
      rw [parser.lookup_modify_symbol p proc
        (fun s =>
          { s with return_type := token_to_var_t ((lxr.advance 1).advance 1).current.type })
        (by intro _; rfl), hs]
      rfl)
    hst hparams1
  unfold parse_procdecl_return_type at hr
  simp only [] at hr
  rw [hc1] at hr
  simp only [] at hr
  split_ifs at hr with h1 h2 h3
  all_goals try (exact absurd hr (by simp))
  obtain ⟨hbody, hkeep⟩ := parse_procdecl_body_node h proc parameters fuel [] _ _ _ _ _ hr
  have harrow : (lxr.advance 1).current.type = .TOKEN_ARROW := by
    by_contra hc
    exact h1 (Or.inl hc)
  have hkind : ((lxr.advance 1).advance 1).current.kind = .KIND_TYPE_IDENTIFIER := by
    by_contra hc
    exact h1 (Or.inr hc)
  have hvoid : token_to_var_t ((lxr.advance 1).advance 1).current.type = .VAR_NONE →
      ((lxr.advance 1).advance 1).current.type = .TOKEN_KW_VOID := by
    intro hv
    by_contra hc
    exact h2 ⟨hv, hc⟩
  have hp2 : ∀ n ∈ parameters, is_parameter_node p2 n
      ∧ parameter_type p2 n = parameter_type
        (p.modify_symbol proc
          (fun s =>
            { s with
              return_type := token_to_var_t ((lxr.advance 1).advance 1).current.type })) n := by
    intro n hn
    obtain ⟨j, w, rfl, hw, hwt⟩ := hparams n hn
    have hj := hne j w hw hwt
    have hw1 := hlook j hj
    have hw2 := hc3 j hj
    refine ⟨⟨j, w, rfl, by rw [hw2, hw1]; exact hw, hwt⟩, ?_⟩
    simp only [parameter_type, hw2]
  have hp' : ∀ n ∈ parameters, is_parameter_node p' n
      ∧ parameter_type p' n = parameter_type
        (p.modify_symbol proc
          (fun s =>
            { s with
              return_type := token_to_var_t ((lxr.advance 1).advance 1).current.type })) n := by
    intro n hn
    obtain ⟨h4, h5⟩ := is_parameter_node_keeps hkeep (hp2 n hn).1
    exact ⟨h4, h5.trans (hp2 n hn).2⟩
  refine ⟨hbody, ?_, fun n hn => (hp' n hn).1, harrow, hkind, hvoid⟩
  rw [hkeep proc _ hc2]
  have hmap : parameters.map (parameter_type p')
      = parameters.map (parameter_type
        (p.modify_symbol proc
          (fun s =>
            { s with
              return_type := token_to_var_t ((lxr.advance 1).advance 1).current.type }))) :=
    List.map_congr_left (fun n hn => (hp' n hn).2)
  rw [hmap]

/-- The loop over the parameters of a procedure, when `parse_procdecl` returns a node: the
loop ends on a `)`, the first one that was left, with nodes of parameters and the symbols
kept, and the node is the one of the part after the parameters. -/
theorem parse_procdecl_parameters_reach {f : expr_fn} (fuel proc : Nat) :
    ∀ (count : Nat) (parameters : List ast_node) (p : parser) (lxr : lexer) (s : symbol)
      (node : ast_node) (p' : parser) (lxr' : lexer),
      p.lookup_unique_symbol proc = some s →
      (∀ n ∈ parameters, is_parameter_node p n) →
      parse_procdecl_parameters f fuel proc count parameters p lxr
        = some (some node, p', lxr') →
      ∃ parameters0 p0 lxr0,
        lxr0.current.type = .TOKEN_RPAREN
        ∧ (∀ (rp : Token) (tl : List Token), rp.type = .TOKEN_RPAREN →
            lxr.before (rp :: tl) → lxr0.tokens = rp :: tl)
        ∧ p0.lookup_unique_symbol proc = some s
        ∧ (∀ n ∈ parameters0, is_parameter_node p0 n)
        ∧ parse_procdecl_return_type f fuel proc parameters0 p0 lxr0
          = some (some node, p', lxr') := by
  intro count
  induction count with
  | zero =>
    intro ps p lxr s node p' lxr' _ _ hr
    simp [parse_procdecl_parameters] at hr
  | succ count ih =>
    intro ps p lxr s node p' lxr' hs hparams hr
    unfold parse_procdecl_parameters at hr
    split_ifs at hr with h0 h1
    · simp at hr
    · generalize hf : parse_parameterized_vardecl p lxr = x at hr
      cases x with
      | none => simp at hr
      | some v =>
        obtain ⟨e, p1, l1⟩ := v
        cases e with
        | none => simp at hr
        | some e =>
          obtain ⟨hnode, hkeep⟩ := parse_parameterized_vardecl_node _ _ _ _ _ hf
          have hparams1 : ∀ n ∈ ps ++ [e], is_parameter_node p1 n := by
            intro n hn
            rcases List.mem_append.mp hn with hn | hn
            · exact (is_parameter_node_keeps hkeep (hparams n hn)).1
            · rw [List.mem_singleton.mp hn]
              exact hnode
          simp only [] at hr
          split_ifs at hr with h2
          · obtain ⟨ps0, p0, l0, hc, hb, hrest⟩ :=
              ih _ _ _ _ _ _ _ (hkeep proc s hs) hparams1 hr
            refine ⟨ps0, p0, l0, hc, ?_, hrest⟩
            intro rp tl hrp hbefore
            exact hb rp tl hrp
              (lexer.before_advance _ rp tl hrp
                (parse_parameterized_vardecl_before _ _ _ _ _ rp tl hrp hbefore hf)
                (by rw [h2]; decide))
          · obtain ⟨ps0, p0, l0, hc, hb, hrest⟩ :=
              ih _ _ _ _ _ _ _ (hkeep proc s hs) hparams1 hr
            refine ⟨ps0, p0, l0, hc, ?_, hrest⟩
            intro rp tl hrp hbefore
            exact hb rp tl hrp
              (parse_parameterized_vardecl_before _ _ _ _ _ rp tl hrp hbefore hf)
    · exact ⟨ps, p, lxr, not_not.mp h0,
        fun rp tl _ hb => lexer.before_current lxr rp tl hb (not_not.mp h0), hs, hparams, hr⟩

/-- An accepted parameter, whatever follows it: a name that is new in the current scope,
`:` or `::`, the keyword of a primitive type and pointer markers give the same node and the
same parser object in front of every token that is neither a marker nor `[`, and that token
is left. -/
theorem parse_parameterized_vardecl_group (p : parser) (lxr : lexer)
    (name colon type : Token) (carets : List Token)
    (hname : name.type = .TOKEN_IDENTIFIER)
    (hcolon : colon.type = .TOKEN_TYPE_ASSIGNMENT ∨ colon.type = .TOKEN_CONST_TYPE_ASSIGNMENT)
    (htype : primitive_type_token type)
    (hcarets : ∀ c ∈ carets, c.type = .TOKEN_BITWISE_XOR_OR_PTR)
    (hnew : p.scoped_symbol_exists_at_current_scope (String.mk name.value) = false) :
    ∃ node p', ∀ (next : Token) (rest : List Token),
      next.type ≠ .TOKEN_BITWISE_XOR_OR_PTR → next.type ≠ .TOKEN_LSQUARE_BRACKET →
      parse_parameterized_vardecl p
          { lxr with tokens := name :: colon :: type :: (carets ++ next :: rest) }
        = some (some node, p', { lxr with tokens := next :: rest }) := by
  refine ⟨.vardecl { symbol_index := p.next_symbol_index } none,
    (p.create_symbol (String.mk name.value) name.src_pos name.line .SYM_VARIABLE
      (if 0 < carets.length then
        (if colon.type = .TOKEN_CONST_TYPE_ASSIGNMENT then SYM_IS_PROCARG ||| SYM_IS_CONSTANT
          else SYM_IS_PROCARG) ||| SYM_IS_POINTER
      else if colon.type = .TOKEN_CONST_TYPE_ASSIGNMENT then SYM_IS_PROCARG ||| SYM_IS_CONSTANT
        else SYM_IS_PROCARG)).2.modify_symbol p.next_symbol_index
      (fun s =>
        { s with
          array_length := 0, pointer_depth := carets.length % 65536,
          variable_type := token_to_var_t type.type }), ?_⟩
  intro next rest hnext hnext2
  obtain ⟨hk, hv, hne, hvoid, hproc⟩ := primitive_type_token_facts htype
  have hcne : colon.type ≠ .TOKEN_END_OF_FILE := by
    rcases hcolon with h | h <;> rw [h] <;> decide
  have hadv1 : ({ lxr with tokens := name :: colon :: type :: (carets ++ next :: rest) } :
      lexer).advance 1 = { lxr with tokens := colon :: type :: (carets ++ next :: rest) } :=
    lexer_advance_cons lxr name _ (by rw [hname]; decide)
  have hadv2 : ({ lxr with tokens := colon :: type :: (carets ++ next :: rest) } :
      lexer).advance 1 = { lxr with tokens := type :: (carets ++ next :: rest) } :=
    lexer_advance_cons lxr colon _ hcne
  have hadv3 : ({ lxr with tokens := type :: (carets ++ next :: rest) } :
      lexer).advance 1 = { lxr with tokens := carets ++ next :: rest } :=
    lexer_advance_cons lxr type _ hne
  have hloop := parse_parameterized_vardecl_depth_eq lxr next rest hnext carets
    ((carets ++ next :: rest).length + 1) 0 hcarets (by simp; omega) (by norm_num)
  have hhead : (({ lxr with tokens := carets ++ next :: rest } : lexer).current.type
      = .TOKEN_BITWISE_XOR_OR_PTR) ↔ 0 < carets.length := by
    cases carets with
    | nil => simp [lexer.current, hnext]
    | cons c cs => simp [lexer.current, hcarets c (by simp)]
  unfold parse_parameterized_vardecl
  simp only [lexer_current_cons, hadv1, hadv2, hadv3, hname, ne_eq, not_true_eq_false, if_false,
    hk, hvoid, hproc, hv]
  rw [if_neg (by rcases hcolon with h | h <;> simp [h])]
  simp only [Nat.zero_add] at hloop
  simp only [show ({ lxr with tokens := carets ++ next :: rest } : lexer).tokens
    = carets ++ next :: rest from rfl, hloop, lexer_current_cons, hnext2, if_false, hnew,
    Bool.false_eq_true, hhead]
  obtain ⟨hc1, _⟩ := parser.create_symbol_new p (String.mk name.value) name.src_pos
    name.line .SYM_VARIABLE
    (if 0 < carets.length then
      (if colon.type = .TOKEN_CONST_TYPE_ASSIGNMENT then SYM_IS_PROCARG ||| SYM_IS_CONSTANT
        else SYM_IS_PROCARG) ||| SYM_IS_POINTER
    else if colon.type = .TOKEN_CONST_TYPE_ASSIGNMENT then SYM_IS_PROCARG ||| SYM_IS_CONSTANT
      else SYM_IS_PROCARG) hnew
  generalize hcs : p.create_symbol _ _ _ _ _ = cs at hc1 ⊢
  obtain ⟨o, p1⟩ := cs
  simp only [] at hc1
  subst hc1
  rfl

/-- A comma after a parameter is accepted and not required: the loop over the parameters
of a procedure does the same with and without a comma between an accepted parameter and the
token that follows it. -/
theorem parse_procdecl_parameters_comma (recurse : expr_fn) (fuel proc count : Nat)
    (parameters : List ast_node) (p : parser) (lxr : lexer)
    (name colon type comma next : Token) (carets rest : List Token)
    (hname : name.type = .TOKEN_IDENTIFIER)
    (hcolon : colon.type = .TOKEN_TYPE_ASSIGNMENT ∨ colon.type = .TOKEN_CONST_TYPE_ASSIGNMENT)
    (htype : primitive_type_token type)
    (hcarets : ∀ c ∈ carets, c.type = .TOKEN_BITWISE_XOR_OR_PTR)
    (hnew : p.scoped_symbol_exists_at_current_scope (String.mk name.value) = false)
    (hcomma : comma.type = .TOKEN_COMMA)
    (hnext : next.type ≠ .TOKEN_BITWISE_XOR_OR_PTR) (hnext2 : next.type ≠ .TOKEN_LSQUARE_BRACKET)
    (hnext3 : next.type ≠ .TOKEN_COMMA) :
    parse_procdecl_parameters recurse fuel proc (count + 1) parameters p
        { lxr with tokens := name :: colon :: type :: (carets ++ comma :: next :: rest) }
      = parse_procdecl_parameters recurse fuel proc (count + 1) parameters p
        { lxr with tokens := name :: colon :: type :: (carets ++ next :: rest) } := by
  obtain ⟨node, p', hgroup⟩ := parse_parameterized_vardecl_group p lxr name colon type carets
    hname hcolon htype hcarets hnew
  have h1 := hgroup comma (next :: rest) (by rw [hcomma]; decide) (by rw [hcomma]; decide)
  have h2 := hgroup next rest hnext hnext2
  have hadv : ({ lxr with tokens := comma :: next :: rest } : lexer).advance 1
      = { lxr with tokens := next :: rest } :=
    lexer_advance_cons lxr comma _ (by rw [hcomma]; decide)
  have hd : ¬ token_t.TOKEN_IDENTIFIER = token_t.TOKEN_RPAREN := by decide
  unfold parse_procdecl_parameters
  simp only [lexer_current_cons, hname, ne_eq, not_true_eq_false, if_false, h1, h2, hcomma,
    if_true, hadv, hnext3, hd, not_false_eq_true]

/-- C35: the parameter list of a procedure.  The symbol `proc` is a procedure of the table
whose parameter list is empty, as `create_symbol` makes it, and the expression parser
leaves the symbols it finds in the table as they are.  When `parse_procdecl` returns a
node, the node is the `ProcDecl` of the symbol; each of its parameters is a `VarDecl`
without initializer whose symbol is a variable of the table; the parameter list of the
symbol has the length of the parameter list of the node, and its entries are the variable
types of the symbols of the parameters, in the order of the node.  A comma after a
parameter is accepted and not required: between an accepted parameter and the token that
follows it, the loop over the parameters does the same with and without a comma. -/
theorem parse_procdecl_parameter_list (recurse : expr_fn) (hrec : expr_keeps_symbols recurse)
    (fuel proc : Nat) (p : parser) (lxr : lexer) (s : symbol) (node : ast_node) (p' : parser)
    (lxr' : lexer) (hs : p.lookup_unique_symbol proc = some s)
    (hst : s.sym_type = .SYM_PROCEDURE) (hfresh : s.parameter_list = [])
    (hr : parse_procdecl recurse fuel proc p lxr = some (some node, p', lxr')) :
    (∃ parameters body sp,
      node = .procdecl { symbol_index := proc } parameters body
      ∧ p'.lookup_unique_symbol proc = some sp
      ∧ sp.parameter_list.length = parameters.length
      ∧ sp.parameter_list = parameters.map (parameter_type p')
      ∧ ∀ n ∈ parameters, is_parameter_node p' n)
    ∧ ∀ (count : Nat) (parameters : List ast_node) (p0 : parser) (lxr0 : lexer)
        (name colon type comma next : Token) (carets rest : List Token),
        name.type = .TOKEN_IDENTIFIER →
        (colon.type = .TOKEN_TYPE_ASSIGNMENT ∨ colon.type = .TOKEN_CONST_TYPE_ASSIGNMENT) →
        primitive_type_token type →
        (∀ c ∈ carets, c.type = .TOKEN_BITWISE_XOR_OR_PTR) →
        p0.scoped_symbol_exists_at_current_scope (String.mk name.value) = false →
        comma.type = .TOKEN_COMMA →
        next.type ≠ .TOKEN_BITWISE_XOR_OR_PTR → next.type ≠ .TOKEN_LSQUARE_BRACKET →
        next.type ≠ .TOKEN_COMMA →
        parse_procdecl_parameters recurse fuel proc (count + 1) parameters p0
            { lxr0 with tokens := name :: colon :: type :: (carets ++ comma :: next :: rest) }
          = parse_procdecl_parameters recurse fuel proc (count + 1) parameters p0
            { lxr0 with tokens := name :: colon :: type :: (carets ++ next :: rest) } := by
  refine ⟨?_, fun count parameters p0 lxr0 name colon type comma next carets rest h1 h2 h3 h4
    h5 h6 h7 h8 h9 => parse_procdecl_parameters_comma recurse fuel proc count parameters p0
      lxr0 name colon type comma next carets rest h1 h2 h3 h4 h5 h6 h7 h8 h9⟩
  unfold parse_procdecl at hr
  split_ifs at hr with h0
  rw [hs] at hr
  simp only [] at hr
  split_ifs at hr with h1 h2 h3
  all_goals try (exact absurd hr (by simp))
  generalize hf : parse_procdecl_parameters _ _ _ _ _ _ _ = x at hr
  cases x with
  | none => simp at hr
  | some v =>
    obtain ⟨e, p1, l1⟩ := v
    simp only [Option.some.injEq, Prod.mk.injEq] at hr
    obtain ⟨he, hp, _⟩ := hr
    subst he hp
    obtain ⟨ps0, p0, l0, _, _, hs0, hps0, hrt⟩ :=
      parse_procdecl_parameters_reach fuel proc _ [] p.push_scope _ s _ _ _ hs
        (fun n hn => absurd hn (List.not_mem_nil n)) hf
    obtain ⟨⟨body, hnode⟩, hlook, hparams, _⟩ :=
      parse_procdecl_return_type_node hrec fuel proc ps0 p0 l0 s _ _ _ hs0 hst hps0 hrt
    refine ⟨ps0, body, _, hnode, hlook, ?_, ?_, hparams⟩
    · simp [hfresh]
    · simp only [hfresh, List.nil_append]
      rfl

/-- C35 (witness): `f :: proc (a : i32, b : u8) -> void { 1; }` and the same declaration
without the comma, with `parse_expression` over `sample_externals`: each time the
parameter list of the symbol of `f` is `i32`, `u8`. -/
theorem parse_procdecl_parameter_list_witness :
    (∃ node p' lxr', parse_procdecl (parse_expression sample_externals 3) 3 1 parser_with_f
          (lexer_on src_proc_two_parameters) = some (some node, p', lxr')
        ∧ (p'.lookup_unique_symbol 1).map (fun s => s.parameter_list)
          = some [.VAR_I32, .VAR_U8]
        ∧ ∃ parameters body sp,
          node = .procdecl { symbol_index := 1 } parameters body
          ∧ p'.lookup_unique_symbol 1 = some sp
          ∧ sp.parameter_list.length = parameters.length
          ∧ sp.parameter_list = parameters.map (parameter_type p')
          ∧ ∀ n ∈ parameters, is_parameter_node p' n)
    ∧ (parse_procdecl (parse_expression sample_externals 3) 3 1 parser_with_f
          (lexer_on src_proc_two_parameters_no_comma)).map
        (fun r => (r.2.1.lookup_unique_symbol 1).map (fun s => s.parameter_list))
      = some (some [.VAR_I32, .VAR_U8]) :=
  ⟨⟨_, _, _, rfl, rfl,
      (parse_procdecl_parameter_list (parse_expression sample_externals 3)
        (expr_keeps_symbols_of_table
          (parse_expression_keeps_table sample_externals sample_externals_keeps_table 3))
        3 1 parser_with_f (lexer_on src_proc_two_parameters) symbol_f_constant _ _ _ rfl rfl
        rfl rfl).1⟩,
    rfl⟩

/-! ## C36: the return type of a procedure -/

/-- Advancing raises no error. -/
theorem lexer.advance_errors (lxr : lexer) : ∀ n, (lxr.advance n).errors = lxr.errors := by
  intro n
  induction n generalizing lxr with
  | zero => rfl
  | succ n ih =>
    show ((lxr.advance1).advance n).errors = lxr.errors
    rw [ih]
    unfold lexer.advance1
    split
    · rfl
    · split_ifs <;> rfl

/-- `parse_proc_ptr` is the part before the `)` that closes the parameter types, and then
`parse_proc_ptr_return_type`. -/
theorem parse_proc_ptr_eq (recurse : expr_fn) (proc : Nat) (p : parser) (lxr : lexer) :
    parse_proc_ptr recurse proc p lxr
      = if lxr.current.type ≠ .TOKEN_KW_PROC then none
        else if (lxr.peek 1).type ≠ .TOKEN_BITWISE_XOR_OR_PTR then none
        else
          match parse_array_suffix proc
              (pointer_depth_loop proc (lxr.tokens.length + 1) p (lxr.advance 1)).1
              (pointer_depth_loop proc (lxr.tokens.length + 1) p (lxr.advance 1)).2 with
          | (false, p2, lxr2) => some (none, p2, lxr2)
          | (true, p2, lxr2) =>
            if lxr2.current.type ≠ .TOKEN_LPAREN ∨
                ((lxr2.peek 1).kind ≠ .KIND_TYPE_IDENTIFIER
                  ∧ (lxr2.peek 1).type ≠ .TOKEN_RPAREN) then
              some (none, p2,
                lxr2.raise_error
                  "Expected list of accepted parameter types. Example: \"(i32, i8, bool)\".")
            else
              match parse_proc_ptr_parameters proc (lxr2.tokens.length + 1) p2
                  (lxr2.advance 1) with
              | none => none
              | some (false, p3, lxr3) => some (none, p3, lxr3)
              | some (true, p3, lxr3) => parse_proc_ptr_return_type recurse proc p3 lxr3 := by
  unfold parse_proc_ptr parse_proc_ptr_return_type
  rfl

/-- The loop over the pointer markers of a parameter raises no error. -/
theorem parse_parameterized_vardecl_depth_errors :
    ∀ (fuel d : Nat) (lxr : lexer),
      (parse_parameterized_vardecl_depth fuel d lxr).2.errors = lxr.errors := by
  intro fuel
  induction fuel with
  | zero => intro d lxr; rfl
  | succ k ih =>
    intro d lxr
    unfold parse_parameterized_vardecl_depth
    split_ifs
    · rw [ih, lexer.advance_errors]
    · rfl

/-- A call of `parse_parameterized_vardecl` that returns: it returns a node and has raised
no error, or it returns nothing and has raised one error. -/
theorem parse_parameterized_vardecl_outcome (p : parser) (lxr : lexer)
    (r : Option ast_node) (p1 : parser) (lxr1 : lexer)
    (hr : parse_parameterized_vardecl p lxr = some (r, p1, lxr1)) :
    (r = none ∧ lxr1.errors.length = lxr.errors.length + 1)
    ∨ (r ≠ none ∧ lxr1.errors = lxr.errors) := by
  unfold parse_parameterized_vardecl at hr
  simp only [] at hr
  have hd := parse_parameterized_vardecl_depth_errors
    ((((lxr.advance 1).advance 1).advance 1).tokens.length + 1) 0
    (((lxr.advance 1).advance 1).advance 1)
  generalize parse_parameterized_vardecl_depth _ _ _ = dl at hr hd
  obtain ⟨d, l4⟩ := dl
  simp only [lexer.advance_errors] at hr hd
  generalize hcs : p.create_symbol _ _ _ _ _ = cs at hr
  have hfacts : p.scoped_symbol_exists_at_current_scope (String.mk lxr.current.value) = false →
      cs.1 ≠ none := by
    intro hnew
    rw [← hcs, (parser.create_symbol_new p _ _ _ .SYM_VARIABLE _ hnew).1]
    simp
  obtain ⟨o, pc⟩ := cs
  cases o with
  | none =>
    simp only [] at hr
    split_ifs at hr with h1 h2 h3 h4 h5 h6 h7 h8
    all_goals try
      (simp only [Option.some.injEq, Prod.mk.injEq] at hr
       left
       refine ⟨hr.1.symm, ?_⟩
       rw [← hr.2.2, lexer.raise_error_length]
       simp only [lexer.advance_errors, hd])
    exact absurd rfl (hfacts (by simpa using h8))
  | some var_ptr =>
    simp only [] at hr
    split_ifs at hr with h1 h2 h3 h4 h5 h6 h7 h8
    all_goals try
      (simp only [Option.some.injEq, Prod.mk.injEq] at hr
       left
       refine ⟨hr.1.symm, ?_⟩
       rw [← hr.2.2, lexer.raise_error_length]
       simp only [lexer.advance_errors, hd])
    simp only [Option.some.injEq, Prod.mk.injEq] at hr
    right
    refine ⟨by rw [← hr.1]; simp, ?_⟩
    rw [← hr.2.2]
    exact hd

/-- The loop over the parameters of a procedure, when it returns: an error was raised and
nothing is returned, or the loop has ended on the first `)` that was left, without an error,
and the result is the one of the part after the parameters. -/
theorem parse_procdecl_parameters_outcome {f : expr_fn} (fuel proc : Nat) (rp : Token)
    (tl : List Token) (hrp : rp.type = .TOKEN_RPAREN) :
    ∀ (count : Nat) (parameters : List ast_node) (p : parser) (lxr : lexer)
      (r : Option ast_node) (p' : parser) (lxr' : lexer),
      lxr.before (rp :: tl) →
      parse_procdecl_parameters f fuel proc count parameters p lxr = some (r, p', lxr') →
      (r = none ∧ lxr'.errors.length = lxr.errors.length + 1)
      ∨ ∃ parameters0 p0 lxr0,
        lxr0.tokens = rp :: tl ∧ lxr0.errors = lxr.errors
        ∧ parse_procdecl_return_type f fuel proc parameters0 p0 lxr0 = some (r, p', lxr') := by
  intro count
  induction count with
  | zero =>
    intro ps p lxr r p' lxr' _ hr
    simp [parse_procdecl_parameters] at hr
  | succ count ih =>
    intro ps p lxr r p' lxr' hb hr
    unfold parse_procdecl_parameters at hr
    split_ifs at hr with h0 h1
    · simp only [Option.some.injEq, Prod.mk.injEq] at hr
      left
      exact ⟨hr.1.symm, by rw [← hr.2.2, lexer.raise_error_length]⟩
    · generalize hf : parse_parameterized_vardecl p lxr = x at hr
      cases x with
      | none => simp at hr
      | some v =>
        obtain ⟨e, p1, l1⟩ := v
        rcases parse_parameterized_vardecl_outcome _ _ _ _ _ hf with ⟨he, herr⟩ | ⟨he, herr⟩
        · subst he
          simp only [Option.some.injEq, Prod.mk.injEq] at hr
          left
          exact ⟨hr.1.symm, by rw [← hr.2.2]; exact herr⟩
        · cases e with
          | none => exact absurd rfl he
          | some e =>
            have hb1 := parse_parameterized_vardecl_before _ _ _ _ _ rp tl hrp hb hf
            simp only [] at hr
            split_ifs at hr with h2
            · have hb2 := lexer.before_advance _ rp tl hrp hb1 (by rw [h2]; decide)
              rcases ih _ _ _ _ _ _ hb2 hr with h3 | ⟨ps0, p0, l0, h3, h4, h5⟩
              · left
                rw [lexer.advance_errors, herr] at h3
                exact h3
              · right
                rw [lexer.advance_errors, herr] at h4
                exact ⟨ps0, p0, l0, h3, h4, h5⟩
            · rcases ih _ _ _ _ _ _ hb1 hr with h3 | ⟨ps0, p0, l0, h3, h4, h5⟩
              · left
                rw [herr] at h3
                exact h3
              · right
                rw [herr] at h4
                exact ⟨ps0, p0, l0, h3, h4, h5⟩
    · exact Or.inr ⟨ps, p, lxr, lexer.before_current lxr rp tl hb (not_not.mp h0), rfl, hr⟩

/-- The lexer on `) -> R`, advanced by one and by two tokens. -/
theorem lexer_on_rparen_arrow (lxr : lexer) (rp arrow R : Token) (rest : List Token)
    (hrp : rp.type = .TOKEN_RPAREN) (htokens : lxr.tokens = rp :: arrow :: R :: rest) :
    (lxr.advance 1).current = arrow
    ∧ (arrow.type = .TOKEN_ARROW → ((lxr.advance 1).advance 1).current = R
        ∧ (lxr.advance 2).current = R) := by
  have h1 : lxr.advance 1 = { lxr with tokens := arrow :: R :: rest } := by
    simp [lexer.advance, lexer.advance1, htokens, hrp]
  refine ⟨by rw [h1]; rfl, ?_⟩
  intro harrow
  have h2 : ({ lxr with tokens := arrow :: R :: rest } : lexer).advance 1
      = { lxr with tokens := R :: rest } :=
    lexer_advance_cons lxr arrow _ (by rw [harrow]; decide)
  refine ⟨by rw [h1, h2]; rfl, ?_⟩
  show ((lxr.advance 1).advance 1).current = R
  rw [h1, h2]
  rfl

/-- The part of `parse_procdecl` after the parameters rejects a return type that maps to
`VAR_NONE` without being `void`: it returns nothing and raises one error. -/
theorem parse_procdecl_return_type_rejected (f : expr_fn) (fuel proc : Nat)
    (parameters : List ast_node) (p : parser) (lxr : lexer) (rp arrow R : Token)
    (rest : List Token) (hrp : rp.type = .TOKEN_RPAREN)
    (htokens : lxr.tokens = rp :: arrow :: R :: rest)
    (hnone : token_to_var_t R.type = .VAR_NONE) (hvoid : R.type ≠ .TOKEN_KW_VOID) :
    ∃ p' lxr', parse_procdecl_return_type f fuel proc parameters p lxr = some (none, p', lxr')
      ∧ lxr'.errors.length = lxr.errors.length + 1 := by
  obtain ⟨h1, h2⟩ := lexer_on_rparen_arrow lxr rp arrow R rest hrp htokens
  unfold parse_procdecl_return_type
  simp only []
  by_cases h3 : (lxr.advance 1).current.type ≠ .TOKEN_ARROW
      ∨ ((lxr.advance 1).peek 1).kind ≠ .KIND_TYPE_IDENTIFIER
  · rw [if_pos h3]
    exact ⟨_, _, rfl, by rw [lexer.raise_error_length, lexer.advance_errors]⟩
  · rw [if_neg h3]
    have harrow : arrow.type = .TOKEN_ARROW := by
      by_contra hc
      exact h3 (Or.inl (by rw [h1]; exact hc))
    rw [if_pos (by rw [(h2 harrow).1]; exact ⟨hnone, hvoid⟩)]
    exact ⟨_, _, rfl, by
      rw [lexer.raise_error_length, lexer.advance_errors, lexer.advance_errors]⟩

/-- A call of the part of `parse_procdecl` after the parameters that returns, on a return
type that maps to `VAR_NONE` without being `void`: nothing is returned and one error is
raised. -/
theorem parse_procdecl_return_type_rejects (f : expr_fn) (fuel proc : Nat)
    (parameters : List ast_node) (p : parser) (lxr : lexer) (rp arrow R : Token)
    (rest : List Token) (hrp : rp.type = .TOKEN_RPAREN)
    (htokens : lxr.tokens = rp :: arrow :: R :: rest)
    (hnone : token_to_var_t R.type = .VAR_NONE) (hvoid : R.type ≠ .TOKEN_KW_VOID)
    (r : Option ast_node) (p' : parser) (lxr' : lexer)
    (hr : parse_procdecl_return_type f fuel proc parameters p lxr = some (r, p', lxr')) :
    r = none ∧ lxr'.errors.length = lxr.errors.length + 1 := by
  obtain ⟨p0, l0, h1, h2⟩ := parse_procdecl_return_type_rejected f fuel proc parameters p lxr
    rp arrow R rest hrp htokens hnone hvoid
  rw [h1] at hr
  simp only [Option.some.injEq, Prod.mk.injEq] at hr
  exact ⟨hr.1.symm, by rw [← hr.2.2]; exact h2⟩

/-- The return type of a procedure after `parse_procdecl` has returned a node, when the
first `)` of the tokens is followed by `->` and a token `R`: `R` is a type keyword, and
the return type of the symbol is the type of `R`, which is `VAR_NONE` for `void` only. -/
theorem parse_procdecl_return_type_of_token {f : expr_fn} (h : expr_keeps_symbols f)
    (fuel proc : Nat) (p : parser) (lxr : lexer) (s : symbol) (rp arrow R : Token)
    (rest : List Token) (hs : p.lookup_unique_symbol proc = some s)
    (hst : s.sym_type = .SYM_PROCEDURE) (hrp : rp.type = .TOKEN_RPAREN)
    (hb : lxr.before (rp :: arrow :: R :: rest)) (node : ast_node) (p' : parser)
    (lxr' : lexer) (hr : parse_procdecl f fuel proc p lxr = some (some node, p', lxr')) :
    arrow.type = .TOKEN_ARROW ∧ R.kind = .KIND_TYPE_IDENTIFIER
    ∧ ∃ sp, p'.lookup_unique_symbol proc = some sp
      ∧ sp.return_type = token_to_var_t R.type
      ∧ (sp.return_type = .VAR_NONE ↔ R.type = .TOKEN_KW_VOID) := by
  unfold parse_procdecl at hr
  split_ifs at hr with h0
  rw [hs] at hr
  simp only [] at hr
  split_ifs at hr with h1 h2 h3
  all_goals try (exact absurd hr (by simp))
  generalize hf : parse_procdecl_parameters _ _ _ _ _ _ _ = x at hr
  cases x with
  | none => simp at hr
  | some v =>
    obtain ⟨e, p1, l1⟩ := v
    simp only [Option.some.injEq, Prod.mk.injEq] at hr
    obtain ⟨he, hp, _⟩ := hr
    subst he hp
    have hb1 := lexer.before_advance lxr rp _ hrp hb (by rw [not_not.mp h0]; decide)
    have hb2 := lexer.before_advance _ rp _ hrp hb1 (by rw [not_not.mp h3]; decide)
    obtain ⟨ps0, p0, l0, _, htok, hs0, hps0, hrt⟩ :=
      parse_procdecl_parameters_reach fuel proc _ [] p.push_scope _ s _ _ _ hs
        (fun n hn => absurd hn (List.not_mem_nil n)) hf
    have htok0 := htok rp _ hrp hb2
    obtain ⟨_, hlook, _, harrow, hkind, hvoid⟩ :=
      parse_procdecl_return_type_node h fuel proc ps0 p0 l0 s _ _ _ hs0 hst hps0 hrt
    obtain ⟨ha, hR⟩ := lexer_on_rparen_arrow l0 rp arrow R rest hrp htok0
    rw [ha] at harrow
    rw [(hR harrow).1] at hkind hvoid hlook
    refine ⟨harrow, hkind, _, hlook, rfl, ?_⟩
    constructor
    · exact hvoid
    · intro hv
      show token_to_var_t R.type = .VAR_NONE
      rw [hv]
      rfl

/-- `parse_procdecl` rejects a return type that maps to `VAR_NONE` without being `void`:
when the first `)` of the tokens is followed by `->` and such a token, a call that returns
returns nothing, and one error is raised. -/
theorem parse_procdecl_rejects (f : expr_fn) (fuel proc : Nat) (p : parser) (lxr : lexer)
    (rp arrow R : Token) (rest : List Token) (hrp : rp.type = .TOKEN_RPAREN)
    (hb : lxr.before (rp :: arrow :: R :: rest))
    (hnone : token_to_var_t R.type = .VAR_NONE) (hvoid : R.type ≠ .TOKEN_KW_VOID)
    (r : Option ast_node) (p' : parser) (lxr' : lexer)
    (hr : parse_procdecl f fuel proc p lxr = some (r, p', lxr')) :
    r = none ∧ lxr'.errors.length = lxr.errors.length + 1 := by
  unfold parse_procdecl at hr
  split_ifs at hr with h0
  cases hl : p.lookup_unique_symbol proc with
  | none => rw [hl] at hr; simp at hr
  | some s =>
    rw [hl] at hr
    simp only [] at hr
    split_ifs at hr with h1 h2 h3
    · simp only [Option.some.injEq, Prod.mk.injEq] at hr
      exact ⟨hr.1.symm, by rw [← hr.2.2, lexer.raise_error_length]⟩
    · simp only [Option.some.injEq, Prod.mk.injEq] at hr
      exact ⟨hr.1.symm, by rw [← hr.2.2, lexer.raise_error_length]⟩
    · simp only [Option.some.injEq, Prod.mk.injEq] at hr
      exact ⟨hr.1.symm, by rw [← hr.2.2, lexer.raise_error_length, lexer.advance_errors]⟩
    · generalize hf : parse_procdecl_parameters _ _ _ _ _ _ _ = x at hr
      cases x with
      | none => simp at hr
      | some v =>
        obtain ⟨e, p1, l1⟩ := v
        simp only [Option.some.injEq, Prod.mk.injEq] at hr
        obtain ⟨he, _, hl1⟩ := hr
        subst he hl1
        have hb1 := lexer.before_advance lxr rp _ hrp hb (by rw [not_not.mp h0]; decide)
        have hb2 := lexer.before_advance _ rp _ hrp hb1 (by rw [not_not.mp h3]; decide)
        rcases parse_procdecl_parameters_outcome fuel proc rp _ hrp _ _ _ _ _ _ _ hb2 hf
          with ⟨h4, h5⟩ | ⟨ps0, p0, l0, h4, h5, h6⟩
        · exact ⟨h4, by rw [h5, lexer.advance_errors, lexer.advance_errors]⟩
        · obtain ⟨h7, h8⟩ := parse_procdecl_return_type_rejects f fuel proc ps0 p0 l0 rp arrow
            R rest hrp h4 hnone hvoid _ _ _ h6
          exact ⟨h7, by rw [h8, h5, lexer.advance_errors, lexer.advance_errors]⟩

/-- A write through a pointer to a symbol of the table leaves it in the table. -/
theorem parser.modify_symbol_isSome (p : parser) (sym : Nat) (f : symbol → symbol)
    (hf : ∀ s, (f s).symbol_index = s.symbol_index)
    (h : (p.lookup_unique_symbol sym).isSome = true) :
    ((p.modify_symbol sym f).lookup_unique_symbol sym).isSome = true := by
  rw [parser.lookup_modify_symbol p sym f hf]
  simpa using h

/-- The loop over the pointer markers of a type raises no error, stays before the `)` and
leaves the symbol in the table. -/
theorem pointer_depth_loop_facts (proc : Nat) (rp : Token) (tl : List Token)
    (hrp : rp.type = .TOKEN_RPAREN) :
    ∀ (fuel : Nat) (p : parser) (lxr : lexer),
      (pointer_depth_loop proc fuel p lxr).2.errors = lxr.errors
      ∧ (lxr.before (rp :: tl) → (pointer_depth_loop proc fuel p lxr).2.before (rp :: tl))
      ∧ ((p.lookup_unique_symbol proc).isSome = true →
          ((pointer_depth_loop proc fuel p lxr).1.lookup_unique_symbol proc).isSome = true) := by
  intro fuel
  induction fuel with
  | zero => intro p lxr; exact ⟨rfl, fun h => h, fun h => h⟩
  | succ k ih =>
    intro p lxr
    unfold pointer_depth_loop
    split_ifs with hc
    · obtain ⟨h1, h2, h3⟩ := ih
        (p.modify_symbol proc (fun s => { s with pointer_depth := incr16 s.pointer_depth }))
        (lxr.advance 1)
      refine ⟨by rw [h1, lexer.advance_errors], ?_, ?_⟩
      · intro hb
        exact h2 (lexer.before_advance lxr rp tl hrp hb (by rw [hc]; decide))
      · intro hs
        exact h3 (parser.modify_symbol_isSome p proc _ (by intro _; rfl) hs)
    · exact ⟨rfl, fun h => h, fun h => h⟩

/-- The check for an array type: when it passes, no error is raised, the lexer stays before
the `)` and the symbol stays in the table; when it fails, one error is raised. -/
theorem parse_array_suffix_facts (proc : Nat) (rp : Token) (tl : List Token)
    (hrp : rp.type = .TOKEN_RPAREN) (p : parser) (lxr : lexer) :
    ((parse_array_suffix proc p lxr).1 = false →
      (parse_array_suffix proc p lxr).2.2.errors.length = lxr.errors.length + 1)
    ∧ ((parse_array_suffix proc p lxr).1 = true →
      (parse_array_suffix proc p lxr).2.2.errors = lxr.errors
      ∧ (lxr.before (rp :: tl) → (parse_array_suffix proc p lxr).2.2.before (rp :: tl))
      ∧ ((p.lookup_unique_symbol proc).isSome = true →
          ((parse_array_suffix proc p lxr).2.1.lookup_unique_symbol proc).isSome = true)) := by
  unfold parse_array_suffix
  simp only []
  by_cases h1 : lxr.current.type = .TOKEN_LSQUARE_BRACKET
  · rw [if_pos h1]
    by_cases h2 : (lxr.advance 1).current.type = .TOKEN_INTEGER_LITERAL
    · rw [if_pos h2]
      cases hst : stoul (lxr.advance 1).current.value with
      | out_of_range =>
        exact ⟨fun _ => by simp only [lexer.raise_error_length, lexer.advance_errors],
          fun h => absurd h (by simp)⟩
      | invalid_argument =>
        exact ⟨fun _ => by simp only [lexer.raise_error_length, lexer.advance_errors],
          fun h => absurd h (by simp)⟩
      | value v =>
        simp only []
        by_cases h4 : v = 0
        · rw [if_pos h4]
          exact ⟨fun _ => by simp only [lexer.raise_error_length, lexer.advance_errors],
            fun h => absurd h (by simp)⟩
        · rw [if_neg h4]
          by_cases h5 : ((lxr.advance 1).advance 1).current.type = .TOKEN_RSQUARE_BRACKET
          · rw [if_neg (not_not.mpr h5)]
            refine ⟨fun h => absurd h (by simp), fun _ => ⟨?_, ?_, ?_⟩⟩
            · simp only [lexer.advance_errors]
            · intro hb
              have hb1 := lexer.before_advance lxr rp tl hrp hb (by rw [h1]; decide)
              have hb2 := lexer.before_advance _ rp tl hrp hb1 (by rw [h2]; decide)
              exact lexer.before_advance _ rp tl hrp hb2 (by rw [h5]; decide)
            · intro hs
              exact parser.modify_symbol_isSome _ proc _ (by intro _; rfl)
                (parser.modify_symbol_isSome p proc _ (by intro _; rfl) hs)
          · rw [if_pos h5]
            exact ⟨fun _ => by simp only [lexer.raise_error_length, lexer.advance_errors],
              fun h => absurd h (by simp)⟩
    · rw [if_neg h2]
      by_cases h3 : (lxr.advance 1).current.type = .TOKEN_RSQUARE_BRACKET
      · rw [if_neg (not_not.mpr h3)]
        refine ⟨fun h => absurd h (by simp), fun _ => ⟨?_, ?_, ?_⟩⟩
        · simp only [lexer.advance_errors]
        · intro hb
          have hb1 := lexer.before_advance lxr rp tl hrp hb (by rw [h1]; decide)
          exact lexer.before_advance _ rp tl hrp hb1 (by rw [h3]; decide)
        · intro hs
          exact parser.modify_symbol_isSome p proc _ (by intro _; rfl) hs
      · rw [if_pos h3]
        exact ⟨fun _ => by simp only [lexer.raise_error_length, lexer.advance_errors],
          fun h => absurd h (by simp)⟩
  · rw [if_neg h1]
    exact ⟨fun h => absurd h (by simp), fun _ => ⟨rfl, fun h => h, fun h => h⟩⟩

/-- The loop over the parameter types of `parse_proc_ptr`, when it returns: it has failed
and one error is raised, or it has ended on a `)`, without an error, before the `)` it was
before, and the symbol is in the table. -/
theorem parse_proc_ptr_parameters_facts (proc : Nat) (rp : Token) (tl : List Token)
    (hrp : rp.type = .TOKEN_RPAREN) :
    ∀ (fuel : Nat) (p : parser) (lxr : lexer) (b : Bool) (p3 : parser) (lxr3 : lexer),
      parse_proc_ptr_parameters proc fuel p lxr = some (b, p3, lxr3) →
      (b = false → lxr3.errors.length = lxr.errors.length + 1)
      ∧ (b = true →
        lxr3.current.type = .TOKEN_RPAREN ∧ lxr3.errors = lxr.errors
        ∧ (lxr.before (rp :: tl) → lxr3.before (rp :: tl))
        ∧ ((p.lookup_unique_symbol proc).isSome = true →
            (p3.lookup_unique_symbol proc).isSome = true)) := by
  intro fuel
  induction fuel with
  | zero => intro p lxr b p3 lxr3 hr; simp [parse_proc_ptr_parameters] at hr
  | succ k ih =>
    intro p lxr b p3 lxr3 hr
    unfold parse_proc_ptr_parameters at hr
    simp only [] at hr
    split_ifs at hr with h1 h2 h3
    · simp only [Option.some.injEq, Prod.mk.injEq] at hr
      obtain ⟨hb, _, hl⟩ := hr
      subst hb hl
      exact ⟨fun _ => lexer.raise_error_length _ _, fun h => absurd h (by simp)⟩
    · obtain ⟨h4, h5⟩ := ih _ _ _ _ _ hr
      refine ⟨fun hb => by rw [h4 hb, lexer.advance_errors, lexer.advance_errors], ?_⟩
      intro hb
      obtain ⟨h6, h7, h8, h9⟩ := h5 hb
      refine ⟨h6, by rw [h7, lexer.advance_errors, lexer.advance_errors], ?_, ?_⟩
      · intro hbefore
        have hb1 := lexer.before_advance lxr rp tl hrp hbefore h1
        exact h8 (lexer.before_advance _ rp tl hrp hb1 (by rw [h3]; decide))
      · intro hs
        exact h9 (parser.modify_symbol_isSome p proc _ (by intro _; rfl) hs)
    · obtain ⟨h4, h5⟩ := ih _ _ _ _ _ hr
      refine ⟨fun hb => by rw [h4 hb, lexer.advance_errors], ?_⟩
      intro hb
      obtain ⟨h6, h7, h8, h9⟩ := h5 hb
      refine ⟨h6, by rw [h7, lexer.advance_errors], ?_, ?_⟩
      · intro hbefore
        exact h8 (lexer.before_advance lxr rp tl hrp hbefore h1)
      · intro hs
        exact h9 (parser.modify_symbol_isSome p proc _ (by intro _; rfl) hs)
    · simp only [Option.some.injEq, Prod.mk.injEq] at hr
      obtain ⟨hb, hp, hl⟩ := hr
      subst hb hp hl
      exact ⟨fun h => absurd h (by simp),
        fun _ => ⟨not_not.mp h1, rfl, fun h => h, fun h => h⟩⟩

/-- The end of `parse_proc_ptr` and of `parse_vardecl`, when it returns a node: the symbol
is in the table with the return type it had. -/
theorem parse_initializer_keeps_return_type {f : expr_fn} (h : expr_keeps_symbols f)
    (proc : Nat) (p : parser) (lxr : lexer) (s : symbol) (node : ast_node) (p' : parser)
    (lxr' : lexer) (hs : p.lookup_unique_symbol proc = some s)
    (hr : parse_initializer f proc p lxr = some (some node, p', lxr')) :
    ∃ sp, p'.lookup_unique_symbol proc = some sp ∧ sp.return_type = s.return_type := by
  unfold parse_initializer at hr
  split_ifs at hr with h0
  · simp only [] at hr
    generalize hf : f _ _ true false = x at hr
    cases x with
    | none => simp at hr
    | some v =>
      obtain ⟨e, p1, l1⟩ := v
      have hk := h _ _ _ _ _ _ _ hf
      cases e with
      | none => simp at hr
      | some e =>
        simp only [] at hr
        split_ifs at hr with h1
        · simp at hr
        · simp only [Option.some.injEq, Prod.mk.injEq] at hr
          rw [← hr.2.1]
          exact ⟨s, hk proc s hs, rfl⟩
  · simp only [Option.some.injEq, Prod.mk.injEq] at hr
    rw [← hr.2.1]
    refine ⟨{ s with flags := s.flags ||| SYM_DEFAULT_INITIALIZED }, ?_, rfl⟩
    rw [parser.lookup_modify_symbol p proc
      (fun s => { s with flags := s.flags ||| SYM_DEFAULT_INITIALIZED }) (by intro _; rfl), hs]
    rfl

/-- The part of `parse_proc_ptr` after the parameter types, on `) -> R`, when it returns a
node: `R` is a type keyword, and the return type of the symbol is the type of `R`, which is
`VAR_NONE` for `void` only. -/
theorem parse_proc_ptr_return_type_node {f : expr_fn} (h : expr_keeps_symbols f)
    (proc : Nat) (p3 : parser) (lxr3 : lexer) (s3 : symbol) (rp arrow R : Token)
    (rest : List Token) (hrp : rp.type = .TOKEN_RPAREN)
    (htok : lxr3.tokens = rp :: arrow :: R :: rest)
    (hs : p3.lookup_unique_symbol proc = some s3) (node : ast_node) (p' : parser)
    (lxr' : lexer)
    (hr : parse_proc_ptr_return_type f proc p3 lxr3 = some (some node, p', lxr')) :
    arrow.type = .TOKEN_ARROW ∧ R.kind = .KIND_TYPE_IDENTIFIER
    ∧ ∃ sp, p'.lookup_unique_symbol proc = some sp
      ∧ sp.return_type = token_to_var_t R.type
      ∧ (sp.return_type = .VAR_NONE ↔ R.type = .TOKEN_KW_VOID) := by
  obtain ⟨h1, h2⟩ := lexer_on_rparen_arrow lxr3 rp arrow R rest hrp htok
  unfold parse_proc_ptr_return_type at hr
  simp only [lexer.peek] at hr
  split_ifs at hr with h3 h4
  all_goals try (exact absurd hr (by simp))
  have harrow : arrow.type = .TOKEN_ARROW := by
    by_contra hc
    exact h3 (Or.inl (by rw [h1]; exact hc))
  have hR := (h2 harrow).2
  rw [hR] at h3 h4 hr
  have hkind : R.kind = .KIND_TYPE_IDENTIFIER := by
    by_contra hc
    exact h3 (Or.inr hc)
  obtain ⟨sp, hsp, hret⟩ := parse_initializer_keeps_return_type h proc _ _
    { s3 with return_type := token_to_var_t R.type } _ _ _
    (by
      rw [parser.lookup_modify_symbol p3 proc
        (fun s => { s with return_type := token_to_var_t R.type }) (by intro _; rfl), hs]
      rfl) hr
  refine ⟨harrow, hkind, sp, hsp, hret, ?_⟩
  rw [hret]
  constructor
  · intro hv
    by_contra hc
    exact h4 ⟨hv, hc⟩
  · intro hv
    show token_to_var_t R.type = .VAR_NONE
    rw [hv]
    rfl

/-- The part of `parse_proc_ptr` after the parameter types rejects a return type that maps
to `VAR_NONE` without being `void`: it returns nothing and raises one error. -/
theorem parse_proc_ptr_return_type_rejected (f : expr_fn) (proc : Nat) (p3 : parser)
    (lxr3 : lexer) (rp arrow R : Token) (rest : List Token) (hrp : rp.type = .TOKEN_RPAREN)
    (htok : lxr3.tokens = rp :: arrow :: R :: rest)
    (hnone : token_to_var_t R.type = .VAR_NONE) (hvoid : R.type ≠ .TOKEN_KW_VOID) :
    ∃ p' lxr', parse_proc_ptr_return_type f proc p3 lxr3 = some (none, p', lxr')
      ∧ lxr'.errors.length = lxr3.errors.length + 1 := by
  obtain ⟨h1, h2⟩ := lexer_on_rparen_arrow lxr3 rp arrow R rest hrp htok
  unfold parse_proc_ptr_return_type
  simp only [lexer.peek]
  by_cases h3 : (lxr3.advance 1).current.type ≠ .TOKEN_ARROW
      ∨ (lxr3.advance 2).current.kind ≠ .KIND_TYPE_IDENTIFIER
  · rw [if_pos h3]
    exact ⟨_, _, rfl, by rw [lexer.raise_error_length]⟩
  · rw [if_neg h3]
    have harrow : arrow.type = .TOKEN_ARROW := by
      by_contra hc
      exact h3 (Or.inl (by rw [h1]; exact hc))
    rw [if_pos (by rw [(h2 harrow).2]; exact ⟨hnone, hvoid⟩)]
    exact ⟨_, _, rfl, by rw [lexer.raise_error_length, lexer.advance_errors]⟩

/-- A call of the part of `parse_proc_ptr` after the parameter types that returns, on a
return type that maps to `VAR_NONE` without being `void`: nothing is returned and one error
is raised. -/
theorem parse_proc_ptr_return_type_rejects (f : expr_fn) (proc : Nat) (p3 : parser)
    (lxr3 : lexer) (rp arrow R : Token) (rest : List Token) (hrp : rp.type = .TOKEN_RPAREN)
    (htok : lxr3.tokens = rp :: arrow :: R :: rest)
    (hnone : token_to_var_t R.type = .VAR_NONE) (hvoid : R.type ≠ .TOKEN_KW_VOID)
    (r : Option ast_node) (p' : parser) (lxr' : lexer)
    (hr : parse_proc_ptr_return_type f proc p3 lxr3 = some (r, p', lxr')) :
    r = none ∧ lxr'.errors.length = lxr3.errors.length + 1 := by
  obtain ⟨p0, l0, h1, h2⟩ := parse_proc_ptr_return_type_rejected f proc p3 lxr3 rp arrow R rest
    hrp htok hnone hvoid
  rw [h1] at hr
  simp only [Option.some.injEq, Prod.mk.injEq] at hr
  exact ⟨hr.1.symm, by rw [← hr.2.2]; exact h2⟩

/-- The part of `parse_proc_ptr` before the return type, when `parse_proc_ptr` returns: an
error was raised and nothing is returned, or the `)` that closes the parameter types is
reached, the first `)` of the tokens, without an error and with the symbol in the table,
and the result is the one of the part after the parameter types. -/
theorem parse_proc_ptr_outcome (f : expr_fn) (proc : Nat) (p : parser) (lxr : lexer)
    (rp : Token) (tl : List Token) (hrp : rp.type = .TOKEN_RPAREN)
    (hb : lxr.before (rp :: tl)) (hs : (p.lookup_unique_symbol proc).isSome = true)
    (r : Option ast_node) (p' : parser) (lxr' : lexer)
    (hr : parse_proc_ptr f proc p lxr = some (r, p', lxr')) :
    (r = none ∧ lxr'.errors.length = lxr.errors.length + 1)
    ∨ ∃ p3 lxr3, lxr3.tokens = rp :: tl ∧ lxr3.errors = lxr.errors
      ∧ (p3.lookup_unique_symbol proc).isSome = true
      ∧ parse_proc_ptr_return_type f proc p3 lxr3 = some (r, p', lxr') := by
  rw [parse_proc_ptr_eq] at hr
  split_ifs at hr with h0 h1
  obtain ⟨hd1, hd2, hd3⟩ := pointer_depth_loop_facts proc rp tl hrp (lxr.tokens.length + 1) p
    (lxr.advance 1)
  have hb1 := hd2 (lexer.before_advance lxr rp tl hrp hb (by rw [not_not.mp h0]; decide))
  have hs1 := hd3 hs
  rw [lexer.advance_errors] at hd1
  generalize pointer_depth_loop proc (lxr.tokens.length + 1) p (lxr.advance 1) = dl
    at hr hd1 hb1 hs1
  obtain ⟨pd, ld⟩ := dl
  simp only [] at hr hd1 hb1 hs1
  obtain ⟨ha1, ha2⟩ := parse_array_suffix_facts proc rp tl hrp pd ld
  generalize parse_array_suffix proc pd ld = q at hr ha1 ha2
  obtain ⟨b, p2, lxr2⟩ := q
  cases b with
  | false =>
    simp only [Option.some.injEq, Prod.mk.injEq] at hr
    left
    exact ⟨hr.1.symm, by rw [← hr.2.2, ← hd1]; exact ha1 rfl⟩
  | true =>
    obtain ⟨he2, hb2, hs2⟩ := ha2 rfl
    simp only [] at hr he2 hb2 hs2
    split_ifs at hr with h2
    · simp only [Option.some.injEq, Prod.mk.injEq] at hr
      left
      exact ⟨hr.1.symm, by rw [← hr.2.2, lexer.raise_error_length, he2, hd1]⟩
    · have hlp : lxr2.current.type = .TOKEN_LPAREN := by
        by_contra hc
        exact h2 (Or.inl hc)
      generalize hf : parse_proc_ptr_parameters proc _ p2 (lxr2.advance 1) = x at hr
      cases x with
      | none => simp at hr
      | some v =>
        obtain ⟨b3, p3, lxr3⟩ := v
        obtain ⟨hp1, hp2⟩ := parse_proc_ptr_parameters_facts proc rp tl hrp _ _ _ _ _ _ hf
        cases b3 with
        | false =>
          simp only [Option.some.injEq, Prod.mk.injEq] at hr
          left
          exact ⟨hr.1.symm, by
            rw [← hr.2.2, hp1 rfl, lexer.advance_errors, he2, hd1]⟩
        | true =>
          obtain ⟨hc3, he3, hb3, hs3⟩ := hp2 rfl
          simp only [] at hr
          right
          refine ⟨p3, lxr3, ?_, by rw [he3, lexer.advance_errors, he2, hd1], hs3 (hs2 hs1),
            hr⟩
          exact lexer.before_current lxr3 rp tl
            (hb3 (lexer.before_advance lxr2 rp tl hrp (hb2 hb1) (by rw [hlp]; decide))) hc3

/-- Without an end-of-file token among the tokens, advancing drops tokens. -/
theorem lexer.advance_tokens (lxr : lexer) (h : lxr.no_end_of_file) :
    ∀ n, (lxr.advance n).tokens = lxr.tokens.drop n ∧ (lxr.advance n).no_end_of_file := by
  intro n
  induction n generalizing lxr with
  | zero => exact ⟨rfl, h⟩
  | succ n ih =>
    have h1 : (lxr.advance1).tokens = lxr.tokens.drop 1 ∧ (lxr.advance1).no_end_of_file := by
      unfold lexer.advance1
      cases ht : lxr.tokens with
      | nil =>
        simp only [List.drop_nil]
        exact ⟨ht, h⟩
      | cons t ts =>
        simp only [if_neg (h t (by rw [ht]; exact List.mem_cons_self _ _)), List.drop_succ_cons,
          List.drop_zero, true_and]
        intro x hx
        exact h x (by rw [ht]; exact List.mem_cons_of_mem _ hx)
    obtain ⟨h2, h3⟩ := ih (lxr.advance1) h1.2
    refine ⟨?_, h3⟩
    show ((lxr.advance1).advance n).tokens = _
    rw [h2, h1.1, List.drop_drop]
    congr 1
    omega

/-- Without an end-of-file token among the tokens, advancing over a token takes it. -/
theorem lexer.advance_length_lt (lxr : lexer) (h : lxr.no_end_of_file)
    (hc : lxr.current.type ≠ .TOKEN_END_OF_FILE) :
    (lxr.advance 1).tokens.length < lxr.tokens.length := by
  rw [(lexer.advance_tokens lxr h 1).1, List.length_drop]
  have : lxr.tokens ≠ [] := by
    intro ht
    apply hc
    simp [lexer.current, ht, lexer.eof_token]
  have := List.length_pos.mpr this
  omega

/-- The loop over the pointer markers of a parameter takes tokens only. -/
theorem parse_parameterized_vardecl_depth_tokens :
    ∀ (fuel d : Nat) (lxr : lexer), lxr.no_end_of_file →
      (parse_parameterized_vardecl_depth fuel d lxr).2.no_end_of_file
      ∧ (parse_parameterized_vardecl_depth fuel d lxr).2.tokens.length ≤ lxr.tokens.length := by
  intro fuel
  induction fuel with
  | zero => intro d lxr h; exact ⟨h, le_refl _⟩
  | succ k ih =>
    intro d lxr h
    unfold parse_parameterized_vardecl_depth
    split_ifs with hc
    · obtain ⟨h1, h2⟩ := ih (incr16 d) _ (lexer.advance_tokens lxr h 1).2
      refine ⟨h1, le_trans h2 ?_⟩
      rw [(lexer.advance_tokens lxr h 1).1, List.length_drop]
      omega
    · exact ⟨h, le_refl _⟩

/-- On an identifier `parse_parameterized_vardecl` returns. -/
theorem parse_parameterized_vardecl_returns (p : parser) (lxr : lexer)
    (hc : lxr.current.type = .TOKEN_IDENTIFIER) :
    ∃ v, parse_parameterized_vardecl p lxr = some v := by
  unfold parse_parameterized_vardecl
  rw [if_neg (not_not.mpr hc)]
  simp only []
  generalize parse_parameterized_vardecl_depth _ _ _ = dl
  obtain ⟨d, l4⟩ := dl
  simp only []
  generalize p.create_symbol _ _ _ _ _ = cs
  obtain ⟨o, pc⟩ := cs
  cases o <;> simp only [] <;> split_ifs <;> exact ⟨_, rfl⟩

/-- A parameter that `parse_parameterized_vardecl` returns has taken tokens. -/
theorem parse_parameterized_vardecl_consumes (p : parser) (lxr : lexer) (param : ast_node)
    (p1 : parser) (lxr1 : lexer) (hwf : lxr.no_end_of_file)
    (hr : parse_parameterized_vardecl p lxr = some (some param, p1, lxr1)) :
    lxr1.no_end_of_file ∧ lxr1.tokens.length < lxr.tokens.length := by
  unfold parse_parameterized_vardecl at hr
  simp only [] at hr
  have hd := parse_parameterized_vardecl_depth_tokens
    ((((lxr.advance 1).advance 1).advance 1).tokens.length + 1) 0
    (((lxr.advance 1).advance 1).advance 1)
    (lexer.advance_tokens _ (lexer.advance_tokens _ (lexer.advance_tokens lxr hwf 1).2 1).2 1).2
  generalize parse_parameterized_vardecl_depth _ _ _ = dl at hr hd
  obtain ⟨d, l4⟩ := dl
  simp only [] at hr hd
  generalize hcs : p.create_symbol _ _ _ _ _ = cs at hr
  obtain ⟨o, pc⟩ := cs
  cases o with
  | none =>
    simp only [] at hr
    split_ifs at hr
    all_goals exact absurd hr (by simp)
  | some var_ptr =>
    simp only [] at hr
    split_ifs at hr with h1
    all_goals try (simp at hr; done)
    simp only [Option.some.injEq, Prod.mk.injEq] at hr
    rw [← hr.2.2]
    refine ⟨hd.1, lt_of_le_of_lt hd.2 ?_⟩
    have h2 := lexer.advance_length_lt lxr hwf (by rw [not_not.mp h1]; decide)
    have h3 : (((lxr.advance 1).advance 1).advance 1).tokens.length
        ≤ (lxr.advance 1).tokens.length := by
      rw [(lexer.advance_tokens _
          (lexer.advance_tokens _ (lexer.advance_tokens lxr hwf 1).2 1).2 1).1,
        (lexer.advance_tokens _ (lexer.advance_tokens lxr hwf 1).2 1).1]
      simp only [List.length_drop]
      omega
    omega

/-- The loop over the parameters of a procedure returns, within one round per token left and
one more, when the first `)` that is left is followed by `->` and a return type that is
rejected. -/
theorem parse_procdecl_parameters_returns (f : expr_fn) (fuel proc : Nat)
    (rp arrow R : Token) (rest : List Token) (hrp : rp.type = .TOKEN_RPAREN)
    (hnone : token_to_var_t R.type = .VAR_NONE) (hvoid : R.type ≠ .TOKEN_KW_VOID) :
    ∀ (count : Nat) (parameters : List ast_node) (p : parser) (lxr : lexer),
      lxr.tokens.length < count → lxr.no_end_of_file →
      lxr.before (rp :: arrow :: R :: rest) →
      ∃ v, parse_procdecl_parameters f fuel proc count parameters p lxr = some v := by
  intro count
  induction count with
  | zero => intro ps p lxr h; omega
  | succ count ih =>
    intro ps p lxr hlen hwf hb
    unfold parse_procdecl_parameters
    by_cases h0 : lxr.current.type = .TOKEN_RPAREN
    · rw [if_neg (not_not.mpr h0)]
      obtain ⟨p', lxr', h1, _⟩ := parse_procdecl_return_type_rejected f fuel proc ps p lxr rp
        arrow R rest hrp (lexer.before_current lxr rp _ hb h0) hnone hvoid
      exact ⟨_, h1⟩
    · rw [if_pos h0]
      by_cases h1 : lxr.current.type = .TOKEN_IDENTIFIER
      · rw [if_neg (not_not.mpr h1)]
        obtain ⟨v, hv⟩ := parse_parameterized_vardecl_returns p lxr h1
        obtain ⟨e, p1, l1⟩ := v
        rw [hv]
        cases e with
        | none => exact ⟨_, rfl⟩
        | some e =>
          obtain ⟨hwf1, hlen1⟩ := parse_parameterized_vardecl_consumes _ _ _ _ _ hwf hv
          have hb1 := parse_parameterized_vardecl_before _ _ _ _ _ rp _ hrp hb hv
          simp only []
          split_ifs with h2
          · refine ih _ _ _ ?_ (lexer.advance_tokens l1 hwf1 1).2
              (lexer.before_advance _ rp _ hrp hb1 (by rw [h2]; decide))
            rw [(lexer.advance_tokens l1 hwf1 1).1, List.length_drop]
            omega
          · exact ih _ _ _ (by omega) hwf1 hb1
      · rw [if_pos h1]
        exact ⟨_, rfl⟩

/-- `parse_procdecl` rejects a return type that maps to `VAR_NONE` without being `void`,
and returns: on the keyword `proc`, with the symbol in the table and the first `)` of the
tokens followed by `->` and such a token, it returns nothing and raises one error. -/
theorem parse_procdecl_rejected (f : expr_fn) (fuel proc : Nat) (p : parser) (lxr : lexer)
    (s : symbol) (rp arrow R : Token) (rest : List Token)
    (hs : p.lookup_unique_symbol proc = some s) (hrp : rp.type = .TOKEN_RPAREN)
    (hb : lxr.before (rp :: arrow :: R :: rest)) (hwf : lxr.no_end_of_file)
    (hproc : lxr.current.type = .TOKEN_KW_PROC)
    (hnone : token_to_var_t R.type = .VAR_NONE) (hvoid : R.type ≠ .TOKEN_KW_VOID) :
    ∃ p' lxr', parse_procdecl f fuel proc p lxr = some (none, p', lxr')
      ∧ lxr'.errors.length = lxr.errors.length + 1 := by
  have hret : ∃ v, parse_procdecl f fuel proc p lxr = some v := by
    unfold parse_procdecl
    rw [if_neg (not_not.mpr hproc), hs]
    simp only []
    split_ifs with h1 h2 h3
    · exact ⟨_, rfl⟩
    · exact ⟨_, rfl⟩
    · exact ⟨_, rfl⟩
    · have hb1 := lexer.before_advance lxr rp _ hrp hb (by rw [hproc]; decide)
      have hb2 := lexer.before_advance _ rp _ hrp hb1 (by rw [not_not.mp h3]; decide)
      obtain ⟨v, hv⟩ := parse_procdecl_parameters_returns f fuel proc rp arrow R rest hrp hnone
        hvoid (((lxr.advance 1).advance 1).tokens.length + 1) [] p.push_scope
        ((lxr.advance 1).advance 1) (Nat.lt_succ_self _)
        (lexer.advance_tokens _ (lexer.advance_tokens lxr hwf 1).2 1).2 hb2
      rw [hv]
      exact ⟨_, rfl⟩
  obtain ⟨v, hv⟩ := hret
  obtain ⟨r, p', lxr'⟩ := v
  obtain ⟨h1, h2⟩ := parse_procdecl_rejects f fuel proc p lxr rp arrow R rest hrp hb hnone hvoid
    r p' lxr' hv
  subst h1
  exact ⟨p', lxr', hv, h2⟩

/-- The loop over the pointer markers of a type takes tokens only. -/
theorem pointer_depth_loop_tokens (proc : Nat) :
    ∀ (fuel : Nat) (p : parser) (lxr : lexer), lxr.no_end_of_file →
      (pointer_depth_loop proc fuel p lxr).2.no_end_of_file := by
  intro fuel
  induction fuel with
  | zero => intro p lxr h; exact h
  | succ k ih =>
    intro p lxr h
    unfold pointer_depth_loop
    split_ifs with hc
    · exact ih _ _ (lexer.advance_tokens lxr h 1).2
    · exact h

/-- The check for an array type takes tokens only. -/
theorem parse_array_suffix_tokens (proc : Nat) (p : parser) (lxr : lexer)
    (h : lxr.no_end_of_file) : (parse_array_suffix proc p lxr).2.2.no_end_of_file := by
  have h1 := (lexer.advance_tokens lxr h 1).2
  have h2 := (lexer.advance_tokens _ h1 1).2
  have h3 := (lexer.advance_tokens _ h2 1).2
  unfold parse_array_suffix
  simp only []
  by_cases h4 : lxr.current.type = .TOKEN_LSQUARE_BRACKET
  · rw [if_pos h4]
    by_cases h5 : (lxr.advance 1).current.type = .TOKEN_INTEGER_LITERAL
    · rw [if_pos h5]
      cases stoul (lxr.advance 1).current.value with
      | out_of_range => exact h1
      | invalid_argument => exact h1
      | value v =>
        simp only []
        by_cases h6 : v = 0
        · rw [if_pos h6]
          exact h1
        · rw [if_neg h6]
          split_ifs
          · exact h2
          · exact h3
    · rw [if_neg h5]
      split_ifs
      · exact h1
      · exact h2
  · rw [if_neg h4]
    exact h

/-- The loop over the parameter types of `parse_proc_ptr` returns within one round per token
left and one more. -/
theorem parse_proc_ptr_parameters_returns (proc : Nat) :
    ∀ (fuel : Nat) (p : parser) (lxr : lexer), lxr.tokens.length < fuel →
      lxr.no_end_of_file → ∃ v, parse_proc_ptr_parameters proc fuel p lxr = some v := by
  intro fuel
  induction fuel with
  | zero => intro p lxr h; omega
  | succ k ih =>
    intro p lxr hlen hwf
    unfold parse_proc_ptr_parameters
    simp only []
    by_cases h1 : lxr.current.type = .TOKEN_RPAREN
    · rw [if_neg (not_not.mpr h1)]
      exact ⟨_, rfl⟩
    · rw [if_pos h1]
      by_cases h2 : lxr.current.kind = .KIND_TYPE_IDENTIFIER
      · rw [if_neg (not_not.mpr h2)]
        have hne : lxr.current.type ≠ .TOKEN_END_OF_FILE := by
          cases ht : lxr.tokens with
          | nil =>
            exfalso
            simp [lexer.current, ht, lexer.eof_token] at h2
          | cons t ts =>
            have : lxr.current = t := by simp [lexer.current, ht]
            rw [this]
            exact hwf t (by rw [ht]; exact List.mem_cons_self _ _)
        have hlt := lexer.advance_length_lt lxr hwf hne
        have hwf1 := (lexer.advance_tokens lxr hwf 1).2
        split_ifs with h3
        · refine ih _ _ ?_ (lexer.advance_tokens _ hwf1 1).2
          rw [(lexer.advance_tokens _ hwf1 1).1, List.length_drop]
          omega
        · exact ih _ _ (by omega) hwf1
      · rw [if_pos h2]
        exact ⟨_, rfl⟩

/-- `parse_proc_ptr` rejects a return type that maps to `VAR_NONE` without being `void`,
and returns: on `proc ^`, with the symbol in the table and the first `)` of the tokens
followed by `->` and such a token, it returns nothing and raises one error. -/
theorem parse_proc_ptr_rejected (f : expr_fn) (proc : Nat) (p : parser) (lxr : lexer)
    (rp arrow R : Token) (rest : List Token) (hrp : rp.type = .TOKEN_RPAREN)
    (hb : lxr.before (rp :: arrow :: R :: rest)) (hwf : lxr.no_end_of_file)
    (hs : (p.lookup_unique_symbol proc).isSome = true)
    (hproc : lxr.current.type = .TOKEN_KW_PROC)
    (hptr : (lxr.peek 1).type = .TOKEN_BITWISE_XOR_OR_PTR)
    (hnone : token_to_var_t R.type = .VAR_NONE) (hvoid : R.type ≠ .TOKEN_KW_VOID) :
    ∃ p' lxr', parse_proc_ptr f proc p lxr = some (none, p', lxr')
      ∧ lxr'.errors.length = lxr.errors.length + 1 := by
  have hret : ∃ v, parse_proc_ptr f proc p lxr = some v := by
    rw [parse_proc_ptr_eq, if_neg (not_not.mpr hproc), if_neg (not_not.mpr hptr)]
    obtain ⟨_, hd2, _⟩ := pointer_depth_loop_facts proc rp (arrow :: R :: rest) hrp
      (lxr.tokens.length + 1) p (lxr.advance 1)
    have hb1 := hd2 (lexer.before_advance lxr rp _ hrp hb (by rw [hproc]; decide))
    have hwf1 := pointer_depth_loop_tokens proc (lxr.tokens.length + 1) p (lxr.advance 1)
      (lexer.advance_tokens lxr hwf 1).2
    generalize pointer_depth_loop proc (lxr.tokens.length + 1) p (lxr.advance 1) = dl
      at hb1 hwf1
    obtain ⟨pd, ld⟩ := dl
    simp only [] at hb1 hwf1 ⊢
    obtain ⟨_, ha2⟩ := parse_array_suffix_facts proc rp (arrow :: R :: rest) hrp pd ld
    have hwf2 := parse_array_suffix_tokens proc pd ld hwf1
    generalize parse_array_suffix proc pd ld = q at ha2 hwf2
    obtain ⟨b, p2, lxr2⟩ := q
    cases b with
    | false => exact ⟨_, rfl⟩
    | true =>
      obtain ⟨_, hb2, _⟩ := ha2 rfl
      simp only [] at hb2 hwf2 ⊢
      split_ifs with h2
      · exact ⟨_, rfl⟩
      · have hlp : lxr2.current.type = .TOKEN_LPAREN := by
          by_contra hc
          exact h2 (Or.inl hc)
        obtain ⟨v, hv⟩ := parse_proc_ptr_parameters_returns proc (lxr2.tokens.length + 1) p2
          (lxr2.advance 1)
          (by
            rw [(lexer.advance_tokens lxr2 hwf2 1).1, List.length_drop]
            omega)
          (lexer.advance_tokens lxr2 hwf2 1).2
        obtain ⟨b3, p3, lxr3⟩ := v
        obtain ⟨_, hp2⟩ := parse_proc_ptr_parameters_facts proc rp (arrow :: R :: rest) hrp _ _
          _ _ _ _ hv
        rw [hv]
        cases b3 with
        | false => exact ⟨_, rfl⟩
        | true =>
          obtain ⟨hc3, _, hb3, _⟩ := hp2 rfl
          simp only []
          have htok := lexer.before_current lxr3 rp _
            (hb3 (lexer.before_advance lxr2 rp _ hrp (hb2 hb1) (by rw [hlp]; decide))) hc3
          obtain ⟨p', lxr', h1, _⟩ := parse_proc_ptr_return_type_rejected f proc p3 lxr3 rp
            arrow R rest hrp htok hnone hvoid
          exact ⟨_, h1⟩
  obtain ⟨v, hv⟩ := hret
  obtain ⟨r, p', lxr'⟩ := v
  rcases parse_proc_ptr_outcome f proc p lxr rp _ hrp hb hs r p' lxr' hv with
    ⟨h1, h2⟩ | ⟨p3, lxr3, h3, h4, _, h5⟩
  · subst h1
    exact ⟨p', lxr', hv, h2⟩
  · obtain ⟨h6, h7⟩ := parse_proc_ptr_return_type_rejects f proc p3 lxr3 rp arrow R rest hrp h3
      hnone hvoid r p' lxr' h5
    subst h6
    exact ⟨p', lxr', hv, by rw [h7, h4]⟩

/-- C36: the return type of a procedure.  The symbol `proc` is a procedure of the table,
the expression parser leaves the symbols it finds in the table as they are, and the first
`)` of the tokens, the one that closes the parameters, is followed by the tokens `arrow`
and `R`.  When `parse_procdecl` or `parse_proc_ptr` returns a node, `arrow` is `->`, `R`
is a type keyword, and the return type of the symbol is `token_to_var_t` of the type of
`R`; it is `VAR_NONE` if and only if `R` is `void`.  When `R` maps to `VAR_NONE` without
being `void`, as `proc` does, and the tokens begin with `proc` and hold no end-of-file
token, `parse_procdecl` returns nothing and raises an error, and so does `parse_proc_ptr`
on `proc ^`. -/
theorem procedure_return_type_void_iff (recurse : expr_fn)
    (hrec : expr_keeps_symbols recurse) (fuel proc : Nat) (p : parser) (lxr : lexer)
    (s : symbol) (pre rest : List Token) (rp arrow R : Token)
    (hs : p.lookup_unique_symbol proc = some s) (hst : s.sym_type = .SYM_PROCEDURE)
    (htokens : lxr.tokens = pre ++ rp :: arrow :: R :: rest)
    (hpre : ∀ t ∈ pre, t.type ≠ .TOKEN_RPAREN) (hrp : rp.type = .TOKEN_RPAREN) :
    (∀ node p' lxr', parse_procdecl recurse fuel proc p lxr = some (some node, p', lxr') →
      arrow.type = .TOKEN_ARROW ∧ R.kind = .KIND_TYPE_IDENTIFIER
      ∧ ∃ sp, p'.lookup_unique_symbol proc = some sp
        ∧ sp.return_type = token_to_var_t R.type
        ∧ (sp.return_type = .VAR_NONE ↔ R.type = .TOKEN_KW_VOID))
    ∧ (∀ node p' lxr', parse_proc_ptr recurse proc p lxr = some (some node, p', lxr') →
      arrow.type = .TOKEN_ARROW ∧ R.kind = .KIND_TYPE_IDENTIFIER
      ∧ ∃ sp, p'.lookup_unique_symbol proc = some sp
        ∧ sp.return_type = token_to_var_t R.type
        ∧ (sp.return_type = .VAR_NONE ↔ R.type = .TOKEN_KW_VOID))
    ∧ (token_to_var_t R.type = .VAR_NONE → R.type ≠ .TOKEN_KW_VOID →
        lxr.no_end_of_file → lxr.current.type = .TOKEN_KW_PROC →
        (∃ p' lxr', parse_procdecl recurse fuel proc p lxr = some (none, p', lxr')
          ∧ lxr'.errors.length = lxr.errors.length + 1)
        ∧ ((lxr.peek 1).type = .TOKEN_BITWISE_XOR_OR_PTR →
          ∃ p' lxr', parse_proc_ptr recurse proc p lxr = some (none, p', lxr')
            ∧ lxr'.errors.length = lxr.errors.length + 1))
    ∧ token_to_var_t .TOKEN_KW_PROC = .VAR_NONE
    ∧ token_to_var_t .TOKEN_KW_VOID = .VAR_NONE := by
  have hb : lxr.before (rp :: arrow :: R :: rest) := ⟨pre, htokens, hpre⟩
  have hsome : (p.lookup_unique_symbol proc).isSome = true := by rw [hs]; rfl
  refine ⟨?_, ?_, ?_, rfl, rfl⟩
  · intro node p' lxr' hr
    exact parse_procdecl_return_type_of_token hrec fuel proc p lxr s rp arrow R rest hs hst hrp
      hb node p' lxr' hr
  · intro node p' lxr' hr
    rcases parse_proc_ptr_outcome recurse proc p lxr rp _ hrp hb hsome _ _ _ hr with
      ⟨h1, _⟩ | ⟨p3, lxr3, h3, _, h4, h5⟩
    · exact absurd h1 (by simp)
    · obtain ⟨s3, hs3⟩ := Option.isSome_iff_exists.mp h4
      exact parse_proc_ptr_return_type_node hrec proc p3 lxr3 s3 rp arrow R rest hrp h3 hs3
        node p' lxr' h5
  · intro hnone hvoid hwf hproc
    exact ⟨parse_procdecl_rejected recurse fuel proc p lxr s rp arrow R rest hs hrp hb hwf
        hproc hnone hvoid,
      fun hptr => parse_proc_ptr_rejected recurse proc p lxr rp arrow R rest hrp hb hwf hsome
        hproc hptr hnone hvoid⟩

/-- C36 (witness): `f :: proc () -> void { }` gives the return type `VAR_NONE`; the type
`proc^ (i32, bool) -> i8` gives `VAR_I8`; and `f :: proc () -> proc { }` is rejected with one
error. -/
theorem procedure_return_type_void_iff_witness :
    (∃ node p' lxr', parse_procdecl (parse_expression sample_externals 3) 3 1 parser_with_f
          (lexer_on src_proc_void) = some (some node, p', lxr')
        ∧ ∃ sp, p'.lookup_unique_symbol 1 = some sp ∧ sp.return_type = .VAR_NONE)
    ∧ (∃ node p' lxr', parse_proc_ptr (parse_expression sample_externals 3) 1 parser_with_f
          (lexer_on src_proc_ptr_i8) = some (some node, p', lxr')
        ∧ ∃ sp, p'.lookup_unique_symbol 1 = some sp ∧ sp.return_type = .VAR_I8)
    ∧ ∃ p' lxr', parse_procdecl (parse_expression sample_externals 3) 3 1 parser_with_f
          (lexer_on src_proc_returns_proc) = some (none, p', lxr')
        ∧ lxr'.errors.length = (lexer_on src_proc_returns_proc).errors.length + 1 := by
  have hrec := expr_keeps_symbols_of_table
    (parse_expression_keeps_table sample_externals sample_externals_keeps_table 3)
  refine ⟨⟨_, _, _, rfl, ?_⟩, ⟨_, _, _, rfl, ?_⟩, ?_⟩
  · obtain ⟨_, _, sp, h1, h2, _⟩ :=
      (procedure_return_type_void_iff (parse_expression sample_externals 3) hrec 3 1
        parser_with_f (lexer_on src_proc_void) symbol_f_constant (src_proc_void.take 2)
        (src_proc_void.drop 5) (punct_token .TOKEN_RPAREN 10 [')'])
        (mk_token .TOKEN_ARROW .KIND_UNSPECIFIC 12 ['-', '>'])
        (type_token .TOKEN_KW_VOID 15 ['v', 'o', 'i', 'd']) rfl rfl rfl (by decide) rfl).1
        _ _ _ rfl
    exact ⟨sp, h1, h2⟩
  · obtain ⟨_, _, sp, h1, h2, _⟩ :=
      (procedure_return_type_void_iff (parse_expression sample_externals 3) hrec 3 1
        parser_with_f (lexer_on src_proc_ptr_i8) symbol_f_constant (src_proc_ptr_i8.take 6)
        (src_proc_ptr_i8.drop 9) (punct_token .TOKEN_RPAREN 20 [')'])
        (mk_token .TOKEN_ARROW .KIND_UNSPECIFIC 22 ['-', '>'])
        (type_token .TOKEN_KW_I8 25 ['i', '8']) rfl rfl rfl (by decide) rfl).2.1
        _ _ _ rfl
    exact ⟨sp, h1, h2⟩
  · exact ((procedure_return_type_void_iff (parse_expression sample_externals 3) hrec 3 1
      parser_with_f (lexer_on src_proc_returns_proc) symbol_f_constant
      (src_proc_returns_proc.take 2) (src_proc_returns_proc.drop 5)
      (punct_token .TOKEN_RPAREN 11 [')'])
      (mk_token .TOKEN_ARROW .KIND_UNSPECIFIC 13 ['-', '>'])
      (type_token .TOKEN_KW_PROC 16 ['p', 'r', 'o', 'c']) rfl rfl rfl (by decide) rfl).2.2.1
      rfl (by decide) (by unfold lexer.no_end_of_file; decide) rfl).1

end Tak
